import Mathlib

/-! Poincare `MultiplicationExplicite` reduction: a shallow embedding.

The definitions below follow `poincare/src/multiplication_explicite.cpp`.
An expression is a tagged node with an ordered list of children; the product
node under study is the node of type `MultiplicationExplicite`.  The reducers of
the other node types, the simplification order and the context-dependent
recursive predicates are collaborators of the file and are taken as parameters
(`Collaborators`); the collaborators of the beautification are taken the same way
(`BeautifyCollaborators`), and so are those of `addMissingFactors`
(`FactorCollaborators`).  The method `denominator` works on a tree of a pool
reached by a handle (`TreePool`).  The last definitions follow
`python/port/helpers.cpp`.
-/

set_option autoImplicit false

namespace Poincare

/-! ## Data model -/

/-- The tag of an expression node (`ExpressionNode::Type`), with the payload of
the leaves that carry one. `Uninitialized` stands for the empty handle
`Expression()`. -/
inductive ExprType
  | Uninitialized
  | Undefined
  | Unreal
  | Rational (numerator : Int) (denominator : Nat)
  | Decimal (mantissa : Int) (exponent : Int)
  | Float (bits : Nat)
  | Infinity (negative : Bool)
  | Symbol (name : String)
  | Constant (name : String)
  | Random
  | Randint
  | Power
  | Addition
  | Subtraction
  | MultiplicationExplicite
  | Division
  | Opposite
  | Parenthesis
  | Sine
  | Cosine
  | Tangent
  | Matrix (rows : Nat) (columns : Nat)
  | ComplexCartesian
  | Other (tag : Nat)
  deriving DecidableEq, Repr

/-- An expression tree: a tag and the ordered list of owned children. -/
inductive Expr
  | node (type : ExprType) (children : List Expr)
  deriving Repr

namespace Expr

mutual
/-- Decision procedure for structural equality of two trees. -/
def decEqExpr : (a b : Expr) → Decidable (a = b)
  | node t1 c1, node t2 c2 =>
    if ht : t1 = t2 then
      match decEqChildren c1 c2 with
      | isTrue hc => isTrue (by rw [ht, hc])
      | isFalse hc => isFalse (fun h => hc (by cases h; rfl))
    else isFalse (fun h => ht (by cases h; rfl))
/-- Decision procedure for structural equality of two child lists. -/
def decEqChildren : (as bs : List Expr) → Decidable (as = bs)
  | [], [] => isTrue rfl
  | a :: as, b :: bs =>
    match decEqExpr a b with
    | isTrue h1 =>
      match decEqChildren as bs with
      | isTrue h2 => isTrue (by rw [h1, h2])
      | isFalse h2 => isFalse (fun h => h2 (by cases h; rfl))
    | isFalse h1 => isFalse (fun h => h1 (by cases h; rfl))
  | [], _ :: _ => isFalse (fun h => by cases h)
  | _ :: _, [] => isFalse (fun h => by cases h)
end

instance : DecidableEq Expr := decEqExpr

/-- The tag of a node (`type()`). -/
def type : Expr → ExprType
  | node t _ => t

/-- The ordered children of a node. -/
def children : Expr → List Expr
  | node _ cs => cs

/-- The empty handle `Expression()`. -/
def uninitialized : Expr := node .Uninitialized []

/-- Number of children of a node (`numberOfChildren()`). -/
def numberOfChildren (e : Expr) : Nat := e.children.length

/-- Child of a node at an index (`childAtIndex(i)`); the source requires the
index to be in range, outside the range the model answers the empty handle. -/
def childAtIndex (e : Expr) (i : Nat) : Expr := e.children.getD i uninitialized

/-- Test of the empty handle (`isUninitialized()`). -/
def isUninitialized (e : Expr) : Bool := decide (e.type = .Uninitialized)

/-- Modelled from the spec: the structural-equality check of two subtrees
(`isIdenticalTo`), a tree primitive that is not part of the file. -/
def isIdenticalTo (a b : Expr) : Bool := decide (a = b)

/-- Modelled from the spec: "is this a plain number" (`isNumber()`), true of the
numeric leaves (rational, decimal, float, infinity and the undefined markers,
which are number nodes). -/
def isNumber (e : Expr) : Bool :=
  match e.type with
  | .Rational _ _ => true
  | .Decimal _ _ => true
  | .Float _ => true
  | .Infinity _ => true
  | .Undefined => true
  | .Unreal => true
  | _ => false

/-- Modelled from the spec: "is this the undefined marker" (`isUndefined()`). -/
def isUndefined (e : Expr) : Bool :=
  match e.type with
  | .Undefined => true
  | .Unreal => true
  | _ => false

/-- Modelled from the spec: "is this a non-deterministic primitive"
(`isRandom()`), the test applied to one node. -/
def isRandom (e : Expr) : Bool :=
  match e.type with
  | .Random => true
  | .Randint => true
  | _ => false

/-- Test `type() == Rational`. -/
def isRational (e : Expr) : Bool :=
  match e.type with
  | .Rational _ _ => true
  | _ => false

/-- Test `type() == Matrix`. -/
def isMatrix (e : Expr) : Bool :=
  match e.type with
  | .Matrix _ _ => true
  | _ => false

/-- Test `type() == Rational && isZero()`: the numerator is zero. -/
def isRationalZero (e : Expr) : Bool :=
  match e.type with
  | .Rational n _ => decide (n = 0)
  | _ => false

/-- Test `type() == Rational && isOne()`: numerator one, denominator one. -/
def isRationalOne (e : Expr) : Bool :=
  match e.type with
  | .Rational n d => decide (n = 1) && decide (d = 1)
  | _ => false

/-- Test `type() == Rational && isMinusOne()`. -/
def isRationalMinusOne (e : Expr) : Bool :=
  match e.type with
  | .Rational n d => decide (n = -1) && decide (d = 1)
  | _ => false

/-- Row count of a matrix node (`numberOfRows()`). -/
def numberOfRows (e : Expr) : Nat :=
  match e.type with
  | .Matrix r _ => r
  | _ => 0

/-- Column count of a matrix node (`numberOfColumns()`). -/
def numberOfColumns (e : Expr) : Nat :=
  match e.type with
  | .Matrix _ c => c
  | _ => 0

/-- Cell of a matrix in row-major order (`matrixChild(i, j)`). -/
def matrixChild (e : Expr) (i j : Nat) : Expr :=
  e.childAtIndex (i * e.numberOfColumns + j)

mutual
/-- Number of nodes of a tree. -/
def treeSize : Expr → Nat
  | node _ cs => 1 + forestSize cs
/-- Number of nodes of a list of trees. -/
def forestSize : List Expr → Nat
  | [] => 0
  | c :: cs => treeSize c + forestSize cs
end

end Expr

/-! ## Builders -/

/-- Builder `Rational::Builder(n, d)`. -/
def Rational.Builder (n : Int) (d : Nat) : Expr := .node (.Rational n d) []

/-- Builder `Undefined::Builder()`. -/
def Undefined.Builder : Expr := .node .Undefined []

/-- Builder `Power::Builder(base, exponent)`. -/
def Power.Builder (base exponent : Expr) : Expr := .node .Power [base, exponent]

/-- Builder `Addition::Builder(...)`. -/
def Addition.Builder (terms : List Expr) : Expr := .node .Addition terms

/-- Builder `Tangent::Builder(x)`. -/
def Tangent.Builder (x : Expr) : Expr := .node .Tangent [x]

/-- Builder of a matrix with its dimensions set (`Matrix::Builder()` followed by
`setDimensions`). -/
def Matrix.Builder (rows columns : Nat) (cells : List Expr) : Expr :=
  .node (.Matrix rows columns) cells

/-- Builder `ComplexCartesian::Builder()` with both children set. -/
def ComplexCartesian.Builder (re im : Expr) : Expr := .node .ComplexCartesian [re, im]

/-- Builder `MultiplicationExplicite::Builder(...)`. -/
def MultiplicationExplicite.Builder (factors : List Expr) : Expr :=
  .node .MultiplicationExplicite factors

/-! ## Child-list primitives of the tree -/

/-- Child of a child list at an index. -/
def childAt (cs : List Expr) (i : Nat) : Expr := cs.getD i Expr.uninitialized

/-- Primitive `removeChildAtIndexInPlace(i)`. -/
def removeChildAtIndex (cs : List Expr) (i : Nat) : List Expr := cs.eraseIdx i

/-- Primitive `replaceChildAtIndexInPlace(i, e)`. -/
def replaceChildAtIndex (cs : List Expr) (i : Nat) (e : Expr) : List Expr := cs.set i e

/-- Primitive `addChildAtIndexInPlace(e, i, n)`: the new child is placed after
the first `i` children (at the end when there are fewer). -/
def addChildAtIndex (cs : List Expr) (e : Expr) (i : Nat) : List Expr :=
  cs.take i ++ e :: cs.drop i

/-- Primitive `mergeChildrenAtIndexInPlace(c, i)`: child `i` (the node `c`) is
replaced by its own children, in order. -/
def mergeChildrenAtIndex (cs : List Expr) (c : Expr) (i : Nat) : List Expr :=
  cs.take i ++ c.children ++ cs.drop (i + 1)

/-- Modelled from the spec: the generic default short-circuit
(`Expression::defaultShallowReduce`), which propagates an already-undefined
child: the node becomes the undefined marker when a child is one. -/
def defaultShallowReduce (e : Expr) : Expr :=
  if e.children.any Expr.isUndefined then Undefined.Builder else e

/-- The results of a fallible reduction applied to every element of a list, in
order; there is no result as soon as one reduction has none. -/
def reduceEach {α β : Type} (reduceOne : α → Option β) : List α → Option (List β)
  | [] => some []
  | first :: rest =>
    (reduceOne first).bind (fun reduced =>
      (reduceEach reduceOne rest).map (fun others => reduced :: others))

/-! ## The reduction session and the collaborators -/

/-- Target domain of a reduction (`ExpressionNode::ReductionTarget`). -/
inductive ReductionTarget
  | System
  | User
  deriving DecidableEq, Repr

/-- The rewrite session threaded through a reduction
(`ExpressionNode::ReductionContext`); context, complex format and angle unit are
only passed along. -/
structure ReductionContext where
  context : Nat
  complexFormat : Nat
  angleUnit : Nat
  target : ReductionTarget
  deriving DecidableEq, Repr

/-- The collaborators of the product reducer that live outside the file. Each
reducer is a function of the reduced subtree and of the session; its value is
both what the call returns and what it leaves in the tree at the position of the
reduced node. -/
structure Collaborators where
  /-- Reducer `shallowReduce(reductionContext)` of every node that is not a product. -/
  shallowReduce : ReductionContext → Expr → Expr
  /-- Reducer `ComplexCartesian::shallowReduce()`. -/
  complexCartesianShallowReduce : Expr → Expr
  /-- Primitive `sortChildrenInPlace` with `SimplificationOrder`. -/
  sortChildren : List Expr → List Expr
  /-- Predicate `recursivelyMatches(Expression::IsRandom, context, true)`. -/
  recursivelyMatchesIsRandom : Expr → Bool
  /-- Predicate `recursivelyMatches(Expression::IsInfinity, context)`. -/
  recursivelyMatchesIsInfinity : Expr → Bool
  /-- Predicate `SortedIsMatrix(e, context)`. -/
  sortedIsMatrix : Expr → Bool
  /-- Ternary predicate `allChildrenAreReal(context)` on the children of the product. -/
  allChildrenAreReal : List Expr → Int
  /-- Product `ComplexCartesian::multiply(other, reductionContext)`. -/
  complexMultiply : ReductionContext → Expr → Expr → Expr
  /-- Product `Number::Multiplication(a, b)`. -/
  numberMultiplication : Expr → Expr → Expr
  /-- Sum `Number::Addition(a, b)`. -/
  numberAddition : Expr → Expr → Expr
  /-- Comparison `Number::NaturalOrder(a, b)`. -/
  numberNaturalOrder : Expr → Expr → Int
  /-- Sign `(int)sign()` of a number: -1, 0 (unknown) or 1. -/
  numberSign : Expr → Int
  /-- Absolute value `setSign(Sign::Positive)` of a number. -/
  numberSetSignPositive : Expr → Expr

/-- The reducer of a product used for the nested `shallowReduce` calls: it takes
the type of the parent of the product (`Uninitialized` without parent) and the
children of the product. -/
abbrev Reducer := ExprType → List Expr → Option Expr

namespace MultiplicationExplicite

/-! ## Base/exponent decomposition -/

/-- Source `MultiplicationExplicite::Base`. -/
def Base (e : Expr) : Expr :=
  if e.type = .Power then e.childAtIndex 0 else e

/-- Source `MultiplicationExplicite::CreateExponent`. -/
def CreateExponent (e : Expr) : Expr :=
  if e.type = .Power then e.childAtIndex 1 else Rational.Builder 1 1

/-- Source `MultiplicationExplicite::TermsHaveIdenticalBase`. -/
def TermsHaveIdenticalBase (e1 e2 : Expr) : Bool :=
  (Base e1).isIdenticalTo (Base e2)

/-- Source `MultiplicationExplicite::TermsHaveIdenticalExponent`. -/
def TermsHaveIdenticalExponent (e1 e2 : Expr) : Bool :=
  decide (e1.type = .Power) && decide (e2.type = .Power)
    && (e1.childAtIndex 1).isIdenticalTo (e2.childAtIndex 1)

/-- Source `MultiplicationExplicite::TermHasNumeralBase`. -/
def TermHasNumeralBase (e : Expr) : Bool := (Base e).isNumber

/-- Source `MultiplicationExplicite::TermHasNumeralExponent`. -/
def TermHasNumeralExponent (e : Expr) : Bool :=
  if e.type ≠ .Power then true
  else if (e.childAtIndex 1).isNumber then true
  else false

/-! ## Step 1: flattening -/

/-- The loop of `mergeMultiplicationChildrenInPlace`: at index `i`, a child that
is a product is replaced by its own children and the index stays, any other
child is skipped. The first argument bounds the number of iterations. -/
def mergeMultiplicationChildrenLoop : Nat → List Expr → Nat → List Expr
  | 0, cs, _ => cs
  | fuel + 1, cs, i =>
    if i < cs.length then
      let c := childAt cs i
      if c.type = .MultiplicationExplicite then
        mergeMultiplicationChildrenLoop fuel (mergeChildrenAtIndex cs c i) i
      else
        mergeMultiplicationChildrenLoop fuel cs (i + 1)
    else cs

/-- Source `MultiplicationExplicite::mergeMultiplicationChildrenInPlace`, on the
children of the product. Every iteration of the loop consumes one node of the
children, so their node count bounds the iterations. -/
def mergeMultiplicationChildrenInPlace (cs : List Expr) : List Expr :=
  mergeMultiplicationChildrenLoop (Expr.forestSize cs) cs 0

/-! ## Factor merge primitives -/

/-- Source `MultiplicationExplicite::mergeInChildByFactorizingBase`. -/
def mergeInChildByFactorizingBase (env : Collaborators) (ctx : ReductionContext)
    (cs : List Expr) (i : Nat) (e : Expr) : List Expr :=
  -- Step 1: find the new exponent
  let s := Addition.Builder [CreateExponent (childAt cs i), CreateExponent e]
  -- Step 2: create the new power; the sum is reduced inside it
  let p := Power.Builder (Base (childAt cs i)) (env.shallowReduce ctx s)
  -- Step 3: replace one of the children, and reduce it
  let p := env.shallowReduce ctx p
  let cs := replaceChildAtIndex cs i p
  -- Step 4: the reduced power might be a product
  if p.type = .MultiplicationExplicite then mergeMultiplicationChildrenInPlace cs else cs

/-- Source `MultiplicationExplicite::factorizeBase`. -/
def factorizeBase (env : Collaborators) (ctx : ReductionContext)
    (cs : List Expr) (i j : Nat) : List Expr :=
  let e := childAt cs j
  mergeInChildByFactorizingBase env ctx (removeChildAtIndex cs j) i e

/-- Source `MultiplicationExplicite::factorizeExponent`; the product of the two
bases is reduced by the product reducer, under its new parent, the power. -/
def factorizeExponent (env : Collaborators) (ctx : ReductionContext) (reduce : Reducer)
    (cs : List Expr) (i j : Nat) : Option (List Expr) :=
  -- Step 1: find the new base
  let m := [Base (childAt cs i), Base (childAt cs j)]
  -- Step 2: get rid of one of the children
  let cs := removeChildAtIndex cs j
  -- Step 3 and 4: replace the base of the other child by the reduced product
  match reduce .Power m with
  | none => none
  | some m =>
    let ci := childAt cs i
    let p := env.shallowReduce ctx (.node ci.type (replaceChildAtIndex ci.children 0 m))
    let cs := replaceChildAtIndex cs i p
    -- Step 5: the reduced power might be a product
    some (if p.type = .MultiplicationExplicite then mergeMultiplicationChildrenInPlace cs else cs)

/-! ## Step 4: gathering like terms -/

/-- One iteration of the loop of Step 4 of `privateShallowReduce` at index `i`:
the new children and the new index. -/
def gatherLikeTermsStep (env : Collaborators) (ctx : ReductionContext) (reduce : Reducer)
    (cs : List Expr) (i : Nat) : Option (List Expr × Nat) :=
  let oi := childAt cs i
  let oi1 := childAt cs (i + 1)
  if env.recursivelyMatchesIsRandom oi then
    -- Do not factorize random or randint
    some (cs, i + 1)
  else if TermsHaveIdenticalBase oi oi1 then
    let shouldFactorizeBase :=
      if TermHasNumeralBase oi then decide (oi.type = .Power) && decide (oi1.type = .Power)
      else true
    if shouldFactorizeBase then some (factorizeBase env ctx cs i (i + 1), i)
    else some (cs, i + 1)
  else if TermHasNumeralBase oi && TermHasNumeralBase oi1 && TermsHaveIdenticalExponent oi oi1 then
    match factorizeExponent env ctx reduce cs i (i + 1) with
    | none => none
    | some cs => some (cs, i)
  else some (cs, i + 1)

/-- The loop of Step 4 of `privateShallowReduce`, `while (i < numberOfChildren()-1)`;
the first argument bounds the number of iterations and the loop has no result
when the bound is reached. -/
def gatherLikeTermsLoop (env : Collaborators) (ctx : ReductionContext) (reduce : Reducer) :
    Nat → List Expr → Nat → Option (List Expr)
  | 0, _, _ => none
  | fuel + 1, cs, i =>
    if i + 1 < cs.length then
      match gatherLikeTermsStep env ctx reduce cs i with
      | none => none
      | some (cs, i) => gatherLikeTermsLoop env ctx reduce fuel cs i
    else some cs

/-! ## Step 5: sine and cosine -/

/-- Source `MultiplicationExplicite::factorizeSineAndCosine`. -/
def factorizeSineAndCosine (env : Collaborators) (ctx : ReductionContext)
    (cs : List Expr) (i j : Nat) : List Expr :=
  let x := (Base (childAt cs i)).childAtIndex 0
  let p := CreateExponent (childAt cs i)
  let q := CreateExponent (childAt cs j)
  -- If p and q have the same sign, we cannot replace them by a tangent
  if env.numberSign p * env.numberSign q > 0 then cs
  else
    let sumPQ := env.numberAddition p q
    let absP := env.numberSetSignPositive p
    let absQ := env.numberSetSignPositive q
    let tan := Tangent.Builder x
    let userReductionContext :=
      ReductionContext.mk ctx.context ctx.complexFormat ctx.angleUnit .User
    if env.numberNaturalOrder absP absQ < 0 then
      -- Replace sin(x) by tan(x) or sin(x)^p by tan(x)^p
      let cs := replaceChildAtIndex cs i (if p.isRationalOne then tan else Power.Builder tan p)
      let cs := replaceChildAtIndex cs i (env.shallowReduce userReductionContext (childAt cs i))
      -- Replace cos(x)^q by cos(x)^(p+q)
      let cs := replaceChildAtIndex cs j (Power.Builder (Base (childAt cs j)) sumPQ)
      replaceChildAtIndex cs j (env.shallowReduce userReductionContext (childAt cs j))
    else
      -- Replace cos(x)^q by tan(x)^(-q)
      let minusQ := env.shallowReduce userReductionContext
        (env.numberMultiplication q (Rational.Builder (-1) 1))
      let newPower := Power.Builder tan minusQ
      let cs := replaceChildAtIndex cs j (env.shallowReduce userReductionContext newPower)
      -- Replace sin(x)^p by sin(x)^(p+q)
      let cs := replaceChildAtIndex cs i (Power.Builder (Base (childAt cs i)) sumPQ)
      replaceChildAtIndex cs i (env.shallowReduce userReductionContext (childAt cs i))

/-- The inner loop of Step 5: the first index `j` from `start` on whose child has a
cosine base on the argument `x` and a numeral exponent. -/
def findCosineFactor (cs : List Expr) (x : Expr) (start : Nat) : Option Nat :=
  (List.range' start (cs.length - start)).find? (fun j =>
    let o2 := childAt cs j
    decide ((Base o2).type = .Cosine) && TermHasNumeralExponent o2
      && ((Base o2).childAtIndex 0).isIdenticalTo x)

/-- The outer loop of Step 5 of `privateShallowReduce`, from index `i` on; the
first argument counts the remaining iterations. -/
def factorizeSineAndCosineLoop (env : Collaborators) (ctx : ReductionContext) :
    Nat → List Expr → Nat → List Expr
  | 0, cs, _ => cs
  | fuel + 1, cs, i =>
    if i < cs.length then
      let o1 := childAt cs i
      let cs :=
        if (Base o1).type = .Sine ∧ TermHasNumeralExponent o1 = true then
          let x := (Base o1).childAtIndex 0
          match findCosineFactor cs x (i + 1) with
          | some j => factorizeSineAndCosine env ctx cs i j
          | none => cs
        else cs
      factorizeSineAndCosineLoop env ctx fuel cs (i + 1)
    else cs

/-- Step 5 of `privateShallowReduce`: the sine and cosine rewriting followed by a
sort, for the user target only. The rewriting replaces children and never adds or
removes one, so the outer loop runs once per child. -/
def factorizeSineAndCosineStep (env : Collaborators) (ctx : ReductionContext)
    (cs : List Expr) : List Expr :=
  if ctx.target = .User then
    env.sortChildren (factorizeSineAndCosineLoop env ctx cs.length cs 0)
  else cs

/-! ## Step 6: numeral folding -/

/-- The loop of Step 6 of `privateShallowReduce` at index `i`; the first argument
bounds the number of iterations. -/
def numeralFoldingLoop (env : Collaborators) : Nat → List Expr → Nat → List Expr
  | 0, cs, _ => cs
  | fuel + 1, cs, i =>
    if i < cs.length then
      let o := childAt cs i
      if o.isRationalOne then
        numeralFoldingLoop env fuel (removeChildAtIndex cs i) i
      else if o.isNumber then
        if (childAt cs 0).isNumber then
          let m := env.numberMultiplication (childAt cs 0) o
          numeralFoldingLoop env fuel (removeChildAtIndex (replaceChildAtIndex cs 0 m) i) i
        else
          -- Number child has to be first
          numeralFoldingLoop env fuel (addChildAtIndex (removeChildAtIndex cs i) o 0) i
      else
        numeralFoldingLoop env fuel cs (i + 1)
    else cs

/-- Step 6 of `privateShallowReduce`: the loop from index 1. An iteration removes
a child, advances the index, or moves a number to an index-0 slot that held none,
so twice the child count bounds the iterations. -/
def numeralFolding (env : Collaborators) (cs : List Expr) : List Expr :=
  numeralFoldingLoop env (2 * cs.length) cs 1

/-! ## Step 3: matrices -/

/-- One cell of the product of two matrices in Step 3: the reduced sum over `k`
of the reduced products of `currentMatrix(i, k)` and `resultMatrix(k, j)`. -/
def matrixProductCell (env : Collaborators) (ctx : ReductionContext) (reduce : Reducer)
    (currentMatrix resultMatrix : Expr) (n i j : Nat) : Option Expr :=
  match reduceEach (fun k =>
      reduce .Addition [currentMatrix.matrixChild i k, resultMatrix.matrixChild k j])
      (List.range n) with
  | none => none
  | some terms => some (env.shallowReduce ctx (Addition.Builder terms))

/-- The matrix built by the two outer loops of Step 3, of dimensions
`newResultN` by `newResultM`, cells in the order of the loops. -/
def matrixProduct (env : Collaborators) (ctx : ReductionContext) (reduce : Reducer)
    (currentMatrix resultMatrix : Expr) (newResultN newResultM n : Nat) : Option Expr :=
  match reduceEach (fun i =>
      reduceEach (fun j => matrixProductCell env ctx reduce currentMatrix resultMatrix n i j)
        (List.range newResultM))
      (List.range newResultN) with
  | none => none
  | some rows => some (Matrix.Builder newResultN newResultM rows.flatten)

/-- Outcome of the backward scan of Step 3: either two consecutive matrices have
mismatched dimensions, or the scan stops with the children, the result matrix,
its dimensions and `multiplicationChildIndex + 1`. -/
inductive MatrixScan
  | mismatch
  | scanned (cs : List Expr) (resultMatrix : Expr) (n m : Nat) (remaining : Nat)

/-- The loop `while (multiplicationChildIndex >= 0)` of Step 3; the first argument
is `multiplicationChildIndex + 1`. -/
def matrixScan (env : Collaborators) (ctx : ReductionContext) (reduce : Reducer) :
    Nat → List Expr → Expr → Nat → Nat → Option MatrixScan
  | 0, cs, resultMatrix, n, m => some (.scanned cs resultMatrix n m 0)
  | idx + 1, cs, resultMatrix, n, m =>
    let currentChild := childAt cs idx
    if currentChild.isMatrix = false then
      some (.scanned cs resultMatrix n m (idx + 1))
    else
      let currentN := currentChild.numberOfRows
      let currentM := currentChild.numberOfColumns
      if currentM ≠ n then
        -- Matrices dimensions do not match for multiplication
        some .mismatch
      else
        match matrixProduct env ctx reduce currentChild resultMatrix currentN m n with
        | none => none
        | some newResult =>
          let cs := removeChildAtIndex cs idx
          let cs := replaceChildAtIndex cs (cs.length - 1) newResult
          matrixScan env ctx reduce idx cs newResult currentN m

/-- The loop `for (int i = 0; i < n*m; i++)` of Step 3 that wraps every cell of the
result matrix in a clone of the remaining product; the first argument counts the
remaining iterations. -/
def distributeOnMatrixLoop (reduce : Reducer) (scalars : List Expr) :
    Nat → Nat → Expr → Option Expr
  | 0, _, resultMatrix => some resultMatrix
  | count + 1, i, resultMatrix =>
    let entryI := resultMatrix.childAtIndex i
    match reduce resultMatrix.type (addChildAtIndex scalars entryI scalars.length) with
    | none => none
    | some cell =>
      distributeOnMatrixLoop reduce scalars count (i + 1)
        (.node resultMatrix.type (replaceChildAtIndex resultMatrix.children i cell))

/-- Step 3 of `privateShallowReduce`, entered when the last child is a matrix. -/
def handleMatrices (env : Collaborators) (ctx : ReductionContext) (reduce : Reducer)
    (cs : List Expr) (lastChild : Expr) : Option Expr :=
  match matrixScan env ctx reduce (cs.length - 1) cs lastChild
      lastChild.numberOfRows lastChild.numberOfColumns with
  | none => none
  | some .mismatch => some Undefined.Builder
  | some (.scanned cs resultMatrix n m remaining) =>
    if 0 < remaining then
      if env.sortedIsMatrix (childAt cs (remaining - 1)) then
        some (Builder cs)
      else
        let scalars := removeChildAtIndex cs (cs.length - 1)
        match distributeOnMatrixLoop reduce scalars (n * m) 0 resultMatrix with
        | none => none
        | some resultMatrix => some (env.shallowReduce ctx resultMatrix)
    else some (env.shallowReduce ctx resultMatrix)

/-! ## Steps 7 to 10 -/

/-- Source `MultiplicationExplicite::distributeOnOperandAtIndex`. -/
def distributeOnOperandAtIndex (env : Collaborators) (ctx : ReductionContext)
    (reduce : Reducer) (cs : List Expr) (i : Nat) : Option Expr :=
  let childI := childAt cs i
  match reduceEach (fun term => reduce .Addition (replaceChildAtIndex cs i term))
      childI.children with
  | none => none
  | some terms => some (env.shallowReduce ctx (Addition.Builder terms))

/-- Modelled from the spec: `squashUnaryHierarchyInPlace`, a primitive of n-ary
nodes: a single remaining child replaces the node, which is otherwise kept. -/
def squashUnaryHierarchyInPlace (cs : List Expr) : Expr :=
  if cs.length = 1 then childAt cs 0 else Builder cs

/-- Step 7 of `privateShallowReduce`, first half: the product is replaced by its
first child when that one is the rational zero and no other child matches the
infinity predicate. -/
def isAbsorbedByZero (env : Collaborators) (cs : List Expr) : Bool :=
  (childAt cs 0).isRationalZero && !((cs.drop 1).any env.recursivelyMatchesIsInfinity)

/-- Step 7 of `privateShallowReduce`, second half: a first child that is the
rational one is removed when there are other children. -/
def removeLeadingOne (cs : List Expr) : List Expr :=
  if (childAt cs 0).isRationalOne ∧ 1 < cs.length then removeChildAtIndex cs 0 else cs

/-- The guard of Step 8 of `privateShallowReduce`. -/
def mayDistribute (parentType : ExprType) (shouldExpand hasRandom : Bool) : Bool :=
  shouldExpand
    && (decide (parentType = .Uninitialized) || decide (parentType ≠ .MultiplicationExplicite))
    && !hasRandom

/-- The loop `while (i >= 0)` of Step 10 that multiplies the trailing complex
pairs together; the first argument is `i + 1`. -/
def complexMergeLoop (env : Collaborators) (ctx : ReductionContext) :
    Nat → List Expr → Expr → List Expr × Expr
  | 0, cs, child => (cs, child)
  | i + 1, cs, child =>
    let e := childAt cs i
    if e.type ≠ .ComplexCartesian then (cs, child)
    else complexMergeLoop env ctx i (removeChildAtIndex cs i) (env.complexMultiply ctx child e)

/-- Step 10 of `privateShallowReduce` once its guard holds. -/
def bubbleUpComplex (env : Collaborators) (ctx : ReductionContext) (reduce : Reducer)
    (cs : List Expr) : Option Expr :=
  let i := cs.length - 1
  let child := childAt cs i
  let cs := removeChildAtIndex cs i
  let merged := complexMergeLoop env ctx i cs child
  let cs := merged.1
  let child := merged.2
  -- The real children are both factors of the real and the imaginary multiplication
  let real := addChildAtIndex cs (child.childAtIndex 0) cs.length
  let imag := addChildAtIndex cs (child.childAtIndex 1) real.length
  match reduce .ComplexCartesian real with
  | none => none
  | some real =>
    match reduce .ComplexCartesian imag with
    | none => none
    | some imag => some (env.complexCartesianShallowReduce (ComplexCartesian.Builder real imag))

/-- Steps 8 to 10 of `privateShallowReduce`, on the children left by Step 7. -/
def expandSquashAndBubble (env : Collaborators) (ctx : ReductionContext) (reduce : Reducer)
    (parentType : ExprType) (shouldExpand : Bool) (cs : List Expr) : Option Expr :=
  -- Step 8
  let hasRandom := env.recursivelyMatchesIsRandom (Builder cs)
  let sumIndex :=
    if mayDistribute parentType shouldExpand hasRandom then
      cs.findIdx? (fun c => decide (c.type = .Addition))
    else none
  match sumIndex with
  | some i => distributeOnOperandAtIndex env ctx reduce cs i
  | none =>
    -- Step 9: the node is replaced (`result != *this`) exactly when one child is left
    let result := squashUnaryHierarchyInPlace cs
    if cs.length = 1 then some result
    -- Step 10
    else if hasRandom = false ∧ env.allChildrenAreReal cs = 0 then
      bubbleUpComplex env ctx reduce cs
    else some result

/-- Steps 7 to 10 of `privateShallowReduce`, on the children left by Step 6. -/
def collapseAndExpand (env : Collaborators) (ctx : ReductionContext) (reduce : Reducer)
    (parentType : ExprType) (shouldExpand : Bool) (cs : List Expr) : Option Expr :=
  -- Step 7
  if isAbsorbedByZero env cs then some (childAt cs 0)
  else expandSquashAndBubble env ctx reduce parentType shouldExpand (removeLeadingOne cs)

/-! ## The orchestrator -/

/-- Steps 1 to 6 of `privateShallowReduce` when the last sorted child is not a
matrix: the children handed to Step 7. The natural number bounds the iterations
of the loop of Step 4. -/
def childrenAfterFolding (env : Collaborators) (ctx : ReductionContext) (reduce : Reducer)
    (fuel : Nat) (cs : List Expr) : Option (List Expr) :=
  let cs := env.sortChildren (mergeMultiplicationChildrenInPlace cs)
  match gatherLikeTermsLoop env ctx reduce fuel cs 0 with
  | none => none
  | some cs => some (numeralFolding env (factorizeSineAndCosineStep env ctx cs))

/-- The body of `privateShallowReduce`, with the product reducer of the nested
calls and the bound of the loop of Step 4 as arguments. -/
def privateShallowReduceBody (env : Collaborators) (ctx : ReductionContext) (reduce : Reducer)
    (fuel : Nat) (parentType : ExprType) (shouldExpand : Bool) (cs : List Expr) :
    Option Expr :=
  let e := defaultShallowReduce (Builder cs)
  if e.isUndefined then some e
  else
    let sorted := env.sortChildren (mergeMultiplicationChildrenInPlace cs)
    let lastChild := childAt sorted (sorted.length - 1)
    if lastChild.isMatrix then handleMatrices env ctx reduce sorted lastChild
    else
      match childrenAfterFolding env ctx reduce fuel cs with
      | none => none
      | some cs => collapseAndExpand env ctx reduce parentType shouldExpand cs

/-- Source `MultiplicationExplicite::privateShallowReduce`, on the children of the
product. The natural number bounds the depth of the nested product reductions
and the iterations of the loop of Step 4; there is no result when it is too
small. The flag `canBeInterrupted` of the source is not read by the function. -/
def privateShallowReduce (env : Collaborators) (ctx : ReductionContext) :
    Nat → ExprType → Bool → List Expr → Option Expr
  | 0, _, _, _ => none
  | fuel + 1, parentType, shouldExpand, cs =>
    privateShallowReduceBody env ctx
      (fun parentType cs => privateShallowReduce env ctx fuel parentType true cs)
      (fuel + 1) parentType shouldExpand cs

/-- The product reducer of the nested calls made at depth bound `fuel + 1`:
`shallowReduce` one level down. -/
def nestedReducer (env : Collaborators) (ctx : ReductionContext) (fuel : Nat) : Reducer :=
  fun parentType cs => privateShallowReduce env ctx fuel parentType true cs

/-- Source `MultiplicationExplicite::shallowReduce`. -/
def shallowReduce (env : Collaborators) (ctx : ReductionContext) (fuel : Nat)
    (parentType : ExprType) (cs : List Expr) : Option Expr :=
  privateShallowReduce env ctx fuel parentType true cs

end MultiplicationExplicite

/-! ## Sample collaborators

A small concrete set of collaborators, used to run the reducer on concrete
products. It reduces sums and products of rationals exactly, powers with
exponent 0 or 1 and integer powers of integers, leaves every other node as it
is, keeps the order of children that are listed in simplification order, and
evaluates the recursive predicates over the subtree. -/

namespace Expr

mutual
/-- Modelled from the spec: a predicate evaluated recursively over a subtree
(`recursivelyMatches`), without any replacement of symbols. -/
def recursivelyMatches (test : Expr → Bool) : Expr → Bool
  | node t cs => test (node t cs) || anyRecursivelyMatches test cs
/-- The recursive predicate over a list of subtrees. -/
def anyRecursivelyMatches (test : Expr → Bool) : List Expr → Bool
  | [] => false
  | c :: cs => recursivelyMatches test c || anyRecursivelyMatches test cs
end

/-- Test `type() == Infinity`. -/
def isInfinity (e : Expr) : Bool :=
  match e.type with
  | .Infinity _ => true
  | _ => false

end Expr

namespace Sample

/-- A rational in lowest terms. -/
def normalizedRational (n : Int) (d : Nat) : Expr :=
  let g := Nat.gcd n.natAbs d
  if g = 0 then Rational.Builder n d else Rational.Builder (n / (g : Int)) (d / g)

/-- Exact product of two rationals; the sample has no other numbers. -/
def numberMultiplication (a b : Expr) : Expr :=
  match a.type, b.type with
  | .Rational n1 d1, .Rational n2 d2 => normalizedRational (n1 * n2) (d1 * d2)
  | _, _ => Undefined.Builder

/-- Exact sum of two rationals; the sample has no other numbers. -/
def numberAddition (a b : Expr) : Expr :=
  match a.type, b.type with
  | .Rational n1 d1, .Rational n2 d2 =>
    normalizedRational (n1 * (d2 : Int) + n2 * (d1 : Int)) (d1 * d2)
  | _, _ => Undefined.Builder

/-- Sign of a rational: -1, 0 or 1. -/
def numberSign (a : Expr) : Int :=
  match a.type with
  | .Rational n _ => Int.sign n
  | _ => 0

/-- Absolute value of a rational. -/
def numberSetSignPositive (a : Expr) : Expr :=
  match a.type with
  | .Rational n d => Rational.Builder (Int.natAbs n : Int) d
  | _ => a

/-- Order of two rationals: -1, 0 or 1. -/
def numberNaturalOrder (a b : Expr) : Int :=
  match a.type, b.type with
  | .Rational n1 d1, .Rational n2 d2 =>
    if n1 * (d2 : Int) < n2 * (d1 : Int) then -1
    else if n1 * (d2 : Int) = n2 * (d1 : Int) then 0
    else 1
  | _, _ => 0

/-- Reducer of the nodes that are not products. -/
def shallowReduce (_ctx : ReductionContext) (e : Expr) : Expr :=
  match e with
  | .node .Addition [a, b] =>
    if a.isRational && b.isRational then numberAddition a b else e
  | .node .Power [b, x] =>
    if x.isRationalZero then Rational.Builder 1 1
    else if x.isRationalOne then b
    else
      match b.type, x.type with
      | .Rational n 1, .Rational (.ofNat k) 1 => Rational.Builder (n ^ k) 1
      | _, _ => e
  | _ => e

/-- Product of two complex pairs, left unreduced. -/
def complexMultiply (_ctx : ReductionContext) (a b : Expr) : Expr :=
  ComplexCartesian.Builder
    (.node .Subtraction
      [MultiplicationExplicite.Builder [a.childAtIndex 0, b.childAtIndex 0],
       MultiplicationExplicite.Builder [a.childAtIndex 1, b.childAtIndex 1]])
    (Addition.Builder
      [MultiplicationExplicite.Builder [a.childAtIndex 0, b.childAtIndex 1],
       MultiplicationExplicite.Builder [a.childAtIndex 1, b.childAtIndex 0]])

/-- The ternary predicate: 0 when a child is a complex pair, 1 otherwise. -/
def allChildrenAreReal (cs : List Expr) : Int :=
  if cs.any (fun c => decide (c.type = .ComplexCartesian)) then 0 else 1

/-- The sample collaborators. -/
def collaborators : Collaborators :=
  Collaborators.mk shallowReduce (fun e => e) (fun cs => cs)
    (Expr.recursivelyMatches Expr.isRandom) (Expr.recursivelyMatches Expr.isInfinity)
    Expr.isMatrix allChildrenAreReal complexMultiply
    numberMultiplication numberAddition numberNaturalOrder numberSign numberSetSignPositive

/-- A user-target session. -/
def userContext : ReductionContext := ReductionContext.mk 0 0 0 .User

/-- A system-target session. -/
def systemContext : ReductionContext := ReductionContext.mk 0 0 0 .System

/-- The constant pi. -/
def pi : Expr := .node (.Constant "pi") []

/-- The constant e. -/
def euler : Expr := .node (.Constant "e") []

/-- A symbol. -/
def symbol (name : String) : Expr := .node (.Symbol name) []

/-- An integer. -/
def integer (n : Int) : Expr := Rational.Builder n 1

end Sample


/-! ## Beautification and denominator -/

/-- Builder `Opposite::Builder()` with its child set. -/
def Opposite.Builder (e : Expr) : Expr := .node .Opposite [e]

/-- Builder `Division::Builder()` with both children set. -/
def Division.Builder (numerator denominator : Expr) : Expr :=
  .node .Division [numerator, denominator]

/-- Builder `Parenthesis::Builder(e)`. -/
def Parenthesis.Builder (e : Expr) : Expr := .node .Parenthesis [e]

/-- The collaborators of the display pass and of `denominator` that live outside
the file. -/
structure BeautifyCollaborators where
  /-- Method `makePositiveAnyNegativeNumeralFactor(reductionContext)` of an
  expression: the expression with its negative numeral factor made positive, which
  is also what the call leaves in place of the receiver, or the empty handle when
  there is no such factor (the receiver is then untouched). -/
  makePositiveAnyNegativeNumeralFactor : ReductionContext → Expr → Expr
  /-- Display pass `shallowBeautify(reductionContext)` of a node that is not a product. -/
  shallowBeautify : ReductionContext → Expr → Expr
  /-- Method `denominator(context, complexFormat, angleUnit)` of a node that is not
  a product. -/
  denominator : Nat → Nat → Nat → Expr → Expr

namespace MultiplicationExplicite

/-- The test of the special case of `mergeNegativePower`: a rational whose
denominator is not one (`type() == Rational && !integerDenominator().isOne()`). -/
def isRationalWithDenominator (e : Expr) : Bool :=
  match e.type with
  | .Rational _ d => decide (d ≠ 1)
  | _ => false

/-- The special case of `mergeNegativePower` for a first child that is a rational
`p/q` with `q` different from 1: the children of the product and those of the
auxiliary product `m` after it. -/
def splitRationalCoefficient (cs : List Expr) : List Expr × List Expr :=
  match (childAt cs 0).type with
  | .Rational n d =>
    if d ≠ 1 then
      (if n = 1 then removeChildAtIndex cs 0
        else replaceChildAtIndex cs 0 (Rational.Builder n 1),
       [Rational.Builder (d : Int) 1])
    else (cs, [])
  | _ => (cs, [])

/-- The factor `a^b` added to `m` for a power `a^(-b)` whose exponent was made
positive: the power with its new exponent, or its bare base when that exponent is
the rational one. -/
def flippedFactor (p positivePIndex : Expr) : Expr :=
  let flipped := Expr.node p.type (replaceChildAtIndex p.children 1 positivePIndex)
  if (flipped.childAtIndex 1).isRationalOne then flipped.childAtIndex 0 else flipped

/-- The loop `while (i < numberOfChildren())` of `mergeNegativePower` at index
`i`, on the children of the product and those of `m`; the first argument bounds
the number of iterations. -/
def negativePowerLoop (benv : BeautifyCollaborators) (userContext : ReductionContext) :
    Nat → List Expr → Nat → List Expr → List Expr × List Expr
  | 0, cs, _, m => (cs, m)
  | fuel + 1, cs, i, m =>
    if i < cs.length then
      let p := childAt cs i
      if p.type = .Power then
        let positivePIndex :=
          benv.makePositiveAnyNegativeNumeralFactor userContext (p.childAtIndex 1)
        if positivePIndex.isUninitialized = false then
          -- Remove a^(-b) from the product, add a^b to m; the index stays
          negativePowerLoop benv userContext fuel (removeChildAtIndex cs i) i
            (addChildAtIndex m (flippedFactor p positivePIndex) m.length)
        else negativePowerLoop benv userContext fuel cs (i + 1) m
      else negativePowerLoop benv userContext fuel cs (i + 1) m
    else (cs, m)

/-- Whether the loop of `mergeNegativePower` moves a child to `m`: the child is a
power and its exponent is made positive. -/
def isMovedToDenominator (benv : BeautifyCollaborators) (userContext : ReductionContext)
    (p : Expr) : Bool :=
  decide (p.type = .Power)
    && !(benv.makePositiveAnyNegativeNumeralFactor userContext (p.childAtIndex 1)).isUninitialized

/-- The factor that the loop of `mergeNegativePower` adds to `m` for a moved
child. -/
def movedFactor (benv : BeautifyCollaborators) (userContext : ReductionContext)
    (p : Expr) : Expr :=
  flippedFactor p (benv.makePositiveAnyNegativeNumeralFactor userContext (p.childAtIndex 1))

/-- Source `MultiplicationExplicite::mergeNegativePower`, on the children of the
product: the returned expression, and the children of the receiver before the
final squash. An iteration of the loop removes a child or advances the index, so
the child count bounds the iterations. -/
def mergeNegativePower (env : Collaborators) (benv : BeautifyCollaborators)
    (context complexFormat angleUnit : Nat) (cs : List Expr) : Expr × List Expr :=
  let split := splitRationalCoefficient cs
  let userContext := ReductionContext.mk context complexFormat angleUnit .User
  let scanned := negativePowerLoop benv userContext split.1.length split.1 0 split.2
  let cs := scanned.1
  let m := scanned.2
  if m.length = 0 then (Builder cs, cs)
  else
    let m := env.sortChildren m
    let p := Power.Builder (squashUnaryHierarchyInPlace m) (Rational.Builder (-1) 1)
    let cs := env.sortChildren (addChildAtIndex cs p 0)
    (squashUnaryHierarchyInPlace cs, cs)

/-- The test of Step 4 of `shallowBeautify` and of `denominator`: a power whose
exponent is the rational -1. -/
def isPowerWithMinusOne (c : Expr) : Bool :=
  decide (c.type = .Power) && (c.childAtIndex 1).isRationalMinusOne

/-- Step 3 of `shallowBeautify`: every child that is a sum is wrapped in a
parenthesis. -/
def addParentheses (cs : List Expr) : List Expr :=
  cs.map (fun o => if o.type = .Addition then Parenthesis.Builder o else o)

/-- Step 4 of `shallowBeautify`, on the children left by Step 3: the first child
that is a power with exponent -1 is removed, the rest is reduced and becomes the
numerator of a division. -/
def createDivision (env : Collaborators) (benv : BeautifyCollaborators)
    (ctx : ReductionContext) (fuel : Nat) (parentType : ExprType) (cs : List Expr) :
    Option Expr :=
  match cs.findIdx? isPowerWithMinusOne with
  | none => some (Builder cs)
  | some i =>
    -- Let's remove the denominator-to-be from this
    let denominatorOperand := (childAt cs i).childAtIndex 0
    match shallowReduce env ctx fuel parentType (removeChildAtIndex cs i) with
    | none => none
    | some numeratorOperand =>
      -- Delete unnecessary parentheses on numerator
      let numeratorOperand :=
        if numeratorOperand.type = .Parenthesis then numeratorOperand.childAtIndex 0
        else numeratorOperand
      some (benv.shallowBeautify ctx (Division.Builder numeratorOperand denominatorOperand))

/-- Source `MultiplicationExplicite::shallowBeautify`, on the children of the
product; the natural number is the bound handed to `shallowReduce` in Step 4. After
Step 2 the source asserts that the merged expression is the product itself. -/
def shallowBeautify (env : Collaborators) (benv : BeautifyCollaborators)
    (ctx : ReductionContext) (fuel : Nat) (parentType : ExprType) (cs : List Expr) :
    Option Expr :=
  -- Step 1: turn -n*A into -(n*A)
  let noNegativeNumeral := benv.makePositiveAnyNegativeNumeralFactor ctx (Builder cs)
  if noNegativeNumeral.isUninitialized = false then some (Opposite.Builder noNegativeNumeral)
  else
    -- Step 2: merge negative powers
    let thisExp :=
      (mergeNegativePower env benv ctx.context ctx.complexFormat ctx.angleUnit cs).1
    if thisExp.type = .Power then some (benv.shallowBeautify ctx thisExp)
    else
      -- Step 3 and Step 4
      createDivision env benv ctx fuel parentType (addParentheses thisExp.children)

/-- Modelled from the spec: the trees that the handles of a session refer to (the
tree pool). A handle is an index of the list, a handle outside the list refers to
the uninitialized expression, and a method that changes its receiver in place
replaces the tree of the handle. -/
abbrev TreePool := List Expr

/-- Modelled from the spec: `clone()`, a copy of the tree of a handle under a new
handle: the pool after the call, and the new handle. -/
def cloneTree (pool : TreePool) (handle : Nat) : TreePool × Nat :=
  (pool ++ [childAt pool handle], pool.length)

/-- The call of `mergeNegativePower` on the product of a handle: the returned
expression, and the pool after the call, in which the product of the handle holds
the children that the call has left to it before its final squash (the second
component of `mergeNegativePower`). -/
def mergeNegativePowerInPlace (env : Collaborators) (benv : BeautifyCollaborators)
    (context complexFormat angleUnit : Nat) (pool : TreePool) (handle : Nat) :
    Expr × TreePool :=
  let merged :=
    mergeNegativePower env benv context complexFormat angleUnit (childAt pool handle).children
  (merged.1, replaceChildAtIndex pool handle (Builder merged.2))

/-- Source `MultiplicationExplicite::denominator`, on the product of a handle: the
returned expression, and the pool after the call. -/
def denominator (env : Collaborators) (benv : BeautifyCollaborators)
    (context complexFormat angleUnit : Nat) (pool : TreePool) (handle : Nat) :
    Expr × TreePool :=
  -- WARNING: we do not want to change the expression but to create a new one.
  let cloned := cloneTree pool handle
  let thisClone := cloned.2
  let merged := mergeNegativePowerInPlace env benv context complexFormat angleUnit
    cloned.1 thisClone
  let e := merged.1
  let result :=
    if e.type = .Power then benv.denominator context complexFormat angleUnit e
    else
      match e.children.find? isPowerWithMinusOne with
      | some child => child.childAtIndex 0
      | none => Expr.uninitialized
  (result, merged.2)

end MultiplicationExplicite

namespace Sample

/-- A sample of `makePositiveAnyNegativeNumeralFactor`: a negative rational is
replaced by its opposite; a product whose first child is a negative rational
loses that child when it is -1 (and is squashed when one child is left) and has
it replaced by its opposite otherwise; nothing else is changed. -/
def makePositiveAnyNegativeNumeralFactor (_ctx : ReductionContext) (e : Expr) : Expr :=
  match e.type with
  | .Rational n d => if n < 0 then Rational.Builder (-n) d else Expr.uninitialized
  | .MultiplicationExplicite =>
    match (e.childAtIndex 0).type with
    | .Rational n d =>
      if n < 0 then
        if (e.childAtIndex 0).isRationalMinusOne then
          MultiplicationExplicite.squashUnaryHierarchyInPlace (removeChildAtIndex e.children 0)
        else
          MultiplicationExplicite.Builder
            (replaceChildAtIndex e.children 0 (Rational.Builder (-n) d))
      else Expr.uninitialized
    | _ => Expr.uninitialized
  | _ => Expr.uninitialized

/-- A sample of the denominator of a power: the base for the exponent -1, the
power with the opposite exponent for another negative rational exponent. -/
def powerDenominator (_context _complexFormat _angleUnit : Nat) (e : Expr) : Expr :=
  match e with
  | .node .Power [b, x] =>
    match x.type with
    | .Rational n d =>
      if n < 0 then
        if x.isRationalMinusOne then b else Power.Builder b (Rational.Builder (-n) d)
      else Expr.uninitialized
    | _ => Expr.uninitialized
  | _ => Expr.uninitialized

/-- The sample collaborators of the display pass; the display pass of the other
nodes leaves them as they are. -/
def beautifyCollaborators : BeautifyCollaborators :=
  BeautifyCollaborators.mk makePositiveAnyNegativeNumeralFactor (fun _ e => e) powerDenominator

/-- The sine of an expression. -/
def sine (x : Expr) : Expr := .node .Sine [x]

/-- The cosine of an expression. -/
def cosine (x : Expr) : Expr := .node .Cosine [x]

end Sample

/-! ## Sign -/

/-- The sign of an expression (`ExpressionNode::Sign`). -/
inductive Sign
  | Negative
  | Unknown
  | Positive
  deriving DecidableEq, Repr

/-- The sign functions of the children of a product, which live outside the
file. -/
structure SignCollaborators where
  /-- Query `sign(context)` of a node. -/
  sign : Nat → Expr → Sign
  /-- Method `setSign(s, reductionContext)` of a node that is not a product: the
  expression that replaces the node. -/
  setSign : Sign → ReductionContext → Expr → Expr

namespace MultiplicationExplicite

/-- The loop of `setSign` from index `i` on: a child whose sign is negative is
replaced by the result of its own `setSign`. The first argument counts the
remaining iterations; a replacement keeps the number of children. -/
def setSignLoop (senv : SignCollaborators) (s : Sign) (ctx : ReductionContext) :
    Nat → List Expr → Nat → List Expr
  | 0, cs, _ => cs
  | fuel + 1, cs, i =>
    if i < cs.length then
      if senv.sign ctx.context (childAt cs i) = .Negative then
        setSignLoop senv s ctx fuel
          (replaceChildAtIndex cs i (senv.setSign s ctx (childAt cs i))) (i + 1)
      else setSignLoop senv s ctx fuel cs (i + 1)
    else cs

/-- Source `MultiplicationExplicite::setSign`, on the children of the product. The
assertion on the requested sign is part of the function: there is no result for
another sign than the positive one. -/
def setSign (env : Collaborators) (senv : SignCollaborators) (s : Sign)
    (ctx : ReductionContext) (fuel : Nat) (parentType : ExprType) (cs : List Expr) :
    Option Expr :=
  if s ≠ .Positive then none
  else shallowReduce env ctx fuel parentType (setSignLoop senv s ctx cs.length cs 0)

end MultiplicationExplicite

namespace Sample

/-- Sign of a rational leaf, unknown for every other node. -/
def sign (_context : Nat) (e : Expr) : Sign :=
  match e.type with
  | .Rational n _ => if n < 0 then .Negative else .Positive
  | _ => .Unknown

/-- The sample sign collaborators: `setSign` takes the absolute value of a
rational. -/
def signCollaborators : SignCollaborators :=
  SignCollaborators.mk sign (fun _ _ e => numberSetSignPositive e)

end Sample

/-! ## Reference definitions

The functions of this section are not part of the source: they name what the
relational properties of the reducer are measured against. -/

namespace MultiplicationExplicite

mutual
/-- The factors that a child stands for once every nested product is opened: the
child itself when it is not a product, the opened factors of its children, in
order, when it is one. -/
def flattenFactor : Expr → List Expr
  | .node t cs => if t = .MultiplicationExplicite then flattenFactors cs else [.node t cs]
/-- The opened factors of a list of children, from left to right. -/
def flattenFactors : List Expr → List Expr
  | [] => []
  | c :: cs => flattenFactor c ++ flattenFactors cs
end

end MultiplicationExplicite

namespace MultiplicationExplicite

/-- The test of one iteration of the loop of Step 4 of `privateShallowReduce` on
the adjacent children `oi` and `oi1`: whether the iteration merges nothing and
advances the index. This is the case when `oi` matches the random predicate, when
the two share a numeral base and are not both powers, and when they share neither
a base nor, being of numeral bases, an exponent. -/
def keepsPairApart (env : Collaborators) (oi oi1 : Expr) : Bool :=
  env.recursivelyMatchesIsRandom oi
    || (if TermsHaveIdenticalBase oi oi1 then
          TermHasNumeralBase oi && !(decide (oi.type = .Power) && decide (oi1.type = .Power))
        else
          !(TermHasNumeralBase oi && TermHasNumeralBase oi1
            && TermsHaveIdenticalExponent oi oi1))

end MultiplicationExplicite

namespace MultiplicationExplicite

/-- The exponent carried by a factor, measured in a commutative ring by `val`: the
value of its second child when the factor is a power, one otherwise. -/
def exponentValue {K : Type} [CommRing K] (val : Expr → K) (f : Expr) : K :=
  if f.type = .Power then val (f.childAtIndex 1) else 1

/-- The exponent of `sin(x)` that a factor stands for, counting `tan(x)^t` as
`sin(x)^t * cos(x)^(-t)`. -/
def sineExponent {K : Type} [CommRing K] (val : Expr → K) (x f : Expr) : K :=
  if Base f = Expr.node .Sine [x] then exponentValue val f
  else if Base f = Tangent.Builder x then exponentValue val f
  else 0

/-- The exponent of `cos(x)` that a factor stands for, counting `tan(x)^t` as
`sin(x)^t * cos(x)^(-t)`. -/
def cosineExponent {K : Type} [CommRing K] (val : Expr → K) (x f : Expr) : K :=
  if Base f = Expr.node .Cosine [x] then exponentValue val f
  else if Base f = Tangent.Builder x then - exponentValue val f
  else 0

end MultiplicationExplicite

namespace Sample

/-- The value of an integer leaf: the numerator of a rational, zero for every other
node. -/
def integerValue (e : Expr) : Int :=
  match e.type with
  | .Rational n _ => n
  | _ => 0

/-- The collaborators that leave every node as it is and keep the order of the
children. -/
def inertCollaborators : Collaborators :=
  Collaborators.mk (fun _ e => e) (fun e => e) (fun cs => cs)
    (Expr.recursivelyMatches Expr.isRandom) (Expr.recursivelyMatches Expr.isInfinity)
    Expr.isMatrix allChildrenAreReal complexMultiply
    numberMultiplication numberAddition numberNaturalOrder numberSign numberSetSignPositive

/-- The product reducer that leaves every product as it is. -/
def inertReducer : Reducer := fun _ cs => some (MultiplicationExplicite.Builder cs)

/-- A sort of the children that does not depend on their initial order as long as
their node counts differ: insertion by node count. -/
def sortBySize (cs : List Expr) : List Expr :=
  cs.insertionSort (fun x y => x.treeSize ≤ y.treeSize)

/-- The sample collaborators with `sortBySize` as simplification order. -/
def sortingCollaborators : Collaborators :=
  Collaborators.mk shallowReduce (fun e => e) sortBySize
    (Expr.recursivelyMatches Expr.isRandom) (Expr.recursivelyMatches Expr.isInfinity)
    Expr.isMatrix allChildrenAreReal complexMultiply
    numberMultiplication numberAddition numberNaturalOrder numberSign numberSetSignPositive

end Sample

/-! ## Numeric coefficient of a child list

Reference definitions for the numeral-folding pass. -/

namespace MultiplicationExplicite

/-- The children that are not numbers, in their order. -/
def nonNumeralChildren (cs : List Expr) : List Expr :=
  cs.filter (fun c => !c.isNumber)

/-- The product of the values of the children that are numbers, measured in a
commutative monoid by `val`. -/
def numeralProduct {K : Type} [CommMonoid K] (val : Expr → K) (cs : List Expr) : K :=
  ((cs.filter (fun c => c.isNumber)).map val).prod

/-- The value of the coefficient of a child list: the value of the first child
when it is a number, one when the list has no leading number. -/
def coefficientValue {K : Type} [CommMonoid K] (val : Expr → K) (cs : List Expr) : K :=
  if (childAt cs 0).isNumber then val (childAt cs 0) else 1

end MultiplicationExplicite

namespace Sample

/-- The value of a rational leaf as a fraction, zero for every other node. -/
def rationalValue (e : Expr) : ℚ :=
  match e.type with
  | .Rational n d => (n : ℚ) / (d : ℚ)
  | _ => 0

end Sample

/-! ## Missing factors -/

/-- Builder `Subtraction::Builder(a, b)`. -/
def Subtraction.Builder (a b : Expr) : Expr := .node .Subtraction [a, b]

/-- The collaborators of `addMissingFactors` that live outside the file. -/
structure FactorCollaborators where
  /-- Reducer `deepReduce(reductionContext)`. -/
  deepReduce : ReductionContext → Expr → Expr
  /-- Query `sign(context)` of a node. -/
  sign : Nat → Expr → Sign
  /-- Function `Arithmetic::LCM` on two unsigned integers; no value stands for a
  result that `isOverflow()`. -/
  LCM : Nat → Nat → Option Nat

namespace MultiplicationExplicite

/-- The search of the loop of `addMissingFactors` from index `i` on: the first
child whose base is identical to the base of the factor. The first argument
counts the remaining children. -/
def findIdenticalBase (cs : List Expr) (factor : Expr) : Nat → Nat → Option Nat
  | 0, _ => none
  | remaining + 1, i =>
    if TermsHaveIdenticalBase (childAt cs i) factor then some i
    else findIdenticalBase cs factor remaining (i + 1)

/-- The factor of `addMissingFactors` once its exponent is replaced by `sub`:
`factor.replaceChildAtIndexInPlace(1, sub)` for a power, `Power::Builder(factor,
sub)` otherwise. -/
def raiseFactor (factor sub : Expr) : Expr :=
  if factor.type = .Power then .node .Power (replaceChildAtIndex factor.children 1 sub)
  else Power.Builder factor sub

/-- The body of the loop of `addMissingFactors` at the child `i` whose base is
the base of the factor. -/
def mergeMissingFactor (env : Collaborators) (fenv : FactorCollaborators)
    (ctx : ReductionContext) (cs : List Expr) (i : Nat) (factor : Expr) : List Expr :=
  let sub := fenv.deepReduce ctx
    (Subtraction.Builder (CreateExponent (childAt cs i)) (CreateExponent factor))
  if fenv.sign ctx.context sub = .Negative then
    -- index[0] < index[1]: the opposite is reduced where it stands in the factor
    let sub := env.shallowReduce ctx (Opposite.Builder sub)
    mergeInChildByFactorizingBase env ctx cs i (raiseFactor factor sub)
  else if fenv.sign ctx.context sub = .Unknown then
    mergeInChildByFactorizingBase env ctx cs i factor
  else cs

/-- The rational branch of `addMissingFactors`. The two assertions on the
denominators are part of the function: there is no result for a rational that is
not an integer. -/
def addMissingRational (fenv : FactorCollaborators) (cs : List Expr) (factor : Expr) :
    Option (List Expr) :=
  match factor.type, (childAt cs 0).type with
  | .Rational nf df, .Rational nc dc =>
    if df ≠ 1 ∨ dc ≠ 1 then none
    else
      match fenv.LCM nf.natAbs nc.natAbs with
      | none => some (addChildAtIndex cs (Rational.Builder (nf.natAbs : Int) 1) 1)
      | some lcm => some (replaceChildAtIndex cs 0 (Rational.Builder (lcm : Int) 1))
  | _, _ => none

/-- Source `MultiplicationExplicite::addMissingFactors` for a factor that is not a
product, on the children of the receiver. -/
def addMissingFactor (env : Collaborators) (fenv : FactorCollaborators)
    (context complexFormat angleUnit : Nat) (cs : List Expr) (factor : Expr) :
    Option (List Expr) :=
  if 0 < cs.length ∧ (childAt cs 0).isRational = true ∧ factor.isRational = true then
    addMissingRational fenv cs factor
  else
    let reductionContext := ReductionContext.mk context complexFormat angleUnit .User
    let found :=
      if factor.isRational then none else findIdenticalBase cs factor cs.length 0
    match found with
    | some i => some (mergeMissingFactor env fenv reductionContext cs i factor)
    | none => some (env.sortChildren (addChildAtIndex cs factor 0))

mutual
/-- Source `MultiplicationExplicite::addMissingFactors`, on the children of the
receiver: a factor that is a product is opened, and its children are added one
after the other. -/
def addMissingFactors (env : Collaborators) (fenv : FactorCollaborators)
    (context complexFormat angleUnit : Nat) : List Expr → Expr → Option (List Expr)
  | cs, .node t fs =>
    if t = .MultiplicationExplicite then
      addMissingFactorsEach env fenv context complexFormat angleUnit cs fs
    else addMissingFactor env fenv context complexFormat angleUnit cs (.node t fs)
/-- The loop of `addMissingFactors` over the children of a factor that is a
product. -/
def addMissingFactorsEach (env : Collaborators) (fenv : FactorCollaborators)
    (context complexFormat angleUnit : Nat) : List Expr → List Expr → Option (List Expr)
  | cs, [] => some cs
  | cs, f :: fs =>
    match addMissingFactors env fenv context complexFormat angleUnit cs f with
    | none => none
    | some merged => addMissingFactorsEach env fenv context complexFormat angleUnit merged fs
end

/-! ## Non-numeral factors -/

/-- The loop of `HaveSameNonNumeralFactors` from index `i` on; the first argument
counts the remaining iterations. -/
def sameFactorsLoop (e1 e2 : Expr) (firstNonNumeralOperand1 firstNonNumeralOperand2 : Nat) :
    Nat → Nat → Bool
  | 0, _ => true
  | remaining + 1, i =>
    let currentChild1 := e1.childAtIndex (firstNonNumeralOperand1 + i)
    if currentChild1.isRandom
        || !(currentChild1.isIdenticalTo (e2.childAtIndex (firstNonNumeralOperand2 + i))) then
      false
    else sameFactorsLoop e1 e2 firstNonNumeralOperand1 firstNonNumeralOperand2 remaining (i + 1)

/-- Source `MultiplicationExplicite::HaveSameNonNumeralFactors`. The two
assertions on the child counts are part of the function: there is no result for
an expression without children. -/
def HaveSameNonNumeralFactors (e1 e2 : Expr) : Option Bool :=
  if e1.numberOfChildren = 0 ∨ e2.numberOfChildren = 0 then none
  else
    let numberOfNonNumeralFactors1 :=
      if (e1.childAtIndex 0).isNumber then e1.numberOfChildren - 1 else e1.numberOfChildren
    let numberOfNonNumeralFactors2 :=
      if (e2.childAtIndex 0).isNumber then e2.numberOfChildren - 1 else e2.numberOfChildren
    if numberOfNonNumeralFactors1 ≠ numberOfNonNumeralFactors2 then some false
    else
      let firstNonNumeralOperand1 := if (e1.childAtIndex 0).isNumber then 1 else 0
      let firstNonNumeralOperand2 := if (e2.childAtIndex 0).isNumber then 1 else 0
      some (sameFactorsLoop e1 e2 firstNonNumeralOperand1 firstNonNumeralOperand2
        numberOfNonNumeralFactors1 0)

/-- The children of an expression after a leading number child is skipped. -/
def nonNumeralFactors (e : Expr) : List Expr :=
  if (e.childAtIndex 0).isNumber then e.children.drop 1 else e.children

end MultiplicationExplicite

namespace Sample

/-- Reducer of the sample that also computes the opposite of a rational. -/
def factorShallowReduce (ctx : ReductionContext) (e : Expr) : Expr :=
  match e with
  | .node .Opposite [a] =>
    match a.type with
    | .Rational n d => Rational.Builder (-n) d
    | _ => e
  | _ => shallowReduce ctx e

/-- Deep reducer of the sample: the exact difference of two rationals, every
other node as it is. -/
def deepReduce (_ctx : ReductionContext) (e : Expr) : Expr :=
  match e with
  | .node .Subtraction [a, b] =>
    match a.type, b.type with
    | .Rational n1 d1, .Rational n2 d2 =>
      normalizedRational (n1 * (d2 : Int) - n2 * (d1 : Int)) (d1 * d2)
    | _, _ => e
  | _ => e

/-- Least common multiple with an overflow bound. -/
def boundedLCM (bound a b : Nat) : Option Nat :=
  if Nat.lcm a b < bound then some (Nat.lcm a b) else none

/-- The sample collaborators of `addMissingFactors`, for an overflow bound. -/
def factorCollaborators (bound : Nat) : FactorCollaborators :=
  FactorCollaborators.mk deepReduce sign (boundedLCM bound)

/-- The sample collaborators with the reducer `factorShallowReduce`. -/
def factorEnvironment : Collaborators :=
  Collaborators.mk factorShallowReduce (fun e => e) (fun cs => cs)
    (Expr.recursivelyMatches Expr.isRandom) (Expr.recursivelyMatches Expr.isInfinity)
    Expr.isMatrix allChildrenAreReal complexMultiply
    numberMultiplication numberAddition numberNaturalOrder numberSign numberSetSignPositive

end Sample

/-! ## Exponents of a missing factor

Reference definitions for the identical-base branch of `addMissingFactors`. -/

namespace MultiplicationExplicite

/-- The reduced difference of the exponents of a child and of a factor, as
`addMissingFactors` computes it. -/
def exponentGap (fenv : FactorCollaborators) (ctx : ReductionContext) (child factor : Expr) :
    Expr :=
  fenv.deepReduce ctx (Subtraction.Builder (CreateExponent child) (CreateExponent factor))

/-- The reduced opposite of `exponentGap`: the exponent that the child lacks when
the difference is negative. -/
def missingExponent (env : Collaborators) (fenv : FactorCollaborators)
    (ctx : ReductionContext) (child factor : Expr) : Expr :=
  env.shallowReduce ctx (Opposite.Builder (exponentGap fenv ctx child factor))

/-- The reduced sum of the exponent of a child and of `missingExponent`: the
exponent of the power that `mergeInChildByFactorizingBase` builds. -/
def mergedExponent (env : Collaborators) (fenv : FactorCollaborators)
    (ctx : ReductionContext) (child factor : Expr) : Expr :=
  env.shallowReduce ctx
    (Addition.Builder [CreateExponent child, missingExponent env fenv ctx child factor])

end MultiplicationExplicite

/-! ## Canonical form of a product

Reference definition for the fixed points of the reduction. -/

namespace MultiplicationExplicite

/-- Whether the children `r` of a product are in the form that a reduction pass
looks for, step by step: no child is undefined; no child is a product; the
children are in the order of the sort; the last child is not a matrix; the test of
Step 4 keeps every two neighbours apart; Step 5 has nothing to rewrite (the target
is not the user target, or no child has a sine base); no child beyond the first is
a number; the first child is not a zero that absorbs the product, nor a one beside
other children; Step 8 has no sum to distribute; there is not exactly one child;
and Step 10 does not bubble up a complex pair. -/
def isCanonical (env : Collaborators) (ctx : ReductionContext) (parentType : ExprType)
    (r : List Expr) : Bool :=
  r.all (fun c => !c.isUndefined)
    && r.all (fun c => decide (c.type ≠ .MultiplicationExplicite))
    && decide (env.sortChildren r = r)
    && !(childAt r (r.length - 1)).isMatrix
    && (List.range r.length).all (fun k =>
        decide (r.length ≤ k + 1) || keepsPairApart env (childAt r k) (childAt r (k + 1)))
    && (decide (ctx.target ≠ .User) || r.all (fun c => decide ((Base c).type ≠ .Sine)))
    && (List.range r.length).all (fun k => !(childAt r (k + 1)).isNumber)
    && !(isAbsorbedByZero env r)
    && !((childAt r 0).isRationalOne && decide (1 < r.length))
    && (!(mayDistribute parentType true (env.recursivelyMatchesIsRandom (Builder r)))
        || r.all (fun c => decide (c.type ≠ .Addition)))
    && decide (r.length ≠ 1)
    && (env.recursivelyMatchesIsRandom (Builder r) || decide (env.allChildrenAreReal r ≠ 0))

end MultiplicationExplicite

/-! ## Progress of the merge pass

Reference definition for the loop of Step 4. -/

namespace MultiplicationExplicite

/-- Whether every one of the first iterations of the loop of Step 4, from the
children `cs` and the index `i` on, has a result and either advances the index by
one or leaves one child less: no merged power of these iterations reduces to a
product and their nested reductions have a result. The first argument counts the
iterations that are looked at. -/
def mergesDropOneChild (env : Collaborators) (ctx : ReductionContext) (reduce : Reducer) :
    Nat → List Expr → Nat → Bool
  | 0, _, _ => true
  | fuel + 1, cs, i =>
    if i + 1 < cs.length then
      match gatherLikeTermsStep env ctx reduce cs i with
      | none => false
      | some (merged, j) =>
        (decide (j = i + 1) || decide (merged.length + 1 = cs.length))
          && mergesDropOneChild env ctx reduce fuel merged j
    else true

end MultiplicationExplicite

/-! ## Interruptible sleep of the Python port

Source `python/port/helpers.cpp`. The readings of the millisecond counter and the
answers of the keyboard scan are inputs of the model. -/

namespace Port

/-- The value `UINT64_MAX`. -/
def UINT64_MAX : Nat := 2 ^ 64 - 1

/-- The assignment to `timeSpent` at the end of an iteration: the conditional
expression is computed on 64 bits, `start` being promoted, and its value is stored
in a 32-bit variable. -/
def timeSpentAfter (start currentMillis : Nat) : Nat :=
  (if currentMillis > start then (currentMillis - start) % 2 ^ 64
   else (UINT64_MAX - start + currentMillis) % 2 ^ 64) % 2 ^ 32

/-- The argument of `Ion::Timing::msleep` in an iteration. -/
def sleepChunk (delay timeSpent : Nat) : Nat :=
  let millisPerSleep := 100
  let lastLoop := decide (millisPerSleep > delay - timeSpent)
  if lastLoop then delay - timeSpent else millisPerSleep

/-- The loop of `micropython_port_interruptible_msleep`. An iteration takes one
event: the answer of `micropython_port_interrupt_if_needed`, asked for only when
the iteration is not the last one, and the reading of `Ion::Timing::millis` that
follows the sleep. The result is the returned value, none when the events run
out before the loop ends, and the arguments of the calls of `msleep` in order. -/
def msleepLoop (delay start : Nat) : List (Bool × Nat) → Nat → List Nat →
    Option Bool × List Nat
  | events, timeSpent, slept =>
    if timeSpent < delay then
      let millisPerSleep := 100
      let lastLoop := decide (millisPerSleep > delay - timeSpent)
      let slept := slept ++ [sleepChunk delay timeSpent]
      match events with
      | [] => (none, slept)
      | (interrupted, currentMillis) :: rest =>
        if !lastLoop && interrupted then (some true, slept)
        else msleepLoop delay start rest (timeSpentAfter start currentMillis) slept
    else (some false, slept)

/-- Source `micropython_port_interruptible_msleep`: `firstMillis` is the reading
of the 64-bit counter at the entry, stored in the 32-bit variable `start`. -/
def micropython_port_interruptible_msleep (delay firstMillis : Nat)
    (events : List (Bool × Nat)) : Option Bool × List Nat :=
  let start := firstMillis % 2 ^ 32
  msleepLoop delay start events 0 []

end Port

/-! ## Theorems -/

namespace MultiplicationExplicite

/-! ### Child-list primitives -/

theorem type_node (t : ExprType) (cs : List Expr) : (Expr.node t cs).type = t := rfl

theorem children_node (t : ExprType) (cs : List Expr) : (Expr.node t cs).children = cs := rfl

theorem childAt_removeChildAtIndex_of_lt (cs : List Expr) (i j : Nat) (h : i < j) :
    childAt (removeChildAtIndex cs j) i = childAt cs i := by
  simp [childAt, removeChildAtIndex, List.getElem?_eraseIdx_of_lt _ _ _ h]

theorem childAt_replaceChildAtIndex_self (cs : List Expr) (i : Nat) (e : Expr)
    (h : i < cs.length) : childAt (replaceChildAtIndex cs i e) i = e := by
  simp [childAt, replaceChildAtIndex, List.getElem?_set_self h]

theorem length_removeChildAtIndex (cs : List Expr) (j : Nat) (h : j < cs.length) :
    (removeChildAtIndex cs j).length + 1 = cs.length := by
  simp only [removeChildAtIndex, List.length_eraseIdx, if_pos h]
  omega

theorem childAt_eq_getElem_of_lt (cs : List Expr) (i : Nat) (h : i < cs.length) :
    childAt cs i = cs[i] := by
  simp [childAt, List.getElem?_eq_getElem h]

theorem childAt_mem (cs : List Expr) (i : Nat) (h : i < cs.length) : childAt cs i ∈ cs := by
  simp only [childAt, List.getD_eq_getElem?_getD, List.getElem?_eq_getElem h, Option.getD_some]
  exact List.getElem_mem h

theorem mergeMultiplicationChildrenLoop_eq_self (fuel : Nat) (cs : List Expr) (i : Nat)
    (h : ∀ c ∈ cs, c.type ≠ .MultiplicationExplicite) :
    mergeMultiplicationChildrenLoop fuel cs i = cs := by
  induction fuel generalizing i with
  | zero => rfl
  | succ fuel ih =>
    unfold mergeMultiplicationChildrenLoop
    by_cases hi : i < cs.length
    · simp only [if_pos hi, if_neg (h _ (childAt_mem cs i hi))]
      exact ih (i + 1)
    · simp only [if_neg hi]

theorem mergeMultiplicationChildrenInPlace_eq_self (cs : List Expr)
    (h : ∀ c ∈ cs, c.type ≠ .MultiplicationExplicite) :
    mergeMultiplicationChildrenInPlace cs = cs :=
  mergeMultiplicationChildrenLoop_eq_self _ cs 0 h

theorem forestSize_append (as bs : List Expr) :
    Expr.forestSize (as ++ bs) = Expr.forestSize as + Expr.forestSize bs := by
  induction as with
  | nil => simp [Expr.forestSize]
  | cons a as ih => simp [Expr.forestSize, ih, Nat.add_assoc]

theorem treeSize_eq (c : Expr) : c.treeSize = 1 + Expr.forestSize c.children := by
  cases c with
  | node t cs => simp [Expr.treeSize, children_node]

theorem drop_eq_childAt_cons (cs : List Expr) (i : Nat) (h : i < cs.length) :
    cs.drop i = childAt cs i :: cs.drop (i + 1) := by
  rw [List.drop_eq_getElem_cons h]
  simp [childAt, List.getElem?_eq_getElem h]

/-- The bound of the loop of `mergeMultiplicationChildrenInPlace` is enough: when
the node count of the children from index `i` on is at most the bound, the loop
runs to the end of the list and leaves no child that is a product. -/
theorem mergeMultiplicationChildrenLoop_no_product (fuel : Nat) :
    ∀ (cs : List Expr) (i : Nat),
      Expr.forestSize (cs.drop i) ≤ fuel →
      (∀ c ∈ cs.take i, c.type ≠ .MultiplicationExplicite) →
      ∀ c ∈ mergeMultiplicationChildrenLoop fuel cs i, c.type ≠ .MultiplicationExplicite := by
  induction fuel with
  | zero =>
    intro cs i hfuel hpre c hc
    have hlen : cs.length ≤ i := by
      by_contra hlt
      rw [drop_eq_childAt_cons cs i (by omega)] at hfuel
      simp only [Expr.forestSize, treeSize_eq] at hfuel
      omega
    have hall : cs.take i = cs := List.take_of_length_le hlen
    rw [hall] at hpre
    exact hpre c hc
  | succ fuel ih =>
    intro cs i hfuel hpre
    unfold mergeMultiplicationChildrenLoop
    by_cases hlt : i < cs.length
    · simp only [if_pos hlt]
      rw [drop_eq_childAt_cons cs i hlt] at hfuel
      simp only [Expr.forestSize, treeSize_eq] at hfuel
      by_cases hprod : (childAt cs i).type = .MultiplicationExplicite
      · simp only [if_pos hprod]
        have htake : (mergeChildrenAtIndex cs (childAt cs i) i).take i = cs.take i := by
          unfold mergeChildrenAtIndex
          rw [List.append_assoc, List.take_append_of_le_length (by simp; omega)]
          simp [List.take_take]
        have hdrop : (mergeChildrenAtIndex cs (childAt cs i) i).drop i
            = (childAt cs i).children ++ cs.drop (i + 1) := by
          unfold mergeChildrenAtIndex
          rw [List.append_assoc]
          have hl : (cs.take i).length = i := by simp; omega
          exact List.drop_left' hl
        refine ih _ i ?_ ?_
        · rw [hdrop, forestSize_append]
          omega
        · rw [htake]
          exact hpre
      · simp only [if_neg hprod]
        refine ih cs (i + 1) (by omega) ?_
        intro c hc
        rw [List.take_succ, List.mem_append] at hc
        rcases hc with hc | hc
        · exact hpre c hc
        · simp only [List.getElem?_eq_getElem hlt, Option.toList_some,
            List.mem_singleton] at hc
          rw [hc, ← childAt_eq_getElem_of_lt cs i hlt]
          exact hprod
    · simp only [if_neg hlt]
      have hall : cs.take i = cs := List.take_of_length_le (by omega)
      rw [hall] at hpre
      exact hpre

/-- After `mergeMultiplicationChildrenInPlace` no child is a product. -/
theorem mergeMultiplicationChildrenInPlace_no_product (cs : List Expr) :
    ∀ c ∈ mergeMultiplicationChildrenInPlace cs, c.type ≠ .MultiplicationExplicite :=
  mergeMultiplicationChildrenLoop_no_product _ cs 0 (by simp) (by simp)

theorem privateShallowReduce_succ (env : Collaborators) (ctx : ReductionContext) (fuel : Nat)
    (parentType : ExprType) (shouldExpand : Bool) (cs : List Expr) :
    privateShallowReduce env ctx (fuel + 1) parentType shouldExpand cs
      = privateShallowReduceBody env ctx (nestedReducer env ctx fuel) (fuel + 1)
          parentType shouldExpand cs := rfl

theorem isRationalOne_of_not_isNumber (x : Expr) (h : x.isNumber = false) :
    x.isRationalOne = false := by
  cases x with
  | node t cs => cases t <;> simp_all [Expr.isNumber, Expr.isRationalOne, type_node]

theorem isRationalZero_of_not_isNumber (x : Expr) (h : x.isNumber = false) :
    x.isRationalZero = false := by
  cases x with
  | node t cs => cases t <;> simp_all [Expr.isNumber, Expr.isRationalZero, type_node]

theorem isUndefined_of_not_isNumber (x : Expr) (h : x.isNumber = false) :
    x.isUndefined = false := by
  cases x with
  | node t cs => cases t <;> simp_all [Expr.isNumber, Expr.isUndefined, type_node]

theorem defaultShallowReduce_not_undefined (cs : List Expr)
    (h : ∀ c ∈ cs, c.isUndefined = false) :
    (defaultShallowReduce (Builder cs)).isUndefined = false := by
  have hany : (Builder cs).children.any Expr.isUndefined = false := by
    rw [List.any_eq_false]
    intro c hc
    rw [h c hc]
    exact Bool.false_ne_true
  unfold defaultShallowReduce
  rw [hany]
  rfl

/-- The pipeline of `privateShallowReduce` when no child is undefined and the last
sorted child is not a matrix: Steps 7 to 10 run on the children left by Step 6. -/
theorem privateShallowReduce_eq_collapseAndExpand (env : Collaborators)
    (ctx : ReductionContext) (fuel : Nat) (parentType : ExprType) (shouldExpand : Bool)
    (cs cs6 : List Expr)
    (hdef : (defaultShallowReduce (Builder cs)).isUndefined = false)
    (hmat : (childAt (env.sortChildren (mergeMultiplicationChildrenInPlace cs))
      ((env.sortChildren (mergeMultiplicationChildrenInPlace cs)).length - 1)).isMatrix = false)
    (h6 : childrenAfterFolding env ctx (nestedReducer env ctx fuel) (fuel + 1) cs = some cs6) :
    privateShallowReduce env ctx (fuel + 1) parentType shouldExpand cs
      = collapseAndExpand env ctx (nestedReducer env ctx fuel) parentType shouldExpand cs6 := by
  simp [privateShallowReduce_succ, privateShallowReduceBody, hdef, hmat, h6]

/-- The merge pass keeps a rational leaf followed by any factor apart. -/
theorem gatherLikeTermsStep_rational_first (env : Collaborators) (ctx : ReductionContext)
    (reduce : Reducer) (n : Int) (d : Nat) (x : Expr) :
    gatherLikeTermsStep env ctx reduce [Rational.Builder n d, x] 0
      = some ([Rational.Builder n d, x], 1) := by
  have hN : TermHasNumeralBase (Rational.Builder n d) = true := rfl
  have hT : (Rational.Builder n d).type ≠ .Power := by simp [Rational.Builder, type_node]
  have hE : TermsHaveIdenticalExponent (Rational.Builder n d) x = false := by
    simp [TermsHaveIdenticalExponent, hT]
  have h0 : childAt [Rational.Builder n d, x] 0 = Rational.Builder n d := rfl
  have h1 : childAt [Rational.Builder n d, x] (0 + 1) = x := rfl
  simp only [gatherLikeTermsStep, h0, h1, hN, hE, hT]
  split_ifs <;> simp_all

/-- Step 5 leaves a rational leaf followed by one factor unchanged. -/
theorem factorizeSineAndCosineLoop_rational_first (env : Collaborators)
    (ctx : ReductionContext) (n : Int) (d : Nat) (x : Expr) :
    factorizeSineAndCosineLoop env ctx 2 [Rational.Builder n d, x] 0
      = [Rational.Builder n d, x] := by
  simp [factorizeSineAndCosineLoop, childAt, Base, Rational.Builder, type_node,
    findCosineFactor]

/-- Step 5 leaves a single factor unchanged. -/
theorem factorizeSineAndCosineLoop_single (env : Collaborators) (ctx : ReductionContext)
    (x : Expr) : factorizeSineAndCosineLoop env ctx 1 [x] 0 = [x] := by
  simp [factorizeSineAndCosineLoop, childAt, findCosineFactor]

/-- Steps 1 to 6 keep a rational leaf followed by a factor that is neither a number
nor a product, when the order keeps the two in place. -/
theorem childrenAfterFolding_rational_first (env : Collaborators) (ctx : ReductionContext)
    (reduce : Reducer) (fuel : Nat) (n : Int) (d : Nat) (x : Expr)
    (hnum : x.isNumber = false) (hprod : x.type ≠ .MultiplicationExplicite)
    (hsort : env.sortChildren [Rational.Builder n d, x] = [Rational.Builder n d, x]) :
    childrenAfterFolding env ctx reduce (fuel + 2) [Rational.Builder n d, x]
      = some [Rational.Builder n d, x] := by
  have hflat : mergeMultiplicationChildrenInPlace [Rational.Builder n d, x]
      = [Rational.Builder n d, x] :=
    mergeMultiplicationChildrenInPlace_eq_self _
      (by simp [Rational.Builder, type_node, hprod])
  have hloop : gatherLikeTermsLoop env ctx reduce (fuel + 2) [Rational.Builder n d, x] 0
      = some [Rational.Builder n d, x] := by
    simp [gatherLikeTermsLoop, gatherLikeTermsStep_rational_first]
  have hstep5 : factorizeSineAndCosineStep env ctx [Rational.Builder n d, x]
      = [Rational.Builder n d, x] := by
    unfold factorizeSineAndCosineStep
    split_ifs
    · simp only [List.length_cons, List.length_nil, Nat.zero_add, Nat.reduceAdd]
      rw [factorizeSineAndCosineLoop_rational_first, hsort]
    · rfl
  have hfold : numeralFolding env [Rational.Builder n d, x] = [Rational.Builder n d, x] := by
    simp [numeralFolding, numeralFoldingLoop, childAt, hnum,
      isRationalOne_of_not_isNumber x hnum]
  simp only [childrenAfterFolding, hflat, hsort, hloop, hstep5, hfold]

/-- Steps 1 to 6 keep a single factor that is neither a number nor a product, when
the order keeps it in place. -/
theorem childrenAfterFolding_single (env : Collaborators) (ctx : ReductionContext)
    (reduce : Reducer) (fuel : Nat) (x : Expr)
    (hprod : x.type ≠ .MultiplicationExplicite)
    (hsort : env.sortChildren [x] = [x]) :
    childrenAfterFolding env ctx reduce (fuel + 1) [x] = some [x] := by
  have hflat : mergeMultiplicationChildrenInPlace [x] = [x] :=
    mergeMultiplicationChildrenInPlace_eq_self _ (by simp [hprod])
  have hloop : gatherLikeTermsLoop env ctx reduce (fuel + 1) [x] 0 = some [x] := by
    simp [gatherLikeTermsLoop]
  have hstep5 : factorizeSineAndCosineStep env ctx [x] = [x] := by
    unfold factorizeSineAndCosineStep
    split_ifs
    · simp only [List.length_cons, List.length_nil, Nat.zero_add]
      rw [factorizeSineAndCosineLoop_single, hsort]
    · rfl
  have hfold : numeralFolding env [x] = [x] := by
    simp [numeralFolding, numeralFoldingLoop]
  simp only [childrenAfterFolding, hflat, hsort, hloop, hstep5, hfold]

/-! ### Base merge -/

/-- C1. Base merge. In an iteration of the merge pass at index `i`, when children
`i` and `i+1` have identical bases, the base is not a number and child `i` matches
no random primitive, `factorizeBase` is applied and the index stays: child `i`
becomes the reduction of `power(base, reduce(exponent_i + exponent_{i+1}))` and
child `i+1` is removed, so there is one child less when the reduced power is not a
product. In particular `Product(pow(pi,2), pow(pi,3))` reduces to `pow(pi,5)` as
soon as the sum `2+3` reduces to `5`, `pow(pi,5)` is reduced already and the
order keeps the lists at hand. -/
theorem base_merge :
    (∀ (env : Collaborators) (ctx : ReductionContext) (reduce : Reducer)
        (cs : List Expr) (i : Nat),
        i + 1 < cs.length →
        env.recursivelyMatchesIsRandom (childAt cs i) = false →
        TermsHaveIdenticalBase (childAt cs i) (childAt cs (i + 1)) = true →
        (Base (childAt cs i)).isNumber = false →
        gatherLikeTermsStep env ctx reduce cs i
            = some (factorizeBase env ctx cs i (i + 1), i)
          ∧ ((env.shallowReduce ctx (Power.Builder (Base (childAt cs i))
                (env.shallowReduce ctx (Addition.Builder
                  [CreateExponent (childAt cs i), CreateExponent (childAt cs (i + 1))])))).type
              ≠ .MultiplicationExplicite →
            factorizeBase env ctx cs i (i + 1)
                = replaceChildAtIndex (removeChildAtIndex cs (i + 1)) i
                    (env.shallowReduce ctx (Power.Builder (Base (childAt cs i))
                      (env.shallowReduce ctx (Addition.Builder
                        [CreateExponent (childAt cs i), CreateExponent (childAt cs (i + 1))]))))
              ∧ (factorizeBase env ctx cs i (i + 1)).length + 1 = cs.length))
    ∧ (∀ (env : Collaborators) (ctx : ReductionContext) (fuel : Nat) (parentType : ExprType),
        env.sortChildren [Power.Builder Sample.pi (Sample.integer 2),
            Power.Builder Sample.pi (Sample.integer 3)]
          = [Power.Builder Sample.pi (Sample.integer 2),
              Power.Builder Sample.pi (Sample.integer 3)] →
        env.sortChildren [Power.Builder Sample.pi (Sample.integer 5)]
          = [Power.Builder Sample.pi (Sample.integer 5)] →
        env.recursivelyMatchesIsRandom (Power.Builder Sample.pi (Sample.integer 2)) = false →
        env.shallowReduce ctx (Addition.Builder [Sample.integer 2, Sample.integer 3])
          = Sample.integer 5 →
        env.shallowReduce ctx (Power.Builder Sample.pi (Sample.integer 5))
          = Power.Builder Sample.pi (Sample.integer 5) →
        shallowReduce env ctx (fuel + 2) parentType
            [Power.Builder Sample.pi (Sample.integer 2),
              Power.Builder Sample.pi (Sample.integer 3)]
          = some (Power.Builder Sample.pi (Sample.integer 5))) := by
  refine ⟨?_, ?_⟩
  · intro env ctx reduce cs i hi hrandom hbase hnum
    refine ⟨?_, ?_⟩
    · simp [gatherLikeTermsStep, hrandom, hbase, TermHasNumeralBase, hnum]
    · intro hp
      have hget : childAt (removeChildAtIndex cs (i + 1)) i = childAt cs i :=
        childAt_removeChildAtIndex_of_lt cs i (i + 1) (Nat.lt_succ_self i)
      have hlen := length_removeChildAtIndex cs (i + 1) hi
      simp only [factorizeBase, mergeInChildByFactorizingBase, hget, if_neg hp]
      refine ⟨trivial, ?_⟩
      simp only [replaceChildAtIndex, List.length_set]
      exact hlen
  · intro env ctx fuel parentType hsort2 hsort1 hrandom hsum hpow
    simp only [Power.Builder, Sample.pi, Sample.integer, Rational.Builder, Addition.Builder]
      at hsort2 hsort1 hrandom hsum hpow ⊢
    simp [shallowReduce, privateShallowReduce_succ, privateShallowReduceBody,
      childrenAfterFolding, defaultShallowReduce, Builder, Expr.isUndefined, Expr.type,
      Expr.children, mergeMultiplicationChildrenInPlace, mergeMultiplicationChildrenLoop,
      Expr.forestSize, Expr.treeSize, childAt, hsort2, Expr.isMatrix,
      gatherLikeTermsLoop, gatherLikeTermsStep, hrandom, TermsHaveIdenticalBase, Base,
      Expr.childAtIndex, Expr.isIdenticalTo, TermHasNumeralBase, Expr.isNumber, factorizeBase,
      mergeInChildByFactorizingBase, removeChildAtIndex, replaceChildAtIndex, CreateExponent,
      Power.Builder, Addition.Builder, Rational.Builder, hsum, hpow,
      factorizeSineAndCosineStep, factorizeSineAndCosineLoop, TermHasNumeralExponent,
      numeralFolding, numeralFoldingLoop, Expr.isRationalOne, collapseAndExpand,
      expandSquashAndBubble, isAbsorbedByZero, Expr.isRationalZero, removeLeadingOne, mayDistribute,
      squashUnaryHierarchyInPlace, hsort1]

theorem base_merge_witness :
    gatherLikeTermsStep Sample.collaborators Sample.userContext
        (nestedReducer Sample.collaborators Sample.userContext 1)
        [Power.Builder Sample.pi (Sample.integer 2), Power.Builder Sample.pi (Sample.integer 3)] 0
      = some ([Power.Builder Sample.pi (Sample.integer 5)], 0)
    ∧ shallowReduce Sample.collaborators Sample.userContext 2 .Uninitialized
        [Power.Builder Sample.pi (Sample.integer 2), Power.Builder Sample.pi (Sample.integer 3)]
      = some (Power.Builder Sample.pi (Sample.integer 5)) :=
  ⟨(base_merge.1 Sample.collaborators Sample.userContext
      (nestedReducer Sample.collaborators Sample.userContext 1)
      [Power.Builder Sample.pi (Sample.integer 2), Power.Builder Sample.pi (Sample.integer 3)] 0
      (by decide) (by decide) (by decide) (by decide)).1.trans (by decide),
   base_merge.2 Sample.collaborators Sample.userContext 0 .Uninitialized
      (by decide) (by decide) (by decide) (by decide) (by decide)⟩

/-! ### Exponent merge -/

/-- C2. Exponent merge. In an iteration of the merge pass at index `i`, when
children `i` and `i+1` are the powers `pow(bi, x)` and `pow(bj, x)` with number
bases `bi ≠ bj` and the same exponent, and child `i` matches no random primitive,
`factorizeExponent` is applied and the index stays: once the product of the two
bases is reduced to `m`, child `i` becomes the reduction of `pow(m, x)` and child
`i+1` is removed (one child less when the reduced power is not a product). In
particular `Product(pow(2,x), pow(3,x))` reduces to `pow(6,x)` as soon as the
number product of 2 and 3 is 6, `pow(6,x)` is reduced already and the order keeps
the lists at hand. -/
theorem exponent_merge :
    (∀ (env : Collaborators) (ctx : ReductionContext) (reduce : Reducer)
        (cs : List Expr) (i : Nat) (bi bj x : Expr),
        i + 1 < cs.length →
        childAt cs i = Power.Builder bi x →
        childAt cs (i + 1) = Power.Builder bj x →
        bi.isNumber = true → bj.isNumber = true → bi ≠ bj →
        env.recursivelyMatchesIsRandom (childAt cs i) = false →
        gatherLikeTermsStep env ctx reduce cs i
            = (reduce .Power [bi, bj]).map (fun m =>
                (if (env.shallowReduce ctx (Power.Builder m x)).type = .MultiplicationExplicite
                  then mergeMultiplicationChildrenInPlace
                    (replaceChildAtIndex (removeChildAtIndex cs (i + 1)) i
                      (env.shallowReduce ctx (Power.Builder m x)))
                  else replaceChildAtIndex (removeChildAtIndex cs (i + 1)) i
                      (env.shallowReduce ctx (Power.Builder m x)), i))
          ∧ ∀ p : Expr,
              (replaceChildAtIndex (removeChildAtIndex cs (i + 1)) i p).length + 1 = cs.length)
    ∧ (∀ (env : Collaborators) (ctx : ReductionContext) (fuel : Nat) (parentType : ExprType)
        (x : Expr),
        env.sortChildren [Power.Builder (Sample.integer 2) x, Power.Builder (Sample.integer 3) x]
          = [Power.Builder (Sample.integer 2) x, Power.Builder (Sample.integer 3) x] →
        env.sortChildren [Sample.integer 2, Sample.integer 3]
          = [Sample.integer 2, Sample.integer 3] →
        env.sortChildren [Sample.integer 6] = [Sample.integer 6] →
        env.sortChildren [Power.Builder (Sample.integer 6) x]
          = [Power.Builder (Sample.integer 6) x] →
        env.recursivelyMatchesIsRandom (Power.Builder (Sample.integer 2) x) = false →
        env.numberMultiplication (Sample.integer 2) (Sample.integer 3) = Sample.integer 6 →
        env.shallowReduce ctx (Power.Builder (Sample.integer 6) x)
          = Power.Builder (Sample.integer 6) x →
        shallowReduce env ctx (fuel + 3) parentType
            [Power.Builder (Sample.integer 2) x, Power.Builder (Sample.integer 3) x]
          = some (Power.Builder (Sample.integer 6) x)) := by
  refine ⟨?_, ?_⟩
  · intro env ctx reduce cs i bi bj x hi hci hcj hbi hbj hne hrandom
    have hget : childAt (removeChildAtIndex cs (i + 1)) i = childAt cs i :=
      childAt_removeChildAtIndex_of_lt cs i (i + 1) (Nat.lt_succ_self i)
    have hlen := length_removeChildAtIndex cs (i + 1) hi
    refine ⟨?_, ?_⟩
    · rw [hci] at hrandom hget
      simp only [gatherLikeTermsStep, factorizeExponent, hci, hcj, hget, hrandom]
      cases hr : reduce .Power [bi, bj] with
      | none =>
        simp [TermsHaveIdenticalBase, TermHasNumeralBase, TermsHaveIdenticalExponent, Base,
          Power.Builder, Expr.type, Expr.childAtIndex, Expr.children, Expr.isIdenticalTo, hne,
          hbi, hbj, hr]
      | some m =>
        simp [TermsHaveIdenticalBase, TermHasNumeralBase, TermsHaveIdenticalExponent, Base,
          Power.Builder, Expr.type, Expr.childAtIndex, Expr.children, Expr.isIdenticalTo, hne,
          hbi, hbj, hr, replaceChildAtIndex]
    · intro p
      simp only [replaceChildAtIndex, List.length_set]
      exact hlen
  · intro env ctx fuel parentType x hs1 hs2 hs3 hs4 hrandom hmul hpow
    have hflat : mergeMultiplicationChildrenInPlace
        [Power.Builder (Sample.integer 2) x, Power.Builder (Sample.integer 3) x]
          = [Power.Builder (Sample.integer 2) x, Power.Builder (Sample.integer 3) x] :=
      mergeMultiplicationChildrenInPlace_eq_self _ (by simp [Power.Builder, Expr.type])
    have hflat1 : mergeMultiplicationChildrenInPlace [Sample.integer 2, Sample.integer 3]
          = [Sample.integer 2, Sample.integer 3] :=
      mergeMultiplicationChildrenInPlace_eq_self _
        (by simp [Sample.integer, Rational.Builder, Expr.type])
    simp only [Power.Builder, Sample.integer, Rational.Builder]
      at hs1 hs2 hs3 hs4 hrandom hmul hpow hflat hflat1 ⊢
    simp [shallowReduce, privateShallowReduce_succ, privateShallowReduceBody, nestedReducer,
      childrenAfterFolding, defaultShallowReduce, Builder, Expr.isUndefined, Expr.type,
      Expr.children, hflat, hflat1, childAt, hs1, hs2, hs3, hs4, Expr.isMatrix,
      gatherLikeTermsLoop, gatherLikeTermsStep, hrandom, TermsHaveIdenticalBase, Base,
      Expr.childAtIndex, Expr.isIdenticalTo, TermHasNumeralBase, Expr.isNumber,
      TermsHaveIdenticalExponent, factorizeExponent, removeChildAtIndex, replaceChildAtIndex,
      Power.Builder, Rational.Builder, hmul, hpow,
      factorizeSineAndCosineStep, factorizeSineAndCosineLoop, TermHasNumeralExponent,
      numeralFolding, numeralFoldingLoop, Expr.isRationalOne, collapseAndExpand,
      expandSquashAndBubble, isAbsorbedByZero, Expr.isRationalZero, removeLeadingOne, mayDistribute,
      squashUnaryHierarchyInPlace]

theorem exponent_merge_witness :
    gatherLikeTermsStep Sample.collaborators Sample.userContext
        (nestedReducer Sample.collaborators Sample.userContext 2)
        [Power.Builder (Sample.integer 2) (Sample.symbol "x"),
          Power.Builder (Sample.integer 3) (Sample.symbol "x")] 0
      = some ([Power.Builder (Sample.integer 6) (Sample.symbol "x")], 0)
    ∧ shallowReduce Sample.collaborators Sample.userContext 3 .Uninitialized
        [Power.Builder (Sample.integer 2) (Sample.symbol "x"),
          Power.Builder (Sample.integer 3) (Sample.symbol "x")]
      = some (Power.Builder (Sample.integer 6) (Sample.symbol "x")) :=
  ⟨(exponent_merge.1 Sample.collaborators Sample.userContext
      (nestedReducer Sample.collaborators Sample.userContext 2)
      [Power.Builder (Sample.integer 2) (Sample.symbol "x"),
        Power.Builder (Sample.integer 3) (Sample.symbol "x")] 0
      (Sample.integer 2) (Sample.integer 3) (Sample.symbol "x")
      (by decide) (by decide) (by decide) (by decide) (by decide) (by decide)
      (by decide)).1.trans (by decide),
   exponent_merge.2 Sample.collaborators Sample.userContext 0 .Uninitialized (Sample.symbol "x")
      (by decide) (by decide) (by decide) (by decide) (by decide) (by decide) (by decide)⟩

/-! ### Numeral-base merge policy -/

/-- C3, counterexample. The two children `pow(2, random())` and `pow(2, random())`
have the same base, this base is a number and both are Power nodes, yet the
iteration of the merge pass does not merge them by base: child `i` matches the
random predicate, the children are kept and the index advances. -/
theorem numeral_base_policy_counterexample :
    TermsHaveIdenticalBase (Power.Builder (Sample.integer 2) (.node .Random []))
        (Power.Builder (Sample.integer 2) (.node .Random [])) = true
    ∧ TermHasNumeralBase (Power.Builder (Sample.integer 2) (.node .Random [])) = true
    ∧ (Power.Builder (Sample.integer 2) (.node .Random [])).type = .Power
    ∧ gatherLikeTermsStep Sample.collaborators Sample.userContext
          (nestedReducer Sample.collaborators Sample.userContext 1)
          [Power.Builder (Sample.integer 2) (.node .Random []),
            Power.Builder (Sample.integer 2) (.node .Random [])] 0
        ≠ some (factorizeBase Sample.collaborators Sample.userContext
            [Power.Builder (Sample.integer 2) (.node .Random []),
              Power.Builder (Sample.integer 2) (.node .Random [])] 0 1, 0)
    ∧ gatherLikeTermsStep Sample.collaborators Sample.userContext
          (nestedReducer Sample.collaborators Sample.userContext 1)
          [Power.Builder (Sample.integer 2) (.node .Random []),
            Power.Builder (Sample.integer 2) (.node .Random [])] 0
        = some ([Power.Builder (Sample.integer 2) (.node .Random []),
            Power.Builder (Sample.integer 2) (.node .Random [])], 1) := by
  decide

/-- C3, amended. When children `i` and `i+1` have the same base, that base is a
number and child `i` matches no random primitive, the iteration of the merge pass
merges them by base if and only if both children are Power nodes, and otherwise
keeps the children and advances. So the merge pass keeps the two factors of
`Product(2, 2^(1/2))`, while it merges `Product(2^(1/2), 2^(3/2))` (first factor
free of random) into the reduction of the power of 2 with exponent the reduction
of `1/2 + 3/2`. -/
theorem numeral_base_policy :
    (∀ (env : Collaborators) (ctx : ReductionContext) (reduce : Reducer)
        (cs : List Expr) (i : Nat),
        env.recursivelyMatchesIsRandom (childAt cs i) = false →
        TermsHaveIdenticalBase (childAt cs i) (childAt cs (i + 1)) = true →
        TermHasNumeralBase (childAt cs i) = true →
        (gatherLikeTermsStep env ctx reduce cs i = some (factorizeBase env ctx cs i (i + 1), i)
            ↔ ((childAt cs i).type = .Power ∧ (childAt cs (i + 1)).type = .Power))
          ∧ (¬ ((childAt cs i).type = .Power ∧ (childAt cs (i + 1)).type = .Power) →
              gatherLikeTermsStep env ctx reduce cs i = some (cs, i + 1)))
    ∧ (∀ (env : Collaborators) (ctx : ReductionContext) (reduce : Reducer) (fuel : Nat),
        gatherLikeTermsLoop env ctx reduce (fuel + 2)
            [Sample.integer 2, Power.Builder (Sample.integer 2) (Rational.Builder 1 2)] 0
          = some [Sample.integer 2, Power.Builder (Sample.integer 2) (Rational.Builder 1 2)])
    ∧ (∀ (env : Collaborators) (ctx : ReductionContext) (reduce : Reducer) (fuel : Nat),
        env.recursivelyMatchesIsRandom
            (Power.Builder (Sample.integer 2) (Rational.Builder 1 2)) = false →
        (env.shallowReduce ctx (Power.Builder (Sample.integer 2)
            (env.shallowReduce ctx
              (Addition.Builder [Rational.Builder 1 2, Rational.Builder 3 2])))).type
          ≠ .MultiplicationExplicite →
        gatherLikeTermsLoop env ctx reduce (fuel + 2)
            [Power.Builder (Sample.integer 2) (Rational.Builder 1 2),
              Power.Builder (Sample.integer 2) (Rational.Builder 3 2)] 0
          = some [env.shallowReduce ctx (Power.Builder (Sample.integer 2)
              (env.shallowReduce ctx
                (Addition.Builder [Rational.Builder 1 2, Rational.Builder 3 2])))]) := by
  refine ⟨?_, ?_, ?_⟩
  · intro env ctx reduce cs i hrandom hbase hnum
    by_cases hp : (childAt cs i).type = .Power ∧ (childAt cs (i + 1)).type = .Power
    · simp [gatherLikeTermsStep, hrandom, hbase, hnum, hp.1, hp.2]
    · have hstep : gatherLikeTermsStep env ctx reduce cs i = some (cs, i + 1) := by
        simp only [gatherLikeTermsStep, hrandom, hbase, hnum]
        simp only [not_and] at hp
        by_cases h1 : (childAt cs i).type = .Power
        · simp [h1, hp h1]
        · simp [h1]
      refine ⟨?_, fun _ => hstep⟩
      rw [hstep]
      simp [hp]
  · intro env ctx reduce fuel
    simp [gatherLikeTermsLoop, gatherLikeTermsStep, childAt, TermsHaveIdenticalBase, Base,
      Expr.type, Expr.childAtIndex, Expr.children, Expr.isIdenticalTo, TermHasNumeralBase,
      Expr.isNumber, Power.Builder, Sample.integer, Rational.Builder]
  · intro env ctx reduce fuel hrandom hp
    simp only [Power.Builder, Sample.integer, Rational.Builder, Addition.Builder]
      at hrandom hp ⊢
    simp [gatherLikeTermsLoop, gatherLikeTermsStep, childAt, TermsHaveIdenticalBase, Base,
      type_node, Expr.childAtIndex, children_node, Expr.isIdenticalTo, TermHasNumeralBase,
      Expr.isNumber, Power.Builder, Rational.Builder, Addition.Builder, hrandom, factorizeBase,
      mergeInChildByFactorizingBase, removeChildAtIndex, replaceChildAtIndex, CreateExponent, hp]

theorem numeral_base_policy_witness :
    gatherLikeTermsStep Sample.collaborators Sample.userContext
        (nestedReducer Sample.collaborators Sample.userContext 1)
        [Sample.integer 2, Power.Builder (Sample.integer 2) (Rational.Builder 1 2)] 0
      = some ([Sample.integer 2, Power.Builder (Sample.integer 2) (Rational.Builder 1 2)], 1)
    ∧ gatherLikeTermsLoop Sample.collaborators Sample.userContext
        (nestedReducer Sample.collaborators Sample.userContext 1) 2
        [Power.Builder (Sample.integer 2) (Rational.Builder 1 2),
          Power.Builder (Sample.integer 2) (Rational.Builder 3 2)] 0
      = some [Sample.integer 4] :=
  ⟨(numeral_base_policy.1 Sample.collaborators Sample.userContext
      (nestedReducer Sample.collaborators Sample.userContext 1)
      [Sample.integer 2, Power.Builder (Sample.integer 2) (Rational.Builder 1 2)] 0
      (by decide) (by decide) (by decide)).2 (by decide),
   (numeral_base_policy.2.2 Sample.collaborators Sample.userContext
      (nestedReducer Sample.collaborators Sample.userContext 1) 0
      (by decide) (by decide)).trans (by decide)⟩

/-! ### Zero absorption -/

/-- C4, counterexample. The matrix `[[1]]` is a finite factor (it does not match
the infinity predicate), yet `Product(0, [[1]])` does not reduce to `0`: Step 3
distributes the scalar `0` on the cells and the result is the matrix `[[0]]`. -/
theorem zero_absorption_counterexample :
    Sample.collaborators.recursivelyMatchesIsInfinity (Matrix.Builder 1 1 [Sample.integer 1])
        = false
    ∧ shallowReduce Sample.collaborators Sample.userContext 3 .Uninitialized
          [Sample.integer 0, Matrix.Builder 1 1 [Sample.integer 1]]
        = some (Matrix.Builder 1 1 [Sample.integer 0])
    ∧ shallowReduce Sample.collaborators Sample.userContext 3 .Uninitialized
          [Sample.integer 0, Matrix.Builder 1 1 [Sample.integer 1]]
        ≠ some (Sample.integer 0) := by
  decide

/-- C4, amended. For every product without undefined child whose last sorted child
is not a matrix, if the first child left by numeral folding is the rational zero
and no other child matches the infinity predicate, the reduction returns that
zero. So `Product(0, x)` reduces to `0` for every factor `x` that is not a number,
a product or a matrix and does not match the infinity predicate, when the order
keeps `0` before `x`. -/
theorem zero_absorption :
    (∀ (env : Collaborators) (ctx : ReductionContext) (fuel : Nat) (parentType : ExprType)
        (shouldExpand : Bool) (cs cs6 : List Expr),
        (defaultShallowReduce (Builder cs)).isUndefined = false →
        (childAt (env.sortChildren (mergeMultiplicationChildrenInPlace cs))
          ((env.sortChildren (mergeMultiplicationChildrenInPlace cs)).length - 1)).isMatrix
            = false →
        childrenAfterFolding env ctx (nestedReducer env ctx fuel) (fuel + 1) cs = some cs6 →
        (childAt cs6 0).isRationalZero = true →
        (∀ c ∈ cs6.drop 1, env.recursivelyMatchesIsInfinity c = false) →
        privateShallowReduce env ctx (fuel + 1) parentType shouldExpand cs
          = some (childAt cs6 0))
    ∧ (∀ (env : Collaborators) (ctx : ReductionContext) (fuel : Nat) (parentType : ExprType)
        (x : Expr),
        x.isNumber = false → x.type ≠ .MultiplicationExplicite → x.isMatrix = false →
        env.recursivelyMatchesIsInfinity x = false →
        env.sortChildren [Sample.integer 0, x] = [Sample.integer 0, x] →
        shallowReduce env ctx (fuel + 2) parentType [Sample.integer 0, x]
          = some (Sample.integer 0)) := by
  have general : ∀ (env : Collaborators) (ctx : ReductionContext) (fuel : Nat)
      (parentType : ExprType) (shouldExpand : Bool) (cs cs6 : List Expr),
      (defaultShallowReduce (Builder cs)).isUndefined = false →
      (childAt (env.sortChildren (mergeMultiplicationChildrenInPlace cs))
        ((env.sortChildren (mergeMultiplicationChildrenInPlace cs)).length - 1)).isMatrix
          = false →
      childrenAfterFolding env ctx (nestedReducer env ctx fuel) (fuel + 1) cs = some cs6 →
      (childAt cs6 0).isRationalZero = true →
      (∀ c ∈ cs6.drop 1, env.recursivelyMatchesIsInfinity c = false) →
      privateShallowReduce env ctx (fuel + 1) parentType shouldExpand cs
        = some (childAt cs6 0) := by
    intro env ctx fuel parentType shouldExpand cs cs6 hdef hmat h6 hzero hinf
    rw [privateShallowReduce_eq_collapseAndExpand env ctx fuel parentType shouldExpand cs cs6
      hdef hmat h6]
    have hany : (cs6.drop 1).any env.recursivelyMatchesIsInfinity = false := by
      rw [List.any_eq_false]
      intro c hc
      simp [hinf c hc]
    have habs : isAbsorbedByZero env cs6 = true := by
      unfold isAbsorbedByZero
      rw [hzero, hany]
      rfl
    unfold collapseAndExpand
    rw [if_pos habs]
  refine ⟨general, ?_⟩
  intro env ctx fuel parentType x hnum hprod hmat hinf hsort
  have hflat : mergeMultiplicationChildrenInPlace [Sample.integer 0, x]
      = [Sample.integer 0, x] :=
    mergeMultiplicationChildrenInPlace_eq_self _
      (by simp [Sample.integer, Rational.Builder, type_node, hprod])
  have h := general env ctx (fuel + 1) parentType true [Sample.integer 0, x]
    [Sample.integer 0, x]
    (defaultShallowReduce_not_undefined _ (by
      intro c hc
      simp only [List.mem_cons, List.mem_singleton, List.not_mem_nil, or_false] at hc
      rcases hc with rfl | rfl
      · rfl
      · exact isUndefined_of_not_isNumber _ hnum))
    (by rw [hflat, hsort]; exact hmat)
    (childrenAfterFolding_rational_first env ctx _ fuel 0 1 x hnum hprod hsort)
    rfl
    (by
      intro c hc
      simp only [List.drop_succ_cons, List.drop_zero, List.mem_singleton] at hc
      rw [hc]
      exact hinf)
  exact h

theorem zero_absorption_witness :
    shallowReduce Sample.collaborators Sample.userContext 2 .Uninitialized
        [Sample.integer 0, Sample.symbol "x"] = some (Sample.integer 0) :=
  zero_absorption.2 Sample.collaborators Sample.userContext 0 .Uninitialized
    (Sample.symbol "x") (by decide) (by decide) (by decide) (by decide) (by decide)

/-! ### Zero times an unresolved infinity -/

/-- C5, counterexample. `pow(e, infinity)` matches the infinity predicate and the
coefficient of `Product(0, pow(e, infinity))` is the rational zero, yet the
reduction does not return the undefined marker: it returns the product itself. -/
theorem zero_times_infinity_counterexample :
    Sample.collaborators.recursivelyMatchesIsInfinity
        (Power.Builder Sample.euler (.node (.Infinity false) [])) = true
    ∧ shallowReduce Sample.collaborators Sample.userContext 2 .Uninitialized
          [Sample.integer 0, Power.Builder Sample.euler (.node (.Infinity false) [])]
        = some (Builder
            [Sample.integer 0, Power.Builder Sample.euler (.node (.Infinity false) [])])
    ∧ shallowReduce Sample.collaborators Sample.userContext 2 .Uninitialized
          [Sample.integer 0, Power.Builder Sample.euler (.node (.Infinity false) [])]
        ≠ some Undefined.Builder := by
  decide

/-- C5, amended. For a product without undefined child whose last sorted child is
not a matrix, if the first child left by numeral folding is the rational zero and
another child matches the infinity predicate, the product is not collapsed to
zero; when moreover no child is a sum and the ternary reality predicate is not 0
(no complex bubbling), the reduction returns the product itself with the folded
children. So `Product(0, pow(e, infinity))` is returned as it is. -/
theorem zero_times_infinity :
    (∀ (env : Collaborators) (ctx : ReductionContext) (fuel : Nat) (parentType : ExprType)
        (shouldExpand : Bool) (cs cs6 : List Expr),
        (defaultShallowReduce (Builder cs)).isUndefined = false →
        (childAt (env.sortChildren (mergeMultiplicationChildrenInPlace cs))
          ((env.sortChildren (mergeMultiplicationChildrenInPlace cs)).length - 1)).isMatrix
            = false →
        childrenAfterFolding env ctx (nestedReducer env ctx fuel) (fuel + 1) cs = some cs6 →
        (childAt cs6 0).isRationalZero = true →
        (∃ c ∈ cs6.drop 1, env.recursivelyMatchesIsInfinity c = true) →
        (∀ c ∈ cs6, c.type ≠ .Addition) →
        env.allChildrenAreReal cs6 ≠ 0 →
        privateShallowReduce env ctx (fuel + 1) parentType shouldExpand cs
          = some (Builder cs6))
    ∧ (∀ (env : Collaborators) (ctx : ReductionContext) (fuel : Nat) (parentType : ExprType),
        env.sortChildren
            [Sample.integer 0, Power.Builder Sample.euler (.node (.Infinity false) [])]
          = [Sample.integer 0, Power.Builder Sample.euler (.node (.Infinity false) [])] →
        env.recursivelyMatchesIsInfinity
            (Power.Builder Sample.euler (.node (.Infinity false) [])) = true →
        env.allChildrenAreReal
            [Sample.integer 0, Power.Builder Sample.euler (.node (.Infinity false) [])] ≠ 0 →
        shallowReduce env ctx (fuel + 2) parentType
            [Sample.integer 0, Power.Builder Sample.euler (.node (.Infinity false) [])]
          = some (Builder
              [Sample.integer 0, Power.Builder Sample.euler (.node (.Infinity false) [])])) := by
  have general : ∀ (env : Collaborators) (ctx : ReductionContext) (fuel : Nat)
      (parentType : ExprType) (shouldExpand : Bool) (cs cs6 : List Expr),
      (defaultShallowReduce (Builder cs)).isUndefined = false →
      (childAt (env.sortChildren (mergeMultiplicationChildrenInPlace cs))
        ((env.sortChildren (mergeMultiplicationChildrenInPlace cs)).length - 1)).isMatrix
          = false →
      childrenAfterFolding env ctx (nestedReducer env ctx fuel) (fuel + 1) cs = some cs6 →
      (childAt cs6 0).isRationalZero = true →
      (∃ c ∈ cs6.drop 1, env.recursivelyMatchesIsInfinity c = true) →
      (∀ c ∈ cs6, c.type ≠ .Addition) →
      env.allChildrenAreReal cs6 ≠ 0 →
      privateShallowReduce env ctx (fuel + 1) parentType shouldExpand cs
        = some (Builder cs6) := by
    intro env ctx fuel parentType shouldExpand cs cs6 hdef hmat h6 hzero hinf hsum hreal
    rw [privateShallowReduce_eq_collapseAndExpand env ctx fuel parentType shouldExpand cs cs6
      hdef hmat h6]
    have hany : (cs6.drop 1).any env.recursivelyMatchesIsInfinity = true := by
      rw [List.any_eq_true]
      exact hinf
    have hone : (childAt cs6 0).isRationalOne = false := by
      cases h : childAt cs6 0 with
      | node t l =>
        rw [h] at hzero
        cases t <;> simp_all [Expr.isRationalZero, Expr.isRationalOne, type_node]
    have hlen : cs6.length ≠ 1 := by
      obtain ⟨c, hc, _⟩ := hinf
      intro h1
      have : (cs6.drop 1).length = 0 := by simp [h1]
      rw [List.length_eq_zero] at this
      rw [this] at hc
      exact List.not_mem_nil c hc
    have hfind : cs6.findIdx? (fun c => decide (c.type = .Addition)) = none := by
      rw [List.findIdx?_eq_none_iff]
      intro c hc
      simpa using hsum c hc
    have habs : isAbsorbedByZero env cs6 = false := by
      unfold isAbsorbedByZero
      rw [hzero, hany]
      rfl
    have hkeep : removeLeadingOne cs6 = cs6 := by
      unfold removeLeadingOne
      simp [hone]
    unfold collapseAndExpand
    rw [habs, hkeep]
    simp [expandSquashAndBubble, hfind, hlen, hreal, squashUnaryHierarchyInPlace]
  refine ⟨general, ?_⟩
  intro env ctx fuel parentType hsort hinf hreal
  have h := general env ctx (fuel + 1) parentType true
    [Sample.integer 0, Power.Builder Sample.euler (.node (.Infinity false) [])]
    [Sample.integer 0, Power.Builder Sample.euler (.node (.Infinity false) [])]
    (by decide)
    (by
      rw [mergeMultiplicationChildrenInPlace_eq_self _ (by decide), hsort]
      decide)
    (childrenAfterFolding_rational_first env ctx _ fuel 0 1 _ (by decide) (by decide) hsort)
    (by decide)
    ⟨_, by simp, hinf⟩
    (by decide)
    hreal
  exact h

theorem zero_times_infinity_witness :
    shallowReduce Sample.collaborators Sample.userContext 2 .Uninitialized
        [Sample.integer 0, Power.Builder Sample.euler (.node (.Infinity false) [])]
      = some (Builder
          [Sample.integer 0, Power.Builder Sample.euler (.node (.Infinity false) [])]) :=
  zero_times_infinity.2 Sample.collaborators Sample.userContext 0 .Uninitialized
    (by decide) (by decide) (by decide)

/-! ### Identity elimination -/

/-- C6. Identity elimination. In Step 7, when the first child left by numeral
folding is the rational one and there are other children, that child is removed
and Steps 8 to 10 run on the remaining children; in Steps 8 to 10 a product left
with exactly one child is replaced by that child (unless this child is a sum and
distribution applies). Hence for every factor `x` that is not a number, a sum, a
product or a matrix, `Product(1, x)` and `Product(x)` both reduce to `x`, when
the order keeps the listed children in place. -/
theorem identity_elimination :
    (∀ (env : Collaborators) (ctx : ReductionContext) (reduce : Reducer)
        (parentType : ExprType) (shouldExpand : Bool) (cs : List Expr),
        (childAt cs 0).isRationalOne = true → 1 < cs.length →
        removeLeadingOne cs = removeChildAtIndex cs 0
          ∧ collapseAndExpand env ctx reduce parentType shouldExpand cs
            = expandSquashAndBubble env ctx reduce parentType shouldExpand
                (removeChildAtIndex cs 0))
    ∧ (∀ (env : Collaborators) (ctx : ReductionContext) (reduce : Reducer)
        (parentType : ExprType) (shouldExpand : Bool) (c : Expr),
        (mayDistribute parentType shouldExpand
            (env.recursivelyMatchesIsRandom (Builder [c])) = false ∨ c.type ≠ .Addition) →
        expandSquashAndBubble env ctx reduce parentType shouldExpand [c] = some c)
    ∧ (∀ (env : Collaborators) (ctx : ReductionContext) (fuel : Nat) (parentType : ExprType)
        (x : Expr),
        x.isNumber = false → x.type ≠ .Addition → x.type ≠ .MultiplicationExplicite →
        x.isMatrix = false →
        env.sortChildren [Sample.integer 1, x] = [Sample.integer 1, x] →
        shallowReduce env ctx (fuel + 2) parentType [Sample.integer 1, x] = some x)
    ∧ (∀ (env : Collaborators) (ctx : ReductionContext) (fuel : Nat) (parentType : ExprType)
        (x : Expr),
        x.isNumber = false → x.type ≠ .Addition → x.type ≠ .MultiplicationExplicite →
        x.isMatrix = false →
        env.sortChildren [x] = [x] →
        shallowReduce env ctx (fuel + 1) parentType [x] = some x) := by
  have dropOne : ∀ (env : Collaborators) (ctx : ReductionContext) (reduce : Reducer)
      (parentType : ExprType) (shouldExpand : Bool) (cs : List Expr),
      (childAt cs 0).isRationalOne = true → 1 < cs.length →
      removeLeadingOne cs = removeChildAtIndex cs 0
        ∧ collapseAndExpand env ctx reduce parentType shouldExpand cs
          = expandSquashAndBubble env ctx reduce parentType shouldExpand
              (removeChildAtIndex cs 0) := by
    intro env ctx reduce parentType shouldExpand cs hone hlen
    have hzero : (childAt cs 0).isRationalZero = false := by
      cases h : childAt cs 0 with
      | node t l =>
        rw [h] at hone
        cases t <;> simp_all [Expr.isRationalZero, Expr.isRationalOne, type_node]
    have habs : isAbsorbedByZero env cs = false := by
      unfold isAbsorbedByZero
      rw [hzero]
      rfl
    have hrm : removeLeadingOne cs = removeChildAtIndex cs 0 := by
      unfold removeLeadingOne
      rw [if_pos ⟨hone, hlen⟩]
    refine ⟨hrm, ?_⟩
    unfold collapseAndExpand
    rw [habs, hrm]
    rfl
  have single : ∀ (env : Collaborators) (ctx : ReductionContext) (reduce : Reducer)
      (parentType : ExprType) (shouldExpand : Bool) (c : Expr),
      (mayDistribute parentType shouldExpand
          (env.recursivelyMatchesIsRandom (Builder [c])) = false ∨ c.type ≠ .Addition) →
      expandSquashAndBubble env ctx reduce parentType shouldExpand [c] = some c := by
    intro env ctx reduce parentType shouldExpand c h
    rcases h with h | h
    · simp [expandSquashAndBubble, h, squashUnaryHierarchyInPlace, childAt]
    · simp [expandSquashAndBubble, h, squashUnaryHierarchyInPlace, childAt]
  refine ⟨dropOne, single, ?_, ?_⟩
  · intro env ctx fuel parentType x hnum hsum hprod hmat hsort
    have hflat : mergeMultiplicationChildrenInPlace [Sample.integer 1, x]
        = [Sample.integer 1, x] :=
      mergeMultiplicationChildrenInPlace_eq_self _
        (by simp [Sample.integer, Rational.Builder, type_node, hprod])
    have h := privateShallowReduce_eq_collapseAndExpand env ctx (fuel + 1) parentType true
      [Sample.integer 1, x] [Sample.integer 1, x]
      (defaultShallowReduce_not_undefined _ (by
        intro c hc
        simp only [List.mem_cons, List.mem_singleton, List.not_mem_nil, or_false] at hc
        rcases hc with rfl | rfl
        · rfl
        · exact isUndefined_of_not_isNumber _ hnum))
      (by rw [hflat, hsort]; exact hmat)
      (childrenAfterFolding_rational_first env ctx _ fuel 1 1 x hnum hprod hsort)
    unfold shallowReduce
    rw [h, (dropOne env ctx _ parentType true [Sample.integer 1, x] rfl (by simp)).2]
    exact single env ctx _ parentType true x (Or.inr hsum)
  · intro env ctx fuel parentType x hnum hsum hprod hmat hsort
    have hflat : mergeMultiplicationChildrenInPlace [x] = [x] :=
      mergeMultiplicationChildrenInPlace_eq_self _ (by simp [hprod])
    have h := privateShallowReduce_eq_collapseAndExpand env ctx fuel parentType true
      [x] [x]
      (defaultShallowReduce_not_undefined _ (by
        intro c hc
        simp only [List.mem_singleton] at hc
        rw [hc]
        exact isUndefined_of_not_isNumber _ hnum))
      (by rw [hflat, hsort]; exact hmat)
      (childrenAfterFolding_single env ctx _ fuel x hprod hsort)
    unfold shallowReduce
    rw [h]
    have habs : isAbsorbedByZero env [x] = false := by
      unfold isAbsorbedByZero
      have : (childAt [x] 0).isRationalZero = false := isRationalZero_of_not_isNumber x hnum
      rw [this]
      rfl
    have hkeep : removeLeadingOne [x] = [x] := by
      unfold removeLeadingOne
      simp
    unfold collapseAndExpand
    rw [habs, hkeep]
    exact single env ctx _ parentType true x (Or.inr hsum)

theorem identity_elimination_witness :
    shallowReduce Sample.collaborators Sample.userContext 2 .Uninitialized
        [Sample.integer 1, Sample.symbol "x"] = some (Sample.symbol "x")
    ∧ shallowReduce Sample.collaborators Sample.userContext 1 .Uninitialized
        [Sample.symbol "x"] = some (Sample.symbol "x") :=
  ⟨identity_elimination.2.2.1 Sample.collaborators Sample.userContext 0 .Uninitialized
      (Sample.symbol "x") (by decide) (by decide) (by decide) (by decide) (by decide),
   identity_elimination.2.2.2 Sample.collaborators Sample.userContext 0 .Uninitialized
      (Sample.symbol "x") (by decide) (by decide) (by decide) (by decide) (by decide)⟩

/-! ### Coefficient position -/

theorem childAt_of_length_le (cs : List Expr) (k : Nat) (h : cs.length ≤ k) :
    childAt cs k = Expr.uninitialized := by
  simp [childAt, List.getElem?_eq_none h]

theorem isNumber_childAt_of_length_le (cs : List Expr) (k : Nat) (h : cs.length ≤ k) :
    (childAt cs k).isNumber = false := by
  rw [childAt_of_length_le cs k h]
  rfl

theorem childAt_replaceChildAtIndex_of_ne (cs : List Expr) (i k : Nat) (e : Expr)
    (h : i ≠ k) : childAt (replaceChildAtIndex cs i e) k = childAt cs k := by
  simp [childAt, replaceChildAtIndex, List.getElem?_set_ne h]

theorem addChildAtIndex_zero (cs : List Expr) (e : Expr) : addChildAtIndex cs e 0 = e :: cs := by
  simp [addChildAtIndex]

theorem childAt_cons_succ (c : Expr) (cs : List Expr) (k : Nat) :
    childAt (c :: cs) (k + 1) = childAt cs k := by
  simp [childAt]

/-- The invariant of the loop of Step 6: the children at the indices from 1 up to
the current one are not numbers, and the bound of the loop is enough to reach the
end of the list, after which no child of index at least 1 is a number. -/
theorem numeralFoldingLoop_no_number (env : Collaborators) (fuel : Nat) :
    ∀ (cs : List Expr) (i : Nat), 1 ≤ i →
      (∀ k, 1 ≤ k → k < i → (childAt cs k).isNumber = false) →
      2 * (cs.length - i) + (if (childAt cs 0).isNumber = true then 0 else 1) ≤ fuel →
      ∀ k, 1 ≤ k → (childAt (numeralFoldingLoop env fuel cs i) k).isNumber = false := by
  induction fuel with
  | zero =>
    intro cs i _ hinv hfuel k hk
    have hlen : cs.length ≤ i := by
      split_ifs at hfuel <;> omega
    show (childAt cs k).isNumber = false
    by_cases hki : k < i
    · exact hinv k hk hki
    · exact isNumber_childAt_of_length_le cs k (by omega)
  | succ fuel ih =>
    intro cs i hi hinv hfuel k hk
    unfold numeralFoldingLoop
    by_cases hlt : i < cs.length
    · simp only [if_pos hlt]
      have hlenErase : (removeChildAtIndex cs i).length + 1 = cs.length :=
        length_removeChildAtIndex cs i hlt
      by_cases hone : (childAt cs i).isRationalOne = true
      · simp only [if_pos hone]
        have h0 : childAt (removeChildAtIndex cs i) 0 = childAt cs 0 :=
          childAt_removeChildAtIndex_of_lt cs 0 i (by omega)
        refine ih _ i hi ?_ ?_ k hk
        · intro j hj hji
          rw [childAt_removeChildAtIndex_of_lt cs j i hji]
          exact hinv j hj hji
        · rw [h0]
          split_ifs at hfuel ⊢ <;> omega
      · simp only [if_neg hone]
        by_cases hnum : (childAt cs i).isNumber = true
        · simp only [if_pos hnum]
          by_cases hfirst : (childAt cs 0).isNumber = true
          · simp only [if_pos hfirst]
            have hlen2 : (removeChildAtIndex (replaceChildAtIndex cs 0
                (env.numberMultiplication (childAt cs 0) (childAt cs i))) i).length + 1
                  = cs.length := by
              have := length_removeChildAtIndex (replaceChildAtIndex cs 0
                (env.numberMultiplication (childAt cs 0) (childAt cs i))) i
                (by simpa [replaceChildAtIndex] using hlt)
              simpa [replaceChildAtIndex] using this
            refine ih _ i hi ?_ ?_ k hk
            · intro j hj hji
              rw [childAt_removeChildAtIndex_of_lt _ j i hji,
                childAt_replaceChildAtIndex_of_ne cs 0 j _ (by omega)]
              exact hinv j hj hji
            · rw [if_pos hfirst] at hfuel
              split_ifs <;> omega
          · simp only [if_neg hfirst]
            rw [addChildAtIndex_zero]
            refine ih _ i hi ?_ ?_ k hk
            · intro j hj hji
              obtain ⟨j', rfl⟩ : ∃ j', j = j' + 1 := ⟨j - 1, by omega⟩
              rw [childAt_cons_succ, childAt_removeChildAtIndex_of_lt cs j' i (by omega)]
              by_cases hj0 : j' = 0
              · rw [hj0]
                simpa using hfirst
              · exact hinv j' (by omega) (by omega)
            · have hhead : childAt (childAt cs i :: removeChildAtIndex cs i) 0
                  = childAt cs i := rfl
              rw [hhead, if_pos hnum]
              rw [if_neg hfirst] at hfuel
              simp only [List.length_cons]
              omega
        · simp only [if_neg hnum]
          refine ih cs (i + 1) (by omega) ?_ ?_ k hk
          · intro j hj hji
            by_cases hji' : j < i
            · exact hinv j hj hji'
            · have : j = i := by omega
              rw [this]
              simpa using hnum
          · split_ifs at hfuel ⊢ <;> omega
    · simp only [if_neg hlt]
      by_cases hki : k < i
      · exact hinv k hk hki
      · exact isNumber_childAt_of_length_le cs k (by omega)

/-- After Step 6 no child of index at least 1 is a number. -/
theorem numeralFolding_no_number (env : Collaborators) (cs : List Expr) (k : Nat) :
    (childAt (numeralFolding env cs) (k + 1)).isNumber = false := by
  unfold numeralFolding
  cases cs with
  | nil => rfl
  | cons c cs =>
    refine numeralFoldingLoop_no_number env _ (c :: cs) 1 (Nat.le_refl 1) ?_ ?_ (k + 1)
      (by omega)
    · intro j hj hj1
      omega
    · simp only [List.length_cons]
      split_ifs <;> omega

/-- C7. Coefficient position. After the numeral-folding pass (Step 6) no child at
an index of 1 or more is a number, so at most one child is a number and it is the
first one; after the removal of a leading one in Step 7 this still holds, and the
first child is the rational one only if it is the only child. -/
theorem coefficient_position :
    (∀ (env : Collaborators) (cs : List Expr) (k : Nat),
        (childAt (numeralFolding env cs) (k + 1)).isNumber = false)
    ∧ (∀ (env : Collaborators) (cs : List Expr) (k : Nat),
        (childAt (removeLeadingOne (numeralFolding env cs)) (k + 1)).isNumber = false)
    ∧ (∀ (env : Collaborators) (cs : List Expr),
        (childAt (removeLeadingOne (numeralFolding env cs)) 0).isRationalOne = true →
        (removeLeadingOne (numeralFolding env cs)).length = 1) := by
  refine ⟨numeralFolding_no_number, ?_, ?_⟩
  · intro env cs k
    unfold removeLeadingOne
    split_ifs with h
    · cases hf : numeralFolding env cs with
      | nil => rfl
      | cons c rest =>
        have := numeralFolding_no_number env cs (k + 1)
        rw [hf] at this
        simpa [removeChildAtIndex, childAt] using this
    · exact numeralFolding_no_number env cs k
  · intro env cs
    unfold removeLeadingOne
    split_ifs with h
    · intro hone
      exfalso
      cases hf : numeralFolding env cs with
      | nil =>
        rw [hf] at h
        simp at h
      | cons c rest =>
        have hno := numeralFolding_no_number env cs 0
        rw [hf] at hone hno
        have hsame : childAt (removeChildAtIndex (c :: rest) 0) 0 = childAt (c :: rest) (0 + 1) := by
          simp [removeChildAtIndex, childAt]
        rw [hsame] at hone
        rw [isRationalOne_of_not_isNumber _ hno] at hone
        exact Bool.false_ne_true hone
    · intro hone
      have hle : ¬ 1 < (numeralFolding env cs).length := fun hl => h ⟨hone, hl⟩
      cases hf : numeralFolding env cs with
      | nil =>
        rw [hf] at hone
        exact absurd hone (by decide)
      | cons c rest =>
        rw [hf] at hle
        simp only [List.length_cons] at hle ⊢
        omega

theorem coefficient_position_witness :
    (childAt (numeralFolding Sample.collaborators
        [Sample.symbol "x", Sample.integer 2, Sample.integer 1, Sample.integer 3]) 1).isNumber
      = false
    ∧ (removeLeadingOne (numeralFolding Sample.collaborators [Sample.integer 1])).length = 1 :=
  ⟨coefficient_position.1 Sample.collaborators
      [Sample.symbol "x", Sample.integer 2, Sample.integer 1, Sample.integer 3] 0,
   coefficient_position.2.2 Sample.collaborators [Sample.integer 1] (by decide)⟩

/-! ### Distribution -/

theorem reduceEach_spec (f : Expr → Option Expr) :
    ∀ (l r : List Expr), reduceEach f l = some r →
      r.length = l.length
        ∧ ∀ j, j < l.length →
            f (l.getD j Expr.uninitialized) = some (r.getD j Expr.uninitialized) := by
  intro l
  induction l with
  | nil =>
    intro r h
    simp only [reduceEach, Option.some.injEq] at h
    subst h
    exact ⟨rfl, fun j hj => absurd hj (Nat.not_lt_zero j)⟩
  | cons a l ih =>
    intro r h
    unfold reduceEach at h
    cases hfa : f a with
    | none => simp [hfa] at h
    | some b =>
      cases hrest : reduceEach f l with
      | none => simp [hfa, hrest] at h
      | some bs =>
        simp only [hfa, hrest, Option.some_bind, Option.map_some', Option.some.injEq] at h
        subst h
        obtain ⟨hlen, hget⟩ := ih bs hrest
        refine ⟨by simp [hlen], ?_⟩
        intro j hj
        cases j with
        | zero => simpa using hfa
        | succ j =>
          have := hget j (by simpa using hj)
          simpa using this

theorem findIdx_addition_eq_some (cs : List Expr) (i : Nat) (hi : i < cs.length)
    (hsum : (childAt cs i).type = .Addition)
    (hfirst : ∀ j, j < i → (childAt cs j).type ≠ .Addition) :
    cs.findIdx? (fun c => decide (c.type = .Addition)) = some i := by
  rw [List.findIdx?_eq_some_iff_getElem]
  refine ⟨hi, ?_, ?_⟩
  · rw [childAt_eq_getElem_of_lt cs i hi] at hsum
    simpa using hsum
  · intro j hji
    have := hfirst j hji
    rw [childAt_eq_getElem_of_lt cs j (Nat.lt_trans hji hi)] at this
    simpa using this

/-- The reduction of a product of two distinct symbols that the order keeps in
place and that are not subject to complex bubbling is the product itself. -/
theorem privateShallowReduce_two_symbols (env : Collaborators) (ctx : ReductionContext)
    (fuel : Nat) (parentType : ExprType) (shouldExpand : Bool) (n1 n2 : String)
    (hne : n1 ≠ n2)
    (hsort : env.sortChildren [Expr.node (.Symbol n1) [], Expr.node (.Symbol n2) []]
      = [Expr.node (.Symbol n1) [], Expr.node (.Symbol n2) []])
    (hreal : env.allChildrenAreReal [Expr.node (.Symbol n1) [], Expr.node (.Symbol n2) []] ≠ 0) :
    privateShallowReduce env ctx (fuel + 2) parentType shouldExpand
        [Expr.node (.Symbol n1) [], Expr.node (.Symbol n2) []]
      = some (Builder [Expr.node (.Symbol n1) [], Expr.node (.Symbol n2) []]) := by
  have hflat : mergeMultiplicationChildrenInPlace
      [Expr.node (.Symbol n1) [], Expr.node (.Symbol n2) []]
        = [Expr.node (.Symbol n1) [], Expr.node (.Symbol n2) []] :=
    mergeMultiplicationChildrenInPlace_eq_self _ (by simp [type_node])
  simp [privateShallowReduce_succ, privateShallowReduceBody,
    childrenAfterFolding, defaultShallowReduce, Builder, Expr.isUndefined, type_node,
    children_node, hflat, childAt, hsort, Expr.isMatrix,
    gatherLikeTermsLoop, gatherLikeTermsStep, TermsHaveIdenticalBase, Base,
    Expr.childAtIndex, Expr.isIdenticalTo, TermHasNumeralBase, Expr.isNumber, hne,
    factorizeSineAndCosineStep, factorizeSineAndCosineLoop, TermHasNumeralExponent,
    findCosineFactor,
    numeralFolding, numeralFoldingLoop, Expr.isRationalOne, collapseAndExpand,
    expandSquashAndBubble, isAbsorbedByZero, Expr.isRationalZero, removeLeadingOne,
    mayDistribute, squashUnaryHierarchyInPlace, hreal]

/-- C8. Distribution. In Step 8, when expansion is permitted, the parent is not a
product and the product matches no random primitive, the first child `i` that is
a sum is distributed: the result is the reduction of the sum whose terms are, in
order, the reductions of the product with child `i` replaced by each term of the
sum, all other children kept in place; there are exactly as many terms as in the
sum. So `Product(a, Sum(b, c))` becomes the reduction of
`Sum(Product(a, b), Product(a, c))`. -/
theorem distribution :
    (∀ (env : Collaborators) (ctx : ReductionContext) (reduce : Reducer)
        (parentType : ExprType) (shouldExpand : Bool) (cs : List Expr) (i : Nat),
        shouldExpand = true → parentType ≠ .MultiplicationExplicite →
        env.recursivelyMatchesIsRandom (Builder cs) = false →
        i < cs.length → (childAt cs i).type = .Addition →
        (∀ j, j < i → (childAt cs j).type ≠ .Addition) →
        expandSquashAndBubble env ctx reduce parentType shouldExpand cs
            = (reduceEach (fun term => reduce .Addition (replaceChildAtIndex cs i term))
                (childAt cs i).children).map
                  (fun terms => env.shallowReduce ctx (Addition.Builder terms))
          ∧ ∀ terms : List Expr,
              reduceEach (fun term => reduce .Addition (replaceChildAtIndex cs i term))
                (childAt cs i).children = some terms →
              terms.length = (childAt cs i).numberOfChildren
                ∧ ∀ j, j < (childAt cs i).numberOfChildren →
                    reduce .Addition (replaceChildAtIndex cs i ((childAt cs i).childAtIndex j))
                      = some (childAt terms j))
    ∧ (∀ (env : Collaborators) (ctx : ReductionContext) (fuel : Nat) (parentType : ExprType),
        parentType ≠ .MultiplicationExplicite →
        env.sortChildren [Sample.symbol "a",
            Addition.Builder [Sample.symbol "b", Sample.symbol "c"]]
          = [Sample.symbol "a", Addition.Builder [Sample.symbol "b", Sample.symbol "c"]] →
        env.sortChildren [Sample.symbol "a", Sample.symbol "b"]
          = [Sample.symbol "a", Sample.symbol "b"] →
        env.sortChildren [Sample.symbol "a", Sample.symbol "c"]
          = [Sample.symbol "a", Sample.symbol "c"] →
        env.recursivelyMatchesIsRandom (Builder [Sample.symbol "a",
            Addition.Builder [Sample.symbol "b", Sample.symbol "c"]]) = false →
        env.allChildrenAreReal [Sample.symbol "a", Sample.symbol "b"] ≠ 0 →
        env.allChildrenAreReal [Sample.symbol "a", Sample.symbol "c"] ≠ 0 →
        shallowReduce env ctx (fuel + 3) parentType
            [Sample.symbol "a", Addition.Builder [Sample.symbol "b", Sample.symbol "c"]]
          = some (env.shallowReduce ctx (Addition.Builder
              [Builder [Sample.symbol "a", Sample.symbol "b"],
                Builder [Sample.symbol "a", Sample.symbol "c"]]))) := by
  refine ⟨?_, ?_⟩
  · intro env ctx reduce parentType shouldExpand cs i hexp hparent hrandom hi hsum hfirst
    refine ⟨?_, ?_⟩
    · have hfind := findIdx_addition_eq_some cs i hi hsum hfirst
      have hguard : mayDistribute parentType shouldExpand
          (env.recursivelyMatchesIsRandom (Builder cs)) = true := by
        simp [mayDistribute, hexp, hparent, hrandom]
      simp only [expandSquashAndBubble, hguard, if_true, hfind, distributeOnOperandAtIndex]
      cases reduceEach (fun term => reduce .Addition (replaceChildAtIndex cs i term))
        (childAt cs i).children <;> rfl
    · intro terms hterms
      obtain ⟨hlen, hget⟩ := reduceEach_spec _ _ _ hterms
      exact ⟨hlen, fun j hj => hget j hj⟩
  · intro env ctx fuel parentType hparent hs1 hs2 hs3 hrandom hr1 hr2
    have hab := privateShallowReduce_two_symbols env ctx fuel .Addition true "a" "b"
      (by decide) hs2 hr1
    have hac := privateShallowReduce_two_symbols env ctx fuel .Addition true "a" "c"
      (by decide) hs3 hr2
    have hflat : mergeMultiplicationChildrenInPlace [Sample.symbol "a",
        Addition.Builder [Sample.symbol "b", Sample.symbol "c"]]
          = [Sample.symbol "a", Addition.Builder [Sample.symbol "b", Sample.symbol "c"]] :=
      mergeMultiplicationChildrenInPlace_eq_self _ (by decide)
    unfold shallowReduce
    rw [privateShallowReduce_succ]
    simp only [Sample.symbol, Addition.Builder, Builder] at hs1 hrandom hflat hab hac ⊢
    simp [privateShallowReduceBody, nestedReducer,
      childrenAfterFolding, defaultShallowReduce, Builder, Expr.isUndefined, type_node,
      children_node, hflat, childAt, hs1, Expr.isMatrix,
      gatherLikeTermsLoop, gatherLikeTermsStep, TermsHaveIdenticalBase, Base,
      Expr.childAtIndex, Expr.isIdenticalTo, TermHasNumeralBase, Expr.isNumber,
      factorizeSineAndCosineStep, factorizeSineAndCosineLoop, TermHasNumeralExponent,
      findCosineFactor,
      numeralFolding, numeralFoldingLoop, Expr.isRationalOne, collapseAndExpand,
      expandSquashAndBubble, isAbsorbedByZero, Expr.isRationalZero, removeLeadingOne,
      mayDistribute, hparent, hrandom, distributeOnOperandAtIndex, reduceEach,
      replaceChildAtIndex, hab, hac, Addition.Builder]

theorem distribution_witness :
    shallowReduce Sample.collaborators Sample.userContext 3 .Uninitialized
        [Sample.symbol "a", Addition.Builder [Sample.symbol "b", Sample.symbol "c"]]
      = some (Addition.Builder
          [Builder [Sample.symbol "a", Sample.symbol "b"],
            Builder [Sample.symbol "a", Sample.symbol "c"]]) :=
  distribution.2 Sample.collaborators Sample.userContext 0 .Uninitialized
    (by decide) (by decide) (by decide) (by decide) (by decide) (by decide) (by decide)

/-! ### Distribution guard -/

/-- C9, counterexample. `Product(Sum(b, c))` under a product parent: the guard of
the distribution fails, and yet the product, which has a sum child, is replaced
by a sum: Step 9 replaces it by its only child. -/
theorem distribution_guard_counterexample :
    mayDistribute .MultiplicationExplicite true
        (Sample.collaborators.recursivelyMatchesIsRandom
          (Builder [Addition.Builder [Sample.symbol "b", Sample.symbol "c"]])) = false
    ∧ shallowReduce Sample.collaborators Sample.userContext 1 .MultiplicationExplicite
          [Addition.Builder [Sample.symbol "b", Sample.symbol "c"]]
        = some (Addition.Builder [Sample.symbol "b", Sample.symbol "c"])
    ∧ (Addition.Builder [Sample.symbol "b", Sample.symbol "c"]).type = .Addition := by
  decide

/-- C9, amended. In Step 8, if expansion is not permitted, or the parent is a
product, or the product matches a random primitive, no distribution takes place:
the result is that of Steps 9 and 10 on the same children, that is the only child
when exactly one is left (also when it is a sum), the complex bubbling when it
applies, and otherwise the product itself. So `Product(a, Sum(b, c))` under a
product parent is returned as a product. -/
theorem distribution_guard :
    (∀ (env : Collaborators) (ctx : ReductionContext) (reduce : Reducer)
        (parentType : ExprType) (shouldExpand : Bool) (cs : List Expr),
        (shouldExpand = false ∨ parentType = .MultiplicationExplicite
          ∨ env.recursivelyMatchesIsRandom (Builder cs) = true) →
        expandSquashAndBubble env ctx reduce parentType shouldExpand cs
          = (if cs.length = 1 then some (childAt cs 0)
              else if env.recursivelyMatchesIsRandom (Builder cs) = false
                  ∧ env.allChildrenAreReal cs = 0 then
                bubbleUpComplex env ctx reduce cs
              else some (Builder cs)))
    ∧ (∀ (env : Collaborators) (ctx : ReductionContext) (reduce : Reducer)
        (parentType : ExprType) (shouldExpand : Bool) (cs : List Expr),
        (shouldExpand = false ∨ parentType = .MultiplicationExplicite
          ∨ env.recursivelyMatchesIsRandom (Builder cs) = true) →
        cs.length ≠ 1 →
        ¬ (env.recursivelyMatchesIsRandom (Builder cs) = false
            ∧ env.allChildrenAreReal cs = 0) →
        expandSquashAndBubble env ctx reduce parentType shouldExpand cs = some (Builder cs))
    ∧ (∀ (env : Collaborators) (ctx : ReductionContext) (fuel : Nat),
        env.sortChildren [Sample.symbol "a",
            Addition.Builder [Sample.symbol "b", Sample.symbol "c"]]
          = [Sample.symbol "a", Addition.Builder [Sample.symbol "b", Sample.symbol "c"]] →
        env.allChildrenAreReal [Sample.symbol "a",
            Addition.Builder [Sample.symbol "b", Sample.symbol "c"]] ≠ 0 →
        shallowReduce env ctx (fuel + 2) .MultiplicationExplicite
            [Sample.symbol "a", Addition.Builder [Sample.symbol "b", Sample.symbol "c"]]
          = some (Builder
              [Sample.symbol "a", Addition.Builder [Sample.symbol "b", Sample.symbol "c"]])) := by
  have general : ∀ (env : Collaborators) (ctx : ReductionContext) (reduce : Reducer)
      (parentType : ExprType) (shouldExpand : Bool) (cs : List Expr),
      (shouldExpand = false ∨ parentType = .MultiplicationExplicite
        ∨ env.recursivelyMatchesIsRandom (Builder cs) = true) →
      expandSquashAndBubble env ctx reduce parentType shouldExpand cs
        = (if cs.length = 1 then some (childAt cs 0)
            else if env.recursivelyMatchesIsRandom (Builder cs) = false
                ∧ env.allChildrenAreReal cs = 0 then
              bubbleUpComplex env ctx reduce cs
            else some (Builder cs)) := by
    intro env ctx reduce parentType shouldExpand cs hguard
    have hno : mayDistribute parentType shouldExpand
        (env.recursivelyMatchesIsRandom (Builder cs)) = false := by
      rcases hguard with h | h | h
      · simp [mayDistribute, h]
      · simp [mayDistribute, h]
      · simp [mayDistribute, h]
    simp only [expandSquashAndBubble, hno, Bool.false_eq_true, if_false,
      squashUnaryHierarchyInPlace]
    split_ifs <;> rfl
  refine ⟨general, ?_, ?_⟩
  · intro env ctx reduce parentType shouldExpand cs hguard hlen hbubble
    rw [general env ctx reduce parentType shouldExpand cs hguard, if_neg hlen, if_neg hbubble]
  · intro env ctx fuel hsort hreal
    have hflat : mergeMultiplicationChildrenInPlace [Sample.symbol "a",
        Addition.Builder [Sample.symbol "b", Sample.symbol "c"]]
          = [Sample.symbol "a", Addition.Builder [Sample.symbol "b", Sample.symbol "c"]] :=
      mergeMultiplicationChildrenInPlace_eq_self _ (by decide)
    unfold shallowReduce
    rw [privateShallowReduce_succ]
    simp only [Sample.symbol, Addition.Builder, Builder] at hsort hreal hflat ⊢
    simp [privateShallowReduceBody,
      childrenAfterFolding, defaultShallowReduce, Builder, Expr.isUndefined, type_node,
      children_node, hflat, childAt, hsort, Expr.isMatrix,
      gatherLikeTermsLoop, gatherLikeTermsStep, TermsHaveIdenticalBase, Base,
      Expr.childAtIndex, Expr.isIdenticalTo, TermHasNumeralBase, Expr.isNumber,
      factorizeSineAndCosineStep, factorizeSineAndCosineLoop, TermHasNumeralExponent,
      findCosineFactor,
      numeralFolding, numeralFoldingLoop, Expr.isRationalOne, collapseAndExpand,
      expandSquashAndBubble, isAbsorbedByZero, Expr.isRationalZero, removeLeadingOne,
      mayDistribute, squashUnaryHierarchyInPlace, hreal]

theorem distribution_guard_witness :
    expandSquashAndBubble Sample.collaborators Sample.userContext
        (nestedReducer Sample.collaborators Sample.userContext 1) .Uninitialized false
        [Sample.symbol "a", Addition.Builder [Sample.symbol "b", Sample.symbol "c"]]
      = some (Builder
          [Sample.symbol "a", Addition.Builder [Sample.symbol "b", Sample.symbol "c"]])
    ∧ shallowReduce Sample.collaborators Sample.userContext 2 .MultiplicationExplicite
        [Sample.symbol "a", Addition.Builder [Sample.symbol "b", Sample.symbol "c"]]
      = some (Builder
          [Sample.symbol "a", Addition.Builder [Sample.symbol "b", Sample.symbol "c"]]) :=
  ⟨distribution_guard.2.1 Sample.collaborators Sample.userContext
      (nestedReducer Sample.collaborators Sample.userContext 1) .Uninitialized false
      [Sample.symbol "a", Addition.Builder [Sample.symbol "b", Sample.symbol "c"]]
      (Or.inl rfl) (by decide) (by decide),
   distribution_guard.2.2 Sample.collaborators Sample.userContext 0 (by decide) (by decide)⟩

/-! ### Matrix dimension check -/

theorem defaultShallowReduce_undefined (cs : List Expr)
    (h : (defaultShallowReduce (Builder cs)).isUndefined = true) :
    defaultShallowReduce (Builder cs) = Undefined.Builder := by
  unfold defaultShallowReduce at h ⊢
  split_ifs at h ⊢ with hany
  · rfl
  · exact absurd h (by simp [Builder, Expr.isUndefined, type_node])

/-- C10. Matrix dimension check. When the last two sorted children are matrices
and the column count of the left one differs from the row count of the right one,
the reduction returns the undefined marker. The same holds further up the
backward chain: a scan step that meets a matrix whose column count differs from
the row count of the accumulated result stops with a mismatch, a scan step on
matching dimensions continues with the product as accumulated result, and a scan
that stops with a mismatch makes the reduction return the undefined marker. -/
theorem matrix_dimension_check :
    (∀ (env : Collaborators) (ctx : ReductionContext) (fuel : Nat) (parentType : ExprType)
        (shouldExpand : Bool) (cs : List Expr),
        2 ≤ (env.sortChildren (mergeMultiplicationChildrenInPlace cs)).length →
        (childAt (env.sortChildren (mergeMultiplicationChildrenInPlace cs))
          ((env.sortChildren (mergeMultiplicationChildrenInPlace cs)).length - 1)).isMatrix
            = true →
        (childAt (env.sortChildren (mergeMultiplicationChildrenInPlace cs))
          ((env.sortChildren (mergeMultiplicationChildrenInPlace cs)).length - 2)).isMatrix
            = true →
        (childAt (env.sortChildren (mergeMultiplicationChildrenInPlace cs))
            ((env.sortChildren (mergeMultiplicationChildrenInPlace cs)).length - 2)).numberOfColumns
          ≠ (childAt (env.sortChildren (mergeMultiplicationChildrenInPlace cs))
            ((env.sortChildren (mergeMultiplicationChildrenInPlace cs)).length - 1)).numberOfRows →
        privateShallowReduce env ctx (fuel + 1) parentType shouldExpand cs
          = some Undefined.Builder)
    ∧ (∀ (env : Collaborators) (ctx : ReductionContext) (reduce : Reducer) (idx : Nat)
        (cs : List Expr) (resultMatrix : Expr) (n m : Nat),
        (childAt cs idx).isMatrix = true →
        (childAt cs idx).numberOfColumns ≠ n →
        matrixScan env ctx reduce (idx + 1) cs resultMatrix n m = some .mismatch)
    ∧ (∀ (env : Collaborators) (ctx : ReductionContext) (reduce : Reducer) (idx : Nat)
        (cs : List Expr) (resultMatrix newResult : Expr) (n m : Nat),
        (childAt cs idx).isMatrix = true →
        (childAt cs idx).numberOfColumns = n →
        matrixProduct env ctx reduce (childAt cs idx) resultMatrix
          (childAt cs idx).numberOfRows m n = some newResult →
        matrixScan env ctx reduce (idx + 1) cs resultMatrix n m
          = matrixScan env ctx reduce idx
              (replaceChildAtIndex (removeChildAtIndex cs idx)
                ((removeChildAtIndex cs idx).length - 1) newResult)
              newResult (childAt cs idx).numberOfRows m)
    ∧ (∀ (env : Collaborators) (ctx : ReductionContext) (fuel : Nat) (parentType : ExprType)
        (shouldExpand : Bool) (cs : List Expr),
        (childAt (env.sortChildren (mergeMultiplicationChildrenInPlace cs))
          ((env.sortChildren (mergeMultiplicationChildrenInPlace cs)).length - 1)).isMatrix
            = true →
        matrixScan env ctx (nestedReducer env ctx fuel)
            ((env.sortChildren (mergeMultiplicationChildrenInPlace cs)).length - 1)
            (env.sortChildren (mergeMultiplicationChildrenInPlace cs))
            (childAt (env.sortChildren (mergeMultiplicationChildrenInPlace cs))
              ((env.sortChildren (mergeMultiplicationChildrenInPlace cs)).length - 1))
            (childAt (env.sortChildren (mergeMultiplicationChildrenInPlace cs))
              ((env.sortChildren (mergeMultiplicationChildrenInPlace cs)).length - 1)).numberOfRows
            (childAt (env.sortChildren (mergeMultiplicationChildrenInPlace cs))
              ((env.sortChildren (mergeMultiplicationChildrenInPlace cs)).length - 1)).numberOfColumns
          = some .mismatch →
        privateShallowReduce env ctx (fuel + 1) parentType shouldExpand cs
          = some Undefined.Builder) := by
  have step : ∀ (env : Collaborators) (ctx : ReductionContext) (reduce : Reducer) (idx : Nat)
      (cs : List Expr) (resultMatrix : Expr) (n m : Nat),
      (childAt cs idx).isMatrix = true →
      (childAt cs idx).numberOfColumns ≠ n →
      matrixScan env ctx reduce (idx + 1) cs resultMatrix n m = some .mismatch := by
    intro env ctx reduce idx cs resultMatrix n m hmat hdim
    unfold matrixScan
    simp [hmat, hdim]
  have final : ∀ (env : Collaborators) (ctx : ReductionContext) (fuel : Nat)
      (parentType : ExprType) (shouldExpand : Bool) (cs : List Expr),
      (childAt (env.sortChildren (mergeMultiplicationChildrenInPlace cs))
        ((env.sortChildren (mergeMultiplicationChildrenInPlace cs)).length - 1)).isMatrix
          = true →
      matrixScan env ctx (nestedReducer env ctx fuel)
          ((env.sortChildren (mergeMultiplicationChildrenInPlace cs)).length - 1)
          (env.sortChildren (mergeMultiplicationChildrenInPlace cs))
          (childAt (env.sortChildren (mergeMultiplicationChildrenInPlace cs))
            ((env.sortChildren (mergeMultiplicationChildrenInPlace cs)).length - 1))
          (childAt (env.sortChildren (mergeMultiplicationChildrenInPlace cs))
            ((env.sortChildren (mergeMultiplicationChildrenInPlace cs)).length - 1)).numberOfRows
          (childAt (env.sortChildren (mergeMultiplicationChildrenInPlace cs))
            ((env.sortChildren (mergeMultiplicationChildrenInPlace cs)).length - 1)).numberOfColumns
        = some .mismatch →
      privateShallowReduce env ctx (fuel + 1) parentType shouldExpand cs
        = some Undefined.Builder := by
    intro env ctx fuel parentType shouldExpand cs hlast hscan
    rw [privateShallowReduce_succ]
    unfold privateShallowReduceBody
    by_cases hdef : (defaultShallowReduce (Builder cs)).isUndefined = true
    · have hu := defaultShallowReduce_undefined cs hdef
      rw [hu] at hdef
      simp only [hu, hdef, if_true]
    · simp only [hdef, Bool.false_eq_true, if_false, hlast, if_true, handleMatrices, hscan]
  refine ⟨?_, step, ?_, final⟩
  · intro env ctx fuel parentType shouldExpand cs hlen hlast hprev hdim
    refine final env ctx fuel parentType shouldExpand cs hlast ?_
    have hidx : (env.sortChildren (mergeMultiplicationChildrenInPlace cs)).length - 1
        = ((env.sortChildren (mergeMultiplicationChildrenInPlace cs)).length - 2) + 1 := by
      omega
    rw [hidx]
    have h := step env ctx (nestedReducer env ctx fuel)
      ((env.sortChildren (mergeMultiplicationChildrenInPlace cs)).length - 2)
      (env.sortChildren (mergeMultiplicationChildrenInPlace cs))
      (childAt (env.sortChildren (mergeMultiplicationChildrenInPlace cs))
        ((env.sortChildren (mergeMultiplicationChildrenInPlace cs)).length - 2 + 1))
      (childAt (env.sortChildren (mergeMultiplicationChildrenInPlace cs))
        ((env.sortChildren (mergeMultiplicationChildrenInPlace cs)).length - 2 + 1)).numberOfRows
      (childAt (env.sortChildren (mergeMultiplicationChildrenInPlace cs))
        ((env.sortChildren (mergeMultiplicationChildrenInPlace cs)).length - 2 + 1)).numberOfColumns
      hprev (by rw [← hidx]; exact hdim)
    exact h
  · intro env ctx reduce idx cs resultMatrix newResult n m hmat hdim hprod
    conv_lhs => unfold matrixScan
    simp [hmat, hdim, hprod]

theorem matrix_dimension_check_witness :
    shallowReduce Sample.collaborators Sample.userContext 1 .Uninitialized
        [Matrix.Builder 1 2 [Sample.integer 1, Sample.integer 2],
          Matrix.Builder 1 2 [Sample.integer 3, Sample.integer 4]]
      = some Undefined.Builder
    ∧ shallowReduce Sample.collaborators Sample.userContext 3 .Uninitialized
        [Matrix.Builder 2 3 (List.replicate 6 (Sample.integer 1)),
          Matrix.Builder 1 2 [Sample.integer 1, Sample.integer 2],
          Matrix.Builder 2 2
            [Sample.integer 1, Sample.integer 0, Sample.integer 0, Sample.integer 1]]
      = some Undefined.Builder :=
  ⟨matrix_dimension_check.1 Sample.collaborators Sample.userContext 0 .Uninitialized true
      [Matrix.Builder 1 2 [Sample.integer 1, Sample.integer 2],
        Matrix.Builder 1 2 [Sample.integer 3, Sample.integer 4]]
      (by decide) (by decide) (by decide) (by decide),
   matrix_dimension_check.2.2.2 Sample.collaborators Sample.userContext 2 .Uninitialized true
      [Matrix.Builder 2 3 (List.replicate 6 (Sample.integer 1)),
        Matrix.Builder 1 2 [Sample.integer 1, Sample.integer 2],
        Matrix.Builder 2 2
          [Sample.integer 1, Sample.integer 0, Sample.integer 0, Sample.integer 1]]
      (by decide)
      (((matrix_dimension_check.2.2.1 Sample.collaborators Sample.userContext
          (nestedReducer Sample.collaborators Sample.userContext 2) 1
          [Matrix.Builder 2 3 (List.replicate 6 (Sample.integer 1)),
            Matrix.Builder 1 2 [Sample.integer 1, Sample.integer 2],
            Matrix.Builder 2 2
              [Sample.integer 1, Sample.integer 0, Sample.integer 0, Sample.integer 1]]
          (Matrix.Builder 2 2
              [Sample.integer 1, Sample.integer 0, Sample.integer 0, Sample.integer 1])
          (Matrix.Builder 1 2 [Sample.integer 1, Sample.integer 2]) 2 2
          (by decide) (by decide) (by decide))).trans
        (matrix_dimension_check.2.1 Sample.collaborators Sample.userContext
          (nestedReducer Sample.collaborators Sample.userContext 2) 0 _ _ 1 2
          (by decide) (by decide)))⟩

/-! ### Random non-factorization -/

/-- The merge pass skips a child that matches the random predicate. -/
theorem gatherLikeTermsStep_of_random (env : Collaborators) (ctx : ReductionContext)
    (reduce : Reducer) (cs : List Expr) (i : Nat)
    (h : env.recursivelyMatchesIsRandom (childAt cs i) = true) :
    gatherLikeTermsStep env ctx reduce cs i = some (cs, i + 1) := by
  simp [gatherLikeTermsStep, h]

/-- C12. Random non-factorization. In an iteration of the merge pass at index `i`,
when child `i` matches the random predicate, the children are left as they are
(child `i` is merged with child `i+1` neither by base nor by exponent) and the
index advances by exactly one. In particular the merge pass, and the whole
reduction, keep the two factors of `Product(random(), random())`. -/
theorem random_non_factorization :
    (∀ (env : Collaborators) (ctx : ReductionContext) (reduce : Reducer)
        (cs : List Expr) (i : Nat),
        env.recursivelyMatchesIsRandom (childAt cs i) = true →
        gatherLikeTermsStep env ctx reduce cs i = some (cs, i + 1))
    ∧ (∀ (env : Collaborators) (ctx : ReductionContext) (reduce : Reducer) (fuel : Nat),
        env.recursivelyMatchesIsRandom (.node .Random []) = true →
        gatherLikeTermsLoop env ctx reduce (fuel + 2) [.node .Random [], .node .Random []] 0
          = some [.node .Random [], .node .Random []])
    ∧ (∀ (env : Collaborators) (ctx : ReductionContext) (fuel : Nat) (parentType : ExprType),
        env.recursivelyMatchesIsRandom (.node .Random []) = true →
        env.recursivelyMatchesIsRandom (Builder [.node .Random [], .node .Random []]) = true →
        env.sortChildren [.node .Random [], .node .Random []]
          = [.node .Random [], .node .Random []] →
        shallowReduce env ctx (fuel + 2) parentType [.node .Random [], .node .Random []]
          = some (Builder [.node .Random [], .node .Random []])) := by
  refine ⟨gatherLikeTermsStep_of_random, ?_, ?_⟩
  · intro env ctx reduce fuel hrandom
    have hstep := gatherLikeTermsStep_of_random env ctx reduce
      [.node .Random [], .node .Random []] 0 hrandom
    simp [gatherLikeTermsLoop, hstep]
  · intro env ctx fuel parentType hrandom hproduct hsort
    have hstep := gatherLikeTermsStep_of_random env ctx (nestedReducer env ctx (fuel + 1))
      [.node .Random [], .node .Random []] 0 hrandom
    have hflat : mergeMultiplicationChildrenInPlace [.node .Random [], .node .Random []]
        = [.node .Random [], .node .Random []] :=
      mergeMultiplicationChildrenInPlace_eq_self _ (by decide)
    unfold shallowReduce
    rw [privateShallowReduce_succ]
    simp only [Builder] at hproduct ⊢
    simp [privateShallowReduceBody,
      childrenAfterFolding, defaultShallowReduce, Expr.isUndefined, type_node,
      children_node, hflat, childAt, hsort, Expr.isMatrix,
      gatherLikeTermsLoop, hstep, Base,
      Expr.childAtIndex, Expr.isNumber,
      factorizeSineAndCosineStep, factorizeSineAndCosineLoop, TermHasNumeralExponent,
      findCosineFactor,
      numeralFolding, numeralFoldingLoop, Expr.isRationalOne, collapseAndExpand,
      expandSquashAndBubble, isAbsorbedByZero, Expr.isRationalZero, removeLeadingOne,
      mayDistribute, squashUnaryHierarchyInPlace, hproduct, Builder]

theorem random_non_factorization_witness :
    gatherLikeTermsStep Sample.collaborators Sample.userContext
        (nestedReducer Sample.collaborators Sample.userContext 1)
        [Power.Builder (.node .Random []) (Sample.integer 2), .node .Random []] 0
      = some ([Power.Builder (.node .Random []) (Sample.integer 2), .node .Random []], 1)
    ∧ shallowReduce Sample.collaborators Sample.userContext 2 .Uninitialized
        [.node .Random [], .node .Random []]
      = some (Builder [.node .Random [], .node .Random []]) :=
  ⟨random_non_factorization.1 Sample.collaborators Sample.userContext
      (nestedReducer Sample.collaborators Sample.userContext 1)
      [Power.Builder (.node .Random []) (Sample.integer 2), .node .Random []] 0 (by decide),
   random_non_factorization.2.2 Sample.collaborators Sample.userContext 0 .Uninitialized
      (by decide) (by decide) (by decide)⟩

/-! ### Random exclusion on either side -/

/-- C13, counterexample. In the pair `x`, `pow(x, random())` only the second child
matches the random predicate, and the iteration of the merge pass does merge the
pair by base: one child is left, the reduction of `pow(x, 1 + random())`. -/
theorem random_either_side_counterexample :
    Sample.collaborators.recursivelyMatchesIsRandom
        (Power.Builder (Sample.symbol "x") (.node .Random [])) = true
    ∧ gatherLikeTermsStep Sample.collaborators Sample.userContext
          (nestedReducer Sample.collaborators Sample.userContext 1)
          [Sample.symbol "x", Power.Builder (Sample.symbol "x") (.node .Random [])] 0
        = some ([Power.Builder (Sample.symbol "x")
            (Addition.Builder [Sample.integer 1, .node .Random []])], 0)
    ∧ gatherLikeTermsStep Sample.collaborators Sample.userContext
          (nestedReducer Sample.collaborators Sample.userContext 1)
          [Sample.symbol "x", Power.Builder (Sample.symbol "x") (.node .Random [])] 0
        ≠ some ([Sample.symbol "x", Power.Builder (Sample.symbol "x") (.node .Random [])], 1) := by
  decide

/-- C13, amended. The random exclusion of the merge pass looks at child `i` only.
When child `i` matches the random predicate the pair `(i, i+1)` is not merged,
whatever the bases and exponents. When child `i` does not match it and child
`i+1` does, the pair is merged as any other pair: with identical bases that are
not numbers, `factorizeBase` is applied. So `x` next to `pow(x, random())` is
merged into the reduction of `pow(x, reduce(1 + random()))`. -/
theorem random_either_side :
    (∀ (env : Collaborators) (ctx : ReductionContext) (reduce : Reducer)
        (cs : List Expr) (i : Nat),
        env.recursivelyMatchesIsRandom (childAt cs i) = true →
        gatherLikeTermsStep env ctx reduce cs i = some (cs, i + 1))
    ∧ (∀ (env : Collaborators) (ctx : ReductionContext) (reduce : Reducer)
        (cs : List Expr) (i : Nat),
        env.recursivelyMatchesIsRandom (childAt cs i) = false →
        env.recursivelyMatchesIsRandom (childAt cs (i + 1)) = true →
        TermsHaveIdenticalBase (childAt cs i) (childAt cs (i + 1)) = true →
        (Base (childAt cs i)).isNumber = false →
        gatherLikeTermsStep env ctx reduce cs i = some (factorizeBase env ctx cs i (i + 1), i))
    ∧ (∀ (env : Collaborators) (ctx : ReductionContext) (reduce : Reducer),
        env.recursivelyMatchesIsRandom (Sample.symbol "x") = false →
        (env.shallowReduce ctx (Power.Builder (Sample.symbol "x")
            (env.shallowReduce ctx
              (Addition.Builder [Sample.integer 1, .node .Random []])))).type
          ≠ .MultiplicationExplicite →
        gatherLikeTermsStep env ctx reduce
            [Sample.symbol "x", Power.Builder (Sample.symbol "x") (.node .Random [])] 0
          = some ([env.shallowReduce ctx (Power.Builder (Sample.symbol "x")
              (env.shallowReduce ctx
                (Addition.Builder [Sample.integer 1, .node .Random []])))], 0)) := by
  refine ⟨gatherLikeTermsStep_of_random, ?_, ?_⟩
  · intro env ctx reduce cs i hrandom _ hbase hnum
    simp [gatherLikeTermsStep, hrandom, hbase, TermHasNumeralBase, hnum]
  · intro env ctx reduce hrandom hp
    simp only [Power.Builder, Sample.symbol, Sample.integer, Rational.Builder,
      Addition.Builder] at hrandom hp ⊢
    simp [gatherLikeTermsStep, childAt, TermsHaveIdenticalBase, Base,
      type_node, Expr.childAtIndex, children_node, Expr.isIdenticalTo, TermHasNumeralBase,
      Expr.isNumber, Power.Builder, Rational.Builder, Addition.Builder, hrandom, factorizeBase,
      mergeInChildByFactorizingBase, removeChildAtIndex, replaceChildAtIndex, CreateExponent, hp]

theorem random_either_side_witness :
    gatherLikeTermsStep Sample.collaborators Sample.userContext
        (nestedReducer Sample.collaborators Sample.userContext 1)
        [Sample.symbol "x", Power.Builder (Sample.symbol "x") (.node .Random [])] 0
      = some (factorizeBase Sample.collaborators Sample.userContext
          [Sample.symbol "x", Power.Builder (Sample.symbol "x") (.node .Random [])] 0 1, 0)
    ∧ gatherLikeTermsStep Sample.collaborators Sample.userContext
        (nestedReducer Sample.collaborators Sample.userContext 1)
        [Sample.symbol "x", Power.Builder (Sample.symbol "x") (.node .Random [])] 0
      = some ([Power.Builder (Sample.symbol "x")
          (Addition.Builder [Sample.integer 1, .node .Random []])], 0) :=
  ⟨random_either_side.2.1 Sample.collaborators Sample.userContext
      (nestedReducer Sample.collaborators Sample.userContext 1)
      [Sample.symbol "x", Power.Builder (Sample.symbol "x") (.node .Random [])] 0
      (by decide) (by decide) (by decide) (by decide),
   (random_either_side.2.2 Sample.collaborators Sample.userContext
      (nestedReducer Sample.collaborators Sample.userContext 1)
      (by decide) (by decide)).trans (by decide)⟩

/-! ### Negative numeral -/

/-- C16. Negative numeral. When `makePositiveAnyNegativeNumeralFactor` finds a
negative numeral factor in the product (its result is not the empty handle),
`shallowBeautify` returns the Opposite node whose only child is that result, the
product with the factor made positive, whatever the bound and the other
collaborators are: no negative-power merge, parenthesis or division is made. So
`(-3)*x` becomes `-(3*x)`. -/
theorem negative_numeral :
    (∀ (env : Collaborators) (benv : BeautifyCollaborators) (ctx : ReductionContext)
        (fuel : Nat) (parentType : ExprType) (cs : List Expr),
        (benv.makePositiveAnyNegativeNumeralFactor ctx (Builder cs)).isUninitialized = false →
        shallowBeautify env benv ctx fuel parentType cs
          = some (Opposite.Builder (benv.makePositiveAnyNegativeNumeralFactor ctx (Builder cs))))
    ∧ (∀ (env : Collaborators) (ctx : ReductionContext) (fuel : Nat) (parentType : ExprType),
        shallowBeautify env Sample.beautifyCollaborators ctx fuel parentType
            [Sample.integer (-3), Sample.symbol "x"]
          = some (Opposite.Builder (Builder [Sample.integer 3, Sample.symbol "x"]))) := by
  have general : ∀ (env : Collaborators) (benv : BeautifyCollaborators)
      (ctx : ReductionContext) (fuel : Nat) (parentType : ExprType) (cs : List Expr),
      (benv.makePositiveAnyNegativeNumeralFactor ctx (Builder cs)).isUninitialized = false →
      shallowBeautify env benv ctx fuel parentType cs
        = some (Opposite.Builder
            (benv.makePositiveAnyNegativeNumeralFactor ctx (Builder cs))) := by
    intro env benv ctx fuel parentType cs h
    unfold shallowBeautify
    simp only [h, if_true]
  refine ⟨general, ?_⟩
  intro env ctx fuel parentType
  have hsample : Sample.beautifyCollaborators.makePositiveAnyNegativeNumeralFactor ctx
      (Builder [Sample.integer (-3), Sample.symbol "x"])
        = Builder [Sample.integer 3, Sample.symbol "x"] := by
    simp [Sample.beautifyCollaborators, Sample.makePositiveAnyNegativeNumeralFactor, Builder,
      type_node, Expr.childAtIndex, children_node, Sample.integer, Rational.Builder,
      Expr.isRationalMinusOne, replaceChildAtIndex]
  rw [general env Sample.beautifyCollaborators ctx fuel parentType
    [Sample.integer (-3), Sample.symbol "x"] (by rw [hsample]; rfl), hsample]

theorem negative_numeral_witness :
    shallowBeautify Sample.collaborators Sample.beautifyCollaborators Sample.userContext 0
        .Uninitialized [Sample.integer (-1), Sample.symbol "x"]
      = some (Opposite.Builder (Sample.symbol "x")) :=
  (negative_numeral.1 Sample.collaborators Sample.beautifyCollaborators Sample.userContext 0
    .Uninitialized [Sample.integer (-1), Sample.symbol "x"] (by decide)).trans (by decide)

/-! ### mergeNegativePower without negative powers -/

/-- The loop of `mergeNegativePower` changes nothing when no power child has an
exponent that is made positive. -/
theorem negativePowerLoop_eq_self (benv : BeautifyCollaborators)
    (userContext : ReductionContext) (fuel : Nat) (cs m : List Expr)
    (h : ∀ p ∈ cs, p.type = .Power →
      (benv.makePositiveAnyNegativeNumeralFactor userContext (p.childAtIndex 1)).isUninitialized
        = true) :
    ∀ i, negativePowerLoop benv userContext fuel cs i m = (cs, m) := by
  induction fuel with
  | zero => intro i; rfl
  | succ fuel ih =>
    intro i
    unfold negativePowerLoop
    by_cases hi : i < cs.length
    · simp only [if_pos hi]
      by_cases hp : (childAt cs i).type = .Power
      · simp only [if_pos hp, h _ (childAt_mem cs i hi) hp, Bool.true_eq_false, if_false]
        exact ih (i + 1)
      · simp only [if_neg hp]
        exact ih (i + 1)
    · simp only [if_neg hi]

theorem splitRationalCoefficient_eq_self (cs : List Expr)
    (h : isRationalWithDenominator (childAt cs 0) = false) :
    splitRationalCoefficient cs = (cs, []) := by
  unfold splitRationalCoefficient
  unfold isRationalWithDenominator at h
  split
  · rename_i n d heq
    rw [heq] at h
    simp only [ne_eq, decide_not, Bool.not_eq_false', decide_eq_true_eq] at h
    simp [h]
  · rfl

/-- C17. `mergeNegativePower` without negative powers. When the first child is not
a rational with a denominator different from 1 and no power child has an exponent
that `makePositiveAnyNegativeNumeralFactor` makes positive, `mergeNegativePower`
returns the product itself and leaves its children unchanged, in the same order:
no power with exponent -1 is added. -/
theorem merge_negative_power_unchanged :
    ∀ (env : Collaborators) (benv : BeautifyCollaborators)
      (context complexFormat angleUnit : Nat) (cs : List Expr),
      isRationalWithDenominator (childAt cs 0) = false →
      (∀ p ∈ cs, p.type = .Power →
        (benv.makePositiveAnyNegativeNumeralFactor
          (ReductionContext.mk context complexFormat angleUnit .User)
          (p.childAtIndex 1)).isUninitialized = true) →
      mergeNegativePower env benv context complexFormat angleUnit cs = (Builder cs, cs) := by
  intro env benv context complexFormat angleUnit cs hfirst hpowers
  unfold mergeNegativePower
  simp only [splitRationalCoefficient_eq_self cs hfirst,
    negativePowerLoop_eq_self benv _ _ cs [] hpowers 0, List.length_nil, if_true]

theorem merge_negative_power_unchanged_witness :
    mergeNegativePower Sample.collaborators Sample.beautifyCollaborators 0 0 0
        [Sample.integer 3, Sample.symbol "a", Power.Builder (Sample.symbol "b") (Sample.integer 2)]
      = (Builder [Sample.integer 3, Sample.symbol "a",
            Power.Builder (Sample.symbol "b") (Sample.integer 2)],
          [Sample.integer 3, Sample.symbol "a",
            Power.Builder (Sample.symbol "b") (Sample.integer 2)]) :=
  merge_negative_power_unchanged Sample.collaborators Sample.beautifyCollaborators 0 0 0
    [Sample.integer 3, Sample.symbol "a", Power.Builder (Sample.symbol "b") (Sample.integer 2)]
    (by decide) (by decide)

/-! ### Trigonometric rewrite -/

theorem replaceChildAtIndex_twice (cs : List Expr) (i : Nat) (a b : Expr) :
    replaceChildAtIndex (replaceChildAtIndex cs i a) i b = replaceChildAtIndex cs i b := by
  simp [replaceChildAtIndex, List.set_set]

theorem length_replaceChildAtIndex (cs : List Expr) (i : Nat) (a : Expr) :
    (replaceChildAtIndex cs i a).length = cs.length := by
  simp [replaceChildAtIndex]

/-- C20. Trigonometric rewrite. For a factor of sine base `sin(x)` and exponent `p`
at index `i` and a factor of cosine base `cos(x)` and exponent `q` at a later index
`j`, `factorizeSineAndCosine` changes nothing when the signs of `p` and `q` have a
positive product; otherwise, when `|p| < |q|` it writes `tan(x)^p` (bare `tan(x)`
when `p` is the rational one) at index `i` and `cos(x)^(p+q)` at index `j`, and
when `|p| >= |q|` it writes `tan(x)^(-q)` at index `j` and `sin(x)^(p+q)` at index
`i`; each written factor is then reduced under the user target. For
`Product(pow(sin(x),2), pow(cos(x),-1))` the sine factor becomes the reduction of
`sin(x)^1` and the cosine factor the reduction of `tan(x)^1`. -/
theorem trigonometric_rewrite :
    (∀ (env : Collaborators) (ctx : ReductionContext) (cs : List Expr) (i j : Nat) (x : Expr),
        i < j → j < cs.length →
        Base (childAt cs i) = .node .Sine [x] →
        Base (childAt cs j) = .node .Cosine [x] →
        (env.numberSign (CreateExponent (childAt cs i))
            * env.numberSign (CreateExponent (childAt cs j)) > 0 →
          factorizeSineAndCosine env ctx cs i j = cs)
        ∧ (¬ (env.numberSign (CreateExponent (childAt cs i))
              * env.numberSign (CreateExponent (childAt cs j)) > 0) →
            env.numberNaturalOrder
                (env.numberSetSignPositive (CreateExponent (childAt cs i)))
                (env.numberSetSignPositive (CreateExponent (childAt cs j))) < 0 →
            factorizeSineAndCosine env ctx cs i j
              = replaceChildAtIndex
                  (replaceChildAtIndex cs i
                    (env.shallowReduce
                      (ReductionContext.mk ctx.context ctx.complexFormat ctx.angleUnit .User)
                      (if (CreateExponent (childAt cs i)).isRationalOne then Tangent.Builder x
                        else Power.Builder (Tangent.Builder x) (CreateExponent (childAt cs i)))))
                  j
                  (env.shallowReduce
                    (ReductionContext.mk ctx.context ctx.complexFormat ctx.angleUnit .User)
                    (Power.Builder (.node .Cosine [x])
                      (env.numberAddition (CreateExponent (childAt cs i))
                        (CreateExponent (childAt cs j))))))
        ∧ (¬ (env.numberSign (CreateExponent (childAt cs i))
              * env.numberSign (CreateExponent (childAt cs j)) > 0) →
            ¬ (env.numberNaturalOrder
                (env.numberSetSignPositive (CreateExponent (childAt cs i)))
                (env.numberSetSignPositive (CreateExponent (childAt cs j))) < 0) →
            factorizeSineAndCosine env ctx cs i j
              = replaceChildAtIndex
                  (replaceChildAtIndex cs j
                    (env.shallowReduce
                      (ReductionContext.mk ctx.context ctx.complexFormat ctx.angleUnit .User)
                      (Power.Builder (Tangent.Builder x)
                        (env.shallowReduce
                          (ReductionContext.mk ctx.context ctx.complexFormat ctx.angleUnit .User)
                          (env.numberMultiplication (CreateExponent (childAt cs j))
                            (Rational.Builder (-1) 1))))))
                  i
                  (env.shallowReduce
                    (ReductionContext.mk ctx.context ctx.complexFormat ctx.angleUnit .User)
                    (Power.Builder (.node .Sine [x])
                      (env.numberAddition (CreateExponent (childAt cs i))
                        (CreateExponent (childAt cs j)))))))
    ∧ (∀ (env : Collaborators) (ctx : ReductionContext) (x : Expr),
        ¬ (env.numberSign (Sample.integer 2) * env.numberSign (Sample.integer (-1)) > 0) →
        ¬ (env.numberNaturalOrder (env.numberSetSignPositive (Sample.integer 2))
            (env.numberSetSignPositive (Sample.integer (-1))) < 0) →
        env.numberAddition (Sample.integer 2) (Sample.integer (-1)) = Sample.integer 1 →
        env.numberMultiplication (Sample.integer (-1)) (Rational.Builder (-1) 1)
          = Sample.integer 1 →
        env.shallowReduce (ReductionContext.mk ctx.context ctx.complexFormat ctx.angleUnit .User)
          (Sample.integer 1) = Sample.integer 1 →
        factorizeSineAndCosine env ctx
            [Power.Builder (Sample.sine x) (Sample.integer 2),
              Power.Builder (Sample.cosine x) (Sample.integer (-1))] 0 1
          = [env.shallowReduce
                (ReductionContext.mk ctx.context ctx.complexFormat ctx.angleUnit .User)
                (Power.Builder (Sample.sine x) (Sample.integer 1)),
              env.shallowReduce
                (ReductionContext.mk ctx.context ctx.complexFormat ctx.angleUnit .User)
                (Power.Builder (Tangent.Builder x) (Sample.integer 1))]) := by
  have general : ∀ (env : Collaborators) (ctx : ReductionContext) (cs : List Expr)
      (i j : Nat) (x : Expr),
      i < j → j < cs.length →
      Base (childAt cs i) = .node .Sine [x] →
      Base (childAt cs j) = .node .Cosine [x] →
      (env.numberSign (CreateExponent (childAt cs i))
          * env.numberSign (CreateExponent (childAt cs j)) > 0 →
        factorizeSineAndCosine env ctx cs i j = cs)
      ∧ (¬ (env.numberSign (CreateExponent (childAt cs i))
            * env.numberSign (CreateExponent (childAt cs j)) > 0) →
          env.numberNaturalOrder
              (env.numberSetSignPositive (CreateExponent (childAt cs i)))
              (env.numberSetSignPositive (CreateExponent (childAt cs j))) < 0 →
          factorizeSineAndCosine env ctx cs i j
            = replaceChildAtIndex
                (replaceChildAtIndex cs i
                  (env.shallowReduce
                    (ReductionContext.mk ctx.context ctx.complexFormat ctx.angleUnit .User)
                    (if (CreateExponent (childAt cs i)).isRationalOne then Tangent.Builder x
                      else Power.Builder (Tangent.Builder x) (CreateExponent (childAt cs i)))))
                j
                (env.shallowReduce
                  (ReductionContext.mk ctx.context ctx.complexFormat ctx.angleUnit .User)
                  (Power.Builder (.node .Cosine [x])
                    (env.numberAddition (CreateExponent (childAt cs i))
                      (CreateExponent (childAt cs j))))))
      ∧ (¬ (env.numberSign (CreateExponent (childAt cs i))
            * env.numberSign (CreateExponent (childAt cs j)) > 0) →
          ¬ (env.numberNaturalOrder
              (env.numberSetSignPositive (CreateExponent (childAt cs i)))
              (env.numberSetSignPositive (CreateExponent (childAt cs j))) < 0) →
          factorizeSineAndCosine env ctx cs i j
            = replaceChildAtIndex
                (replaceChildAtIndex cs j
                  (env.shallowReduce
                    (ReductionContext.mk ctx.context ctx.complexFormat ctx.angleUnit .User)
                    (Power.Builder (Tangent.Builder x)
                      (env.shallowReduce
                        (ReductionContext.mk ctx.context ctx.complexFormat ctx.angleUnit .User)
                        (env.numberMultiplication (CreateExponent (childAt cs j))
                          (Rational.Builder (-1) 1))))))
                i
                (env.shallowReduce
                  (ReductionContext.mk ctx.context ctx.complexFormat ctx.angleUnit .User)
                  (Power.Builder (.node .Sine [x])
                    (env.numberAddition (CreateExponent (childAt cs i))
                      (CreateExponent (childAt cs j)))))) := by
    intro env ctx cs i j x hij hj hsin hcos
    have hi : i < cs.length := Nat.lt_trans hij hj
    have hne : i ≠ j := Nat.ne_of_lt hij
    have hx : (Base (childAt cs i)).childAtIndex 0 = x := by
      rw [hsin]
      rfl
    refine ⟨?_, ?_, ?_⟩
    · intro hsign
      unfold factorizeSineAndCosine
      simp only [if_pos hsign]
    · intro hsign horder
      unfold factorizeSineAndCosine
      simp only [if_neg hsign, if_pos horder, hx, replaceChildAtIndex_twice,
        childAt_replaceChildAtIndex_self, childAt_replaceChildAtIndex_of_ne, hcos,
        length_replaceChildAtIndex, hi, hj, hne, ne_eq, not_false_eq_true]
    · intro hsign horder
      unfold factorizeSineAndCosine
      simp only [if_neg hsign, if_neg horder, hx, replaceChildAtIndex_twice,
        childAt_replaceChildAtIndex_self, childAt_replaceChildAtIndex_of_ne, hsin,
        length_replaceChildAtIndex, hi, hj, Ne.symm hne, ne_eq, not_false_eq_true]
      rfl
  refine ⟨general, ?_⟩
  intro env ctx x hsign horder hsum hminus hone
  have h := (general env ctx
    [Power.Builder (Sample.sine x) (Sample.integer 2),
      Power.Builder (Sample.cosine x) (Sample.integer (-1))] 0 1 x
    (by decide) (by simp) rfl rfl).2.2 hsign horder
  rw [h]
  have hp : CreateExponent (childAt [Power.Builder (Sample.sine x) (Sample.integer 2),
      Power.Builder (Sample.cosine x) (Sample.integer (-1))] 0) = Sample.integer 2 := rfl
  have hq : CreateExponent (childAt [Power.Builder (Sample.sine x) (Sample.integer 2),
      Power.Builder (Sample.cosine x) (Sample.integer (-1))] 1) = Sample.integer (-1) := rfl
  rw [hp, hq, hsum, hminus, hone]
  rfl

theorem trigonometric_rewrite_witness :
    factorizeSineAndCosine Sample.collaborators Sample.userContext
        [Power.Builder (Sample.sine (Sample.symbol "x")) (Sample.integer 2),
          Power.Builder (Sample.cosine (Sample.symbol "x")) (Sample.integer (-1))] 0 1
      = [Sample.sine (Sample.symbol "x"), Tangent.Builder (Sample.symbol "x")]
    ∧ factorizeSineAndCosine Sample.collaborators Sample.userContext
        [Sample.sine (Sample.symbol "x"),
          Power.Builder (Sample.cosine (Sample.symbol "x")) (Sample.integer (-3))] 0 1
      = [Tangent.Builder (Sample.symbol "x"),
          Power.Builder (Sample.cosine (Sample.symbol "x")) (Sample.integer (-2))] :=
  ⟨(trigonometric_rewrite.2 Sample.collaborators Sample.userContext (Sample.symbol "x")
      (by decide) (by decide) (by decide) (by decide) (by decide)).trans (by decide),
   ((trigonometric_rewrite.1 Sample.collaborators Sample.userContext
      [Sample.sine (Sample.symbol "x"),
        Power.Builder (Sample.cosine (Sample.symbol "x")) (Sample.integer (-3))] 0 1
      (Sample.symbol "x") (by decide) (by decide) (by decide) (by decide)).2.1
      (by decide) (by decide)).trans (by decide)⟩

/-! ### The scan of mergeNegativePower -/

theorem childAt_append_length (pre : List Expr) (c : Expr) (rest : List Expr) :
    childAt (pre ++ c :: rest) pre.length = c := by
  induction pre with
  | nil => rfl
  | cons a pre ih => simpa [childAt] using ih

theorem removeChildAtIndex_append_length (pre : List Expr) (c : Expr) (rest : List Expr) :
    removeChildAtIndex (pre ++ c :: rest) pre.length = pre ++ rest := by
  induction pre with
  | nil => simp [removeChildAtIndex]
  | cons a pre ih =>
    simp only [removeChildAtIndex] at ih
    simp [removeChildAtIndex, ih]

theorem addChildAtIndex_length (m : List Expr) (e : Expr) :
    addChildAtIndex m e m.length = m ++ [e] := by
  simp [addChildAtIndex]

/-- The loop of `mergeNegativePower` is a single pass: from index `i` on, the
children that are powers with an exponent made positive are moved to `m` in their
flipped form, in order, and the others are kept in place. -/
theorem negativePowerLoop_spec (benv : BeautifyCollaborators) (userContext : ReductionContext) :
    ∀ (post pre m : List Expr) (fuel : Nat), post.length ≤ fuel →
      negativePowerLoop benv userContext fuel (pre ++ post) pre.length m
        = (pre ++ post.filter (fun p => !isMovedToDenominator benv userContext p),
            m ++ (post.filter (isMovedToDenominator benv userContext)).map
              (movedFactor benv userContext)) := by
  intro post
  induction post with
  | nil =>
    intro pre m fuel _
    cases fuel with
    | zero => simp [negativePowerLoop]
    | succ fuel => simp [negativePowerLoop]
  | cons c rest ih =>
    intro pre m fuel hfuel
    cases fuel with
    | zero => simp at hfuel
    | succ fuel =>
      have hlen : rest.length ≤ fuel := by simpa using hfuel
      have hi : pre.length < (pre ++ c :: rest).length := by simp
      unfold negativePowerLoop
      simp only [if_pos hi, childAt_append_length]
      by_cases hp : c.type = .Power
      · by_cases hpos : (benv.makePositiveAnyNegativeNumeralFactor userContext
            (c.childAtIndex 1)).isUninitialized = false
        · have hmoved : isMovedToDenominator benv userContext c = true := by
            simp [isMovedToDenominator, hp, hpos]
          simp only [if_pos hp, if_pos hpos, removeChildAtIndex_append_length,
            addChildAtIndex_length]
          rw [ih pre (m ++ [flippedFactor c (benv.makePositiveAnyNegativeNumeralFactor
            userContext (c.childAtIndex 1))]) fuel hlen]
          simp [hmoved, movedFactor]
        · have hmoved : isMovedToDenominator benv userContext c = false := by
            simp only [Bool.not_eq_false] at hpos
            simp [isMovedToDenominator, hpos]
          simp only [if_pos hp, if_neg hpos]
          have hsplit : pre ++ c :: rest = (pre ++ [c]) ++ rest := by simp
          have hl : pre.length + 1 = (pre ++ [c]).length := by simp
          rw [hsplit, hl, ih (pre ++ [c]) m fuel hlen]
          simp [hmoved]
      · have hmoved : isMovedToDenominator benv userContext c = false := by
          simp [isMovedToDenominator, hp]
        simp only [if_neg hp]
        have hsplit : pre ++ c :: rest = (pre ++ [c]) ++ rest := by simp
        have hl : pre.length + 1 = (pre ++ [c]).length := by simp
        rw [hsplit, hl, ih (pre ++ [c]) m fuel hlen]
        simp [hmoved]

/-- The result of `mergeNegativePower` in terms of the kept and the moved
children of the product left by the rational special case. -/
theorem mergeNegativePower_spec (env : Collaborators) (benv : BeautifyCollaborators)
    (context complexFormat angleUnit : Nat) (cs : List Expr) :
    mergeNegativePower env benv context complexFormat angleUnit cs
      = (if ((splitRationalCoefficient cs).2
              ++ ((splitRationalCoefficient cs).1.filter (isMovedToDenominator benv
                  (ReductionContext.mk context complexFormat angleUnit .User))).map
                (movedFactor benv
                  (ReductionContext.mk context complexFormat angleUnit .User))).length = 0
          then
            (Builder ((splitRationalCoefficient cs).1.filter (fun p =>
                !isMovedToDenominator benv
                  (ReductionContext.mk context complexFormat angleUnit .User) p)),
              (splitRationalCoefficient cs).1.filter (fun p =>
                !isMovedToDenominator benv
                  (ReductionContext.mk context complexFormat angleUnit .User) p))
          else
            (squashUnaryHierarchyInPlace (env.sortChildren
                (Power.Builder (squashUnaryHierarchyInPlace (env.sortChildren
                    ((splitRationalCoefficient cs).2
                      ++ ((splitRationalCoefficient cs).1.filter (isMovedToDenominator benv
                          (ReductionContext.mk context complexFormat angleUnit .User))).map
                        (movedFactor benv
                          (ReductionContext.mk context complexFormat angleUnit .User)))))
                    (Rational.Builder (-1) 1)
                  :: (splitRationalCoefficient cs).1.filter (fun p =>
                    !isMovedToDenominator benv
                      (ReductionContext.mk context complexFormat angleUnit .User) p))),
              env.sortChildren
                (Power.Builder (squashUnaryHierarchyInPlace (env.sortChildren
                    ((splitRationalCoefficient cs).2
                      ++ ((splitRationalCoefficient cs).1.filter (isMovedToDenominator benv
                          (ReductionContext.mk context complexFormat angleUnit .User))).map
                        (movedFactor benv
                          (ReductionContext.mk context complexFormat angleUnit .User)))))
                    (Rational.Builder (-1) 1)
                  :: (splitRationalCoefficient cs).1.filter (fun p =>
                    !isMovedToDenominator benv
                      (ReductionContext.mk context complexFormat angleUnit .User) p)))) := by
  have hloop := negativePowerLoop_spec benv
    (ReductionContext.mk context complexFormat angleUnit .User)
    (splitRationalCoefficient cs).1 [] (splitRationalCoefficient cs).2
    (splitRationalCoefficient cs).1.length (Nat.le_refl _)
  simp only [List.nil_append, List.length_nil] at hloop
  unfold mergeNegativePower
  simp only [hloop, addChildAtIndex_zero]

/-! ### Creating the division -/

theorem shallowReduce_single_factor (env : Collaborators) (ctx : ReductionContext)
    (fuel : Nat) (parentType : ExprType) (x : Expr)
    (hnum : x.isNumber = false) (hsum : x.type ≠ .Addition)
    (hprod : x.type ≠ .MultiplicationExplicite) (hmat : x.isMatrix = false)
    (hsort : env.sortChildren [x] = [x]) :
    shallowReduce env ctx (fuel + 1) parentType [x] = some x := by
  have hflat : mergeMultiplicationChildrenInPlace [x] = [x] :=
    mergeMultiplicationChildrenInPlace_eq_self _ (by simp [hprod])
  have hundef : (defaultShallowReduce (Builder [x])).isUndefined = false :=
    defaultShallowReduce_not_undefined _ (by
      intro c hc
      simp only [List.mem_singleton] at hc
      rw [hc]
      exact isUndefined_of_not_isNumber _ hnum)
  have h := privateShallowReduce_eq_collapseAndExpand env ctx fuel parentType true
    [x] [x] hundef (by rw [hflat, hsort]; exact hmat)
    (childrenAfterFolding_single env ctx _ fuel x hprod hsort)
  have hzero : (childAt [x] 0).isRationalZero = false := isRationalZero_of_not_isNumber x hnum
  unfold shallowReduce
  rw [h]
  unfold collapseAndExpand isAbsorbedByZero
  rw [hzero]
  simp [removeLeadingOne, expandSquashAndBubble, hsum, squashUnaryHierarchyInPlace, childAt]

theorem findIdx_append_cons (test : Expr → Bool) (l1 : List Expr) (x : Expr) (l2 : List Expr)
    (h1 : ∀ c ∈ l1, test c = false) (hx : test x = true) :
    (l1 ++ x :: l2).findIdx? test = some l1.length := by
  induction l1 with
  | nil => simp [List.findIdx?_cons, hx]
  | cons a l1 ih =>
    have ha : test a = false := h1 a (List.mem_cons_self _ _)
    have ih := ih (fun c hc => h1 c (List.mem_cons_of_mem _ hc))
    simp [List.findIdx?_cons, ha, List.findIdx?_succ, ih]

/-- Step 4 of `shallowBeautify` at the first power with exponent -1: that child
is removed, the rest is reduced and becomes the numerator (without its
parenthesis), and the base of the power becomes the denominator. -/
theorem createDivision_append_cons (env : Collaborators) (benv : BeautifyCollaborators)
    (ctx : ReductionContext) (fuel : Nat) (parentType : ExprType)
    (l1 : List Expr) (pw : Expr) (l2 : List Expr)
    (h1 : ∀ c ∈ l1, isPowerWithMinusOne c = false) (hpw : isPowerWithMinusOne pw = true) :
    createDivision env benv ctx fuel parentType (l1 ++ pw :: l2)
      = (shallowReduce env ctx fuel parentType (l1 ++ l2)).map (fun num =>
          benv.shallowBeautify ctx (Division.Builder
            (if num.type = .Parenthesis then num.childAtIndex 0 else num)
            (pw.childAtIndex 0))) := by
  unfold createDivision
  rw [findIdx_append_cons _ l1 pw l2 h1 hpw]
  simp only [childAt_append_length, removeChildAtIndex_append_length]
  cases shallowReduce env ctx fuel parentType (l1 ++ l2) <;> rfl

theorem addParentheses_append_cons (l1 : List Expr) (pw : Expr) (l2 : List Expr)
    (hpw : pw.type = .Power) :
    addParentheses (l1 ++ pw :: l2) = addParentheses l1 ++ pw :: addParentheses l2 := by
  simp [addParentheses, hpw]

theorem addParentheses_append (l1 l2 : List Expr) :
    addParentheses (l1 ++ l2) = addParentheses l1 ++ addParentheses l2 := by
  simp [addParentheses]

theorem isPowerWithMinusOne_addParentheses (l : List Expr)
    (h : ∀ c ∈ l, isPowerWithMinusOne c = false) :
    ∀ c ∈ addParentheses l, isPowerWithMinusOne c = false := by
  intro c hc
  simp only [addParentheses, List.mem_map] at hc
  obtain ⟨o, ho, rfl⟩ := hc
  by_cases hadd : o.type = .Addition
  · simp [hadd, isPowerWithMinusOne, Parenthesis.Builder, type_node]
  · simpa [hadd] using h o ho

/-- Steps 2 to 4 of `shallowBeautify` when no negative numeral factor was found
and the merged product has a first power with exponent -1. -/
theorem shallowBeautify_of_merged (env : Collaborators) (benv : BeautifyCollaborators)
    (ctx : ReductionContext) (fuel : Nat) (parentType : ExprType) (cs : List Expr)
    (l1 : List Expr) (pw : Expr) (l2 : List Expr)
    (hneg : (benv.makePositiveAnyNegativeNumeralFactor ctx (Builder cs)).isUninitialized = true)
    (hmerged : (mergeNegativePower env benv ctx.context ctx.complexFormat ctx.angleUnit cs).1
      = Builder (l1 ++ pw :: l2))
    (h1 : ∀ c ∈ l1, isPowerWithMinusOne c = false) (hpw : isPowerWithMinusOne pw = true) :
    shallowBeautify env benv ctx fuel parentType cs
      = (shallowReduce env ctx fuel parentType (addParentheses (l1 ++ l2))).map (fun num =>
          benv.shallowBeautify ctx (Division.Builder
            (if num.type = .Parenthesis then num.childAtIndex 0 else num)
            (pw.childAtIndex 0))) := by
  have hpower : pw.type = .Power := by
    simp only [isPowerWithMinusOne, Bool.and_eq_true, decide_eq_true_eq] at hpw
    exact hpw.1
  unfold shallowBeautify
  simp only [hneg, hmerged, Bool.true_eq_false, if_false]
  simp only [Builder, type_node, children_node, reduceCtorEq, if_false]
  rw [addParentheses_append_cons l1 pw l2 hpower,
    createDivision_append_cons env benv ctx fuel parentType _ pw _
      (isPowerWithMinusOne_addParentheses l1 h1) hpw, addParentheses_append]

/-! ### Negative-power surfacing -/

theorem isRationalWithDenominator_of_not_isNumber (x : Expr) (h : x.isNumber = false) :
    isRationalWithDenominator x = false := by
  cases x with
  | node t cs =>
    cases t <;> simp_all [Expr.isNumber, isRationalWithDenominator, type_node]

/-- The product `a * b^(-1)` after `mergeNegativePower`, when `a` is neither split
nor moved: the two children, in the order chosen by the sort. -/
theorem mergeNegativePower_inverse_pair (env : Collaborators) (benv : BeautifyCollaborators)
    (context complexFormat angleUnit : Nat) (a b : Expr)
    (hrat : isRationalWithDenominator a = false)
    (hkept : isMovedToDenominator benv
      (ReductionContext.mk context complexFormat angleUnit .User) a = false)
    (hone : benv.makePositiveAnyNegativeNumeralFactor
      (ReductionContext.mk context complexFormat angleUnit .User) (Rational.Builder (-1) 1)
        = Rational.Builder 1 1)
    (hsortb : env.sortChildren [b] = [b]) :
    mergeNegativePower env benv context complexFormat angleUnit
        [a, Power.Builder b (Rational.Builder (-1) 1)]
      = (squashUnaryHierarchyInPlace
            (env.sortChildren [Power.Builder b (Rational.Builder (-1) 1), a]),
          env.sortChildren [Power.Builder b (Rational.Builder (-1) 1), a]) := by
  have hsplit : splitRationalCoefficient [a, Power.Builder b (Rational.Builder (-1) 1)]
      = ([a, Power.Builder b (Rational.Builder (-1) 1)], []) :=
    splitRationalCoefficient_eq_self _ hrat
  have hmoved : isMovedToDenominator benv
      (ReductionContext.mk context complexFormat angleUnit .User)
      (Power.Builder b (Rational.Builder (-1) 1)) = true := by
    simp only [isMovedToDenominator, Power.Builder, type_node, Expr.childAtIndex,
      children_node, List.getD_cons_succ, List.getD_cons_zero]
    rw [hone]
    rfl
  have hfactor : movedFactor benv
      (ReductionContext.mk context complexFormat angleUnit .User)
      (Power.Builder b (Rational.Builder (-1) 1)) = b := by
    simp only [movedFactor, Power.Builder, Expr.childAtIndex, children_node,
      List.getD_cons_succ, List.getD_cons_zero]
    rw [hone]
    rfl
  rw [mergeNegativePower_spec, hsplit]
  simp [List.filter, hkept, hmoved, hfactor, hsortb, squashUnaryHierarchyInPlace, childAt]

/-- C14. Negative-power surfacing. For the product of exactly `a` and
`pow(b, -1)`, where no negative numeral factor is found in the product, `a` is not
a rational with a denominator and not a power whose exponent is made positive or
is -1, and the exponent -1 is made positive as 1: `shallowBeautify` removes the
power, reduces the remaining product (its sums in parentheses) into the numerator,
drops a parenthesis around it, and returns the beautified division of this
numerator by `b`. When `a` is moreover not a number, a product, a matrix, a power
or a parenthesis, the numerator is `a` itself: the result is the beautified
`Division(a, b)`. The sort may place the two children in either order. -/
theorem negative_power_surfacing :
    (∀ (env : Collaborators) (benv : BeautifyCollaborators) (ctx : ReductionContext)
        (fuel : Nat) (parentType : ExprType) (a b num : Expr),
        (benv.makePositiveAnyNegativeNumeralFactor ctx
          (Builder [a, Power.Builder b (Rational.Builder (-1) 1)])).isUninitialized = true →
        isRationalWithDenominator a = false →
        isMovedToDenominator benv
          (ReductionContext.mk ctx.context ctx.complexFormat ctx.angleUnit .User) a = false →
        isPowerWithMinusOne a = false →
        benv.makePositiveAnyNegativeNumeralFactor
          (ReductionContext.mk ctx.context ctx.complexFormat ctx.angleUnit .User)
          (Rational.Builder (-1) 1) = Rational.Builder 1 1 →
        env.sortChildren [b] = [b] →
        (env.sortChildren [Power.Builder b (Rational.Builder (-1) 1), a]
            = [a, Power.Builder b (Rational.Builder (-1) 1)]
          ∨ env.sortChildren [Power.Builder b (Rational.Builder (-1) 1), a]
            = [Power.Builder b (Rational.Builder (-1) 1), a]) →
        shallowReduce env ctx fuel parentType (addParentheses [a]) = some num →
        shallowBeautify env benv ctx fuel parentType
            [a, Power.Builder b (Rational.Builder (-1) 1)]
          = some (benv.shallowBeautify ctx (Division.Builder
              (if num.type = .Parenthesis then num.childAtIndex 0 else num) b)))
    ∧ (∀ (env : Collaborators) (benv : BeautifyCollaborators) (ctx : ReductionContext)
        (fuel : Nat) (parentType : ExprType) (a b : Expr),
        (benv.makePositiveAnyNegativeNumeralFactor ctx
          (Builder [a, Power.Builder b (Rational.Builder (-1) 1)])).isUninitialized = true →
        a.isNumber = false → a.type ≠ .MultiplicationExplicite → a.isMatrix = false →
        a.type ≠ .Power → a.type ≠ .Parenthesis →
        benv.makePositiveAnyNegativeNumeralFactor
          (ReductionContext.mk ctx.context ctx.complexFormat ctx.angleUnit .User)
          (Rational.Builder (-1) 1) = Rational.Builder 1 1 →
        env.sortChildren [b] = [b] →
        env.sortChildren (addParentheses [a]) = addParentheses [a] →
        (env.sortChildren [Power.Builder b (Rational.Builder (-1) 1), a]
            = [a, Power.Builder b (Rational.Builder (-1) 1)]
          ∨ env.sortChildren [Power.Builder b (Rational.Builder (-1) 1), a]
            = [Power.Builder b (Rational.Builder (-1) 1), a]) →
        shallowBeautify env benv ctx (fuel + 1) parentType
            [a, Power.Builder b (Rational.Builder (-1) 1)]
          = some (benv.shallowBeautify ctx (Division.Builder a b))) := by
  have general : ∀ (env : Collaborators) (benv : BeautifyCollaborators)
      (ctx : ReductionContext) (fuel : Nat) (parentType : ExprType) (a b num : Expr),
      (benv.makePositiveAnyNegativeNumeralFactor ctx
        (Builder [a, Power.Builder b (Rational.Builder (-1) 1)])).isUninitialized = true →
      isRationalWithDenominator a = false →
      isMovedToDenominator benv
        (ReductionContext.mk ctx.context ctx.complexFormat ctx.angleUnit .User) a = false →
      isPowerWithMinusOne a = false →
      benv.makePositiveAnyNegativeNumeralFactor
        (ReductionContext.mk ctx.context ctx.complexFormat ctx.angleUnit .User)
        (Rational.Builder (-1) 1) = Rational.Builder 1 1 →
      env.sortChildren [b] = [b] →
      (env.sortChildren [Power.Builder b (Rational.Builder (-1) 1), a]
          = [a, Power.Builder b (Rational.Builder (-1) 1)]
        ∨ env.sortChildren [Power.Builder b (Rational.Builder (-1) 1), a]
          = [Power.Builder b (Rational.Builder (-1) 1), a]) →
      shallowReduce env ctx fuel parentType (addParentheses [a]) = some num →
      shallowBeautify env benv ctx fuel parentType
          [a, Power.Builder b (Rational.Builder (-1) 1)]
        = some (benv.shallowBeautify ctx (Division.Builder
            (if num.type = .Parenthesis then num.childAtIndex 0 else num) b)) := by
    intro env benv ctx fuel parentType a b num hneg hrat hkept hnotinv hone hsortb hsort hnum
    have hm := mergeNegativePower_inverse_pair env benv ctx.context ctx.complexFormat
      ctx.angleUnit a b hrat hkept hone hsortb
    have hpw : isPowerWithMinusOne (Power.Builder b (Rational.Builder (-1) 1)) = true := rfl
    rcases hsort with h | h
    · have hmerged : (mergeNegativePower env benv ctx.context ctx.complexFormat ctx.angleUnit
          [a, Power.Builder b (Rational.Builder (-1) 1)]).1
          = Builder ([a] ++ Power.Builder b (Rational.Builder (-1) 1) :: []) := by
        rw [hm, h]
        rfl
      rw [shallowBeautify_of_merged env benv ctx fuel parentType _ [a] _ [] hneg hmerged
        (by simpa using hnotinv) hpw]
      simp only [List.append_nil, hnum, Option.map_some']
      rfl
    · have hmerged : (mergeNegativePower env benv ctx.context ctx.complexFormat ctx.angleUnit
          [a, Power.Builder b (Rational.Builder (-1) 1)]).1
          = Builder ([] ++ Power.Builder b (Rational.Builder (-1) 1) :: [a]) := by
        rw [hm, h]
        rfl
      rw [shallowBeautify_of_merged env benv ctx fuel parentType _ [] _ [a] hneg hmerged
        (by simp) hpw]
      simp only [List.nil_append, hnum, Option.map_some']
      rfl
  refine ⟨general, ?_⟩
  intro env benv ctx fuel parentType a b hneg hnumber hprod hmat hpower hparen hone hsortb
    hsorta hsort
  have hrat : isRationalWithDenominator a = false :=
    isRationalWithDenominator_of_not_isNumber a hnumber
  have hkept : isMovedToDenominator benv
      (ReductionContext.mk ctx.context ctx.complexFormat ctx.angleUnit .User) a = false := by
    simp [isMovedToDenominator, hpower]
  have hnotinv : isPowerWithMinusOne a = false := by
    simp [isPowerWithMinusOne, hpower]
  by_cases hadd : a.type = .Addition
  · have hwrap : addParentheses [a] = [Parenthesis.Builder a] := by
      simp [addParentheses, hadd]
    have hred : shallowReduce env ctx (fuel + 1) parentType (addParentheses [a])
        = some (Parenthesis.Builder a) := by
      rw [hwrap] at hsorta ⊢
      exact shallowReduce_single_factor env ctx fuel parentType _ rfl
        (by simp [Parenthesis.Builder, type_node])
        (by simp [Parenthesis.Builder, type_node]) rfl hsorta
    rw [general env benv ctx (fuel + 1) parentType a b _ hneg hrat hkept hnotinv hone hsortb
      hsort hred]
    rfl
  · have hwrap : addParentheses [a] = [a] := by
      simp [addParentheses, hadd]
    have hred : shallowReduce env ctx (fuel + 1) parentType (addParentheses [a]) = some a := by
      rw [hwrap] at hsorta ⊢
      exact shallowReduce_single_factor env ctx fuel parentType _ hnumber hadd hprod hmat hsorta
    rw [general env benv ctx (fuel + 1) parentType a b _ hneg hrat hkept hnotinv hone hsortb
      hsort hred, if_neg hparen]

theorem negative_power_surfacing_witness :
    shallowBeautify Sample.collaborators Sample.beautifyCollaborators Sample.userContext 1
        .Uninitialized
        [Sample.symbol "a", Power.Builder (Sample.symbol "b") (Rational.Builder (-1) 1)]
      = some (Division.Builder (Sample.symbol "a") (Sample.symbol "b")) :=
  negative_power_surfacing.2 Sample.collaborators Sample.beautifyCollaborators
    Sample.userContext 0 .Uninitialized (Sample.symbol "a") (Sample.symbol "b")
    (by decide) (by decide) (by decide) (by decide) (by decide) (by decide) (by decide)
    (by decide) (by decide) (Or.inr (by decide))

/-! ### Rational coefficient surfacing -/

theorem splitRationalCoefficient_rational (p : Int) (q : Nat) (rest : List Expr)
    (hq : q ≠ 1) :
    splitRationalCoefficient (Rational.Builder p q :: rest)
      = ((if p = 1 then [] else [Rational.Builder p 1]) ++ rest,
          [Rational.Builder (q : Int) 1]) := by
  have h0 : (childAt (Rational.Builder p q :: rest) 0).type = .Rational p q := rfl
  unfold splitRationalCoefficient
  simp only [h0, hq, ne_eq, not_false_eq_true, if_true]
  by_cases hp : p = 1
  · simp [hp, removeChildAtIndex]
  · simp [hp, replaceChildAtIndex]

theorem filter_moved_coefficient (benv : BeautifyCollaborators) (u : ReductionContext)
    (p : Int) (rest : List Expr)
    (hrest : ∀ c ∈ rest, isMovedToDenominator benv u c = false) :
    ∀ c ∈ (if p = 1 then [] else [Rational.Builder p 1]) ++ rest,
      isMovedToDenominator benv u c = false := by
  intro c hc
  rw [List.mem_append] at hc
  rcases hc with hc | hc
  · by_cases hp : p = 1
    · simp [hp] at hc
    · simp only [hp, if_false, List.mem_singleton] at hc
      rw [hc]
      rfl
  · exact hrest c hc

/-- The product `p/q * rest` after `mergeNegativePower`, when `q` is not one and no
child of `rest` is moved: the coefficient `p` (dropped when it is one), the
children of `rest` and the power of `q` with exponent -1, in the order chosen by the
sort. -/
theorem mergeNegativePower_rational_coefficient (env : Collaborators)
    (benv : BeautifyCollaborators) (context complexFormat angleUnit : Nat)
    (p : Int) (q : Nat) (rest : List Expr) (hq : q ≠ 1)
    (hrest : ∀ c ∈ rest, isMovedToDenominator benv
      (ReductionContext.mk context complexFormat angleUnit .User) c = false)
    (hsortq : env.sortChildren [Rational.Builder (q : Int) 1]
      = [Rational.Builder (q : Int) 1]) :
    mergeNegativePower env benv context complexFormat angleUnit (Rational.Builder p q :: rest)
      = (squashUnaryHierarchyInPlace (env.sortChildren
            (Power.Builder (Rational.Builder (q : Int) 1) (Rational.Builder (-1) 1)
              :: ((if p = 1 then [] else [Rational.Builder p 1]) ++ rest))),
          env.sortChildren
            (Power.Builder (Rational.Builder (q : Int) 1) (Rational.Builder (-1) 1)
              :: ((if p = 1 then [] else [Rational.Builder p 1]) ++ rest))) := by
  have hall := filter_moved_coefficient benv
    (ReductionContext.mk context complexFormat angleUnit .User) p rest hrest
  have hnone : ((if p = 1 then [] else [Rational.Builder p 1]) ++ rest).filter
      (isMovedToDenominator benv (ReductionContext.mk context complexFormat angleUnit .User))
      = [] := by
    rw [List.filter_eq_nil_iff]
    intro c hc
    simp [hall c hc]
  have hkeep : ((if p = 1 then [] else [Rational.Builder p 1]) ++ rest).filter
      (fun c => !isMovedToDenominator benv
        (ReductionContext.mk context complexFormat angleUnit .User) c)
      = (if p = 1 then [] else [Rational.Builder p 1]) ++ rest := by
    rw [List.filter_eq_self]
    intro c hc
    simp [hall c hc]
  rw [mergeNegativePower_spec, splitRationalCoefficient_rational p q rest hq]
  simp only [hnone, hkeep, List.map_nil, List.append_nil, List.length_singleton,
    Nat.succ_ne_zero, if_false, hsortq]
  rfl

/-- An integer coefficient other than zero and one followed by a factor that is
not a number, a sum, a product or a matrix reduces to itself, when the order keeps
the two in place and no complex part is bubbled up. -/
theorem shallowReduce_coefficient_factor (env : Collaborators) (ctx : ReductionContext)
    (fuel : Nat) (parentType : ExprType) (p : Int) (x : Expr)
    (hp0 : p ≠ 0) (hp1 : p ≠ 1)
    (hnum : x.isNumber = false) (hsum : x.type ≠ .Addition)
    (hprod : x.type ≠ .MultiplicationExplicite) (hmat : x.isMatrix = false)
    (hsort : env.sortChildren [Rational.Builder p 1, x] = [Rational.Builder p 1, x])
    (hreal : env.allChildrenAreReal [Rational.Builder p 1, x] ≠ 0) :
    shallowReduce env ctx (fuel + 2) parentType [Rational.Builder p 1, x]
      = some (Builder [Rational.Builder p 1, x]) := by
  have hflat : mergeMultiplicationChildrenInPlace [Rational.Builder p 1, x]
      = [Rational.Builder p 1, x] :=
    mergeMultiplicationChildrenInPlace_eq_self _
      (by simp [Rational.Builder, type_node, hprod])
  have hundef : (defaultShallowReduce (Builder [Rational.Builder p 1, x])).isUndefined
      = false :=
    defaultShallowReduce_not_undefined _ (by
      intro c hc
      simp only [List.mem_cons, List.mem_singleton, List.not_mem_nil, or_false] at hc
      rcases hc with rfl | rfl
      · rfl
      · exact isUndefined_of_not_isNumber _ hnum)
  have h := privateShallowReduce_eq_collapseAndExpand env ctx (fuel + 1) parentType true
    [Rational.Builder p 1, x] [Rational.Builder p 1, x] hundef
    (by rw [hflat, hsort]; exact hmat)
    (childrenAfterFolding_rational_first env ctx _ fuel p 1 x hnum hprod hsort)
  have ht : (Rational.Builder p 1).type = .Rational p 1 := rfl
  unfold shallowReduce
  rw [h]
  simp [collapseAndExpand, isAbsorbedByZero, removeLeadingOne, expandSquashAndBubble,
    squashUnaryHierarchyInPlace, childAt, ht, Expr.isRationalZero,
    Expr.isRationalOne, hp0, hp1, hsum, hreal]

/-- C15. Rational coefficient surfacing. For a product whose first child is the
rational `p/q` with `q` not one, in which no negative numeral factor is found and
no other child is moved by `mergeNegativePower`, and which has another child or
`p` not one: `shallowBeautify` returns the beautified division whose denominator is
the integer `q` and whose numerator is the reduction of the product with the
coefficient replaced by the integer `p`, or dropped when `p` is one (sums in
parentheses, a parenthesis around the numerator dropped). With one other factor
`a` that is not a number, a sum, a product, a matrix, a power or a parenthesis, the
numerator is `a` when `p` is one and `Product(p, a)` when `p` is positive and not
one; for instance `3/2*a` becomes `(3*a)/2`. -/
theorem rational_coefficient_surfacing :
    (∀ (env : Collaborators) (benv : BeautifyCollaborators) (ctx : ReductionContext)
        (fuel : Nat) (parentType : ExprType) (p : Int) (q : Nat) (rest l1 l2 : List Expr)
        (num : Expr),
        (benv.makePositiveAnyNegativeNumeralFactor ctx
          (Builder (Rational.Builder p q :: rest))).isUninitialized = true →
        q ≠ 1 →
        (∀ c ∈ rest, isMovedToDenominator benv
          (ReductionContext.mk ctx.context ctx.complexFormat ctx.angleUnit .User) c = false) →
        env.sortChildren [Rational.Builder (q : Int) 1] = [Rational.Builder (q : Int) 1] →
        env.sortChildren
            (Power.Builder (Rational.Builder (q : Int) 1) (Rational.Builder (-1) 1)
              :: ((if p = 1 then [] else [Rational.Builder p 1]) ++ rest))
          = l1 ++ Power.Builder (Rational.Builder (q : Int) 1) (Rational.Builder (-1) 1)
              :: l2 →
        (∀ c ∈ l1, isPowerWithMinusOne c = false) →
        l1 ++ l2 ≠ [] →
        shallowReduce env ctx fuel parentType (addParentheses (l1 ++ l2)) = some num →
        shallowBeautify env benv ctx fuel parentType (Rational.Builder p q :: rest)
          = some (benv.shallowBeautify ctx (Division.Builder
              (if num.type = .Parenthesis then num.childAtIndex 0 else num)
              (Rational.Builder (q : Int) 1))))
    ∧ (∀ (env : Collaborators) (benv : BeautifyCollaborators) (ctx : ReductionContext)
        (fuel : Nat) (parentType : ExprType) (q : Nat) (a : Expr),
        (benv.makePositiveAnyNegativeNumeralFactor ctx
          (Builder [Rational.Builder 1 q, a])).isUninitialized = true →
        q ≠ 1 →
        a.isNumber = false → a.type ≠ .Addition → a.type ≠ .MultiplicationExplicite →
        a.isMatrix = false → a.type ≠ .Power → a.type ≠ .Parenthesis →
        env.sortChildren [Rational.Builder (q : Int) 1] = [Rational.Builder (q : Int) 1] →
        env.sortChildren [a] = [a] →
        env.sortChildren
            [Power.Builder (Rational.Builder (q : Int) 1) (Rational.Builder (-1) 1), a]
          = [a, Power.Builder (Rational.Builder (q : Int) 1) (Rational.Builder (-1) 1)] →
        shallowBeautify env benv ctx (fuel + 1) parentType [Rational.Builder 1 q, a]
          = some (benv.shallowBeautify ctx (Division.Builder a
              (Rational.Builder (q : Int) 1))))
    ∧ (∀ (env : Collaborators) (benv : BeautifyCollaborators) (ctx : ReductionContext)
        (fuel : Nat) (parentType : ExprType) (p : Int) (q : Nat) (a : Expr),
        (benv.makePositiveAnyNegativeNumeralFactor ctx
          (Builder [Rational.Builder p q, a])).isUninitialized = true →
        0 < p → p ≠ 1 → q ≠ 1 →
        a.isNumber = false → a.type ≠ .Addition → a.type ≠ .MultiplicationExplicite →
        a.isMatrix = false → a.type ≠ .Power →
        env.sortChildren [Rational.Builder (q : Int) 1] = [Rational.Builder (q : Int) 1] →
        env.sortChildren [Rational.Builder p 1, a] = [Rational.Builder p 1, a] →
        env.allChildrenAreReal [Rational.Builder p 1, a] ≠ 0 →
        env.sortChildren
            [Power.Builder (Rational.Builder (q : Int) 1) (Rational.Builder (-1) 1),
              Rational.Builder p 1, a]
          = [Rational.Builder p 1, a,
              Power.Builder (Rational.Builder (q : Int) 1) (Rational.Builder (-1) 1)] →
        shallowBeautify env benv ctx (fuel + 2) parentType [Rational.Builder p q, a]
          = some (benv.shallowBeautify ctx (Division.Builder
              (Builder [Rational.Builder p 1, a]) (Rational.Builder (q : Int) 1))))
    ∧ shallowBeautify Sample.collaborators Sample.beautifyCollaborators Sample.userContext 2
          .Uninitialized [Rational.Builder 3 2, Sample.symbol "a"]
        = some (Division.Builder (Builder [Sample.integer 3, Sample.symbol "a"])
            (Sample.integer 2)) := by
  have general : ∀ (env : Collaborators) (benv : BeautifyCollaborators)
      (ctx : ReductionContext) (fuel : Nat) (parentType : ExprType) (p : Int) (q : Nat)
      (rest l1 l2 : List Expr) (num : Expr),
      (benv.makePositiveAnyNegativeNumeralFactor ctx
        (Builder (Rational.Builder p q :: rest))).isUninitialized = true →
      q ≠ 1 →
      (∀ c ∈ rest, isMovedToDenominator benv
        (ReductionContext.mk ctx.context ctx.complexFormat ctx.angleUnit .User) c = false) →
      env.sortChildren [Rational.Builder (q : Int) 1] = [Rational.Builder (q : Int) 1] →
      env.sortChildren
          (Power.Builder (Rational.Builder (q : Int) 1) (Rational.Builder (-1) 1)
            :: ((if p = 1 then [] else [Rational.Builder p 1]) ++ rest))
        = l1 ++ Power.Builder (Rational.Builder (q : Int) 1) (Rational.Builder (-1) 1)
            :: l2 →
      (∀ c ∈ l1, isPowerWithMinusOne c = false) →
      l1 ++ l2 ≠ [] →
      shallowReduce env ctx fuel parentType (addParentheses (l1 ++ l2)) = some num →
      shallowBeautify env benv ctx fuel parentType (Rational.Builder p q :: rest)
        = some (benv.shallowBeautify ctx (Division.Builder
            (if num.type = .Parenthesis then num.childAtIndex 0 else num)
            (Rational.Builder (q : Int) 1))) := by
    intro env benv ctx fuel parentType p q rest l1 l2 num hneg hq hrest hsortq hsort h1 hne
      hnum
    have hm := mergeNegativePower_rational_coefficient env benv ctx.context ctx.complexFormat
      ctx.angleUnit p q rest hq hrest hsortq
    have hlen : (l1 ++ Power.Builder (Rational.Builder (q : Int) 1)
        (Rational.Builder (-1) 1) :: l2).length ≠ 1 := by
      intro hl
      apply hne
      simp only [List.length_append, List.length_cons] at hl
      have h1len : l1.length = 0 := by omega
      have h2len : l2.length = 0 := by omega
      rw [List.length_eq_zero] at h1len h2len
      rw [h1len, h2len]
      rfl
    have hmerged : (mergeNegativePower env benv ctx.context ctx.complexFormat ctx.angleUnit
        (Rational.Builder p q :: rest)).1
        = Builder (l1 ++ Power.Builder (Rational.Builder (q : Int) 1)
            (Rational.Builder (-1) 1) :: l2) := by
      rw [hm, hsort]
      simp only [squashUnaryHierarchyInPlace, if_neg hlen]
    rw [shallowBeautify_of_merged env benv ctx fuel parentType _ l1 _ l2 hneg hmerged h1 rfl,
      hnum]
    rfl
  refine ⟨general, ?_, ?_, by decide⟩
  · intro env benv ctx fuel parentType q a hneg hq hnumber hsum hprod hmat hpower hparen
      hsortq hsorta hsort
    have hkept : ∀ c ∈ [a], isMovedToDenominator benv
        (ReductionContext.mk ctx.context ctx.complexFormat ctx.angleUnit .User) c = false := by
      intro c hc
      rw [List.mem_singleton] at hc
      simp [hc, isMovedToDenominator, hpower]
    have hwrap : addParentheses ([a] ++ []) = [a] := by
      simp [addParentheses, hsum]
    have hred : shallowReduce env ctx (fuel + 1) parentType (addParentheses ([a] ++ []))
        = some a := by
      rw [hwrap]
      exact shallowReduce_single_factor env ctx fuel parentType _ hnumber hsum hprod hmat hsorta
    rw [general env benv ctx (fuel + 1) parentType 1 q [a] [a] [] a hneg hq hkept hsortq
      (by simpa using hsort) (by simp [isPowerWithMinusOne, hpower]) (by simp) hred,
      if_neg hparen]
  · intro env benv ctx fuel parentType p q a hneg hpos hp1 hq hnumber hsum hprod hmat hpower
      hsortq hsortpa hreal hsort
    have hkept : ∀ c ∈ [a], isMovedToDenominator benv
        (ReductionContext.mk ctx.context ctx.complexFormat ctx.angleUnit .User) c = false := by
      intro c hc
      rw [List.mem_singleton] at hc
      simp [hc, isMovedToDenominator, hpower]
    have hwrap : addParentheses ([Rational.Builder p 1, a] ++ []) = [Rational.Builder p 1, a] := by
      simp [addParentheses, hsum, Rational.Builder, type_node]
    have hred : shallowReduce env ctx (fuel + 2) parentType
        (addParentheses ([Rational.Builder p 1, a] ++ []))
        = some (Builder [Rational.Builder p 1, a]) := by
      rw [hwrap]
      exact shallowReduce_coefficient_factor env ctx fuel parentType p a (by omega) hp1
        hnumber hsum hprod hmat hsortpa hreal
    rw [general env benv ctx (fuel + 2) parentType p q [a] [Rational.Builder p 1, a] [] _
      hneg hq hkept hsortq (by simpa [hp1] using hsort)
      (by
        intro c hc
        simp only [List.mem_cons, List.mem_singleton, List.not_mem_nil, or_false] at hc
        rcases hc with rfl | rfl
        · rfl
        · simp [isPowerWithMinusOne, hpower])
      (by simp) hred]
    rfl

theorem rational_coefficient_surfacing_witness :
    shallowBeautify Sample.collaborators Sample.beautifyCollaborators Sample.userContext 1
        .Uninitialized [Rational.Builder 1 2, Sample.symbol "a"]
      = some (Division.Builder (Sample.symbol "a") (Sample.integer 2)) :=
  rational_coefficient_surfacing.1 Sample.collaborators Sample.beautifyCollaborators
    Sample.userContext 1 .Uninitialized 1 2 [Sample.symbol "a"] []
    [Sample.symbol "a"] (Sample.symbol "a")
    (by decide) (by decide) (by decide) (by decide) (by decide) (by decide) (by decide)
    (by decide)

/-! ### mergeNegativePower with negative powers -/

theorem isRationalWithDenominator_of_moved (benv : BeautifyCollaborators)
    (u : ReductionContext) (x : Expr) (h : isMovedToDenominator benv u x = true) :
    isRationalWithDenominator x = false := by
  have hpower : x.type = .Power := by
    simp only [isMovedToDenominator, Bool.and_eq_true, decide_eq_true_eq] at h
    exact h.1
  simp [isRationalWithDenominator, hpower]

theorem squashUnaryHierarchyInPlace_of_length_ne_one (cs : List Expr) (h : cs.length ≠ 1) :
    squashUnaryHierarchyInPlace cs = Builder cs := by
  unfold squashUnaryHierarchyInPlace
  rw [if_neg h]

/-- C18, the claim as written fails on `1/2 * x^(-1)`: the second factor is moved
by the scan and the first is not a power, yet the result is the power
`(2 * x)^(-1)`, not a product, because the rational special case puts the
denominator 2 into the moved group and drops the numerator 1. -/
theorem merge_negative_power_groups_counterexample :
    isMovedToDenominator Sample.beautifyCollaborators Sample.userContext
        (Power.Builder (Sample.symbol "x") (Sample.integer (-1))) = true
    ∧ isMovedToDenominator Sample.beautifyCollaborators Sample.userContext
        (Rational.Builder 1 2) = false
    ∧ (mergeNegativePower Sample.collaborators Sample.beautifyCollaborators 0 0 0
        [Rational.Builder 1 2, Power.Builder (Sample.symbol "x") (Sample.integer (-1))]).1
      = Power.Builder (Builder [Sample.integer 2, Sample.symbol "x"]) (Sample.integer (-1))
    ∧ (mergeNegativePower Sample.collaborators Sample.beautifyCollaborators 0 0 0
        [Rational.Builder 1 2, Power.Builder (Sample.symbol "x") (Sample.integer (-1))]).1.type
      ≠ .MultiplicationExplicite := by
  decide

/-- C18, amended. When every child of a product is a power whose exponent is made
positive by the scan, `mergeNegativePower` returns the power with exponent -1 whose
base is the sorted product of the flipped factors, the single flipped factor itself
when there is one; a flipped factor is the bare base when its flipped exponent is
one. When the first child is not a rational with a denominator other than one, at
least one child is moved and at least one is not, it returns the product whose
children are, in the order of the sort, the children not moved and this one new
power. -/
theorem merge_negative_power_groups :
    (∀ (env : Collaborators) (benv : BeautifyCollaborators)
        (context complexFormat angleUnit : Nat) (cs : List Expr),
        cs ≠ [] →
        (∀ x ∈ cs, isMovedToDenominator benv
          (ReductionContext.mk context complexFormat angleUnit .User) x = true) →
        env.sortChildren [Power.Builder (squashUnaryHierarchyInPlace (env.sortChildren
              (cs.map (movedFactor benv
                (ReductionContext.mk context complexFormat angleUnit .User)))))
            (Rational.Builder (-1) 1)]
          = [Power.Builder (squashUnaryHierarchyInPlace (env.sortChildren
              (cs.map (movedFactor benv
                (ReductionContext.mk context complexFormat angleUnit .User)))))
            (Rational.Builder (-1) 1)] →
        (mergeNegativePower env benv context complexFormat angleUnit cs).1
          = Power.Builder (squashUnaryHierarchyInPlace (env.sortChildren
              (cs.map (movedFactor benv
                (ReductionContext.mk context complexFormat angleUnit .User)))))
            (Rational.Builder (-1) 1))
    ∧ (∀ (benv : BeautifyCollaborators) (u : ReductionContext) (b e : Expr),
        movedFactor benv u (Power.Builder b e)
            = (if (benv.makePositiveAnyNegativeNumeralFactor u e).isRationalOne then b
                else Power.Builder b (benv.makePositiveAnyNegativeNumeralFactor u e))
          ∧ squashUnaryHierarchyInPlace [movedFactor benv u (Power.Builder b e)]
            = movedFactor benv u (Power.Builder b e))
    ∧ (∀ (env : Collaborators) (benv : BeautifyCollaborators)
        (context complexFormat angleUnit : Nat) (cs : List Expr),
        isRationalWithDenominator (childAt cs 0) = false →
        (∃ x ∈ cs, isMovedToDenominator benv
          (ReductionContext.mk context complexFormat angleUnit .User) x = true) →
        (∃ x ∈ cs, isMovedToDenominator benv
          (ReductionContext.mk context complexFormat angleUnit .User) x = false) →
        (env.sortChildren
            (Power.Builder (squashUnaryHierarchyInPlace (env.sortChildren
                ((cs.filter (isMovedToDenominator benv
                  (ReductionContext.mk context complexFormat angleUnit .User))).map
                  (movedFactor benv
                    (ReductionContext.mk context complexFormat angleUnit .User)))))
              (Rational.Builder (-1) 1)
            :: cs.filter (fun x => !isMovedToDenominator benv
                (ReductionContext.mk context complexFormat angleUnit .User) x))).length
          = (cs.filter (fun x => !isMovedToDenominator benv
                (ReductionContext.mk context complexFormat angleUnit .User) x)).length + 1 →
        (mergeNegativePower env benv context complexFormat angleUnit cs).1
          = Builder (env.sortChildren
            (Power.Builder (squashUnaryHierarchyInPlace (env.sortChildren
                ((cs.filter (isMovedToDenominator benv
                  (ReductionContext.mk context complexFormat angleUnit .User))).map
                  (movedFactor benv
                    (ReductionContext.mk context complexFormat angleUnit .User)))))
              (Rational.Builder (-1) 1)
            :: cs.filter (fun x => !isMovedToDenominator benv
                (ReductionContext.mk context complexFormat angleUnit .User) x)))) := by
  refine ⟨?_, ?_, ?_⟩
  · intro env benv context complexFormat angleUnit cs hne hall hsort
    have hlen : 0 < cs.length := List.length_pos.mpr hne
    have hfirst : isRationalWithDenominator (childAt cs 0) = false :=
      isRationalWithDenominator_of_moved benv _ _ (hall _ (childAt_mem cs 0 hlen))
    have hmoved : cs.filter (isMovedToDenominator benv
        (ReductionContext.mk context complexFormat angleUnit .User)) = cs := by
      rw [List.filter_eq_self]
      exact hall
    have hkept : cs.filter (fun x => !isMovedToDenominator benv
        (ReductionContext.mk context complexFormat angleUnit .User) x) = [] := by
      rw [List.filter_eq_nil_iff]
      intro x hx
      simp [hall x hx]
    have hm : (cs.map (movedFactor benv
        (ReductionContext.mk context complexFormat angleUnit .User))).length ≠ 0 := by
      rw [List.length_map]
      omega
    rw [mergeNegativePower_spec, splitRationalCoefficient_eq_self cs hfirst]
    simp only [List.nil_append, hmoved, hkept, if_neg hm, hsort]
    rfl
  · intro benv u b e
    constructor
    · simp only [movedFactor, flippedFactor, Power.Builder, Expr.childAtIndex, children_node,
        replaceChildAtIndex, List.set_cons_succ, List.set_cons_zero, List.getD_cons_succ,
        List.getD_cons_zero, type_node]
    · rfl
  · intro env benv context complexFormat angleUnit cs hfirst hsome hother hsort
    obtain ⟨x, hx, hxm⟩ := hsome
    obtain ⟨y, hy, hym⟩ := hother
    have hm : ((cs.filter (isMovedToDenominator benv
        (ReductionContext.mk context complexFormat angleUnit .User))).map (movedFactor benv
        (ReductionContext.mk context complexFormat angleUnit .User))).length ≠ 0 := by
      rw [List.length_map]
      have hmem : x ∈ cs.filter (isMovedToDenominator benv
          (ReductionContext.mk context complexFormat angleUnit .User)) :=
        List.mem_filter.mpr ⟨hx, hxm⟩
      have := List.length_pos_of_mem hmem
      omega
    have hk : 0 < (cs.filter (fun x => !isMovedToDenominator benv
        (ReductionContext.mk context complexFormat angleUnit .User) x)).length := by
      apply List.length_pos_of_mem (a := y)
      exact List.mem_filter.mpr ⟨hy, by simp [hym]⟩
    rw [mergeNegativePower_spec, splitRationalCoefficient_eq_self cs hfirst]
    simp only [List.nil_append, if_neg hm]
    apply squashUnaryHierarchyInPlace_of_length_ne_one
    rw [hsort]
    omega

theorem merge_negative_power_groups_witness :
    (mergeNegativePower Sample.collaborators Sample.beautifyCollaborators 0 0 0
        [Power.Builder (Sample.symbol "x") (Sample.integer (-1)),
          Power.Builder (Sample.symbol "y") (Sample.integer (-2))]).1
      = Power.Builder (Builder [Sample.symbol "x",
          Power.Builder (Sample.symbol "y") (Sample.integer 2)]) (Sample.integer (-1))
    ∧ (mergeNegativePower Sample.collaborators Sample.beautifyCollaborators 0 0 0
        [Sample.symbol "a", Power.Builder (Sample.symbol "x") (Sample.integer (-1))]).1
      = Builder [Power.Builder (Sample.symbol "x") (Sample.integer (-1)), Sample.symbol "a"] :=
  ⟨merge_negative_power_groups.1 Sample.collaborators Sample.beautifyCollaborators 0 0 0
      [Power.Builder (Sample.symbol "x") (Sample.integer (-1)),
        Power.Builder (Sample.symbol "y") (Sample.integer (-2))]
      (by decide) (by decide) (by decide),
   merge_negative_power_groups.2.2 Sample.collaborators Sample.beautifyCollaborators 0 0 0
      [Sample.symbol "a", Power.Builder (Sample.symbol "x") (Sample.integer (-1))]
      (by decide) (by decide) (by decide) (by decide)⟩

/-! ### denominator -/

theorem find_append_cons (test : Expr → Bool) (l1 : List Expr) (x : Expr) (l2 : List Expr)
    (h1 : ∀ c ∈ l1, test c = false) (hx : test x = true) :
    (l1 ++ x :: l2).find? test = some x := by
  induction l1 with
  | nil => simp [List.find?_cons, hx]
  | cons a l1 ih =>
    have ha : test a = false := h1 a (List.mem_cons_self _ _)
    have ih := ih (fun c hc => h1 c (List.mem_cons_of_mem _ hc))
    simp [List.find?_cons, ha, ih]

theorem childAt_cloneTree (pool : TreePool) (handle : Nat) :
    childAt (cloneTree pool handle).1 (cloneTree pool handle).2 = childAt pool handle := by
  simp [cloneTree, childAt]

/-- The pool after `denominator`: the trees of the pool before the call, followed
by the clone as `mergeNegativePower` has left it. -/
theorem denominator_pool (env : Collaborators) (benv : BeautifyCollaborators)
    (context complexFormat angleUnit : Nat) (pool : TreePool) (handle : Nat) :
    (denominator env benv context complexFormat angleUnit pool handle).2
      = pool ++ [Builder (mergeNegativePower env benv context complexFormat angleUnit
          (childAt pool handle).children).2] := by
  unfold denominator mergeNegativePowerInPlace
  simp only [childAt_cloneTree]
  simp [cloneTree, replaceChildAtIndex]

/-- The expression returned by `denominator` is computed from the merge of the
children of the product. -/
theorem denominator_result (env : Collaborators) (benv : BeautifyCollaborators)
    (context complexFormat angleUnit : Nat) (pool : TreePool) (handle : Nat) :
    (denominator env benv context complexFormat angleUnit pool handle).1
      = if (mergeNegativePower env benv context complexFormat angleUnit
            (childAt pool handle).children).1.type = .Power then
          benv.denominator context complexFormat angleUnit
            (mergeNegativePower env benv context complexFormat angleUnit
              (childAt pool handle).children).1
        else
          match (mergeNegativePower env benv context complexFormat angleUnit
              (childAt pool handle).children).1.children.find? isPowerWithMinusOne with
          | some child => child.childAtIndex 0
          | none => Expr.uninitialized := by
  unfold denominator mergeNegativePowerInPlace
  simp only [childAt_cloneTree]

/-- C19. `denominator` is non-mutating. The product is a tree of the pool, reached
by a handle; `mergeNegativePower` changes the tree of its receiver in place (as it
does on `3/2 * a`), and `denominator` calls it on a clone: after the call every
tree that the pool held, the product with all its children among them, is as it
was, and only the clone is changed. When the merged clone is not a power, the
result is the base of its first child that is a power with exponent rational -1,
and the uninitialized expression when it has no such child; when the merged clone
is a power, the result is the denominator of that power. -/
theorem denominator_non_mutating :
    (∀ (env : Collaborators) (benv : BeautifyCollaborators)
        (context complexFormat angleUnit : Nat) (pool : TreePool) (handle : Nat),
        (denominator env benv context complexFormat angleUnit pool handle).2.take pool.length
            = pool
          ∧ (handle < pool.length →
            childAt (denominator env benv context complexFormat angleUnit pool handle).2 handle
              = childAt pool handle))
    ∧ (∀ (env : Collaborators) (benv : BeautifyCollaborators)
        (context complexFormat angleUnit : Nat) (pool : TreePool) (handle : Nat)
        (l1 l2 : List Expr) (pw : Expr),
        (mergeNegativePower env benv context complexFormat angleUnit
          (childAt pool handle).children).1.type ≠ .Power →
        (mergeNegativePower env benv context complexFormat angleUnit
          (childAt pool handle).children).1.children = l1 ++ pw :: l2 →
        (∀ c ∈ l1, isPowerWithMinusOne c = false) →
        isPowerWithMinusOne pw = true →
        (denominator env benv context complexFormat angleUnit pool handle).1
          = pw.childAtIndex 0)
    ∧ (∀ (env : Collaborators) (benv : BeautifyCollaborators)
        (context complexFormat angleUnit : Nat) (pool : TreePool) (handle : Nat),
        (mergeNegativePower env benv context complexFormat angleUnit
          (childAt pool handle).children).1.type ≠ .Power →
        (∀ c ∈ (mergeNegativePower env benv context complexFormat angleUnit
            (childAt pool handle).children).1.children,
          isPowerWithMinusOne c = false) →
        (denominator env benv context complexFormat angleUnit pool handle).1
          = Expr.uninitialized)
    ∧ (∀ (env : Collaborators) (benv : BeautifyCollaborators)
        (context complexFormat angleUnit : Nat) (pool : TreePool) (handle : Nat),
        (mergeNegativePower env benv context complexFormat angleUnit
          (childAt pool handle).children).1.type = .Power →
        (denominator env benv context complexFormat angleUnit pool handle).1
          = benv.denominator context complexFormat angleUnit
              (mergeNegativePower env benv context complexFormat angleUnit
                (childAt pool handle).children).1)
    ∧ ((mergeNegativePowerInPlace Sample.collaborators Sample.beautifyCollaborators 0 0 0
          [Sample.symbol "z", Builder [Rational.Builder 3 2, Sample.symbol "a"]] 1).2
        = [Sample.symbol "z",
            Builder [Power.Builder (Sample.integer 2) (Sample.integer (-1)), Sample.integer 3,
              Sample.symbol "a"]]
      ∧ denominator Sample.collaborators Sample.beautifyCollaborators 0 0 0
          [Sample.symbol "z", Builder [Rational.Builder 3 2, Sample.symbol "a"]] 1
        = (Sample.integer 2,
            [Sample.symbol "z", Builder [Rational.Builder 3 2, Sample.symbol "a"],
              Builder [Power.Builder (Sample.integer 2) (Sample.integer (-1)), Sample.integer 3,
                Sample.symbol "a"]])) := by
  refine ⟨?_, ?_, ?_, ?_, by decide⟩
  · intro env benv context complexFormat angleUnit pool handle
    rw [denominator_pool]
    constructor
    · simp
    · intro hlt
      simp [childAt, List.getElem?_append_left hlt]
  · intro env benv context complexFormat angleUnit pool handle l1 l2 pw htype hchildren h1 hpw
    rw [denominator_result]
    simp only [if_neg htype, hchildren, find_append_cons _ l1 pw l2 h1 hpw]
  · intro env benv context complexFormat angleUnit pool handle htype hnone
    have hfind : (mergeNegativePower env benv context complexFormat angleUnit
        (childAt pool handle).children).1.children.find? isPowerWithMinusOne = none := by
      rw [List.find?_eq_none]
      intro c hc
      simp [hnone c hc]
    rw [denominator_result]
    simp only [if_neg htype, hfind]
  · intro env benv context complexFormat angleUnit pool handle htype
    rw [denominator_result]
    simp only [if_pos htype]

theorem denominator_non_mutating_witness :
    childAt (denominator Sample.collaborators Sample.beautifyCollaborators 0 0 0
        [Sample.symbol "z", Builder [Rational.Builder 3 2, Sample.symbol "a"]] 1).2 1
      = childAt [Sample.symbol "z", Builder [Rational.Builder 3 2, Sample.symbol "a"]] 1
    ∧ (denominator Sample.collaborators Sample.beautifyCollaborators 0 0 0
        [Builder [Sample.symbol "a", Power.Builder (Sample.symbol "b") (Sample.integer (-1)),
          Power.Builder (Sample.symbol "c") (Sample.integer (-1))]] 0).1
      = Builder [Sample.symbol "b", Sample.symbol "c"]
    ∧ (denominator Sample.collaborators Sample.beautifyCollaborators 0 0 0
        [Builder [Sample.symbol "a", Sample.symbol "b"]] 0).1 = Expr.uninitialized
    ∧ (denominator Sample.collaborators Sample.beautifyCollaborators 0 0 0
        [Builder [Power.Builder (Sample.symbol "b") (Sample.integer (-2))]] 0).1
      = Power.Builder (Sample.symbol "b") (Sample.integer 2) :=
  ⟨(denominator_non_mutating.1 Sample.collaborators Sample.beautifyCollaborators 0 0 0
      [Sample.symbol "z", Builder [Rational.Builder 3 2, Sample.symbol "a"]] 1).2 (by decide),
   denominator_non_mutating.2.1 Sample.collaborators Sample.beautifyCollaborators 0 0 0
      [Builder [Sample.symbol "a", Power.Builder (Sample.symbol "b") (Sample.integer (-1)),
        Power.Builder (Sample.symbol "c") (Sample.integer (-1))]] 0
      [] [Sample.symbol "a"]
      (Power.Builder (Builder [Sample.symbol "b", Sample.symbol "c"]) (Sample.integer (-1)))
      (by decide) (by decide) (by decide) (by decide),
   denominator_non_mutating.2.2.1 Sample.collaborators Sample.beautifyCollaborators 0 0 0
      [Builder [Sample.symbol "a", Sample.symbol "b"]] 0 (by decide) (by decide),
   (denominator_non_mutating.2.2.2.1 Sample.collaborators Sample.beautifyCollaborators 0 0 0
      [Builder [Power.Builder (Sample.symbol "b") (Sample.integer (-2))]] 0 (by decide)).trans
      (by decide)⟩

/-! ### Matrix product -/

theorem reduceEach_isSome {α β : Type} (f : α → Option β) (l : List α)
    (h : ∀ x ∈ l, (f x).isSome = true) : (reduceEach f l).isSome = true := by
  induction l with
  | nil => rfl
  | cons a l ih =>
    have ha := h a (List.mem_cons_self _ _)
    have hl := ih (fun x hx => h x (List.mem_cons_of_mem _ hx))
    obtain ⟨b, hb⟩ := Option.isSome_iff_exists.mp ha
    obtain ⟨bs, hbs⟩ := Option.isSome_iff_exists.mp hl
    simp [reduceEach, hb, hbs]

theorem reduceEach_getD {α β : Type} (f : α → Option β) (da : α) (db : β) :
    ∀ (l : List α) (r : List β), reduceEach f l = some r →
      r.length = l.length ∧ ∀ k, k < l.length → f (l.getD k da) = some (r.getD k db) := by
  intro l
  induction l with
  | nil =>
    intro r h
    simp only [reduceEach, Option.some.injEq] at h
    subst h
    exact ⟨rfl, fun k hk => absurd hk (Nat.not_lt_zero k)⟩
  | cons a l ih =>
    intro r h
    unfold reduceEach at h
    cases hfa : f a with
    | none => simp [hfa] at h
    | some b =>
      cases hrest : reduceEach f l with
      | none => simp [hfa, hrest] at h
      | some bs =>
        simp only [hfa, hrest, Option.some_bind, Option.map_some', Option.some.injEq] at h
        subst h
        obtain ⟨hlen, hget⟩ := ih bs hrest
        refine ⟨by simp [hlen], ?_⟩
        intro k hk
        cases k with
        | zero => simpa using hfa
        | succ k => simpa using hget k (by simpa using hk)

theorem getD_range (n k : Nat) (hk : k < n) : (List.range n).getD k 0 = k := by
  rw [List.getD_eq_getElem _ _ (by simpa using hk)]
  exact List.getElem_range _ _

theorem length_flatten_of_rows (rows : List (List Expr)) (m : Nat)
    (h : ∀ r ∈ rows, r.length = m) : rows.flatten.length = rows.length * m := by
  induction rows with
  | nil => simp
  | cons r rest ih =>
    have hr := h r (List.mem_cons_self _ _)
    have hrest := ih (fun x hx => h x (List.mem_cons_of_mem _ hx))
    simp only [List.flatten_cons, List.length_append, hr, hrest, List.length_cons]
    ring

theorem getD_flatten_of_rows (m : Nat) :
    ∀ (rows : List (List Expr)) (i j : Nat), (∀ r ∈ rows, r.length = m) →
      i < rows.length → j < m →
      rows.flatten.getD (i * m + j) Expr.uninitialized
        = (rows.getD i []).getD j Expr.uninitialized := by
  intro rows
  induction rows with
  | nil => intro i j _ hi _; exact absurd hi (Nat.not_lt_zero i)
  | cons r rest ih =>
    intro i j h hi hj
    have hr := h r (List.mem_cons_self _ _)
    cases i with
    | zero =>
      simp only [Nat.zero_mul, Nat.zero_add, List.flatten_cons, List.getD_cons_zero]
      rw [List.getD_append _ _ _ _ (by omega)]
    | succ i =>
      have hge : r.length ≤ (i + 1) * m + j := by
        rw [hr, Nat.add_mul]
        omega
      have hidx : (i + 1) * m + j - r.length = i * m + j := by
        rw [hr, Nat.add_mul]
        omega
      simp only [List.flatten_cons, List.getD_cons_succ]
      rw [List.getD_append_right _ _ _ _ hge, hidx]
      exact ih i j (fun x hx => h x (List.mem_cons_of_mem _ hx)) (by simpa using hi) hj

/-- A cell of the matrix product is the reduction of the sum of the `n` reduced
products of one row entry and one column entry. -/
theorem matrixProductCell_spec (env : Collaborators) (ctx : ReductionContext)
    (reduce : Reducer) (L R : Expr) (n i j : Nat) (c : Expr)
    (h : matrixProductCell env ctx reduce L R n i j = some c) :
    ∃ terms : List Expr, terms.length = n
      ∧ (∀ k, k < n →
          reduce .Addition [L.matrixChild i k, R.matrixChild k j] = some (childAt terms k))
      ∧ c = env.shallowReduce ctx (Addition.Builder terms) := by
  unfold matrixProductCell at h
  cases hterms : reduceEach (fun k =>
      reduce .Addition [L.matrixChild i k, R.matrixChild k j]) (List.range n) with
  | none => simp [hterms] at h
  | some terms =>
    simp only [hterms, Option.some.injEq] at h
    obtain ⟨hlen, hget⟩ := reduceEach_getD _ 0 Expr.uninitialized _ _ hterms
    refine ⟨terms, by simpa using hlen, ?_, h.symm⟩
    intro k hk
    have := hget k (by simpa using hk)
    rw [getD_range n k hk] at this
    exact this

/-- The matrix product has the dimensions `a` by `m` and its cell `(i, j)`, in
row-major order, is the cell computed for `(i, j)`. -/
theorem matrixProduct_spec (env : Collaborators) (ctx : ReductionContext)
    (reduce : Reducer) (L R : Expr) (a m n : Nat) (M : Expr)
    (h : matrixProduct env ctx reduce L R a m n = some M) :
    M.type = .Matrix a m ∧ M.numberOfChildren = a * m
      ∧ ∀ i j, i < a → j < m →
          matrixProductCell env ctx reduce L R n i j = some (M.matrixChild i j) := by
  unfold matrixProduct at h
  cases hrows : reduceEach (fun i =>
      reduceEach (fun j => matrixProductCell env ctx reduce L R n i j) (List.range m))
      (List.range a) with
  | none => simp [hrows] at h
  | some rows =>
    simp only [hrows, Option.some.injEq] at h
    subst h
    obtain ⟨hlen, hget⟩ := reduceEach_getD _ 0 ([] : List Expr) _ _ hrows
    have hlen : rows.length = a := by simpa using hlen
    have hrow : ∀ i, i < a →
        reduceEach (fun j => matrixProductCell env ctx reduce L R n i j) (List.range m)
          = some (rows.getD i []) := by
      intro i hi
      have := hget i (by simpa using hi)
      rw [getD_range a i hi] at this
      exact this
    have hwidth : ∀ r ∈ rows, r.length = m := by
      intro r hr
      obtain ⟨i, hi, rfl⟩ := List.getElem_of_mem hr
      have := (reduceEach_getD _ 0 Expr.uninitialized _ _ (hrow i (hlen ▸ hi))).1
      rw [List.getD_eq_getElem _ _ hi] at this
      simpa using this
    refine ⟨rfl, ?_, ?_⟩
    · simp only [Expr.numberOfChildren, Matrix.Builder, children_node,
        length_flatten_of_rows rows m hwidth, hlen]
    · intro i j hi hj
      have hcell := (reduceEach_getD _ 0 Expr.uninitialized _ _ (hrow i hi)).2 j
        (by simpa using hj)
      rw [getD_range m j hj] at hcell
      have hchild : (Matrix.Builder a m rows.flatten).matrixChild i j
          = (rows.getD i []).getD j Expr.uninitialized := by
        rw [← getD_flatten_of_rows m rows i j hwidth (hlen ▸ hi) hj]
        rfl
      rw [hchild]
      exact hcell

/-- The matrix product has a result as soon as every product of a row entry and a
column entry reduces. -/
theorem matrixProduct_isSome (env : Collaborators) (ctx : ReductionContext)
    (reduce : Reducer) (L R : Expr) (a m n : Nat)
    (h : ∀ i j k, i < a → j < m → k < n →
      (reduce .Addition [L.matrixChild i k, R.matrixChild k j]).isSome = true) :
    (matrixProduct env ctx reduce L R a m n).isSome = true := by
  have hcell : ∀ i j, i < a → j < m →
      (matrixProductCell env ctx reduce L R n i j).isSome = true := by
    intro i j hi hj
    have hterms := reduceEach_isSome (fun k =>
      reduce .Addition [L.matrixChild i k, R.matrixChild k j]) (List.range n)
      (fun k hk => h i j k hi hj (List.mem_range.mp hk))
    obtain ⟨terms, hterms⟩ := Option.isSome_iff_exists.mp hterms
    simp [matrixProductCell, hterms]
  have hrows := reduceEach_isSome (fun i =>
    reduceEach (fun j => matrixProductCell env ctx reduce L R n i j) (List.range m))
    (List.range a)
    (fun i hi => reduceEach_isSome _ _ (fun j hj =>
      hcell i j (List.mem_range.mp hi) (List.mem_range.mp hj)))
  obtain ⟨rows, hrows⟩ := Option.isSome_iff_exists.mp hrows
  simp [matrixProduct, hrows]

theorem matrixScan_succ_of_matrix (env : Collaborators) (ctx : ReductionContext)
    (reduce : Reducer) (idx : Nat) (cs : List Expr) (resultMatrix newResult : Expr) (n m : Nat)
    (hmat : (childAt cs idx).isMatrix = true) (hdim : (childAt cs idx).numberOfColumns = n)
    (hprod : matrixProduct env ctx reduce (childAt cs idx) resultMatrix
      (childAt cs idx).numberOfRows m n = some newResult) :
    matrixScan env ctx reduce (idx + 1) cs resultMatrix n m
      = matrixScan env ctx reduce idx
          (replaceChildAtIndex (removeChildAtIndex cs idx)
            ((removeChildAtIndex cs idx).length - 1) newResult)
          newResult (childAt cs idx).numberOfRows m := by
  conv_lhs => unfold matrixScan
  simp [hmat, hdim, hprod]

theorem replaceChildAtIndex_append_length (pre : List Expr) (c e : Expr) :
    replaceChildAtIndex (pre ++ [c]) pre.length e = pre ++ [e] := by
  induction pre with
  | nil => rfl
  | cons a pre ih =>
    simp only [replaceChildAtIndex] at ih
    simp [replaceChildAtIndex, ih]

theorem type_of_isMatrix (e : Expr) (h : e.isMatrix = true) :
    e.type = .Matrix e.numberOfRows e.numberOfColumns := by
  cases e with
  | node t cs =>
    cases t <;> simp_all [Expr.isMatrix, Expr.numberOfRows, Expr.numberOfColumns, type_node]

/-- The backward scan over a chain of matrices with matching dimensions, before an
accumulated matrix of dimensions `n` by `m`: when the reducer always has a result,
the scan consumes every matrix and leaves a single matrix, whose row count is the
one of the first matrix of the chain. -/
theorem matrixScan_chain (env : Collaborators) (ctx : ReductionContext) (reduce : Reducer)
    (htotal : ∀ pt l, (reduce pt l).isSome = true) :
    ∀ (pre : List Expr) (R : Expr) (n m : Nat),
      (∀ c ∈ pre, c.isMatrix = true) →
      List.Chain' (fun x y => x.numberOfColumns = y.numberOfRows) pre →
      (∀ x ∈ pre.getLast?, x.numberOfColumns = n) →
      R.type = .Matrix n m →
      ∃ M, matrixScan env ctx reduce pre.length (pre ++ [R]) R n m
            = some (.scanned [M] M ((pre.head?.map Expr.numberOfRows).getD n) m 0)
          ∧ M.type = .Matrix ((pre.head?.map Expr.numberOfRows).getD n) m := by
  intro pre
  induction pre using List.reverseRecOn with
  | nil =>
    intro R n m _ _ _ hR
    exact ⟨R, rfl, hR⟩
  | append_singleton init L ih =>
    intro R n m hall hchain hlast hR
    have hL : L.isMatrix = true := hall L (by simp)
    have hLn : L.numberOfColumns = n := hlast L (by simp)
    have hsplit := List.chain'_append.mp hchain
    obtain ⟨M0, hM0⟩ := Option.isSome_iff_exists.mp
      (matrixProduct_isSome env ctx reduce L R L.numberOfRows m n
        (fun _ _ _ _ _ _ => htotal _ _))
    have hM0type := (matrixProduct_spec env ctx reduce L R L.numberOfRows m n M0 hM0).1
    obtain ⟨M, hscan, hM⟩ := ih M0 L.numberOfRows m
      (fun c hc => hall c (by simp [hc])) hsplit.1
      (fun x hx => hsplit.2.2 x hx L (by simp)) hM0type
    have hlist : init ++ [L] ++ [R] = init ++ L :: [R] := by simp
    have hchild : childAt (init ++ [L] ++ [R]) init.length = L := by
      rw [hlist]
      exact childAt_append_length init L [R]
    have hremove : removeChildAtIndex (init ++ [L] ++ [R]) init.length = init ++ [R] := by
      rw [hlist]
      exact removeChildAtIndex_append_length init L [R]
    have hstep := matrixScan_succ_of_matrix env ctx reduce init.length (init ++ [L] ++ [R]) R
      M0 n m (by rw [hchild]; exact hL) (by rw [hchild]; exact hLn)
      (by rw [hchild]; exact hM0)
    rw [hchild, hremove] at hstep
    have hlen : (init ++ [R]).length - 1 = init.length := by simp
    rw [hlen, replaceChildAtIndex_append_length, hscan] at hstep
    have hrows : ((init ++ [L]).head?.map Expr.numberOfRows).getD n
        = (init.head?.map Expr.numberOfRows).getD L.numberOfRows := by
      cases init <;> simp
    refine ⟨M, ?_, ?_⟩
    · rw [hrows]
      simpa using hstep
    · rw [hrows]
      exact hM

/-- C11. Matrix product. For a left matrix `L` with `a` rows and an accumulated
right matrix of dimensions `n` by `m`, the product built by one step of the
backward merge, when it has a result, is a matrix of dimensions `a` by `m` with
`a * m` cells, whose cell `(i, j)` in row-major order is the reduction of the sum of
the `n` reduced products `Product(L(i,k), R(k,j))`, `k` from 0 to `n - 1`; it has a
result as soon as these products reduce. The step removes the left matrix and
replaces the right one by the product, so that a product of only matrices with
matching dimensions ends, when the reducer always has a result, as the reduction
of a single matrix with the row count of the first matrix and the column count of
the last one; for instance `[a b] * [c; d]` reduces to the matrix `[a*c + b*d]`. -/
theorem matrix_product :
    (∀ (env : Collaborators) (ctx : ReductionContext) (reduce : Reducer) (L R : Expr)
        (a m n : Nat) (M : Expr),
        matrixProduct env ctx reduce L R a m n = some M →
        M.type = .Matrix a m ∧ M.numberOfChildren = a * m
          ∧ ∀ i j, i < a → j < m →
              ∃ terms : List Expr, terms.length = n
                ∧ (∀ k, k < n →
                    reduce .Addition [L.matrixChild i k, R.matrixChild k j]
                      = some (childAt terms k))
                ∧ M.matrixChild i j = env.shallowReduce ctx (Addition.Builder terms))
    ∧ (∀ (env : Collaborators) (ctx : ReductionContext) (reduce : Reducer) (L R : Expr)
        (a m n : Nat),
        (∀ i j k, i < a → j < m → k < n →
          (reduce .Addition [L.matrixChild i k, R.matrixChild k j]).isSome = true) →
        (matrixProduct env ctx reduce L R a m n).isSome = true)
    ∧ (∀ (env : Collaborators) (ctx : ReductionContext) (reduce : Reducer) (idx : Nat)
        (cs : List Expr) (R M : Expr) (n m : Nat),
        (childAt cs idx).isMatrix = true →
        (childAt cs idx).numberOfColumns = n →
        matrixProduct env ctx reduce (childAt cs idx) R (childAt cs idx).numberOfRows m n
          = some M →
        matrixScan env ctx reduce (idx + 1) cs R n m
          = matrixScan env ctx reduce idx
              (replaceChildAtIndex (removeChildAtIndex cs idx)
                ((removeChildAtIndex cs idx).length - 1) M)
              M (childAt cs idx).numberOfRows m)
    ∧ (∀ (env : Collaborators) (ctx : ReductionContext) (reduce : Reducer)
        (pre : List Expr) (last : Expr),
        (∀ pt l, (reduce pt l).isSome = true) →
        (∀ c ∈ pre ++ [last], c.isMatrix = true) →
        List.Chain' (fun x y => x.numberOfColumns = y.numberOfRows) (pre ++ [last]) →
        ∃ M, M.type = .Matrix (childAt (pre ++ [last]) 0).numberOfRows last.numberOfColumns
          ∧ matrixScan env ctx reduce ((pre ++ [last]).length - 1) (pre ++ [last]) last
              last.numberOfRows last.numberOfColumns
            = some (.scanned [M] M (childAt (pre ++ [last]) 0).numberOfRows
                last.numberOfColumns 0)
          ∧ handleMatrices env ctx reduce (pre ++ [last]) last
            = some (env.shallowReduce ctx M))
    ∧ shallowReduce Sample.collaborators Sample.userContext 3 .Uninitialized
          [Matrix.Builder 1 2 [Sample.symbol "a", Sample.symbol "b"],
            Matrix.Builder 2 1 [Sample.symbol "c", Sample.symbol "d"]]
        = some (Matrix.Builder 1 1 [Addition.Builder
            [Builder [Sample.symbol "a", Sample.symbol "c"],
              Builder [Sample.symbol "b", Sample.symbol "d"]]]) := by
  refine ⟨?_, matrixProduct_isSome, matrixScan_succ_of_matrix, ?_, by decide⟩
  · intro env ctx reduce L R a m n M h
    obtain ⟨htype, hcount, hcells⟩ := matrixProduct_spec env ctx reduce L R a m n M h
    refine ⟨htype, hcount, ?_⟩
    intro i j hi hj
    obtain ⟨terms, hlen, hterms, hsum⟩ :=
      matrixProductCell_spec env ctx reduce L R n i j _ (hcells i j hi hj)
    exact ⟨terms, hlen, hterms, hsum⟩
  · intro env ctx reduce pre last htotal hall hchain
    have hlast : last.isMatrix = true := hall last (by simp)
    have hsplit := List.chain'_append.mp hchain
    obtain ⟨M, hscan, hM⟩ := matrixScan_chain env ctx reduce htotal pre last
      last.numberOfRows last.numberOfColumns
      (fun c hc => hall c (by simp [hc])) hsplit.1
      (fun x hx => hsplit.2.2 x hx last (by simp)) (type_of_isMatrix last hlast)
    have hrows : (pre.head?.map Expr.numberOfRows).getD last.numberOfRows
        = (childAt (pre ++ [last]) 0).numberOfRows := by
      cases pre <;> rfl
    have hlen : (pre ++ [last]).length - 1 = pre.length := by simp
    rw [hrows] at hscan hM
    refine ⟨M, hM, by rw [hlen]; exact hscan, ?_⟩
    unfold handleMatrices
    rw [hlen, hscan]
    rfl

theorem matrix_product_witness :
    (∃ M, M.type = .Matrix 2 2
      ∧ matrixScan Sample.collaborators Sample.userContext (fun _ l => some (Builder l)) 2
          [Matrix.Builder 2 1 [Sample.symbol "a", Sample.symbol "b"],
            Matrix.Builder 1 2 [Sample.symbol "c", Sample.symbol "d"],
            Matrix.Builder 2 2 [Sample.integer 1, Sample.integer 0, Sample.integer 0,
              Sample.integer 1]]
          (Matrix.Builder 2 2 [Sample.integer 1, Sample.integer 0, Sample.integer 0,
              Sample.integer 1]) 2 2
        = some (.scanned [M] M 2 2 0)
      ∧ handleMatrices Sample.collaborators Sample.userContext (fun _ l => some (Builder l))
          [Matrix.Builder 2 1 [Sample.symbol "a", Sample.symbol "b"],
            Matrix.Builder 1 2 [Sample.symbol "c", Sample.symbol "d"],
            Matrix.Builder 2 2 [Sample.integer 1, Sample.integer 0, Sample.integer 0,
              Sample.integer 1]]
          (Matrix.Builder 2 2 [Sample.integer 1, Sample.integer 0, Sample.integer 0,
              Sample.integer 1])
        = some (Sample.collaborators.shallowReduce Sample.userContext M))
    ∧ (Matrix.Builder 1 2 [Sample.integer 13, Sample.integer 16]).type = .Matrix 1 2
    ∧ (Matrix.Builder 1 2 [Sample.integer 13, Sample.integer 16]).numberOfChildren = 1 * 2
    ∧ ∀ i j, i < 1 → j < 2 →
        ∃ terms : List Expr, terms.length = 2
          ∧ (∀ k, k < 2 →
              nestedReducer Sample.collaborators Sample.userContext 2 .Addition
                  [(Matrix.Builder 1 2 [Sample.integer 1, Sample.integer 2]).matrixChild i k,
                    (Matrix.Builder 2 2 [Sample.integer 3, Sample.integer 4, Sample.integer 5,
                      Sample.integer 6]).matrixChild k j]
                = some (childAt terms k))
          ∧ (Matrix.Builder 1 2 [Sample.integer 13, Sample.integer 16]).matrixChild i j
            = Sample.collaborators.shallowReduce Sample.userContext (Addition.Builder terms) :=
  ⟨matrix_product.2.2.2.1 Sample.collaborators Sample.userContext (fun _ l => some (Builder l))
      [Matrix.Builder 2 1 [Sample.symbol "a", Sample.symbol "b"],
        Matrix.Builder 1 2 [Sample.symbol "c", Sample.symbol "d"]]
      (Matrix.Builder 2 2 [Sample.integer 1, Sample.integer 0, Sample.integer 0,
        Sample.integer 1])
      (fun _ _ => rfl) (by decide)
      (List.chain'_cons.mpr ⟨rfl, List.chain'_cons.mpr ⟨rfl, List.chain'_singleton _⟩⟩),
   matrix_product.1 Sample.collaborators Sample.userContext
      (nestedReducer Sample.collaborators Sample.userContext 2)
      (Matrix.Builder 1 2 [Sample.integer 1, Sample.integer 2])
      (Matrix.Builder 2 2 [Sample.integer 3, Sample.integer 4, Sample.integer 5,
        Sample.integer 6])
      1 2 2 (Matrix.Builder 1 2 [Sample.integer 13, Sample.integer 16]) (by decide)⟩

/-! ### Strict exponent identity -/

/-- C29. Strict exponent identity. `TermsHaveIdenticalExponent(e1, e2)` holds
exactly when both arguments are powers and their second children are structurally
identical; it is false as soon as one argument is not a power. A bare numeral `n`
and the explicit power `pow(m, 1)` are never reported as having the same exponent,
in either order, although `CreateExponent` gives the rational one for both. -/
theorem strict_exponent_identity :
    (∀ e1 e2 : Expr,
        TermsHaveIdenticalExponent e1 e2 = true
          ↔ (e1.type = .Power ∧ e2.type = .Power ∧ e1.childAtIndex 1 = e2.childAtIndex 1))
    ∧ (∀ e1 e2 : Expr, (e1.type ≠ .Power ∨ e2.type ≠ .Power) →
        TermsHaveIdenticalExponent e1 e2 = false)
    ∧ (∀ (n : Int) (d : Nat) (m : Expr),
        TermsHaveIdenticalExponent (Rational.Builder n d)
            (Power.Builder m (Rational.Builder 1 1)) = false
        ∧ TermsHaveIdenticalExponent (Power.Builder m (Rational.Builder 1 1))
            (Rational.Builder n d) = false
        ∧ CreateExponent (Rational.Builder n d) = Rational.Builder 1 1
        ∧ CreateExponent (Power.Builder m (Rational.Builder 1 1)) = Rational.Builder 1 1) := by
  refine ⟨?_, ?_, ?_⟩
  · intro e1 e2
    simp [TermsHaveIdenticalExponent, Expr.isIdenticalTo, and_assoc]
  · intro e1 e2 h
    rcases h with h | h
    · simp [TermsHaveIdenticalExponent, h]
    · simp [TermsHaveIdenticalExponent, h]
  · intro n d m
    exact ⟨rfl, rfl, rfl, rfl⟩

theorem strict_exponent_identity_witness :
    TermsHaveIdenticalExponent (Sample.integer 2)
        (Power.Builder (Sample.symbol "x") (Sample.integer 1)) = false :=
  strict_exponent_identity.2.1 (Sample.integer 2)
    (Power.Builder (Sample.symbol "x") (Sample.integer 1)) (Or.inl (by decide))

/-! ### Flattening -/

theorem flattenFactors_append (as bs : List Expr) :
    flattenFactors (as ++ bs) = flattenFactors as ++ flattenFactors bs := by
  induction as with
  | nil => simp [flattenFactors]
  | cons a as ih => simp [flattenFactors, ih]

theorem flattenFactor_of_product (c : Expr) (h : c.type = .MultiplicationExplicite) :
    flattenFactor c = flattenFactors c.children := by
  cases c with
  | node t cs =>
    rw [type_node] at h
    simp [flattenFactor, h, children_node]

theorem flattenFactor_of_not_product (c : Expr) (h : c.type ≠ .MultiplicationExplicite) :
    flattenFactor c = [c] := by
  cases c with
  | node t cs =>
    rw [type_node] at h
    simp [flattenFactor, h]

theorem mergeChildrenAtIndex_append_length (pre : List Expr) (c : Expr) (rest : List Expr) :
    mergeChildrenAtIndex (pre ++ c :: rest) c pre.length = pre ++ (c.children ++ rest) := by
  simp [mergeChildrenAtIndex]

theorem forestSize_eq_zero (cs : List Expr) (h : Expr.forestSize cs = 0) : cs = [] := by
  cases cs with
  | nil => rfl
  | cons c cs =>
    simp only [Expr.forestSize, treeSize_eq] at h
    omega

/-- The loop of `mergeMultiplicationChildrenInPlace` from the index `pre.length`
on: when the bound is at least the node count of the children still to visit, the
loop ends with the visited children followed by the opened factors of the
others. -/
theorem mergeMultiplicationChildrenLoop_eq_flatten (fuel : Nat) :
    ∀ (pre post : List Expr), Expr.forestSize post ≤ fuel →
      mergeMultiplicationChildrenLoop fuel (pre ++ post) pre.length
        = pre ++ flattenFactors post := by
  induction fuel with
  | zero =>
    intro pre post hfuel
    have hpost := forestSize_eq_zero post (by omega)
    subst hpost
    simp [mergeMultiplicationChildrenLoop, flattenFactors]
  | succ fuel ih =>
    intro pre post hfuel
    cases post with
    | nil => simp [mergeMultiplicationChildrenLoop, flattenFactors]
    | cons c rest =>
      have hi : pre.length < (pre ++ c :: rest).length := by simp
      simp only [Expr.forestSize, treeSize_eq] at hfuel
      unfold mergeMultiplicationChildrenLoop
      simp only [if_pos hi, childAt_append_length]
      by_cases hprod : c.type = .MultiplicationExplicite
      · simp only [if_pos hprod, mergeChildrenAtIndex_append_length]
        rw [ih pre (c.children ++ rest) (by rw [forestSize_append]; omega),
          flattenFactors_append]
        simp [flattenFactors, flattenFactor_of_product c hprod]
      · simp only [if_neg hprod]
        have hsplit : pre ++ c :: rest = (pre ++ [c]) ++ rest := by simp
        have hl : pre.length + 1 = (pre ++ [c]).length := by simp
        rw [hsplit, hl, ih (pre ++ [c]) rest (by omega)]
        simp [flattenFactors, flattenFactor_of_not_product c hprod]

theorem mergeMultiplicationChildrenInPlace_eq_flatten (cs : List Expr) :
    mergeMultiplicationChildrenInPlace cs = flattenFactors cs := by
  have h := mergeMultiplicationChildrenLoop_eq_flatten (Expr.forestSize cs) [] cs
    (Nat.le_refl _)
  simpa [mergeMultiplicationChildrenInPlace] using h

/-- C24. Flattening. The loop of `mergeMultiplicationChildrenInPlace` ends: with
any bound of at least the node count of the children it gives one and the same
list, the one that `mergeMultiplicationChildrenInPlace` returns. This list holds
the factors of the nested products that are not products, in their original order
from left to right (a child that is not a product is kept, a child that is a
product is replaced by the opened factors of its children); none of its elements
is a product, and flattening it again changes nothing. -/
theorem flattening :
    (∀ (cs : List Expr) (fuel : Nat), Expr.forestSize cs ≤ fuel →
        mergeMultiplicationChildrenLoop fuel cs 0 = mergeMultiplicationChildrenInPlace cs)
    ∧ (∀ cs : List Expr, mergeMultiplicationChildrenInPlace cs = flattenFactors cs)
    ∧ (∀ (c : Expr) (cs : List Expr), c.type ≠ .MultiplicationExplicite →
        flattenFactors (c :: cs) = c :: flattenFactors cs)
    ∧ (∀ (c : Expr) (cs : List Expr), c.type = .MultiplicationExplicite →
        flattenFactors (c :: cs) = flattenFactors c.children ++ flattenFactors cs)
    ∧ (∀ (cs : List Expr), ∀ c ∈ mergeMultiplicationChildrenInPlace cs,
        c.type ≠ .MultiplicationExplicite)
    ∧ (∀ cs : List Expr,
        mergeMultiplicationChildrenInPlace (mergeMultiplicationChildrenInPlace cs)
          = mergeMultiplicationChildrenInPlace cs)
    ∧ mergeMultiplicationChildrenInPlace
        [Sample.symbol "a",
          Builder [Sample.symbol "b", Builder [Sample.symbol "c", Sample.symbol "d"]],
          Builder [], Sample.symbol "e"]
        = [Sample.symbol "a", Sample.symbol "b", Sample.symbol "c", Sample.symbol "d",
            Sample.symbol "e"] := by
  refine ⟨?_, mergeMultiplicationChildrenInPlace_eq_flatten, ?_, ?_,
    mergeMultiplicationChildrenInPlace_no_product, ?_, by decide⟩
  · intro cs fuel hfuel
    have h := mergeMultiplicationChildrenLoop_eq_flatten fuel [] cs hfuel
    rw [mergeMultiplicationChildrenInPlace_eq_flatten]
    simpa using h
  · intro c cs hc
    simp [flattenFactors, flattenFactor_of_not_product c hc]
  · intro c cs hc
    simp [flattenFactors, flattenFactor_of_product c hc]
  · intro cs
    exact mergeMultiplicationChildrenInPlace_eq_self _
      (mergeMultiplicationChildrenInPlace_no_product cs)

theorem flattening_witness :
    mergeMultiplicationChildrenLoop 20
        [Builder [Sample.symbol "b", Builder [Sample.symbol "c", Sample.symbol "d"]],
          Sample.symbol "e"] 0
      = mergeMultiplicationChildrenInPlace
        [Builder [Sample.symbol "b", Builder [Sample.symbol "c", Sample.symbol "d"]],
          Sample.symbol "e"] :=
  flattening.1
    [Builder [Sample.symbol "b", Builder [Sample.symbol "c", Sample.symbol "d"]],
      Sample.symbol "e"] 20 (by decide)

/-! ### Commutative-factor invariance -/

/-- The two reductions of the sample have a result: the product of the two factors
in the order of their node counts. -/
theorem shallowReduce_both_orders_sample :
    shallowReduce Sample.sortingCollaborators Sample.userContext 2 .Uninitialized
        [Power.Builder (Sample.symbol "x") (Sample.integer 2), Sample.symbol "y"]
      = some (Builder [Sample.symbol "y", Power.Builder (Sample.symbol "x") (Sample.integer 2)])
    ∧ shallowReduce Sample.sortingCollaborators Sample.userContext 2 .Uninitialized
        [Sample.symbol "y", Power.Builder (Sample.symbol "x") (Sample.integer 2)]
      = some (Builder [Sample.symbol "y", Power.Builder (Sample.symbol "x") (Sample.integer 2)]) := by
  decide

/-! ### The merge pass -/

theorem gatherLikeTermsStep_of_keepsPairApart (env : Collaborators) (ctx : ReductionContext)
    (reduce : Reducer) (cs : List Expr) (i : Nat)
    (h : keepsPairApart env (childAt cs i) (childAt cs (i + 1)) = true) :
    gatherLikeTermsStep env ctx reduce cs i = some (cs, i + 1) := by
  unfold keepsPairApart at h
  unfold gatherLikeTermsStep
  by_cases hr : env.recursivelyMatchesIsRandom (childAt cs i) = true
  · simp [hr]
  · by_cases hb : TermsHaveIdenticalBase (childAt cs i) (childAt cs (i + 1)) = true
    · simp only [hr, hb, if_true, Bool.false_or] at h
      simp only [Bool.and_eq_true, Bool.not_eq_true'] at h
      simp [hr, hb, h.1, h.2]
    · simp only [hr, hb, Bool.false_or] at h
      simp only [Bool.false_eq_true, if_false, Bool.not_eq_true'] at h
      simp [hr, hb, h]

theorem gatherLikeTermsStep_of_not_keepsPairApart (env : Collaborators)
    (ctx : ReductionContext) (reduce : Reducer) (cs : List Expr) (i : Nat)
    (h : keepsPairApart env (childAt cs i) (childAt cs (i + 1)) = false) :
    gatherLikeTermsStep env ctx reduce cs i
      = if TermsHaveIdenticalBase (childAt cs i) (childAt cs (i + 1)) = true then
          some (factorizeBase env ctx cs i (i + 1), i)
        else (factorizeExponent env ctx reduce cs i (i + 1)).map (fun merged => (merged, i)) := by
  unfold keepsPairApart at h
  unfold gatherLikeTermsStep
  simp only [Bool.or_eq_false_iff] at h
  obtain ⟨hr, h⟩ := h
  by_cases hb : TermsHaveIdenticalBase (childAt cs i) (childAt cs (i + 1)) = true
  · simp only [hb, if_true] at h
    by_cases hn : TermHasNumeralBase (childAt cs i) = true
    · simp only [hn, Bool.true_and, Bool.not_eq_false'] at h
      simp [hr, hb, hn, h]
    · simp [hr, hb, hn]
  · simp only [hb, Bool.false_eq_true, if_false, Bool.not_eq_false'] at h
    simp only [hr, hb, h, Bool.false_eq_true, if_false, if_true]
    cases factorizeExponent env ctx reduce cs i (i + 1) <;> rfl

/-! ### Distinct bases -/

theorem gatherLikeTermsLoop_of_keepsPairApart (env : Collaborators) (ctx : ReductionContext)
    (reduce : Reducer) (cs : List Expr)
    (hkeep : ∀ k, k + 1 < cs.length →
      keepsPairApart env (childAt cs k) (childAt cs (k + 1)) = true) :
    ∀ (fuel i : Nat), 1 ≤ fuel → cs.length ≤ fuel + i →
      gatherLikeTermsLoop env ctx reduce fuel cs i = some cs := by
  intro fuel
  induction fuel with
  | zero => intro i h; omega
  | succ fuel ih =>
    intro i _ hlen
    unfold gatherLikeTermsLoop
    by_cases hlt : i + 1 < cs.length
    · simp only [if_pos hlt,
        gatherLikeTermsStep_of_keepsPairApart env ctx reduce cs i (hkeep i hlt)]
      exact ih (i + 1) (by omega) (by omega)
    · simp only [if_neg hlt]

/-- C23, the claim as written fails on `2 * 2^(1/2)`: the reduction returns the
product with its two children, which share the base 2. -/
theorem distinct_bases_counterexample :
    shallowReduce Sample.collaborators Sample.systemContext 2 .Uninitialized
        [Sample.integer 2, Power.Builder (Sample.integer 2) (Rational.Builder 1 2)]
      = some (Builder
          [Sample.integer 2, Power.Builder (Sample.integer 2) (Rational.Builder 1 2)])
    ∧ (Base (Sample.integer 2)).isIdenticalTo
        (Base (Power.Builder (Sample.integer 2) (Rational.Builder 1 2))) = true := by
  decide

/-- C23, amended. The loop of Step 4 merges two adjacent children with a
structurally identical base into one child, unless the left one matches the random
predicate or the base is a number and the two are not both powers. An iteration
that advances the index leaves the children as they are, and the two children it
compared share a base only in these two cases. When every adjacent pair is kept
apart, the loop returns the children unchanged. -/
theorem distinct_bases :
    (∀ (env : Collaborators) (ctx : ReductionContext) (reduce : Reducer) (cs : List Expr)
        (i : Nat),
        TermsHaveIdenticalBase (childAt cs i) (childAt cs (i + 1)) = true →
        env.recursivelyMatchesIsRandom (childAt cs i) = false →
        (TermHasNumeralBase (childAt cs i) = false
          ∨ ((childAt cs i).type = .Power ∧ (childAt cs (i + 1)).type = .Power)) →
        gatherLikeTermsStep env ctx reduce cs i = some (factorizeBase env ctx cs i (i + 1), i))
    ∧ (∀ (env : Collaborators) (ctx : ReductionContext) (reduce : Reducer) (cs : List Expr)
        (i : Nat) (kept : List Expr),
        gatherLikeTermsStep env ctx reduce cs i = some (kept, i + 1) →
        kept = cs
          ∧ (TermsHaveIdenticalBase (childAt cs i) (childAt cs (i + 1)) = true →
              env.recursivelyMatchesIsRandom (childAt cs i) = true
                ∨ (TermHasNumeralBase (childAt cs i) = true
                  ∧ ¬((childAt cs i).type = .Power ∧ (childAt cs (i + 1)).type = .Power))))
    ∧ (∀ (env : Collaborators) (ctx : ReductionContext) (reduce : Reducer) (cs : List Expr)
        (fuel : Nat),
        1 ≤ fuel → cs.length ≤ fuel →
        (∀ k, k + 1 < cs.length →
          keepsPairApart env (childAt cs k) (childAt cs (k + 1)) = true) →
        gatherLikeTermsLoop env ctx reduce fuel cs 0 = some cs) := by
  refine ⟨?_, ?_, ?_⟩
  · intro env ctx reduce cs i hb hr hguard
    have hkeep : keepsPairApart env (childAt cs i) (childAt cs (i + 1)) = false := by
      unfold keepsPairApart
      rcases hguard with hn | ⟨h1, h2⟩
      · simp [hr, hb, hn]
      · simp [hr, hb, h1, h2]
    rw [gatherLikeTermsStep_of_not_keepsPairApart env ctx reduce cs i hkeep, if_pos hb]
  · intro env ctx reduce cs i kept hstep
    by_cases hkeep : keepsPairApart env (childAt cs i) (childAt cs (i + 1)) = true
    · rw [gatherLikeTermsStep_of_keepsPairApart env ctx reduce cs i hkeep] at hstep
      simp only [Option.some.injEq, Prod.mk.injEq, and_true] at hstep
      refine ⟨hstep.symm, ?_⟩
      intro hb
      unfold keepsPairApart at hkeep
      simp only [hb, if_true, Bool.or_eq_true, Bool.and_eq_true, Bool.not_eq_true',
        Bool.and_eq_false_iff, decide_eq_false_iff_not] at hkeep
      rcases hkeep with hr | ⟨hn, hp⟩
      · exact Or.inl hr
      · refine Or.inr ⟨hn, ?_⟩
        rintro ⟨h1, h2⟩
        rcases hp with hp | hp
        · exact hp h1
        · exact hp h2
    · have hkeep : keepsPairApart env (childAt cs i) (childAt cs (i + 1)) = false := by
        simpa using hkeep
      rw [gatherLikeTermsStep_of_not_keepsPairApart env ctx reduce cs i hkeep] at hstep
      exfalso
      split_ifs at hstep
      · simp only [Option.some.injEq, Prod.mk.injEq] at hstep
        omega
      · cases hfe : factorizeExponent env ctx reduce cs i (i + 1) with
        | none => simp [hfe] at hstep
        | some merged =>
          simp only [hfe, Option.map_some', Option.some.injEq, Prod.mk.injEq] at hstep
          omega
  · intro env ctx reduce cs fuel hfuel hlen hkeep
    exact gatherLikeTermsLoop_of_keepsPairApart env ctx reduce cs hkeep fuel 0 hfuel
      (by omega)

theorem distinct_bases_witness :
    gatherLikeTermsStep Sample.collaborators Sample.systemContext
        (nestedReducer Sample.collaborators Sample.systemContext 1)
        [Power.Builder Sample.pi (Sample.integer 2), Power.Builder Sample.pi (Sample.integer 3)] 0
      = some (factorizeBase Sample.collaborators Sample.systemContext
          [Power.Builder Sample.pi (Sample.integer 2),
            Power.Builder Sample.pi (Sample.integer 3)] 0 1, 0)
    ∧ gatherLikeTermsLoop Sample.collaborators Sample.systemContext
        (nestedReducer Sample.collaborators Sample.systemContext 1) 2
        [Sample.integer 2, Power.Builder (Sample.integer 2) (Rational.Builder 1 2)] 0
      = some [Sample.integer 2, Power.Builder (Sample.integer 2) (Rational.Builder 1 2)] :=
  ⟨distinct_bases.1 Sample.collaborators Sample.systemContext
      (nestedReducer Sample.collaborators Sample.systemContext 1)
      [Power.Builder Sample.pi (Sample.integer 2), Power.Builder Sample.pi (Sample.integer 3)] 0
      (by decide) (by decide) (Or.inl (by decide)),
   distinct_bases.2.2 Sample.collaborators Sample.systemContext
      (nestedReducer Sample.collaborators Sample.systemContext 1)
      [Sample.integer 2, Power.Builder (Sample.integer 2) (Rational.Builder 1 2)] 2
      (by decide) (by decide)
      (fun k hk => by
        have h0 : k = 0 := by
          simp only [List.length_cons, List.length_nil] at hk
          omega
        subst h0
        decide)⟩

/-! ### Idempotence -/

theorem childrenAfterFolding_no_number (env : Collaborators) (ctx : ReductionContext)
    (reduce : Reducer) (fuel : Nat) (cs cs6 : List Expr)
    (h6 : childrenAfterFolding env ctx reduce fuel cs = some cs6) :
    ∀ k, (childAt cs6 (k + 1)).isNumber = false := by
  unfold childrenAfterFolding at h6
  cases hloop : gatherLikeTermsLoop env ctx reduce fuel
      (env.sortChildren (mergeMultiplicationChildrenInPlace cs)) 0 with
  | none => simp [hloop] at h6
  | some cs4 =>
    simp only [hloop, Option.some.injEq] at h6
    intro k
    rw [← h6]
    exact numeralFolding_no_number env _ k

/-- Step 7 finds nothing more to do on the children it has left. -/
theorem removeLeadingOne_stable (env : Collaborators) (cs : List Expr)
    (hnumbers : ∀ k, (childAt cs (k + 1)).isNumber = false)
    (hzero : isAbsorbedByZero env cs = false) :
    isAbsorbedByZero env (removeLeadingOne cs) = false
      ∧ removeLeadingOne (removeLeadingOne cs) = removeLeadingOne cs := by
  by_cases hc : (childAt cs 0).isRationalOne = true ∧ 1 < cs.length
  · cases cs with
    | nil => simp at hc
    | cons c rest =>
      have hfirst : (childAt rest 0).isNumber = false := by
        have := hnumbers 0
        rwa [childAt_cons_succ] at this
      have hremoved : removeLeadingOne (c :: rest) = rest := by
        unfold removeLeadingOne
        rw [if_pos hc]
        rfl
      rw [hremoved]
      constructor
      · unfold isAbsorbedByZero
        rw [isRationalZero_of_not_isNumber _ hfirst]
        rfl
      · unfold removeLeadingOne
        rw [if_neg]
        rw [isRationalOne_of_not_isNumber _ hfirst]
        simp
  · have hkept : removeLeadingOne cs = cs := by
      unfold removeLeadingOne
      rw [if_neg hc]
    rw [hkept]
    exact ⟨hzero, hkept⟩

/-- The folding of the witness: `x * 1/2 * pi * 2` folds its numbers into the
coefficient one, which Step 7 removes. -/
theorem removeLeadingOne_sample :
    removeLeadingOne (numeralFolding Sample.collaborators
        [Sample.symbol "x", Rational.Builder 1 2, Sample.pi, Sample.integer 2])
      = [Sample.symbol "x", Sample.pi] := by
  decide

/-- The products returned on the two inputs of the counterexample are not in
canonical form: one holds an undefined child, the other two neighbours that the
test of Step 4 does not keep apart. -/
theorem isCanonical_of_returned_samples :
    isCanonical Sample.collaborators Sample.systemContext .Uninitialized
        [Undefined.Builder, Sample.symbol "x"] = false
    ∧ isCanonical Sample.collaborators Sample.userContext .Uninitialized
        [Tangent.Builder (Sample.symbol "x"), Tangent.Builder (Sample.symbol "x")] = false := by
  decide

/-! ### setSign -/

/-- The loop of `setSign` visits every child once, from left to right. -/
theorem setSignLoop_eq_map (senv : SignCollaborators) (s : Sign) (ctx : ReductionContext) :
    ∀ (post pre : List Expr) (fuel : Nat), post.length ≤ fuel →
      setSignLoop senv s ctx fuel (pre ++ post) pre.length
        = pre ++ post.map (fun c =>
            if senv.sign ctx.context c = .Negative then senv.setSign s ctx c else c) := by
  intro post
  induction post with
  | nil =>
    intro pre fuel _
    cases fuel <;> simp [setSignLoop]
  | cons c rest ih =>
    intro pre fuel hfuel
    cases fuel with
    | zero => simp at hfuel
    | succ fuel =>
      have hlen : rest.length ≤ fuel := by simpa using hfuel
      have hi : pre.length < (pre ++ c :: rest).length := by simp
      have hreplace : ∀ e : Expr,
          replaceChildAtIndex (pre ++ c :: rest) pre.length e = (pre ++ [e]) ++ rest := by
        intro e
        simp [replaceChildAtIndex]
      have hl : ∀ e : Expr, pre.length + 1 = (pre ++ [e]).length := by
        intro e
        simp
      unfold setSignLoop
      simp only [if_pos hi, childAt_append_length]
      by_cases hneg : senv.sign ctx.context c = .Negative
      · simp only [if_pos hneg, hreplace]
        rw [hl (senv.setSign s ctx c), ih _ fuel hlen]
        simp [hneg]
      · simp only [if_neg hneg]
        have hsplit : pre ++ c :: rest = (pre ++ [c]) ++ rest := by simp
        rw [hsplit, hl c, ih _ fuel hlen]
        simp [hneg]

theorem setSignLoop_eq_map_all (senv : SignCollaborators) (s : Sign)
    (ctx : ReductionContext) (cs : List Expr) :
    setSignLoop senv s ctx cs.length cs 0
      = cs.map (fun c =>
          if senv.sign ctx.context c = .Negative then senv.setSign s ctx c else c) := by
  have h := setSignLoop_eq_map senv s ctx cs [] cs.length (Nat.le_refl _)
  simpa using h

theorem childAt_map (f : Expr → Expr) (cs : List Expr) (k : Nat) (hk : k < cs.length) :
    childAt (cs.map f) k = f (childAt cs k) := by
  simp [childAt, List.getD_eq_getElem?_getD, List.getElem?_map, List.getElem?_eq_getElem hk]

/-- C26. `setSign`. Called with the positive sign, `setSign` replaces every child
whose sign is negative by the result of that child's own `setSign` and leaves every
other child as it is, at its place; it then returns the reduction of the product of
these children. When the `setSign` of a negative child does not give a negative
expression, no child has a negative sign before this reduction. Called with another
sign, the function has no result (the assertion). -/
theorem set_sign :
    (∀ (senv : SignCollaborators) (ctx : ReductionContext) (cs : List Expr),
        setSignLoop senv .Positive ctx cs.length cs 0
          = cs.map (fun c =>
              if senv.sign ctx.context c = .Negative then senv.setSign .Positive ctx c
              else c))
    ∧ (∀ (senv : SignCollaborators) (ctx : ReductionContext) (cs : List Expr) (k : Nat),
        k < cs.length →
        (senv.sign ctx.context (childAt cs k) = .Negative →
            childAt (setSignLoop senv .Positive ctx cs.length cs 0) k
              = senv.setSign .Positive ctx (childAt cs k))
          ∧ (senv.sign ctx.context (childAt cs k) ≠ .Negative →
            childAt (setSignLoop senv .Positive ctx cs.length cs 0) k = childAt cs k))
    ∧ (∀ (senv : SignCollaborators) (ctx : ReductionContext) (cs : List Expr),
        (∀ c ∈ cs, senv.sign ctx.context c = .Negative →
          senv.sign ctx.context (senv.setSign .Positive ctx c) ≠ .Negative) →
        ∀ c ∈ setSignLoop senv .Positive ctx cs.length cs 0,
          senv.sign ctx.context c ≠ .Negative)
    ∧ (∀ (env : Collaborators) (senv : SignCollaborators) (ctx : ReductionContext)
        (fuel : Nat) (parentType : ExprType) (cs : List Expr),
        setSign env senv .Positive ctx fuel parentType cs
          = shallowReduce env ctx fuel parentType
              (setSignLoop senv .Positive ctx cs.length cs 0))
    ∧ (∀ (env : Collaborators) (senv : SignCollaborators) (s : Sign) (ctx : ReductionContext)
        (fuel : Nat) (parentType : ExprType) (cs : List Expr),
        s ≠ .Positive → setSign env senv s ctx fuel parentType cs = none) := by
  refine ⟨?_, ?_, ?_, ?_, ?_⟩
  · intro senv ctx cs
    exact setSignLoop_eq_map_all senv .Positive ctx cs
  · intro senv ctx cs k hk
    rw [setSignLoop_eq_map_all, childAt_map _ cs k hk]
    constructor
    · intro hneg
      rw [if_pos hneg]
    · intro hneg
      rw [if_neg hneg]
  · intro senv ctx cs hpositive c hc
    rw [setSignLoop_eq_map_all, List.mem_map] at hc
    obtain ⟨o, ho, rfl⟩ := hc
    by_cases hneg : senv.sign ctx.context o = .Negative
    · rw [if_pos hneg]
      exact hpositive o ho hneg
    · rw [if_neg hneg]
      exact hneg
  · intro env senv ctx fuel parentType cs
    simp [setSign]
  · intro env senv s ctx fuel parentType cs hs
    simp [setSign, hs]

theorem set_sign_witness :
    (∀ c ∈ setSignLoop Sample.signCollaborators .Positive Sample.userContext 3
        [Sample.integer (-3), Sample.symbol "x", Rational.Builder (-1) 2] 0,
      Sample.signCollaborators.sign Sample.userContext.context c ≠ .Negative)
    ∧ setSign Sample.collaborators Sample.signCollaborators .Negative Sample.userContext 3
        .Uninitialized [Sample.integer (-3), Sample.symbol "x"] = none :=
  ⟨set_sign.2.2.1 Sample.signCollaborators Sample.userContext
      [Sample.integer (-3), Sample.symbol "x", Rational.Builder (-1) 2] (by decide),
   set_sign.2.2.2.2 Sample.collaborators Sample.signCollaborators .Negative Sample.userContext 3
      .Uninitialized [Sample.integer (-3), Sample.symbol "x"] (by decide)⟩

/-! ### Scalar distribution into a matrix -/

theorem childAtIndex_node (t : ExprType) (cs : List Expr) (k : Nat) :
    (Expr.node t cs).childAtIndex k = childAt cs k := rfl

/-- The loop that distributes the scalar factors over the cells `i` to
`i + count - 1` of a matrix keeps the type of the matrix and its number of cells,
replaces each of these cells by the reduction of the product of the scalars and of
the original cell, and keeps the other cells. -/
theorem distributeOnMatrixLoop_spec (reduce : Reducer) (scalars : List Expr) :
    ∀ (count i : Nat) (M M1 : Expr),
      distributeOnMatrixLoop reduce scalars count i M = some M1 →
      M1.type = M.type ∧ M1.children.length = M.children.length
        ∧ (∀ j, i ≤ j → j < i + count → j < M.children.length →
            reduce M.type (scalars ++ [M.childAtIndex j]) = some (M1.childAtIndex j))
        ∧ (∀ j, (j < i ∨ i + count ≤ j) → M1.childAtIndex j = M.childAtIndex j) := by
  intro count
  induction count with
  | zero =>
    intro i M M1 h
    simp only [distributeOnMatrixLoop, Option.some.injEq] at h
    subst h
    exact ⟨rfl, rfl, fun j h1 h2 _ => by omega, fun _ _ => rfl⟩
  | succ count ih =>
    intro i M M1 h
    unfold distributeOnMatrixLoop at h
    simp only [addChildAtIndex_length] at h
    cases hcell : reduce M.type (scalars ++ [M.childAtIndex i]) with
    | none => simp [hcell] at h
    | some cell =>
      simp only [hcell] at h
      obtain ⟨htype, hlen, hcells, hkept⟩ := ih (i + 1) _ M1 h
      rw [type_node] at htype
      rw [children_node, length_replaceChildAtIndex] at hlen
      refine ⟨htype, hlen, ?_, ?_⟩
      · intro j hij hj hjlen
        by_cases hji : j = i
        · subst hji
          rw [hkept j (Or.inl (Nat.lt_succ_self j)), childAtIndex_node,
            childAt_replaceChildAtIndex_self _ _ _ hjlen]
          exact hcell
        · have := hcells j (by omega) (by omega)
            (by rw [children_node, length_replaceChildAtIndex]; exact hjlen)
          rw [type_node, childAtIndex_node,
            childAt_replaceChildAtIndex_of_ne _ _ _ _ (Ne.symm hji)] at this
          exact this
      · intro j hj
        rw [hkept j (by omega), childAtIndex_node,
          childAt_replaceChildAtIndex_of_ne _ _ _ _ (by omega)]
        rfl

theorem distributeOnMatrixLoop_isSome (reduce : Reducer) (scalars : List Expr)
    (htotal : ∀ pt l, (reduce pt l).isSome = true) :
    ∀ (count i : Nat) (M : Expr),
      (distributeOnMatrixLoop reduce scalars count i M).isSome = true := by
  intro count
  induction count with
  | zero => intro i M; rfl
  | succ count ih =>
    intro i M
    unfold distributeOnMatrixLoop
    obtain ⟨cell, hcell⟩ := Option.isSome_iff_exists.mp
      (htotal M.type (addChildAtIndex scalars (M.childAtIndex i) scalars.length))
    simp only [hcell]
    exact ih _ _

theorem handleMatrices_of_scalars (env : Collaborators) (ctx : ReductionContext)
    (reduce : Reducer) (cs : List Expr) (last : Expr) (rest : List Expr) (R : Expr)
    (n m remaining : Nat)
    (hscan : matrixScan env ctx reduce (cs.length - 1) cs last last.numberOfRows
      last.numberOfColumns = some (.scanned rest R n m (remaining + 1)))
    (hscalar : env.sortedIsMatrix (childAt rest remaining) = false) :
    handleMatrices env ctx reduce cs last
      = (distributeOnMatrixLoop reduce (removeChildAtIndex rest (rest.length - 1)) (n * m) 0
          R).map (env.shallowReduce ctx) := by
  unfold handleMatrices
  simp only [hscan, Nat.zero_lt_succ, if_true, Nat.add_sub_cancel, hscalar,
    Bool.false_eq_true, if_false]
  cases distributeOnMatrixLoop reduce (removeChildAtIndex rest (rest.length - 1)) (n * m) 0
    R <;> rfl

/-- C28. Scalar distribution into a matrix. When the backward scan of Step 3 stops
on a factor that is not matrix-dominant, with the result matrix `R` of dimensions
`n` by `m` as last child, the reduction returns the reduction of the matrix built by
the distribution loop from `R` and the remaining factors `s_1 .. s_k`. This matrix
has the type of `R`, so the same dimensions, and the same number of cells, `n * m`
for a well-formed `R`; its cell at each index is the reduction, under the matrix, of
`Product(s_1, .., s_k, cell)` for the original cell at that index. The loop has a
result when the reducer of the products always has one. So `2 * x * [a b]` reduces
to `[2*x*a 2*x*b]`. -/
theorem scalar_distribution :
    (∀ (reduce : Reducer) (scalars : List Expr) (R M1 : Expr) (n m : Nat),
        R.children.length = n * m →
        distributeOnMatrixLoop reduce scalars (n * m) 0 R = some M1 →
        M1.type = R.type ∧ M1.numberOfChildren = n * m
          ∧ ∀ j, j < n * m →
              reduce R.type (scalars ++ [R.childAtIndex j]) = some (M1.childAtIndex j))
    ∧ (∀ (reduce : Reducer) (scalars : List Expr) (R : Expr) (count : Nat),
        (∀ pt l, (reduce pt l).isSome = true) →
        (distributeOnMatrixLoop reduce scalars count 0 R).isSome = true)
    ∧ (∀ (env : Collaborators) (ctx : ReductionContext) (reduce : Reducer)
        (cs : List Expr) (last : Expr) (rest : List Expr) (R : Expr) (n m remaining : Nat),
        matrixScan env ctx reduce (cs.length - 1) cs last last.numberOfRows
          last.numberOfColumns = some (.scanned rest R n m (remaining + 1)) →
        env.sortedIsMatrix (childAt rest remaining) = false →
        handleMatrices env ctx reduce cs last
          = (distributeOnMatrixLoop reduce (removeChildAtIndex rest (rest.length - 1))
              (n * m) 0 R).map (env.shallowReduce ctx))
    ∧ (∀ (env : Collaborators) (ctx : ReductionContext) (reduce : Reducer)
        (scalars : List Expr) (s R : Expr),
        s.isMatrix = false → env.sortedIsMatrix s = false →
        handleMatrices env ctx reduce (scalars ++ [s, R]) R
          = (distributeOnMatrixLoop reduce (scalars ++ [s])
              (R.numberOfRows * R.numberOfColumns) 0 R).map (env.shallowReduce ctx))
    ∧ shallowReduce Sample.collaborators Sample.systemContext 4 .Uninitialized
          [Sample.integer 2, Sample.symbol "x",
            Matrix.Builder 1 2 [Sample.symbol "a", Sample.symbol "b"]]
        = some (Matrix.Builder 1 2
            [Builder [Sample.integer 2, Sample.symbol "x", Sample.symbol "a"],
              Builder [Sample.integer 2, Sample.symbol "x", Sample.symbol "b"]]) := by
  refine ⟨?_, ?_, handleMatrices_of_scalars, ?_, by decide⟩
  · intro reduce scalars R M1 n m hcells hloop
    obtain ⟨htype, hlen, hreduced, _⟩ :=
      distributeOnMatrixLoop_spec reduce scalars (n * m) 0 R M1 hloop
    refine ⟨htype, ?_, ?_⟩
    · rw [Expr.numberOfChildren, hlen, hcells]
    · intro j hj
      exact hreduced j (Nat.zero_le j) (by omega) (by omega)
  · intro reduce scalars R count htotal
    exact distributeOnMatrixLoop_isSome reduce scalars htotal count 0 R
  · intro env ctx reduce scalars s R hs hsorted
    have hlist : scalars ++ [s, R] = scalars ++ s :: [R] := rfl
    have hlen : (scalars ++ [s, R]).length - 1 = scalars.length + 1 := by simp
    have hchild : childAt (scalars ++ [s, R]) scalars.length = s :=
      childAt_append_length scalars s [R]
    have hscan : matrixScan env ctx reduce ((scalars ++ [s, R]).length - 1) (scalars ++ [s, R])
        R R.numberOfRows R.numberOfColumns
        = some (.scanned (scalars ++ [s, R]) R R.numberOfRows R.numberOfColumns
            (scalars.length + 1)) := by
      rw [hlen]
      unfold matrixScan
      simp [hchild, hs]
    have hremove : removeChildAtIndex (scalars ++ [s, R]) ((scalars ++ [s, R]).length - 1)
        = scalars ++ [s] := by
      have h := removeChildAtIndex_append_length (scalars ++ [s]) R []
      simpa [hlen] using h
    rw [handleMatrices_of_scalars env ctx reduce _ R _ R _ _ scalars.length hscan
      (by rw [hchild]; exact hsorted), hremove]

theorem scalar_distribution_witness :
    (Matrix.Builder 1 2
        [Builder [Sample.integer 2, Sample.symbol "a"],
          Builder [Sample.integer 2, Sample.symbol "b"]]).type
      = (Matrix.Builder 1 2 [Sample.symbol "a", Sample.symbol "b"]).type
    ∧ (Matrix.Builder 1 2
        [Builder [Sample.integer 2, Sample.symbol "a"],
          Builder [Sample.integer 2, Sample.symbol "b"]]).numberOfChildren = 1 * 2
    ∧ ∀ j, j < 1 * 2 →
        Sample.inertReducer (Matrix.Builder 1 2 [Sample.symbol "a", Sample.symbol "b"]).type
            ([Sample.integer 2]
              ++ [(Matrix.Builder 1 2 [Sample.symbol "a", Sample.symbol "b"]).childAtIndex j])
          = some ((Matrix.Builder 1 2
              [Builder [Sample.integer 2, Sample.symbol "a"],
                Builder [Sample.integer 2, Sample.symbol "b"]]).childAtIndex j) :=
  scalar_distribution.1 Sample.inertReducer [Sample.integer 2]
    (Matrix.Builder 1 2 [Sample.symbol "a", Sample.symbol "b"])
    (Matrix.Builder 1 2
      [Builder [Sample.integer 2, Sample.symbol "a"],
        Builder [Sample.integer 2, Sample.symbol "b"]])
    1 2 (by decide) (by decide)

/-! ### The trigonometric rewrite and the exponents -/

theorem factorizeSineAndCosine_tangent_for_sine (env : Collaborators) (ctx : ReductionContext)
    (cs : List Expr) (i j : Nat) (x : Expr) (hij : i < j) (hj : j < cs.length)
    (hsin : Base (childAt cs i) = .node .Sine [x])
    (hcos : Base (childAt cs j) = .node .Cosine [x])
    (hsign : ¬ (env.numberSign (CreateExponent (childAt cs i))
      * env.numberSign (CreateExponent (childAt cs j)) > 0))
    (horder : env.numberNaturalOrder
      (env.numberSetSignPositive (CreateExponent (childAt cs i)))
      (env.numberSetSignPositive (CreateExponent (childAt cs j))) < 0) :
    factorizeSineAndCosine env ctx cs i j
      = replaceChildAtIndex
          (replaceChildAtIndex cs i
            (env.shallowReduce
              (ReductionContext.mk ctx.context ctx.complexFormat ctx.angleUnit .User)
              (if (CreateExponent (childAt cs i)).isRationalOne then Tangent.Builder x
                else Power.Builder (Tangent.Builder x) (CreateExponent (childAt cs i)))))
          j
          (env.shallowReduce
            (ReductionContext.mk ctx.context ctx.complexFormat ctx.angleUnit .User)
            (Power.Builder (.node .Cosine [x])
              (env.numberAddition (CreateExponent (childAt cs i))
                (CreateExponent (childAt cs j))))) := by
  have hi : i < cs.length := Nat.lt_trans hij hj
  have hne : i ≠ j := Nat.ne_of_lt hij
  have hx : (Base (childAt cs i)).childAtIndex 0 = x := by
    rw [hsin]
    rfl
  unfold factorizeSineAndCosine
  simp only [if_neg hsign, if_pos horder, hx, replaceChildAtIndex_twice,
    childAt_replaceChildAtIndex_self, childAt_replaceChildAtIndex_of_ne, hcos,
    length_replaceChildAtIndex, hi, hj, hne, ne_eq, not_false_eq_true]

theorem factorizeSineAndCosine_tangent_for_cosine (env : Collaborators)
    (ctx : ReductionContext) (cs : List Expr) (i j : Nat) (x : Expr) (hij : i < j)
    (hj : j < cs.length)
    (hsin : Base (childAt cs i) = .node .Sine [x])
    (hsign : ¬ (env.numberSign (CreateExponent (childAt cs i))
      * env.numberSign (CreateExponent (childAt cs j)) > 0))
    (horder : ¬ (env.numberNaturalOrder
      (env.numberSetSignPositive (CreateExponent (childAt cs i)))
      (env.numberSetSignPositive (CreateExponent (childAt cs j))) < 0)) :
    factorizeSineAndCosine env ctx cs i j
      = replaceChildAtIndex
          (replaceChildAtIndex cs j
            (env.shallowReduce
              (ReductionContext.mk ctx.context ctx.complexFormat ctx.angleUnit .User)
              (Power.Builder (Tangent.Builder x)
                (env.shallowReduce
                  (ReductionContext.mk ctx.context ctx.complexFormat ctx.angleUnit .User)
                  (env.numberMultiplication (CreateExponent (childAt cs j))
                    (Rational.Builder (-1) 1))))))
          i
          (env.shallowReduce
            (ReductionContext.mk ctx.context ctx.complexFormat ctx.angleUnit .User)
            (Power.Builder (.node .Sine [x])
              (env.numberAddition (CreateExponent (childAt cs i))
                (CreateExponent (childAt cs j))))) := by
  have hi : i < cs.length := Nat.lt_trans hij hj
  have hne : i ≠ j := Nat.ne_of_lt hij
  have hx : (Base (childAt cs i)).childAtIndex 0 = x := by
    rw [hsin]
    rfl
  unfold factorizeSineAndCosine
  simp only [if_neg hsign, if_neg horder, hx, replaceChildAtIndex_twice,
    childAt_replaceChildAtIndex_self, childAt_replaceChildAtIndex_of_ne, hsin,
    length_replaceChildAtIndex, hi, hj, Ne.symm hne, ne_eq, not_false_eq_true]
  rfl

theorem exponentValue_eq_createExponent {K : Type} [CommRing K] (val : Expr → K)
    (hone : ∀ e : Expr, e.isRationalOne = true → val e = 1) (c : Expr) :
    exponentValue val c = val (CreateExponent c) := by
  unfold exponentValue CreateExponent
  by_cases hp : c.type = .Power
  · simp [hp]
  · simp only [if_neg hp]
    exact (hone (Rational.Builder 1 1) rfl).symm

theorem exponents_of_sine_factor {K : Type} [CommRing K] (val : Expr → K) (x c : Expr)
    (hsin : Base c = .node .Sine [x]) :
    sineExponent val x c = exponentValue val c ∧ cosineExponent val x c = 0 := by
  simp [sineExponent, cosineExponent, hsin, Tangent.Builder]

theorem exponents_of_cosine_factor {K : Type} [CommRing K] (val : Expr → K) (x c : Expr)
    (hcos : Base c = .node .Cosine [x]) :
    sineExponent val x c = 0 ∧ cosineExponent val x c = exponentValue val c := by
  simp [sineExponent, cosineExponent, hcos, Tangent.Builder]

theorem exponents_of_tangent_factor {K : Type} [CommRing K] (val : Expr → K) (x c : Expr)
    (htan : Base c = Tangent.Builder x) :
    sineExponent val x c = exponentValue val c
      ∧ cosineExponent val x c = - exponentValue val c := by
  simp [sineExponent, cosineExponent, htan, Tangent.Builder]

theorem exponentValue_power {K : Type} [CommRing K] (val : Expr → K) (b e : Expr) :
    exponentValue val (Power.Builder b e) = val e := by
  simp [exponentValue, Power.Builder, type_node, Expr.childAtIndex, children_node]

theorem base_power (b e : Expr) : Base (Power.Builder b e) = b := by
  simp [Base, Power.Builder, type_node, Expr.childAtIndex, children_node]

theorem integerValue_of_isRationalOne (e : Expr) (h : e.isRationalOne = true) :
    Sample.integerValue e = 1 := by
  cases e with
  | node t cs =>
    cases t <;> simp_all [Expr.isRationalOne, Sample.integerValue, type_node]

/-- C30. The trigonometric rewrite preserves the exponents. Let the factor `i` have
the base `sin(x)` and the exponent `p`, the factor `j` the base `cos(x)` and the
exponent `q`, and let `val` measure exponents in a commutative ring, with value one
for the rational one, the value of `p + q` for the sum computed by the rewrite and
the value of `-q` for its reduced product of `q` by -1. Counting `tan(x)^t` as
`sin(x)^t * cos(x)^(-t)`, the two factors have the total sine exponent `p` and the
total cosine exponent `q`; so have the two factors that `factorizeSineAndCosine`
writes before their reduction, in both branches, and the children are unchanged
when the signs are equal. In the second branch, which holds the tie of the absolute
values, the sine factor is written with the exponent `p + q`, of value zero when
`p + q` is zero. -/
theorem trigonometric_value_preserved :
    ∀ (K : Type) [CommRing K] (val : Expr → K) (env : Collaborators) (ctx : ReductionContext)
      (cs : List Expr) (i j : Nat) (x : Expr),
      i < j → j < cs.length →
      Base (childAt cs i) = .node .Sine [x] →
      Base (childAt cs j) = .node .Cosine [x] →
      (∀ e : Expr, e.isRationalOne = true → val e = 1) →
      val (env.numberAddition (CreateExponent (childAt cs i)) (CreateExponent (childAt cs j))) = val (CreateExponent (childAt cs i)) + val (CreateExponent (childAt cs j)) →
      val (env.shallowReduce (ReductionContext.mk ctx.context ctx.complexFormat ctx.angleUnit .User)
          (env.numberMultiplication (CreateExponent (childAt cs j)) (Rational.Builder (-1) 1))) = - val (CreateExponent (childAt cs j)) →
      (sineExponent val x (childAt cs i) + sineExponent val x (childAt cs j) = val (CreateExponent (childAt cs i))
        ∧ cosineExponent val x (childAt cs i) + cosineExponent val x (childAt cs j)
          = val (CreateExponent (childAt cs j)))
      ∧ (env.numberSign (CreateExponent (childAt cs i)) * env.numberSign (CreateExponent (childAt cs j)) > 0 →
          factorizeSineAndCosine env ctx cs i j = cs)
      ∧ (¬ (env.numberSign (CreateExponent (childAt cs i)) * env.numberSign (CreateExponent (childAt cs j)) > 0) →
          env.numberNaturalOrder (env.numberSetSignPositive (CreateExponent (childAt cs i)))
            (env.numberSetSignPositive (CreateExponent (childAt cs j))) < 0 →
          factorizeSineAndCosine env ctx cs i j
              = replaceChildAtIndex
                  (replaceChildAtIndex cs i
                    (env.shallowReduce (ReductionContext.mk ctx.context ctx.complexFormat ctx.angleUnit .User)
                      (if (CreateExponent (childAt cs i)).isRationalOne then Tangent.Builder x
                        else Power.Builder (Tangent.Builder x) (CreateExponent (childAt cs i)))))
                  j
                  (env.shallowReduce (ReductionContext.mk ctx.context ctx.complexFormat ctx.angleUnit .User)
                    (Power.Builder (.node .Cosine [x]) (env.numberAddition (CreateExponent (childAt cs i)) (CreateExponent (childAt cs j)))))
            ∧ sineExponent val x
                  (if (CreateExponent (childAt cs i)).isRationalOne then Tangent.Builder x
                    else Power.Builder (Tangent.Builder x) (CreateExponent (childAt cs i)))
                + sineExponent val x
                  (Power.Builder (.node .Cosine [x]) (env.numberAddition (CreateExponent (childAt cs i)) (CreateExponent (childAt cs j))))
              = val (CreateExponent (childAt cs i))
            ∧ cosineExponent val x
                  (if (CreateExponent (childAt cs i)).isRationalOne then Tangent.Builder x
                    else Power.Builder (Tangent.Builder x) (CreateExponent (childAt cs i)))
                + cosineExponent val x
                  (Power.Builder (.node .Cosine [x]) (env.numberAddition (CreateExponent (childAt cs i)) (CreateExponent (childAt cs j))))
              = val (CreateExponent (childAt cs j)))
      ∧ (¬ (env.numberSign (CreateExponent (childAt cs i)) * env.numberSign (CreateExponent (childAt cs j)) > 0) →
          ¬ (env.numberNaturalOrder (env.numberSetSignPositive (CreateExponent (childAt cs i)))
            (env.numberSetSignPositive (CreateExponent (childAt cs j))) < 0) →
          factorizeSineAndCosine env ctx cs i j
              = replaceChildAtIndex
                  (replaceChildAtIndex cs j
                    (env.shallowReduce (ReductionContext.mk ctx.context ctx.complexFormat ctx.angleUnit .User)
                      (Power.Builder (Tangent.Builder x)
                        (env.shallowReduce (ReductionContext.mk ctx.context ctx.complexFormat ctx.angleUnit .User)
                          (env.numberMultiplication (CreateExponent (childAt cs j)) (Rational.Builder (-1) 1))))))
                  i
                  (env.shallowReduce (ReductionContext.mk ctx.context ctx.complexFormat ctx.angleUnit .User)
                    (Power.Builder (.node .Sine [x]) (env.numberAddition (CreateExponent (childAt cs i)) (CreateExponent (childAt cs j)))))
            ∧ sineExponent val x
                  (Power.Builder (.node .Sine [x]) (env.numberAddition (CreateExponent (childAt cs i)) (CreateExponent (childAt cs j))))
                + sineExponent val x
                  (Power.Builder (Tangent.Builder x)
                    (env.shallowReduce (ReductionContext.mk ctx.context ctx.complexFormat ctx.angleUnit .User)
                      (env.numberMultiplication (CreateExponent (childAt cs j)) (Rational.Builder (-1) 1))))
              = val (CreateExponent (childAt cs i))
            ∧ cosineExponent val x
                  (Power.Builder (.node .Sine [x]) (env.numberAddition (CreateExponent (childAt cs i)) (CreateExponent (childAt cs j))))
                + cosineExponent val x
                  (Power.Builder (Tangent.Builder x)
                    (env.shallowReduce (ReductionContext.mk ctx.context ctx.complexFormat ctx.angleUnit .User)
                      (env.numberMultiplication (CreateExponent (childAt cs j)) (Rational.Builder (-1) 1))))
              = val (CreateExponent (childAt cs j))
            ∧ (val (CreateExponent (childAt cs i)) + val (CreateExponent (childAt cs j)) = 0 →
                exponentValue val
                  (Power.Builder (.node .Sine [x]) (env.numberAddition (CreateExponent (childAt cs i)) (CreateExponent (childAt cs j)))) = 0)) := by
  intro K _ val env ctx cs i j x hij hj hsin hcos hone hadd hneg
  have hp := exponentValue_eq_createExponent val hone (childAt cs i)
  have hq := exponentValue_eq_createExponent val hone (childAt cs j)
  have hsi := exponents_of_sine_factor val x (childAt cs i) hsin
  have hcj := exponents_of_cosine_factor val x (childAt cs j) hcos
  have hcosf := exponents_of_cosine_factor val x
    (Power.Builder (.node .Cosine [x])
      (env.numberAddition (CreateExponent (childAt cs i)) (CreateExponent (childAt cs j))))
    (base_power _ _)
  have hsinf := exponents_of_sine_factor val x
    (Power.Builder (.node .Sine [x])
      (env.numberAddition (CreateExponent (childAt cs i)) (CreateExponent (childAt cs j))))
    (base_power _ _)
  refine ⟨⟨?_, ?_⟩, ?_, ?_, ?_⟩
  · rw [hsi.1, hcj.1, hp, add_zero]
  · rw [hsi.2, hcj.2, hq, zero_add]
  · intro hsign
    unfold factorizeSineAndCosine
    simp only [if_pos hsign]
  · intro hsign horder
    refine ⟨factorizeSineAndCosine_tangent_for_sine env ctx cs i j x hij hj hsin hcos hsign
      horder, ?_, ?_⟩
    · rw [hcosf.1, add_zero]
      by_cases hpone : (CreateExponent (childAt cs i)).isRationalOne = true
      · rw [if_pos hpone, (exponents_of_tangent_factor val x _ (by
          simp [Base, Tangent.Builder, type_node])).1, hone _ hpone]
        simp [exponentValue, Tangent.Builder, type_node]
      · rw [if_neg hpone, (exponents_of_tangent_factor val x _ (base_power _ _)).1,
          exponentValue_power]
    · rw [hcosf.2, exponentValue_power, hadd]
      by_cases hpone : (CreateExponent (childAt cs i)).isRationalOne = true
      · rw [if_pos hpone, (exponents_of_tangent_factor val x _ (by
          simp [Base, Tangent.Builder, type_node])).2, hone _ hpone]
        simp [exponentValue, Tangent.Builder, type_node]
      · rw [if_neg hpone, (exponents_of_tangent_factor val x _ (base_power _ _)).2,
          exponentValue_power]
        ring
  · intro hsign horder
    refine ⟨factorizeSineAndCosine_tangent_for_cosine env ctx cs i j x hij hj hsin hsign
      horder, ?_, ?_, ?_⟩
    · rw [hsinf.1, (exponents_of_tangent_factor val x _ (base_power _ _)).1,
        exponentValue_power, exponentValue_power, hadd, hneg]
      ring
    · rw [hsinf.2, (exponents_of_tangent_factor val x _ (base_power _ _)).2,
        exponentValue_power, hneg]
      ring
    · intro hzero
      rw [exponentValue_power, hadd, hzero]

theorem trigonometric_value_preserved_witness :
    sineExponent Sample.integerValue (Sample.symbol "x")
          (childAt [Power.Builder (Sample.sine (Sample.symbol "x")) (Sample.integer 2),
            Power.Builder (Sample.cosine (Sample.symbol "x")) (Sample.integer (-1))] 0)
        + sineExponent Sample.integerValue (Sample.symbol "x")
          (childAt [Power.Builder (Sample.sine (Sample.symbol "x")) (Sample.integer 2),
            Power.Builder (Sample.cosine (Sample.symbol "x")) (Sample.integer (-1))] 1)
      = Sample.integerValue (CreateExponent
          (childAt [Power.Builder (Sample.sine (Sample.symbol "x")) (Sample.integer 2),
            Power.Builder (Sample.cosine (Sample.symbol "x")) (Sample.integer (-1))] 0))
    ∧ cosineExponent Sample.integerValue (Sample.symbol "x")
          (childAt [Power.Builder (Sample.sine (Sample.symbol "x")) (Sample.integer 2),
            Power.Builder (Sample.cosine (Sample.symbol "x")) (Sample.integer (-1))] 0)
        + cosineExponent Sample.integerValue (Sample.symbol "x")
          (childAt [Power.Builder (Sample.sine (Sample.symbol "x")) (Sample.integer 2),
            Power.Builder (Sample.cosine (Sample.symbol "x")) (Sample.integer (-1))] 1)
      = Sample.integerValue (CreateExponent
          (childAt [Power.Builder (Sample.sine (Sample.symbol "x")) (Sample.integer 2),
            Power.Builder (Sample.cosine (Sample.symbol "x")) (Sample.integer (-1))] 1)) :=
  (trigonometric_value_preserved Int Sample.integerValue Sample.collaborators
    Sample.userContext
    [Power.Builder (Sample.sine (Sample.symbol "x")) (Sample.integer 2),
      Power.Builder (Sample.cosine (Sample.symbol "x")) (Sample.integer (-1))] 0 1
    (Sample.symbol "x") (by decide) (by decide) (by decide) (by decide)
    integerValue_of_isRationalOne (by decide) (by decide)).1

/-! ### Complex bubbling -/

theorem addChildAtIndex_past_end (cs : List Expr) (e : Expr) (i : Nat)
    (h : cs.length ≤ i) : addChildAtIndex cs e i = cs ++ [e] := by
  simp [addChildAtIndex, List.take_of_length_le h, List.drop_eq_nil_of_le h]

/-- The loop of Step 10 over real factors followed by complex pairs: every pair is
removed, from right to left, and multiplied into the accumulated pair; the real
factors stay. -/
theorem complexMergeLoop_spec (env : Collaborators) (ctx : ReductionContext)
    (reals : List Expr) (hreals : ∀ r ∈ reals, r.type ≠ .ComplexCartesian) :
    ∀ (pairs : List Expr) (child : Expr), (∀ e ∈ pairs, e.type = .ComplexCartesian) →
      complexMergeLoop env ctx (reals ++ pairs).length (reals ++ pairs) child
        = (reals, pairs.foldr (fun e acc => env.complexMultiply ctx acc e) child) := by
  intro pairs
  induction pairs using List.reverseRecOn with
  | nil =>
    intro child _
    simp only [List.append_nil, List.foldr_nil]
    cases hlen : reals.length with
    | zero =>
      have : reals = [] := List.length_eq_zero.mp hlen
      subst this
      rfl
    | succ k =>
      unfold complexMergeLoop
      have hmem : childAt reals k ∈ reals := childAt_mem reals k (by omega)
      simp only [ne_eq, hreals _ hmem, not_false_eq_true, if_true]
  | append_singleton init e ih =>
    intro child hpairs
    have he : e.type = .ComplexCartesian := hpairs e (by simp)
    have hlen : (reals ++ (init ++ [e])).length = (reals ++ init).length + 1 := by
      simp only [List.length_append, List.length_singleton]
      omega
    have hlist : reals ++ (init ++ [e]) = (reals ++ init) ++ e :: [] := by simp
    rw [hlen, hlist]
    unfold complexMergeLoop
    simp only [childAt_append_length, ne_eq, he, not_true_eq_false, if_false,
      removeChildAtIndex_append_length, List.append_nil]
    rw [ih (env.complexMultiply ctx child e) (fun x hx => hpairs x (by simp [hx]))]
    simp [List.foldr_append]

/-- C25. Complex bubbling. When the children of the product are factors
`r_1 .. r_k` that are not complex pairs, followed by complex pairs, Step 10 multiplies
the pairs together from right to left into one pair and returns the reduction of the
complex pair whose real part is the reduction of `Product(r_1, .., r_k, re)` and whose
imaginary part is the reduction of `Product(r_1, .., r_k, im)`, for the components
`re` and `im` of the merged pair: both products hold the same `k` factors, followed by
the component as last child. Steps 8 to 10 end this way when the product matches no
random primitive, the children are all real or complex pairs, there is more than one
child and none is a sum. The real component is inserted at index `k`; the imaginary
one is inserted at the child count of the real product after that insertion, `k + 1`,
which is past the end of the `k` children, where the insertion appends. -/
theorem complex_bubbling :
    (∀ (env : Collaborators) (ctx : ReductionContext) (reduce : Reducer)
        (reals pairs : List Expr) (last : Expr),
        (∀ r ∈ reals, r.type ≠ .ComplexCartesian) →
        (∀ e ∈ pairs, e.type = .ComplexCartesian) →
        bubbleUpComplex env ctx reduce (reals ++ pairs ++ [last])
          = (reduce .ComplexCartesian
              (reals ++ [(pairs.foldr (fun e acc => env.complexMultiply ctx acc e)
                last).childAtIndex 0])).bind (fun real =>
              (reduce .ComplexCartesian
                (reals ++ [(pairs.foldr (fun e acc => env.complexMultiply ctx acc e)
                  last).childAtIndex 1])).map (fun imag =>
                env.complexCartesianShallowReduce (ComplexCartesian.Builder real imag))))
    ∧ (∀ (reals : List Expr) (re im : Expr),
        addChildAtIndex reals re reals.length = reals ++ [re]
          ∧ (addChildAtIndex reals re reals.length).length = reals.length + 1
          ∧ addChildAtIndex reals im (addChildAtIndex reals re reals.length).length
            = reals ++ [im])
    ∧ (∀ (env : Collaborators) (ctx : ReductionContext) (reduce : Reducer)
        (parentType : ExprType) (shouldExpand : Bool) (cs : List Expr),
        env.recursivelyMatchesIsRandom (Builder cs) = false →
        env.allChildrenAreReal cs = 0 →
        cs.length ≠ 1 →
        (∀ c ∈ cs, c.type ≠ .Addition) →
        expandSquashAndBubble env ctx reduce parentType shouldExpand cs
          = bubbleUpComplex env ctx reduce cs)
    ∧ shallowReduce Sample.collaborators Sample.systemContext 3 .Uninitialized
          [Sample.symbol "x", ComplexCartesian.Builder (Sample.symbol "a") (Sample.symbol "b")]
        = some (ComplexCartesian.Builder (Builder [Sample.symbol "x", Sample.symbol "a"])
            (Builder [Sample.symbol "x", Sample.symbol "b"])) := by
  refine ⟨?_, ?_, ?_, by decide⟩
  · intro env ctx reduce reals pairs last hreals hpairs
    have hlen : (reals ++ pairs ++ [last]).length - 1 = (reals ++ pairs).length := by simp
    have hchild : childAt (reals ++ pairs ++ [last]) (reals ++ pairs).length = last :=
      childAt_append_length (reals ++ pairs) last []
    have hremove : removeChildAtIndex (reals ++ pairs ++ [last]) (reals ++ pairs).length
        = reals ++ pairs := by
      have h := removeChildAtIndex_append_length (reals ++ pairs) last []
      simpa using h
    unfold bubbleUpComplex
    simp only [hlen, hchild, hremove, complexMergeLoop_spec env ctx reals hreals pairs last hpairs,
      addChildAtIndex_length, addChildAtIndex_past_end reals _ (reals ++ [_]).length (by simp)]
    cases reduce .ComplexCartesian
        (reals ++ [(pairs.foldr (fun e acc => env.complexMultiply ctx acc e)
          last).childAtIndex 0]) with
    | none => rfl
    | some real =>
      cases reduce .ComplexCartesian
          (reals ++ [(pairs.foldr (fun e acc => env.complexMultiply ctx acc e)
            last).childAtIndex 1]) <;> rfl
  · intro reals re im
    refine ⟨addChildAtIndex_length reals re, ?_, ?_⟩
    · rw [addChildAtIndex_length]
      simp
    · exact addChildAtIndex_past_end reals im _ (by rw [addChildAtIndex_length]; simp)
  · intro env ctx reduce parentType shouldExpand cs hrandom hreal hlen hsum
    have hnone : cs.findIdx? (fun c => decide (c.type = .Addition)) = none := by
      rw [List.findIdx?_eq_none_iff]
      intro c hc
      simpa using hsum c hc
    unfold expandSquashAndBubble
    simp only [hrandom, hnone, ite_self, hlen, if_false, hreal, and_self, if_true]

theorem complex_bubbling_witness :
    bubbleUpComplex Sample.collaborators Sample.systemContext Sample.inertReducer
        ([Sample.symbol "x"] ++ [ComplexCartesian.Builder (Sample.symbol "a") (Sample.symbol "b")]
          ++ [ComplexCartesian.Builder (Sample.symbol "c") (Sample.symbol "d")])
      = (Sample.inertReducer .ComplexCartesian
          ([Sample.symbol "x"]
            ++ [([ComplexCartesian.Builder (Sample.symbol "a") (Sample.symbol "b")].foldr
              (fun e acc => Sample.collaborators.complexMultiply Sample.systemContext acc e)
              (ComplexCartesian.Builder (Sample.symbol "c")
                (Sample.symbol "d"))).childAtIndex 0])).bind (fun real =>
          (Sample.inertReducer .ComplexCartesian
            ([Sample.symbol "x"]
              ++ [([ComplexCartesian.Builder (Sample.symbol "a") (Sample.symbol "b")].foldr
                (fun e acc => Sample.collaborators.complexMultiply Sample.systemContext acc e)
                (ComplexCartesian.Builder (Sample.symbol "c")
                  (Sample.symbol "d"))).childAtIndex 1])).map (fun imag =>
            Sample.collaborators.complexCartesianShallowReduce
              (ComplexCartesian.Builder real imag))) :=
  complex_bubbling.1 Sample.collaborators Sample.systemContext Sample.inertReducer
    [Sample.symbol "x"] [ComplexCartesian.Builder (Sample.symbol "a") (Sample.symbol "b")]
    (ComplexCartesian.Builder (Sample.symbol "c") (Sample.symbol "d"))
    (by decide) (by decide)

/-! ### Value and order of the numeral folding -/

theorem isNumber_of_isRationalOne (e : Expr) (h : e.isRationalOne = true) :
    e.isNumber = true := by
  by_contra hn
  rw [isRationalOne_of_not_isNumber e (by simpa using hn)] at h
  exact Bool.false_ne_true h

theorem eq_take_childAt_drop (cs : List Expr) (i : Nat) (h : i < cs.length) :
    cs = cs.take i ++ childAt cs i :: cs.drop (i + 1) := by
  have hget : childAt cs i = cs[i] := by
    simp [childAt, List.getD_eq_getElem?_getD, List.getElem?_eq_getElem h]
  rw [hget, ← List.drop_eq_getElem_cons h, List.take_append_drop]

theorem removeChildAtIndex_eq_take_drop (cs : List Expr) (i : Nat) :
    removeChildAtIndex cs i = cs.take i ++ cs.drop (i + 1) := by
  unfold removeChildAtIndex
  exact List.eraseIdx_eq_take_drop_succ cs i

theorem nonNumeralChildren_remove (cs : List Expr) (i : Nat) (h : i < cs.length)
    (hnum : (childAt cs i).isNumber = true) :
    nonNumeralChildren (removeChildAtIndex cs i) = nonNumeralChildren cs := by
  rw [removeChildAtIndex_eq_take_drop]
  conv_rhs => rw [eq_take_childAt_drop cs i h]
  simp [nonNumeralChildren, List.filter_append, List.filter_cons, hnum]

theorem numeralProduct_remove {K : Type} [CommMonoid K] (val : Expr → K) (cs : List Expr)
    (i : Nat) (h : i < cs.length) (hnum : (childAt cs i).isNumber = true) :
    numeralProduct val cs = val (childAt cs i) * numeralProduct val (removeChildAtIndex cs i) := by
  rw [removeChildAtIndex_eq_take_drop]
  conv_lhs => rw [eq_take_childAt_drop cs i h]
  simp only [numeralProduct, List.filter_append, List.filter_cons, hnum, if_true,
    List.map_append, List.map_cons, List.prod_append, List.prod_cons]
  exact mul_left_comm _ _ _

/-- The loop of Step 6 keeps the children that are not numbers, in their order,
and the product of the values of the children that are numbers, whatever the
bound of the loop. -/
theorem numeralFoldingLoop_preserves {K : Type} [CommMonoid K] (env : Collaborators)
    (val : Expr → K)
    (hnum : ∀ a b, a.isNumber = true → b.isNumber = true →
      (env.numberMultiplication a b).isNumber = true)
    (hmul : ∀ a b, a.isNumber = true → b.isNumber = true →
      val (env.numberMultiplication a b) = val a * val b)
    (hone : ∀ e, e.isRationalOne = true → val e = 1) (fuel : Nat) :
    ∀ (cs : List Expr) (i : Nat), 1 ≤ i →
      nonNumeralChildren (numeralFoldingLoop env fuel cs i) = nonNumeralChildren cs
      ∧ numeralProduct val (numeralFoldingLoop env fuel cs i) = numeralProduct val cs := by
  induction fuel with
  | zero =>
    intro cs i _
    exact ⟨rfl, rfl⟩
  | succ fuel ih =>
    intro cs i hi
    unfold numeralFoldingLoop
    by_cases hlt : i < cs.length
    · simp only [if_pos hlt]
      by_cases hro : (childAt cs i).isRationalOne = true
      · simp only [if_pos hro]
        have hn := isNumber_of_isRationalOne _ hro
        obtain ⟨h1, h2⟩ := ih (removeChildAtIndex cs i) i hi
        refine ⟨h1.trans (nonNumeralChildren_remove cs i hlt hn), ?_⟩
        rw [h2, numeralProduct_remove val cs i hlt hn, hone _ hro, one_mul]
      · simp only [if_neg hro]
        by_cases hn : (childAt cs i).isNumber = true
        · simp only [if_pos hn]
          by_cases hfirst : (childAt cs 0).isNumber = true
          · simp only [if_pos hfirst]
            obtain ⟨h1, h2⟩ := ih (removeChildAtIndex (replaceChildAtIndex cs 0
              (env.numberMultiplication (childAt cs 0) (childAt cs i))) i) i hi
            have hm := hnum _ _ hfirst hn
            have hlt2 : i < (replaceChildAtIndex cs 0
                (env.numberMultiplication (childAt cs 0) (childAt cs i))).length := by
              simpa [replaceChildAtIndex] using hlt
            have hci : childAt (replaceChildAtIndex cs 0
                (env.numberMultiplication (childAt cs 0) (childAt cs i))) i = childAt cs i :=
              childAt_replaceChildAtIndex_of_ne cs 0 i _ (by omega)
            have hrep : ∀ m : Expr, m.isNumber = true →
                nonNumeralChildren (replaceChildAtIndex cs 0 m) = nonNumeralChildren cs
                ∧ val (childAt cs 0) * numeralProduct val (replaceChildAtIndex cs 0 m)
                    = val m * numeralProduct val cs := by
              intro m hmn
              cases cs with
              | nil => simp at hlt
              | cons c rest =>
                have hc : c.isNumber = true := hfirst
                have hc0 : childAt (c :: rest) 0 = c := rfl
                rw [hc0]
                simp only [replaceChildAtIndex, List.set_cons_zero, nonNumeralChildren,
                  numeralProduct, List.filter_cons, hmn, hc, Bool.not_true, if_true,
                  List.map_cons, List.prod_cons]
                exact ⟨by simp, mul_left_comm _ _ _⟩
            refine ⟨?_, ?_⟩
            · rw [h1, nonNumeralChildren_remove _ i hlt2 (by rw [hci]; exact hn)]
              exact (hrep _ hm).1
            · rw [h2]
              cases cs with
              | nil => simp at hlt
              | cons c rest =>
                obtain ⟨j, rfl⟩ : ∃ j, i = j + 1 := ⟨i - 1, by omega⟩
                have hc : c.isNumber = true := hfirst
                have hjlt : j < rest.length := by simpa using hlt
                have hcj : childAt (c :: rest) (j + 1) = childAt rest j := childAt_cons_succ c rest j
                have hnj : (childAt rest j).isNumber = true := by rw [← hcj]; exact hn
                have hc0 : childAt (c :: rest) 0 = c := rfl
                rw [hc0, hcj]
                have hrest := numeralProduct_remove val rest j hjlt hnj
                have hshape : removeChildAtIndex (replaceChildAtIndex (c :: rest) 0
                    (env.numberMultiplication c (childAt rest j))) (j + 1)
                    = env.numberMultiplication c (childAt rest j) :: removeChildAtIndex rest j := by
                  simp [removeChildAtIndex, replaceChildAtIndex]
                rw [hshape]
                have hmj := hnum c (childAt rest j) hc hnj
                have hcons : ∀ (x : Expr) (l : List Expr), x.isNumber = true →
                    numeralProduct val (x :: l) = val x * numeralProduct val l := by
                  intro x l hx
                  simp [numeralProduct, List.filter_cons, hx]
                rw [hcons _ _ hmj, hcons _ _ hc, hrest, hmul c _ hc hnj, mul_assoc]
          · simp only [if_neg hfirst]
            rw [addChildAtIndex_zero]
            obtain ⟨h1, h2⟩ := ih (childAt cs i :: removeChildAtIndex cs i) i hi
            refine ⟨?_, ?_⟩
            · rw [h1]
              have : nonNumeralChildren (childAt cs i :: removeChildAtIndex cs i)
                  = nonNumeralChildren (removeChildAtIndex cs i) := by
                simp [nonNumeralChildren, List.filter_cons, hn]
              rw [this, nonNumeralChildren_remove cs i hlt hn]
            · rw [h2, numeralProduct_remove val cs i hlt hn]
              simp [numeralProduct, List.filter_cons, hn]
        · simp only [if_neg hn]
          exact ih cs (i + 1) (by omega)
    · rw [if_neg hlt]
      exact ⟨rfl, rfl⟩

/-- When no child of index at least 1 is a number, the product of the numbers is
the value of the coefficient. -/
theorem numeralProduct_eq_coefficientValue {K : Type} [CommMonoid K] (val : Expr → K)
    (cs : List Expr) (h : ∀ k, (childAt cs (k + 1)).isNumber = false) :
    numeralProduct val cs = coefficientValue val cs := by
  cases cs with
  | nil =>
    have : (childAt [] 0).isNumber = false := rfl
    simp [numeralProduct, coefficientValue, this]
  | cons c rest =>
    have hrest : rest.filter (fun x => x.isNumber) = [] := by
      rw [List.filter_eq_nil_iff]
      intro a ha
      obtain ⟨k, hk, rfl⟩ := List.mem_iff_getElem.mp ha
      have := h k
      rw [childAt_cons_succ] at this
      simpa [childAt, List.getD_eq_getElem?_getD, List.getElem?_eq_getElem hk] using this
    have hc0 : childAt (c :: rest) 0 = c := rfl
    unfold numeralProduct coefficientValue
    rw [hc0, List.filter_cons, hrest]
    by_cases hc : c.isNumber = true
    · simp [hc]
    · simp [hc]

/-- C31. The numeral-folding pass (Step 6) keeps the children that are not numbers
in their relative order, leaves no number at an index of 1 or more, and the value
of the number left at index 0, an absent coefficient counting as 1, is the product
of the values of all the children of the input that are numbers. The value is
measured by any `val` for which `Number::Multiplication` yields a number whose
value is the product of the values of its arguments, the rational one having the
value 1. -/
theorem numeral_folding_value_and_order (K : Type) [CommMonoid K] (env : Collaborators)
    (val : Expr → K)
    (hnum : ∀ a b, a.isNumber = true → b.isNumber = true →
      (env.numberMultiplication a b).isNumber = true)
    (hmul : ∀ a b, a.isNumber = true → b.isNumber = true →
      val (env.numberMultiplication a b) = val a * val b)
    (hone : ∀ e, e.isRationalOne = true → val e = 1) (cs : List Expr) :
    nonNumeralChildren (numeralFolding env cs) = nonNumeralChildren cs
    ∧ coefficientValue val (numeralFolding env cs) = numeralProduct val cs
    ∧ ∀ k, (childAt (numeralFolding env cs) (k + 1)).isNumber = false := by
  have hpres := numeralFoldingLoop_preserves env val hnum hmul hone (2 * cs.length) cs 1
    (Nat.le_refl 1)
  have hno := numeralFolding_no_number env cs
  refine ⟨hpres.1, ?_, hno⟩
  rw [← numeralProduct_eq_coefficientValue val _ hno]
  exact hpres.2

end MultiplicationExplicite

namespace Sample

theorem rationalValue_normalizedRational (n : Int) (d : Nat) :
    rationalValue (normalizedRational n d) = (n : ℚ) / (d : ℚ) := by
  unfold normalizedRational
  by_cases hg : Nat.gcd n.natAbs d = 0
  · simp only [hg, if_true]
    rfl
  · simp only [hg, if_false]
    show (((n / ((Nat.gcd n.natAbs d : Nat) : Int) : Int)) : ℚ) / ((d / Nat.gcd n.natAbs d : Nat) : ℚ)
      = (n : ℚ) / (d : ℚ)
    have hdn : ((Nat.gcd n.natAbs d : Nat) : Int) ∣ n := by
      have := Int.gcd_dvd_left (a := n) (b := (d : Int))
      simpa [Int.gcd] using this
    have hdd : Nat.gcd n.natAbs d ∣ d := Nat.gcd_dvd_right _ _
    have hgq : ((Nat.gcd n.natAbs d : Nat) : ℚ) ≠ 0 := by exact_mod_cast hg
    rw [Int.cast_div hdn (by exact_mod_cast hgq), Nat.cast_div hdd hgq]
    push_cast
    field_simp

theorem rationalValue_of_type (a : Expr) (n : Int) (d : Nat) (h : a.type = .Rational n d) :
    rationalValue a = (n : ℚ) / (d : ℚ) := by
  unfold rationalValue
  rw [h]

theorem rational_or_not (a : Expr) :
    (∃ n d, a.type = .Rational n d) ∨ (∀ n d, a.type ≠ .Rational n d) := by
  cases h : a.type <;> simp

theorem rationalValue_of_not_rational (a : Expr) (h : ∀ n d, a.type ≠ .Rational n d) :
    rationalValue a = 0 := by
  unfold rationalValue
  split
  · next n d hn => exact absurd hn (h n d)
  · rfl

theorem rationalValue_numberMultiplication (a b : Expr) :
    rationalValue (numberMultiplication a b) = rationalValue a * rationalValue b := by
  rcases rational_or_not a with ⟨n1, d1, ha⟩ | ha
  · rcases rational_or_not b with ⟨n2, d2, hb⟩ | hb
    · unfold numberMultiplication
      rw [ha, hb]
      simp only
      rw [rationalValue_normalizedRational, rationalValue_of_type a n1 d1 ha,
        rationalValue_of_type b n2 d2 hb]
      push_cast
      rw [mul_div_mul_comm]
    · have hu : numberMultiplication a b = Undefined.Builder := by
        unfold numberMultiplication
        split
        · next _ _ n2 d2 _ h2 => exact absurd h2 (hb n2 d2)
        · rfl
      rw [hu, rationalValue_of_not_rational b hb, mul_zero]
      rfl
  · have hu : numberMultiplication a b = Undefined.Builder := by
      unfold numberMultiplication
      split
      · next n1 d1 _ _ h1 _ => exact absurd h1 (ha n1 d1)
      · rfl
    rw [hu, rationalValue_of_not_rational a ha, zero_mul]
    rfl

theorem isNumber_numberMultiplication (a b : Expr) :
    (numberMultiplication a b).isNumber = true := by
  unfold numberMultiplication
  split
  · unfold normalizedRational
    simp only
    split_ifs <;> rfl
  · rfl

theorem rationalValue_of_isRationalOne (e : Expr) (h : e.isRationalOne = true) :
    rationalValue e = 1 := by
  unfold Expr.isRationalOne at h
  unfold rationalValue
  split at h
  · next n d hn =>
    simp only [Bool.and_eq_true, decide_eq_true_eq] at h
    simp [h.1, h.2]
  · exact absurd h (by decide)

end Sample

namespace MultiplicationExplicite

theorem numeral_folding_value_and_order_witness :
    nonNumeralChildren (numeralFolding Sample.collaborators
        [Sample.symbol "x", Rational.Builder 2 3, Sample.pi, Sample.integer 1,
          Rational.Builder 9 4])
      = nonNumeralChildren
        [Sample.symbol "x", Rational.Builder 2 3, Sample.pi, Sample.integer 1,
          Rational.Builder 9 4]
    ∧ coefficientValue Sample.rationalValue (numeralFolding Sample.collaborators
        [Sample.symbol "x", Rational.Builder 2 3, Sample.pi, Sample.integer 1,
          Rational.Builder 9 4])
      = numeralProduct Sample.rationalValue
        [Sample.symbol "x", Rational.Builder 2 3, Sample.pi, Sample.integer 1,
          Rational.Builder 9 4]
    ∧ (childAt (numeralFolding Sample.collaborators
        [Sample.symbol "x", Rational.Builder 2 3, Sample.pi, Sample.integer 1,
          Rational.Builder 9 4]) 1).isNumber = false :=
  have h := numeral_folding_value_and_order ℚ Sample.collaborators Sample.rationalValue
    (fun a b _ _ => Sample.isNumber_numberMultiplication a b)
    (fun a b _ _ => Sample.rationalValue_numberMultiplication a b)
    Sample.rationalValue_of_isRationalOne
    [Sample.symbol "x", Rational.Builder 2 3, Sample.pi, Sample.integer 1,
      Rational.Builder 9 4]
  ⟨h.1, h.2.1, h.2.2 0⟩

theorem numeralFolding_sample :
    numeralFolding Sample.collaborators
        [Sample.symbol "x", Rational.Builder 2 3, Sample.pi, Sample.integer 1,
          Rational.Builder 9 4]
      = [Rational.Builder 3 2, Sample.symbol "x", Sample.pi] := by
  decide

/-! ### Missing factors -/

theorem addMissingFactors_of_not_product (env : Collaborators) (fenv : FactorCollaborators)
    (context complexFormat angleUnit : Nat) (cs : List Expr) (factor : Expr)
    (h : factor.type ≠ .MultiplicationExplicite) :
    addMissingFactors env fenv context complexFormat angleUnit cs factor
      = addMissingFactor env fenv context complexFormat angleUnit cs factor := by
  cases factor with
  | node t fs =>
    have ht : t ≠ .MultiplicationExplicite := h
    rw [addMissingFactors, if_neg ht]

theorem addMissingFactors_product (env : Collaborators) (fenv : FactorCollaborators)
    (context complexFormat angleUnit : Nat) (cs fs : List Expr) :
    addMissingFactors env fenv context complexFormat angleUnit cs (Builder fs)
      = addMissingFactorsEach env fenv context complexFormat angleUnit cs fs := by
  unfold Builder
  rw [addMissingFactors, if_pos rfl]

theorem addMissingFactorsEach_eq_foldlM (env : Collaborators) (fenv : FactorCollaborators)
    (context complexFormat angleUnit : Nat) (fs : List Expr) :
    ∀ cs, addMissingFactorsEach env fenv context complexFormat angleUnit cs fs
      = fs.foldlM
          (fun acc f => addMissingFactors env fenv context complexFormat angleUnit acc f) cs := by
  induction fs with
  | nil =>
    intro cs
    rw [addMissingFactorsEach]
    rfl
  | cons f fs ih =>
    intro cs
    rw [addMissingFactorsEach, List.foldlM_cons]
    cases hf : addMissingFactors env fenv context complexFormat angleUnit cs f with
    | none => rfl
    | some merged =>
      simp only [Option.bind_eq_bind, Option.some_bind]
      exact ih merged

theorem raiseFactor_eq_power (factor sub : Expr)
    (hpow : factor.type = .Power → factor.numberOfChildren = 2) :
    raiseFactor factor sub = Power.Builder (Base factor) sub := by
  unfold raiseFactor Base
  by_cases ht : factor.type = .Power
  · rw [if_pos ht, if_pos ht]
    have hlen := hpow ht
    cases factor with
    | node t fs =>
      match fs, hlen with
      | [b, x], _ =>
        have : t = .Power := ht
        subst this
        rfl
  · rw [if_neg ht, if_neg ht]

theorem addMissingFactor_of_found (env : Collaborators) (fenv : FactorCollaborators)
    (context complexFormat angleUnit : Nat) (cs : List Expr) (factor : Expr) (i : Nat)
    (hrat : factor.isRational = false)
    (hfound : findIdenticalBase cs factor cs.length 0 = some i) :
    addMissingFactor env fenv context complexFormat angleUnit cs factor
      = some (mergeMissingFactor env fenv
          (ReductionContext.mk context complexFormat angleUnit .User) cs i factor) := by
  unfold addMissingFactor
  rw [if_neg (by simp [hrat])]
  simp only [hrat, Bool.false_eq_true, if_false, hfound]

/-- C32. The identical-base branch of `addMissingFactors`, for a factor that is
neither a product nor a rational and whose base is first met at the child `i`.
The reducers and the sign are collaborators: on number exponents the reduced
difference has the value of the difference, its sign is negative exactly when this
value is, the reduced opposite has the opposite value and the reduced sum the
value of the sum. Then, when the exponent of the child is at least the one of the
factor, the children are unchanged; otherwise the child is merged with
`base^(exponent_factor - exponent_child)`, the exponent of the merged power has
the value `max(exponent_child, exponent_factor)`, and unless the reduced power is a
product only the child `i` is replaced, so that no child is added. -/
theorem add_missing_factors_larger_exponent (K : Type) [LinearOrderedCommRing K]
    (env : Collaborators) (fenv : FactorCollaborators) (val : Expr → K)
    (context complexFormat angleUnit : Nat) (cs : List Expr) (factor : Expr) (i : Nat)
    (hprod : factor.type ≠ .MultiplicationExplicite)
    (hrat : factor.isRational = false)
    (hpow : factor.type = .Power → factor.numberOfChildren = 2)
    (hfound : findIdenticalBase cs factor cs.length 0 = some i)
    (hsub : val (exponentGap fenv (ReductionContext.mk context complexFormat angleUnit .User)
        (childAt cs i) factor)
      = val (CreateExponent (childAt cs i)) - val (CreateExponent factor))
    (hsign : fenv.sign context
        (exponentGap fenv (ReductionContext.mk context complexFormat angleUnit .User)
          (childAt cs i) factor)
      = if val (exponentGap fenv (ReductionContext.mk context complexFormat angleUnit .User)
          (childAt cs i) factor) < 0 then Sign.Negative else Sign.Positive)
    (hopp : val (missingExponent env fenv
        (ReductionContext.mk context complexFormat angleUnit .User) (childAt cs i) factor)
      = - val (exponentGap fenv (ReductionContext.mk context complexFormat angleUnit .User)
          (childAt cs i) factor))
    (hadd : val (mergedExponent env fenv
        (ReductionContext.mk context complexFormat angleUnit .User) (childAt cs i) factor)
      = val (CreateExponent (childAt cs i))
        + val (missingExponent env fenv
            (ReductionContext.mk context complexFormat angleUnit .User) (childAt cs i) factor)) :
    (val (CreateExponent factor) ≤ val (CreateExponent (childAt cs i)) →
      addMissingFactors env fenv context complexFormat angleUnit cs factor = some cs)
    ∧ (val (CreateExponent (childAt cs i)) < val (CreateExponent factor) →
      addMissingFactors env fenv context complexFormat angleUnit cs factor
          = some (mergeInChildByFactorizingBase env
              (ReductionContext.mk context complexFormat angleUnit .User) cs i
              (Power.Builder (Base factor)
                (missingExponent env fenv
                  (ReductionContext.mk context complexFormat angleUnit .User)
                  (childAt cs i) factor)))
      ∧ val (missingExponent env fenv
            (ReductionContext.mk context complexFormat angleUnit .User) (childAt cs i) factor)
          = val (CreateExponent factor) - val (CreateExponent (childAt cs i))
      ∧ val (mergedExponent env fenv
            (ReductionContext.mk context complexFormat angleUnit .User) (childAt cs i) factor)
          = max (val (CreateExponent (childAt cs i))) (val (CreateExponent factor))
      ∧ ((env.shallowReduce (ReductionContext.mk context complexFormat angleUnit .User)
            (Power.Builder (Base (childAt cs i))
              (mergedExponent env fenv
                (ReductionContext.mk context complexFormat angleUnit .User)
                (childAt cs i) factor))).type ≠ .MultiplicationExplicite →
          mergeInChildByFactorizingBase env
              (ReductionContext.mk context complexFormat angleUnit .User) cs i
              (Power.Builder (Base factor)
                (missingExponent env fenv
                  (ReductionContext.mk context complexFormat angleUnit .User)
                  (childAt cs i) factor))
            = replaceChildAtIndex cs i
                (env.shallowReduce (ReductionContext.mk context complexFormat angleUnit .User)
                  (Power.Builder (Base (childAt cs i))
                    (mergedExponent env fenv
                      (ReductionContext.mk context complexFormat angleUnit .User)
                      (childAt cs i) factor))))) := by
  have hstep := addMissingFactor_of_found env fenv context complexFormat angleUnit cs factor i
    hrat hfound
  rw [addMissingFactors_of_not_product env fenv context complexFormat angleUnit cs factor hprod,
    hstep]
  have hbody : mergeMissingFactor env fenv
      (ReductionContext.mk context complexFormat angleUnit .User) cs i factor
      = if fenv.sign context
            (exponentGap fenv (ReductionContext.mk context complexFormat angleUnit .User)
              (childAt cs i) factor) = .Negative then
          mergeInChildByFactorizingBase env
            (ReductionContext.mk context complexFormat angleUnit .User) cs i
            (raiseFactor factor (missingExponent env fenv
              (ReductionContext.mk context complexFormat angleUnit .User) (childAt cs i) factor))
        else if fenv.sign context
            (exponentGap fenv (ReductionContext.mk context complexFormat angleUnit .User)
              (childAt cs i) factor) = .Unknown then
          mergeInChildByFactorizingBase env
            (ReductionContext.mk context complexFormat angleUnit .User) cs i factor
        else cs := rfl
  rw [hbody, hsign, hsub]
  constructor
  · intro hle
    have hnot : ¬ val (CreateExponent (childAt cs i)) - val (CreateExponent factor) < 0 := by
      rw [sub_neg]
      exact not_lt.mpr hle
    simp only [if_neg hnot, reduceCtorEq, if_false]
  · intro hlt
    have hneg : val (CreateExponent (childAt cs i)) - val (CreateExponent factor) < 0 :=
      sub_neg.mpr hlt
    have hmissing : val (missingExponent env fenv
          (ReductionContext.mk context complexFormat angleUnit .User) (childAt cs i) factor)
        = val (CreateExponent factor) - val (CreateExponent (childAt cs i)) := by
      rw [hopp, hsub]
      ring
    refine ⟨?_, hmissing, ?_, ?_⟩
    · simp only [if_pos hneg, if_true]
      rw [raiseFactor_eq_power factor _ hpow]
    · rw [hadd, hmissing, max_eq_right (le_of_lt hlt)]
      ring
    · intro hnp
      unfold mergeInChildByFactorizingBase
      have hexp : CreateExponent (Power.Builder (Base factor)
          (missingExponent env fenv
            (ReductionContext.mk context complexFormat angleUnit .User) (childAt cs i) factor))
          = missingExponent env fenv
            (ReductionContext.mk context complexFormat angleUnit .User) (childAt cs i) factor :=
        rfl
      simp only [hexp]
      exact if_neg hnp

theorem add_missing_factors_larger_exponent_witness :
    addMissingFactors Sample.factorEnvironment (Sample.factorCollaborators 100) 0 0 0
        [Sample.integer 4, Power.Builder (Sample.symbol "x") (Sample.integer 5)]
        (Power.Builder (Sample.symbol "x") (Sample.integer 2))
      = some [Sample.integer 4, Power.Builder (Sample.symbol "x") (Sample.integer 5)]
    ∧ Sample.integerValue (mergedExponent Sample.factorEnvironment
        (Sample.factorCollaborators 100) (ReductionContext.mk 0 0 0 .User)
        (childAt [Sample.integer 4, Power.Builder (Sample.symbol "x") (Sample.integer 2)] 1)
        (Power.Builder (Sample.symbol "x") (Sample.integer 5)))
      = max
        (Sample.integerValue (CreateExponent
          (childAt [Sample.integer 4, Power.Builder (Sample.symbol "x") (Sample.integer 2)] 1)))
        (Sample.integerValue (CreateExponent
          (Power.Builder (Sample.symbol "x") (Sample.integer 5)))) :=
  ⟨(add_missing_factors_larger_exponent Int Sample.factorEnvironment
      (Sample.factorCollaborators 100) Sample.integerValue 0 0 0
      [Sample.integer 4, Power.Builder (Sample.symbol "x") (Sample.integer 5)]
      (Power.Builder (Sample.symbol "x") (Sample.integer 2)) 1
      (by decide) (by decide) (by decide) (by decide) (by decide) (by decide) (by decide)
      (by decide)).1 (by decide),
   ((add_missing_factors_larger_exponent Int Sample.factorEnvironment
      (Sample.factorCollaborators 100) Sample.integerValue 0 0 0
      [Sample.integer 4, Power.Builder (Sample.symbol "x") (Sample.integer 2)]
      (Power.Builder (Sample.symbol "x") (Sample.integer 5)) 1
      (by decide) (by decide) (by decide) (by decide) (by decide) (by decide) (by decide)
      (by decide)).2 (by decide)).2.2.1⟩

/-- The merge of the sample: `x^2` in the product and the factor `x^5` leave `x^5`. -/
theorem addMissingFactors_sample :
    addMissingFactors Sample.factorEnvironment (Sample.factorCollaborators 100) 0 0 0
        [Sample.integer 4, Power.Builder (Sample.symbol "x") (Sample.integer 2)]
        (Power.Builder (Sample.symbol "x") (Sample.integer 5))
      = some [Sample.integer 4, Power.Builder (Sample.symbol "x") (Sample.integer 5)] := by
  decide

/-! ### Missing factors: integers and products -/

/-- The rational branch of `addMissingFactors` on an integer first child and an
integer factor. -/
theorem addMissingFactors_integers (env : Collaborators) (fenv : FactorCollaborators)
    (context complexFormat angleUnit : Nat) (c f : Int) (rest : List Expr) :
    addMissingFactors env fenv context complexFormat angleUnit
        (Rational.Builder c 1 :: rest) (Rational.Builder f 1)
      = match fenv.LCM f.natAbs c.natAbs with
        | none =>
          some (Rational.Builder c 1 :: Rational.Builder (f.natAbs : Int) 1 :: rest)
        | some lcm => some (Rational.Builder (lcm : Int) 1 :: rest) := by
  rw [addMissingFactors_of_not_product _ _ _ _ _ _ _ (by simp [Rational.Builder, type_node])]
  unfold addMissingFactor
  have hc : childAt (Rational.Builder c 1 :: rest) 0 = Rational.Builder c 1 := rfl
  have hcr : (Rational.Builder c 1).isRational = true := rfl
  have hfr : (Rational.Builder f 1).isRational = true := rfl
  rw [if_pos ⟨by simp, by rw [hc]; exact hcr, hfr⟩]
  unfold addMissingRational
  rw [hc]
  have htf : (Rational.Builder f 1).type = .Rational f 1 := rfl
  have htc : (Rational.Builder c 1).type = .Rational c 1 := rfl
  simp only [htf, htc, ne_eq, not_true_eq_false, or_self, if_false]
  cases fenv.LCM f.natAbs c.natAbs with
  | none => simp [addChildAtIndex]
  | some l => simp [replaceChildAtIndex]

/-- C33. `addMissingFactors` on an integer first child `c` and an integer factor
`f`: when `Arithmetic::LCM(|f|, |c|)` has the value `l` without overflow, the first
child is replaced by `l` and the other children and their count are unchanged;
when it overflows, the first child is kept and `|f|` becomes the child of index 1.
A factor that is a product is handled as the addition of each of its children in
order, each to the result of the one before. -/
theorem add_missing_factors_integers :
    (∀ (env : Collaborators) (fenv : FactorCollaborators)
        (context complexFormat angleUnit : Nat) (c f : Int) (rest : List Expr) (l : Nat),
        fenv.LCM f.natAbs c.natAbs = some l →
        addMissingFactors env fenv context complexFormat angleUnit
            (Rational.Builder c 1 :: rest) (Rational.Builder f 1)
          = some (Rational.Builder (l : Int) 1 :: rest))
    ∧ (∀ (env : Collaborators) (fenv : FactorCollaborators)
        (context complexFormat angleUnit : Nat) (c f : Int) (rest : List Expr),
        fenv.LCM f.natAbs c.natAbs = none →
        addMissingFactors env fenv context complexFormat angleUnit
            (Rational.Builder c 1 :: rest) (Rational.Builder f 1)
          = some (Rational.Builder c 1 :: Rational.Builder (f.natAbs : Int) 1 :: rest))
    ∧ (∀ (env : Collaborators) (fenv : FactorCollaborators)
        (context complexFormat angleUnit : Nat) (cs fs : List Expr),
        addMissingFactors env fenv context complexFormat angleUnit cs (Builder fs)
          = fs.foldlM
              (fun acc f => addMissingFactors env fenv context complexFormat angleUnit acc f)
              cs) := by
  refine ⟨?_, ?_, ?_⟩
  · intro env fenv context complexFormat angleUnit c f rest l hl
    rw [addMissingFactors_integers, hl]
  · intro env fenv context complexFormat angleUnit c f rest hl
    rw [addMissingFactors_integers, hl]
  · intro env fenv context complexFormat angleUnit cs fs
    rw [addMissingFactors_product]
    exact addMissingFactorsEach_eq_foldlM env fenv context complexFormat angleUnit fs cs

theorem add_missing_factors_integers_witness :
    addMissingFactors Sample.factorEnvironment (Sample.factorCollaborators 100) 0 0 0
        [Sample.integer (-4), Sample.symbol "x"] (Sample.integer 6)
      = some [Sample.integer 12, Sample.symbol "x"]
    ∧ addMissingFactors Sample.factorEnvironment (Sample.factorCollaborators 100) 0 0 0
        [Sample.integer 25, Sample.symbol "x"] (Sample.integer (-7))
      = some [Sample.integer 25, Sample.integer 7, Sample.symbol "x"] :=
  ⟨add_missing_factors_integers.1 Sample.factorEnvironment (Sample.factorCollaborators 100)
      0 0 0 (-4) 6 [Sample.symbol "x"] 12 (by decide),
   add_missing_factors_integers.2.1 Sample.factorEnvironment (Sample.factorCollaborators 100)
      0 0 0 25 (-7) [Sample.symbol "x"] (by decide)⟩

/-- A product factor on the sample: the integer is merged by the least common
multiple, the power by the larger exponent. -/
theorem addMissingFactors_product_sample :
    addMissingFactors Sample.factorEnvironment (Sample.factorCollaborators 100) 0 0 0
        [Sample.integer 4, Power.Builder (Sample.symbol "x") (Sample.integer 2)]
        (Builder [Sample.integer 6, Power.Builder (Sample.symbol "x") (Sample.integer 5)])
      = some [Sample.integer 12, Power.Builder (Sample.symbol "x") (Sample.integer 5)] := by
  decide

/-! ### Non-numeral factors -/

theorem sameFactorsLoop_iff (e1 e2 : Expr) (f1 f2 : Nat) (n : Nat) :
    ∀ i, sameFactorsLoop e1 e2 f1 f2 n i = true ↔
      ∀ j, j < n → e1.childAtIndex (f1 + (i + j)) = e2.childAtIndex (f2 + (i + j))
        ∧ (e1.childAtIndex (f1 + (i + j))).isRandom = false := by
  induction n with
  | zero =>
    intro i
    simp [sameFactorsLoop]
  | succ n ih =>
    intro i
    unfold sameFactorsLoop
    constructor
    · intro h j hj
      by_cases hc : ((e1.childAtIndex (f1 + i)).isRandom
          || !((e1.childAtIndex (f1 + i)).isIdenticalTo (e2.childAtIndex (f2 + i)))) = true
      · simp [hc] at h
      · simp only [hc] at h
        have hrest := (ih (i + 1)).mp (by simpa using h)
        simp only [Bool.or_eq_true, Bool.not_eq_true', not_or, Bool.not_eq_true,
          Bool.not_eq_false, Expr.isIdenticalTo, decide_eq_true_eq, decide_eq_false_iff_not,
          not_not] at hc
        cases j with
        | zero => exact ⟨hc.2, hc.1⟩
        | succ j =>
          have := hrest j (by omega)
          have hidx : i + (j + 1) = i + 1 + j := by omega
          rw [hidx]
          exact this
    · intro h
      have h0 := h 0 (by omega)
      simp only [Nat.add_zero] at h0
      have hc : ((e1.childAtIndex (f1 + i)).isRandom
          || !((e1.childAtIndex (f1 + i)).isIdenticalTo (e2.childAtIndex (f2 + i)))) = false := by
        simp [Expr.isIdenticalTo, h0.1, h0.2]
        rw [← h0.1]; exact h0.2
      simp only [hc]
      have := (ih (i + 1)).mpr (fun j hj => by
        have := h (j + 1) (by omega)
        have hidx : i + (j + 1) = i + 1 + j := by omega
        rw [hidx] at this
        exact this)
      simpa using this

theorem length_nonNumeralFactors (e : Expr) :
    (nonNumeralFactors e).length
      = if (e.childAtIndex 0).isNumber then e.numberOfChildren - 1 else e.numberOfChildren := by
  unfold nonNumeralFactors Expr.numberOfChildren
  split_ifs <;> simp

theorem childAt_nonNumeralFactors (e : Expr) (j : Nat) :
    childAt (nonNumeralFactors e) j
      = e.childAtIndex ((if (e.childAtIndex 0).isNumber then 1 else 0) + j) := by
  unfold nonNumeralFactors
  split_ifs
  · simp [childAt, Expr.childAtIndex, List.getD_eq_getElem?_getD, Nat.add_comm]
  · simp [childAt, Expr.childAtIndex]

/-- The value of `HaveSameNonNumeralFactors` in terms of the children that remain
after a leading number. -/
theorem HaveSameNonNumeralFactors_spec (e1 e2 : Expr)
    (h1 : 0 < e1.numberOfChildren) (h2 : 0 < e2.numberOfChildren) :
    ∃ b, HaveSameNonNumeralFactors e1 e2 = some b
      ∧ (b = true ↔
          (nonNumeralFactors e1).length = (nonNumeralFactors e2).length
          ∧ ∀ i, i < (nonNumeralFactors e1).length →
              childAt (nonNumeralFactors e1) i = childAt (nonNumeralFactors e2) i
              ∧ (childAt (nonNumeralFactors e1) i).isRandom = false) := by
  unfold HaveSameNonNumeralFactors
  rw [if_neg (by omega)]
  simp only [← length_nonNumeralFactors e1, ← length_nonNumeralFactors e2]
  by_cases hlen : (nonNumeralFactors e1).length = (nonNumeralFactors e2).length
  · refine ⟨_, by rw [if_neg (not_not.mpr hlen)], ?_⟩
    rw [sameFactorsLoop_iff]
    simp only [Nat.zero_add, childAt_nonNumeralFactors]
    exact ⟨fun h => ⟨hlen, h⟩, fun h => h.2⟩
  · refine ⟨false, by rw [if_pos hlen], ?_⟩
    constructor
    · intro h
      exact absurd h (by decide)
    · intro h
      exact absurd h.1 hlen

theorem eq_of_length_of_childAt (r1 r2 : List Expr) (hlen : r1.length = r2.length)
    (h : ∀ i, i < r1.length → childAt r1 i = childAt r2 i) : r1 = r2 := by
  apply List.ext_getElem hlen
  intro i hi1 hi2
  have := h i hi1
  simpa [childAt, List.getD_eq_getElem?_getD, List.getElem?_eq_getElem hi1,
    List.getElem?_eq_getElem hi2] using this

/-- C34. For two expressions with at least one child each,
`HaveSameNonNumeralFactors` returns a value, and this value is true exactly when,
a leading number child of each being skipped, the remaining children are as many
on both sides, are identical at every position, and none of those of the first
expression is a random node. The value is therefore the same for expressions
that differ in their leading number only, and the same when the two expressions
are exchanged. -/
theorem have_same_non_numeral_factors (e1 e2 : Expr)
    (h1 : 0 < e1.numberOfChildren) (h2 : 0 < e2.numberOfChildren) :
    (HaveSameNonNumeralFactors e1 e2 = some true ∨ HaveSameNonNumeralFactors e1 e2 = some false)
    ∧ (HaveSameNonNumeralFactors e1 e2 = some true ↔
        (nonNumeralFactors e1).length = (nonNumeralFactors e2).length
        ∧ ∀ i, i < (nonNumeralFactors e1).length →
            childAt (nonNumeralFactors e1) i = childAt (nonNumeralFactors e2) i
            ∧ (childAt (nonNumeralFactors e1) i).isRandom = false)
    ∧ (∀ d1 d2 : Expr, 0 < d1.numberOfChildren → 0 < d2.numberOfChildren →
        nonNumeralFactors d1 = nonNumeralFactors e1 →
        nonNumeralFactors d2 = nonNumeralFactors e2 →
        HaveSameNonNumeralFactors d1 d2 = HaveSameNonNumeralFactors e1 e2)
    ∧ HaveSameNonNumeralFactors e2 e1 = HaveSameNonNumeralFactors e1 e2 := by
  obtain ⟨b, hb, hspec⟩ := HaveSameNonNumeralFactors_spec e1 e2 h1 h2
  refine ⟨?_, ?_, ?_, ?_⟩
  · rw [hb]
    cases b <;> simp
  · rw [hb]
    simpa using hspec
  · intro d1 d2 hd1 hd2 hn1 hn2
    obtain ⟨b', hb', hspec'⟩ := HaveSameNonNumeralFactors_spec d1 d2 hd1 hd2
    rw [hb, hb']
    rw [hn1, hn2] at hspec'
    congr 1
    exact Bool.eq_iff_iff.mpr (hspec'.trans hspec.symm)
  · obtain ⟨b', hb', hspec'⟩ := HaveSameNonNumeralFactors_spec e2 e1 h2 h1
    rw [hb, hb']
    congr 1
    apply Bool.eq_iff_iff.mpr
    rw [hspec, hspec']
    constructor
    · intro h
      have heq : nonNumeralFactors e2 = nonNumeralFactors e1 :=
        eq_of_length_of_childAt _ _ h.1 (fun i hi => (h.2 i hi).1)
      rw [heq] at h ⊢
      exact h
    · intro h
      have heq : nonNumeralFactors e1 = nonNumeralFactors e2 :=
        eq_of_length_of_childAt _ _ h.1 (fun i hi => (h.2 i hi).1)
      rw [heq] at h ⊢
      exact h

theorem have_same_non_numeral_factors_witness :
    HaveSameNonNumeralFactors
        (Builder [Sample.integer 2, Sample.symbol "x", Sample.pi])
        (Builder [Sample.symbol "x", Sample.pi])
      = HaveSameNonNumeralFactors
        (Builder [Sample.integer 3, Sample.symbol "x", Sample.pi])
        (Builder [Sample.integer 5, Sample.symbol "x", Sample.pi])
    ∧ HaveSameNonNumeralFactors
        (Builder [Sample.integer 3, Sample.symbol "x", Sample.pi])
        (Builder [Sample.integer 5, Sample.symbol "x", Sample.pi]) = some true :=
  ⟨(have_same_non_numeral_factors
      (Builder [Sample.integer 3, Sample.symbol "x", Sample.pi])
      (Builder [Sample.integer 5, Sample.symbol "x", Sample.pi])
      (by decide) (by decide)).2.2.1
      (Builder [Sample.integer 2, Sample.symbol "x", Sample.pi])
      (Builder [Sample.symbol "x", Sample.pi]) (by decide) (by decide) (by decide) (by decide),
   (have_same_non_numeral_factors
      (Builder [Sample.integer 3, Sample.symbol "x", Sample.pi])
      (Builder [Sample.integer 5, Sample.symbol "x", Sample.pi])
      (by decide) (by decide)).2.1.mpr
      ⟨by decide, fun i hi => by
        have hi2 : i < 2 := hi
        have hcases : i = 0 ∨ i = 1 := by omega
        rcases hcases with rfl | rfl <;> decide⟩⟩

/-! ### Termination of the merge pass -/

/-- One iteration of the loop of Step 4, whatever the collaborators: the children
are kept and the index advances by one; or the index is kept and the children `i`
and `i + 1` are merged into one reduced power, which leaves one child less unless
the reduced power is a product, opened in place; or the nested reduction of the
product of the two numeral bases has no result. -/
theorem gatherLikeTermsStep_cases (env : Collaborators) (ctx : ReductionContext)
    (reduce : Reducer) (cs : List Expr) (i : Nat) (hlt : i + 1 < cs.length) :
    gatherLikeTermsStep env ctx reduce cs i = some (cs, i + 1)
    ∨ (∃ merged, gatherLikeTermsStep env ctx reduce cs i = some (merged, i)
        ∧ (merged.length + 1 = cs.length
          ∨ ∃ e : Expr, e.type = .Power
              ∧ (env.shallowReduce ctx e).type = .MultiplicationExplicite
              ∧ merged = mergeMultiplicationChildrenInPlace
                  (replaceChildAtIndex (removeChildAtIndex cs (i + 1)) i
                    (env.shallowReduce ctx e))))
    ∨ (gatherLikeTermsStep env ctx reduce cs i = none
        ∧ (Base (childAt cs i)).isNumber = true
        ∧ (Base (childAt cs (i + 1))).isNumber = true
        ∧ reduce .Power [Base (childAt cs i), Base (childAt cs (i + 1))] = none) := by
  by_cases hkeep : keepsPairApart env (childAt cs i) (childAt cs (i + 1)) = true
  · exact Or.inl (gatherLikeTermsStep_of_keepsPairApart env ctx reduce cs i hkeep)
  · right
    have hkeep : keepsPairApart env (childAt cs i) (childAt cs (i + 1)) = false := by
      simpa using hkeep
    rw [gatherLikeTermsStep_of_not_keepsPairApart env ctx reduce cs i hkeep]
    have hlen : (removeChildAtIndex cs (i + 1)).length + 1 = cs.length :=
      length_removeChildAtIndex cs (i + 1) hlt
    by_cases hb : TermsHaveIdenticalBase (childAt cs i) (childAt cs (i + 1)) = true
    · rw [if_pos hb]
      left
      refine ⟨_, rfl, ?_⟩
      unfold factorizeBase mergeInChildByFactorizingBase
      simp only
      split_ifs with hp
      · exact Or.inr ⟨Power.Builder _ _, rfl, hp, rfl⟩
      · left
        rw [length_replaceChildAtIndex]
        exact hlen
    · rw [if_neg hb]
      unfold keepsPairApart at hkeep
      simp only [hb, Bool.false_eq_true, if_false, Bool.or_eq_false_iff,
        Bool.not_eq_false', Bool.and_eq_true, TermsHaveIdenticalExponent,
        decide_eq_true_eq] at hkeep
      obtain ⟨_, ⟨hn1, hn2⟩, ⟨hpower, _⟩, _⟩ := hkeep
      have hci : childAt (removeChildAtIndex cs (i + 1)) i = childAt cs i :=
        childAt_removeChildAtIndex_of_lt cs i (i + 1) (Nat.lt_succ_self i)
      cases hm : reduce .Power [Base (childAt cs i), Base (childAt cs (i + 1))] with
      | none =>
        right
        refine ⟨?_, hn1, hn2, rfl⟩
        unfold factorizeExponent
        simp only [hm]
        rfl
      | some m =>
        left
        unfold factorizeExponent
        simp only [hm, hci, Option.map_some']
        refine ⟨_, rfl, ?_⟩
        split_ifs with hp
        · exact Or.inr ⟨_, by rw [type_node]; exact hpower, hp, rfl⟩
        · left
          rw [length_replaceChildAtIndex]
          exact hlen

/-- One iteration of the loop of Step 4, when a reduced power is never a product
and the nested reduction of a product of two numbers has a result: either the
children are kept and the index advances by one, or the index is kept and there is
one child less. -/
theorem gatherLikeTermsStep_progress (env : Collaborators) (ctx : ReductionContext)
    (reduce : Reducer) (cs : List Expr) (i : Nat) (hlt : i + 1 < cs.length)
    (hpow : ∀ e : Expr, e.type = .Power →
      (env.shallowReduce ctx e).type ≠ .MultiplicationExplicite)
    (hnested : ∀ b1 b2 : Expr, b1.isNumber = true → b2.isNumber = true →
      (reduce .Power [b1, b2]).isSome = true) :
    gatherLikeTermsStep env ctx reduce cs i = some (cs, i + 1)
      ∨ ∃ merged, gatherLikeTermsStep env ctx reduce cs i = some (merged, i)
          ∧ merged.length + 1 = cs.length := by
  rcases gatherLikeTermsStep_cases env ctx reduce cs i hlt with
    h | ⟨merged, hstep, hlen | ⟨e, he, hp, _⟩⟩ | ⟨_, hn1, hn2, hnone⟩
  · exact Or.inl h
  · exact Or.inr ⟨merged, hstep, hlen⟩
  · exact absurd hp (hpow e he)
  · have := hnested _ _ hn1 hn2
    rw [hnone] at this
    exact absurd this (by decide)

/-- The loop of Step 4 ends, when a reduced power is never a product and the nested
reduction of a product of two numbers has a result: a bound of one more than the
number of children after the index is enough, and the loop ends with at least one
child when it started with one. -/
theorem gatherLikeTermsLoop_terminates (env : Collaborators) (ctx : ReductionContext)
    (reduce : Reducer)
    (hpow : ∀ e : Expr, e.type = .Power →
      (env.shallowReduce ctx e).type ≠ .MultiplicationExplicite)
    (hnested : ∀ b1 b2 : Expr, b1.isNumber = true → b2.isNumber = true →
      (reduce .Power [b1, b2]).isSome = true) :
    ∀ (fuel : Nat) (cs : List Expr) (i : Nat), 1 ≤ fuel → cs.length ≤ fuel + i →
      ∃ merged, gatherLikeTermsLoop env ctx reduce fuel cs i = some merged
        ∧ merged.length ≤ cs.length ∧ (1 ≤ cs.length → 1 ≤ merged.length) := by
  intro fuel
  induction fuel with
  | zero => intro cs i h; omega
  | succ fuel ih =>
    intro cs i _ hlen
    unfold gatherLikeTermsLoop
    by_cases hlt : i + 1 < cs.length
    · simp only [if_pos hlt]
      rcases gatherLikeTermsStep_progress env ctx reduce cs i hlt hpow hnested with
        hstep | ⟨merged, hstep, hmerged⟩
      · simp only [hstep]
        exact ih cs (i + 1) (by omega) (by omega)
      · simp only [hstep]
        obtain ⟨final, hfinal, hle, hpos⟩ := ih merged i (by omega) (by omega)
        exact ⟨final, hfinal, by omega, fun _ => hpos (by omega)⟩
    · simp only [if_neg hlt]
      exact ⟨cs, rfl, Nat.le_refl _, fun h => h⟩


theorem keepsPairApart_of_numbers (env : Collaborators) (b1 b2 : Expr)
    (h1 : b1.isNumber = true) (h2 : b2.isNumber = true) :
    keepsPairApart env b1 b2 = true := by
  have hp1 : b1.type ≠ .Power := by
    intro h
    simp [Expr.isNumber, h] at h1
  have hp2 : b2.type ≠ .Power := by
    intro h
    simp [Expr.isNumber, h] at h2
  unfold keepsPairApart TermHasNumeralBase TermsHaveIdenticalExponent Base
  simp [hp1, hp2, h1]

theorem type_of_isNumber (b : Expr) (h : b.isNumber = true) :
    b.type ≠ .MultiplicationExplicite ∧ b.type ≠ .Sine ∧ b.type ≠ .Addition
      ∧ b.type ≠ .Power ∧ b.isMatrix = false := by
  unfold Expr.isNumber at h
  unfold Expr.isMatrix
  cases ht : b.type <;> simp_all

/-- Steps 8 to 10 on a single child that is a number: the child is returned. -/
theorem expandSquashAndBubble_single_number (env : Collaborators) (ctx : ReductionContext)
    (reduce : Reducer) (parentType : ExprType) (shouldExpand : Bool) (c : Expr)
    (hc : c.isNumber = true) :
    expandSquashAndBubble env ctx reduce parentType shouldExpand [c] = some c := by
  have hadd : c.type ≠ .Addition := (type_of_isNumber c hc).2.2.1
  unfold expandSquashAndBubble
  have hfind : [c].findIdx? (fun e => decide (e.type = .Addition)) = none := by
    simp [List.findIdx?_cons, hadd]
  simp only [hfind, ite_self, List.length_singleton, if_true, squashUnaryHierarchyInPlace]
  rfl

/-- The nested reduction of the product of two numbers has a result for the
collaborators that keep the order of the children: the loop of Step 4 keeps the
two numbers apart and the numeral folding leaves one number. -/
theorem nestedReducer_two_numbers (ctx : ReductionContext) (b1 b2 : Expr)
    (h1 : b1.isNumber = true) (h2 : b2.isNumber = true) :
    (nestedReducer Sample.inertCollaborators ctx 2 .Power [b1, b2]).isSome = true := by
  obtain ⟨hprod1, hsine1, _, _, _⟩ := type_of_isNumber b1 h1
  obtain ⟨hprod2, hsine2, _, _, hmat2⟩ := type_of_isNumber b2 h2
  have hflat : mergeMultiplicationChildrenInPlace [b1, b2] = [b1, b2] := by
    apply mergeMultiplicationChildrenInPlace_eq_self
    intro c hc
    simp only [List.mem_cons, List.mem_singleton, List.not_mem_nil, or_false] at hc
    rcases hc with rfl | rfl
    · exact hprod1
    · exact hprod2
  have hsort : Sample.inertCollaborators.sortChildren [b1, b2] = [b1, b2] := rfl
  have hloop : gatherLikeTermsLoop Sample.inertCollaborators ctx
      (nestedReducer Sample.inertCollaborators ctx 1) 2 [b1, b2] 0 = some [b1, b2] := by
    apply gatherLikeTermsLoop_of_keepsPairApart _ _ _ _ _ 2 0 (by omega) (by simp)
    intro k hk
    have hk0 : k = 0 := by
      simp only [List.length_cons, List.length_nil] at hk
      omega
    subst hk0
    exact keepsPairApart_of_numbers _ b1 b2 h1 h2
  have hb1 : (Base b1).type ≠ .Sine := by
    unfold Base
    split_ifs
    · exact absurd ‹b1.type = .Power› (type_of_isNumber b1 h1).2.2.2.1
    · exact hsine1
  have hb2 : (Base b2).type ≠ .Sine := by
    unfold Base
    split_ifs
    · exact absurd ‹b2.type = .Power› (type_of_isNumber b2 h2).2.2.2.1
    · exact hsine2
  have htrig : factorizeSineAndCosineStep Sample.inertCollaborators ctx [b1, b2] = [b1, b2] := by
    unfold factorizeSineAndCosineStep
    have hinner : factorizeSineAndCosineLoop Sample.inertCollaborators ctx 2 [b1, b2] 0
        = [b1, b2] := by
      have c0 : childAt [b1, b2] 0 = b1 := rfl
      have c1 : childAt [b1, b2] 1 = b2 := rfl
      simp [factorizeSineAndCosineLoop, c0, c1, hb1, hb2]
    split_ifs
    · simp only [List.length_cons, List.length_nil, hinner]
      rfl
    · rfl
  have hfold : ∃ c, numeralFolding Sample.inertCollaborators [b1, b2] = [c]
      ∧ c.isNumber = true := by
    have c0 : childAt [b1, b2] 0 = b1 := rfl
    have c1 : childAt [b1, b2] 1 = b2 := rfl
    by_cases hone : b2.isRationalOne = true
    · refine ⟨b1, ?_, h1⟩
      simp [numeralFolding, numeralFoldingLoop, c1, hone, removeChildAtIndex]
    · refine ⟨Sample.numberMultiplication b1 b2, ?_, ?_⟩
      · simp [numeralFolding, numeralFoldingLoop, c0, c1, hone, h1, h2, removeChildAtIndex,
          replaceChildAtIndex, Sample.inertCollaborators]
      · unfold Sample.numberMultiplication
        split
        · unfold Sample.normalizedRational
          simp only
          split_ifs <;> rfl
        · rfl
  obtain ⟨c, hc6, hcnum⟩ := hfold
  unfold nestedReducer
  rw [privateShallowReduce_succ]
  unfold privateShallowReduceBody
  by_cases hu : (defaultShallowReduce (Builder [b1, b2])).isUndefined = true
  · simp [hu]
  · have hlast : (childAt [b1, b2] ([b1, b2].length - 1)).isMatrix = false := hmat2
    simp only [hu, Bool.false_eq_true, if_false, hflat, hsort, hlast, childrenAfterFolding]
    have hloop2 : gatherLikeTermsLoop Sample.inertCollaborators ctx
        (nestedReducer Sample.inertCollaborators ctx 1) (1 + 1) [b1, b2] 0
          = some [b1, b2] := hloop
    simp only [hloop2, htrig, hc6]
    unfold collapseAndExpand
    split_ifs
    · rfl
    · have hrem : removeLeadingOne [c] = [c] := by
        simp [removeLeadingOne]
      rw [hrem, expandSquashAndBubble_single_number _ _ _ _ _ c hcnum]
      rfl

/-- The loop of Step 4 ends within as many tests of its condition as there are
children after the index, plus one, when each of its iterations advances the index
or leaves one child less; it ends with at least one child when it started with
one. -/
theorem gatherLikeTermsLoop_of_mergesDropOneChild (env : Collaborators)
    (ctx : ReductionContext) (reduce : Reducer) :
    ∀ (fuel : Nat) (cs : List Expr) (i : Nat), 1 ≤ fuel → cs.length ≤ fuel + i →
      mergesDropOneChild env ctx reduce fuel cs i = true →
      ∃ merged, gatherLikeTermsLoop env ctx reduce fuel cs i = some merged
        ∧ merged.length ≤ cs.length ∧ (1 ≤ cs.length → 1 ≤ merged.length) := by
  intro fuel
  induction fuel with
  | zero => intro cs i h; omega
  | succ fuel ih =>
    intro cs i _ hlen hrun
    unfold gatherLikeTermsLoop
    unfold mergesDropOneChild at hrun
    by_cases hlt : i + 1 < cs.length
    · simp only [if_pos hlt] at hrun ⊢
      rcases gatherLikeTermsStep_cases env ctx reduce cs i hlt with
        hstep | ⟨merged, hstep, _⟩ | ⟨hstep, _⟩
      · simp only [hstep] at hrun ⊢
        simp only [Bool.and_eq_true] at hrun
        exact ih cs (i + 1) (by omega) (by omega) hrun.2
      · simp only [hstep] at hrun ⊢
        simp only [Bool.and_eq_true, Bool.or_eq_true, decide_eq_true_eq] at hrun
        have hdrop : merged.length + 1 = cs.length := by
          rcases hrun.1 with h | h
          · omega
          · exact h
        obtain ⟨final, hfinal, hle, hpos⟩ := ih merged i (by omega) (by omega) hrun.2
        exact ⟨final, hfinal, by omega, fun _ => hpos (by omega)⟩
      · simp only [hstep] at hrun
        exact absurd hrun (by decide)
    · simp only [if_neg hlt]
      exact ⟨cs, rfl, Nat.le_refl _, fun h => h⟩

/-- When a reduced power is never a product and the nested reduction of a product
of two numbers has a result, every iteration advances the index or leaves one
child less. -/
theorem mergesDropOneChild_of_contract (env : Collaborators) (ctx : ReductionContext)
    (reduce : Reducer)
    (hpow : ∀ e : Expr, e.type = .Power →
      (env.shallowReduce ctx e).type ≠ .MultiplicationExplicite)
    (hnested : ∀ b1 b2 : Expr, b1.isNumber = true → b2.isNumber = true →
      (reduce .Power [b1, b2]).isSome = true) :
    ∀ (fuel : Nat) (cs : List Expr) (i : Nat),
      mergesDropOneChild env ctx reduce fuel cs i = true := by
  intro fuel
  induction fuel with
  | zero => intro cs i; rfl
  | succ fuel ih =>
    intro cs i
    unfold mergesDropOneChild
    by_cases hlt : i + 1 < cs.length
    · simp only [if_pos hlt]
      rcases gatherLikeTermsStep_progress env ctx reduce cs i hlt hpow hnested with
        hstep | ⟨merged, hstep, hmerged⟩
      · simp [hstep, ih]
      · simp [hstep, ih, hmerged]
    · simp only [if_neg hlt]

/-- C27, the claim as written fails on `(a*b)^(1/2) * (a*b)^(1/2)`: the iteration
of the loop at index 0 merges the two children by base into `(a*b)^1`, whose
reduction is the product `a*b`, and opens this product in place; it keeps the
index and leaves two children, as many as before. The loop then needs a second
iteration for its two children: a bound of two tests is not enough, a bound of
three is. -/
theorem merge_pass_termination_counterexample :
    gatherLikeTermsStep Sample.collaborators Sample.systemContext
        (nestedReducer Sample.collaborators Sample.systemContext 1)
        [Power.Builder (Builder [Sample.symbol "a", Sample.symbol "b"]) (Rational.Builder 1 2),
          Power.Builder (Builder [Sample.symbol "a", Sample.symbol "b"]) (Rational.Builder 1 2)]
        0
      = some ([Sample.symbol "a", Sample.symbol "b"], 0)
    ∧ [Sample.symbol "a", Sample.symbol "b"].length
      = [Power.Builder (Builder [Sample.symbol "a", Sample.symbol "b"]) (Rational.Builder 1 2),
          Power.Builder (Builder [Sample.symbol "a", Sample.symbol "b"])
            (Rational.Builder 1 2)].length
    ∧ gatherLikeTermsLoop Sample.collaborators Sample.systemContext
        (nestedReducer Sample.collaborators Sample.systemContext 1) 2
        [Power.Builder (Builder [Sample.symbol "a", Sample.symbol "b"]) (Rational.Builder 1 2),
          Power.Builder (Builder [Sample.symbol "a", Sample.symbol "b"]) (Rational.Builder 1 2)]
        0 = none
    ∧ gatherLikeTermsLoop Sample.collaborators Sample.systemContext
        (nestedReducer Sample.collaborators Sample.systemContext 1) 3
        [Power.Builder (Builder [Sample.symbol "a", Sample.symbol "b"]) (Rational.Builder 1 2),
          Power.Builder (Builder [Sample.symbol "a", Sample.symbol "b"]) (Rational.Builder 1 2)]
        0 = some [Sample.symbol "a", Sample.symbol "b"] := by
  decide

/-- C27, amended. Termination of the merge pass. Whatever the collaborators, an
iteration of the loop of Step 4 does one of three things: it keeps the children and
advances the index by one; or it keeps the index and merges the children `i` and
`i + 1` into one reduced power, which leaves one child less unless the reduced
power is a product, whose factors are opened in place; or it has no result because
the nested reduction of the product of the two numeral bases has none. So in a run
where no merged power reduces to a product and the nested reductions have a
result, that is where every iteration advances the index or leaves one child less,
the loop on a product of `n` children, `n` at least one, ends within `n` tests of
its condition, that is after at most `n - 1` iterations, with at least one child
and at most `n`. -/
theorem merge_pass_termination :
    (∀ (env : Collaborators) (ctx : ReductionContext) (reduce : Reducer) (cs : List Expr)
        (i : Nat), i + 1 < cs.length →
        gatherLikeTermsStep env ctx reduce cs i = some (cs, i + 1)
        ∨ (∃ merged, gatherLikeTermsStep env ctx reduce cs i = some (merged, i)
            ∧ (merged.length + 1 = cs.length
              ∨ ∃ e : Expr, e.type = .Power
                  ∧ (env.shallowReduce ctx e).type = .MultiplicationExplicite
                  ∧ merged = mergeMultiplicationChildrenInPlace
                      (replaceChildAtIndex (removeChildAtIndex cs (i + 1)) i
                        (env.shallowReduce ctx e))))
        ∨ (gatherLikeTermsStep env ctx reduce cs i = none
            ∧ (Base (childAt cs i)).isNumber = true
            ∧ (Base (childAt cs (i + 1))).isNumber = true
            ∧ reduce .Power [Base (childAt cs i), Base (childAt cs (i + 1))] = none))
    ∧ (∀ (env : Collaborators) (ctx : ReductionContext) (reduce : Reducer) (cs : List Expr)
        (fuel : Nat),
        1 ≤ cs.length → cs.length ≤ fuel →
        mergesDropOneChild env ctx reduce fuel cs 0 = true →
        ∃ merged, gatherLikeTermsLoop env ctx reduce fuel cs 0 = some merged
          ∧ 1 ≤ merged.length ∧ merged.length ≤ cs.length) := by
  refine ⟨?_, ?_⟩
  · intro env ctx reduce cs i hlt
    exact gatherLikeTermsStep_cases env ctx reduce cs i hlt
  · intro env ctx reduce cs fuel hpos hfuel hrun
    obtain ⟨merged, hmerged, hle, hone⟩ :=
      gatherLikeTermsLoop_of_mergesDropOneChild env ctx reduce fuel cs 0 (by omega) (by omega)
        hrun
    exact ⟨merged, hmerged, hone hpos, hle⟩

theorem merge_pass_termination_witness :
    ∃ merged, gatherLikeTermsLoop Sample.collaborators Sample.systemContext
        (nestedReducer Sample.collaborators Sample.systemContext 2) 3
        [Power.Builder (Sample.integer 2) (Sample.symbol "x"),
          Power.Builder (Sample.integer 3) (Sample.symbol "x"), Sample.symbol "y"] 0
        = some merged
      ∧ 1 ≤ merged.length
      ∧ merged.length ≤ [Power.Builder (Sample.integer 2) (Sample.symbol "x"),
          Power.Builder (Sample.integer 3) (Sample.symbol "x"), Sample.symbol "y"].length :=
  merge_pass_termination.2 Sample.collaborators Sample.systemContext
    (nestedReducer Sample.collaborators Sample.systemContext 2)
    [Power.Builder (Sample.integer 2) (Sample.symbol "x"),
      Power.Builder (Sample.integer 3) (Sample.symbol "x"), Sample.symbol "y"] 3
    (by decide) (by decide) (by decide)

/-- The merge pass of the witness: the two powers of the exponent `x` are merged
into `6^x` in one iteration, through the nested reduction of `2 * 3`. -/
theorem gatherLikeTermsLoop_sample :
    gatherLikeTermsLoop Sample.collaborators Sample.systemContext
        (nestedReducer Sample.collaborators Sample.systemContext 2) 3
        [Power.Builder (Sample.integer 2) (Sample.symbol "x"),
          Power.Builder (Sample.integer 3) (Sample.symbol "x"), Sample.symbol "y"] 0
      = some [Power.Builder (Sample.integer 6) (Sample.symbol "x"), Sample.symbol "y"] := by
  decide

/-- The bound under a contract on the collaborators: when a reduced power is never
a product and the nested reduction of a product of two numbers has a result, as
for the collaborators that leave every node as it is, the loop ends within `n`
tests. -/
theorem gatherLikeTermsLoop_inert_sample :
    ∃ merged, gatherLikeTermsLoop Sample.inertCollaborators Sample.systemContext
        (nestedReducer Sample.inertCollaborators Sample.systemContext 2) 3
        [Power.Builder Sample.pi (Sample.integer 2), Power.Builder Sample.pi (Sample.integer 3),
          Sample.symbol "y"] 0 = some merged
      ∧ merged.length ≤ 3 := by
  obtain ⟨merged, hmerged, hle, _⟩ :=
    gatherLikeTermsLoop_terminates Sample.inertCollaborators Sample.systemContext
      (nestedReducer Sample.inertCollaborators Sample.systemContext 2)
      (fun e h => by
        show e.type ≠ ExprType.MultiplicationExplicite
        rw [h]
        decide)
      (nestedReducer_two_numbers Sample.systemContext) 3
      [Power.Builder Sample.pi (Sample.integer 2), Power.Builder Sample.pi (Sample.integer 3),
        Sample.symbol "y"] 0 (by omega) (by simp)
  exact ⟨merged, hmerged, by simpa using hle⟩

end MultiplicationExplicite

namespace Port

/-! ### Interruptible sleep -/

/-- Inside the loop the argument of `msleep` is the smaller of 100 and of the time
that remains, and it is positive. -/
theorem sleepChunk_spec (delay timeSpent : Nat) (h : timeSpent < delay) :
    sleepChunk delay timeSpent = min 100 (delay - timeSpent)
    ∧ 0 < sleepChunk delay timeSpent := by
  unfold sleepChunk
  simp only [gt_iff_lt, decide_eq_true_eq]
  split_ifs with hlast
  · exact ⟨by omega, by omega⟩
  · exact ⟨by omega, by omega⟩

/-- A delay of zero returns false at once, without a call of `msleep`. -/
theorem msleep_zero (firstMillis : Nat) (events : List (Bool × Nat)) :
    micropython_port_interruptible_msleep 0 firstMillis events = (some false, []) := by
  unfold micropython_port_interruptible_msleep msleepLoop
  cases events <;> simp

/-- A reading greater than `start` stores the elapsed time modulo 2^32. -/
theorem timeSpentAfter_of_gt (start currentMillis : Nat) (h : start < currentMillis) :
    timeSpentAfter start currentMillis = (currentMillis - start) % 2 ^ 32 := by
  unfold timeSpentAfter
  rw [if_pos h]
  exact Nat.mod_mod_of_dvd _ (by norm_num)

/-- A reading not greater than `start` stores one less than the elapsed time
modulo 2^32. -/
theorem timeSpentAfter_of_le (start currentMillis : Nat) (hs : start < 2 ^ 32)
    (h : currentMillis ≤ start) :
    timeSpentAfter start currentMillis = 2 ^ 32 - 1 - (start - currentMillis) := by
  unfold timeSpentAfter UINT64_MAX
  rw [if_neg (by omega)]
  norm_num at hs ⊢
  omega

/-- C35. Elapsed-time bookkeeping of `micropython_port_interruptible_msleep` when
the counter reads the same value after the first sleep as at the entry: with a
delay of 1 and both readings equal to 1000, the stored `timeSpent` is 4294967295
and not the elapsed time 0, and the call returns false after the single sleep of
1 ms although no millisecond has elapsed on the counter. -/
theorem msleep_time_spent_at_equal_readings :
    timeSpentAfter 1000 1000 = 4294967295
    ∧ (1000 - 1000) % 2 ^ 32 = 0
    ∧ micropython_port_interruptible_msleep 1 1000 [(false, 1000)] = (some false, [1]) := by
  decide

end Port

end Poincare
